import Mathlib

/-!
Procedural mesh generators of `basic-objects-IFS.js`.

A shallow embedding of the generators `cube`, `ring`, `uvSphere`, `uvTorus`,
`uvCylinder`, `uvCone`, `obj_sphere` and `obj_ring`.

* Numbers are elements of an ordered field `α`; the functions of `Math` that the
  generators call are passed as a record `JSMath α`.
* Where the floating-point arithmetic of JavaScript decides what a generator stores or how
  often a loop runs, the rounding is explicit: `toFloat64` rounds a number to the nearest
  double and `toFloat32` to the nearest element of a `Float32Array`.  `cube` is translated
  with both.  The loop variables of `obj_sphere` and `obj_ring` are rounded by a parameter
  `fl`: `toFloat64` is the program, the identity is exact arithmetic.  The coordinates that
  the other generators compute with `Math.cos` and `Math.sin` are exact.
* An argument that may be `undefined` is an `Option`; `slices` and `stacks` are integers.
* A typed array is a `List` of fixed length: `List.set` drops a write past the end, as an
  assignment to a typed array does.
* `Uint16Array` stores every value modulo `65536`.
* `new Float32Array(n)` throws a `RangeError` for a negative `n`, and for an `n` above the
  largest length `maxLength` that the engine allocates.
* The global variables `c` and `s`, which `ring` assigns without declaring them, are the
  program state `Globals`; `GeneratorCall.exec` runs a generator call on that state.
-/

set_option autoImplicit false

namespace IFS

/-! ## Runtime model -/

/-- The functions and constants of `Math` used by the generators. -/
structure JSMath (α : Type) where
  /-- `Math.cos` -/
  cos : α → α
  /-- `Math.sin` -/
  sin : α → α
  /-- `Math.sqrt` -/
  sqrt : α → α
  /-- `Math.PI` -/
  PI : α

/-- Exceptions a generator can raise. -/
inductive JSError where
  /-- `RangeError: Invalid typed array length` -/
  | rangeError : JSError
  deriving DecidableEq, Repr

/-- The object every indexed generator returns. -/
structure Mesh (β : Type) where
  /-- `model.vertexPositions` -/
  vertexPositions : List β
  /-- `model.vertexNormals` -/
  vertexNormals : List β
  /-- `model.vertexTextureCoords` -/
  vertexTextureCoords : List β
  /-- `model.indices` -/
  indices : List Nat

/-- The value of `x || d` for a numeric or missing argument `x`: `undefined` and `0` are falsy. -/
def orDefault {α : Type} [Zero α] [DecidableEq α] (x : Option α) (d : α) : α :=
  match x with
  | some v => if v = 0 then d else v
  | none => d

/-- Conversion of an integer to an element of a `Uint16Array`. -/
def toUint16 (v : Int) : Nat := (v % 65536).toNat

/-- The allocation `new Float32Array(n)` or `new Uint16Array(n)`: `n` zero elements, or a
`RangeError` for a negative length and for a length that the engine does not allocate.
`maxLength` is the largest length the engine allocates; how large it is depends on the
engine and on the memory at hand, and its default `none` stands for an engine that
allocates every length. -/
def newTypedArray {β : Type} (zero : β) (n : Int) (maxLength : Option Nat := none) :
    Except JSError (List β) :=
  match maxLength with
  | some L =>
    if n < 0 ∨ (L : Int) < n then Except.error JSError.rangeError
    else Except.ok (List.replicate n.toNat zero)
  | none =>
    if n < 0 then Except.error JSError.rangeError else Except.ok (List.replicate n.toNat zero)

/-- The typed arrays of a generator together with its write cursors: `kv` is the cursor
into `vertices` and `normals` (`k` in `ring`, `indexV` in `uvSphere` and `uvTorus`, `kv` in
`uvCylinder` and `uvCone`), `kt` the cursor into `texCoords` (`t`, `indexT`, `kt`) and `ki`
the cursor into `indices` (`n` in `ring`, `k` elsewhere).

The four lists `writesV`, `writesN`, `writesT`, `writesI` are a record of the run and not
part of the JavaScript state: each holds, in the order of execution, the positions at which
the code assigned to the array, including a position past the end, where the typed array
drops the assignment. -/
structure Buffers (β : Type) where
  vertices : List β
  normals : List β
  texCoords : List β
  indices : List Nat
  kv : Nat
  kt : Nat
  ki : Nat
  writesV : List Nat
  writesN : List Nat
  writesT : List Nat
  writesI : List Nat

/-- The assignment `vertices[kv] = v`. -/
def Buffers.setV {β : Type} (b : Buffers β) (v : β) : Buffers β :=
  { b with vertices := b.vertices.set b.kv v, writesV := b.writesV ++ [b.kv] }

/-- The assignment `normals[kv++] = v`. -/
def Buffers.pushN {β : Type} (b : Buffers β) (v : β) : Buffers β :=
  { b with normals := b.normals.set b.kv v, kv := b.kv + 1, writesN := b.writesN ++ [b.kv] }

/-- The assignment `vertices[kv++] = v`. -/
def Buffers.pushV {β : Type} (b : Buffers β) (v : β) : Buffers β :=
  { b with vertices := b.vertices.set b.kv v, kv := b.kv + 1, writesV := b.writesV ++ [b.kv] }

/-- The assignment `texCoords[kt++] = v`. -/
def Buffers.pushT {β : Type} (b : Buffers β) (v : β) : Buffers β :=
  { b with texCoords := b.texCoords.set b.kt v, kt := b.kt + 1,
           writesT := b.writesT ++ [b.kt] }

/-- The assignment `indices[k++] = v`. -/
def Buffers.pushI {β : Type} (b : Buffers β) (v : Int) : Buffers β :=
  { b with indices := b.indices.set b.ki (toUint16 v), ki := b.ki + 1,
           writesI := b.writesI ++ [b.ki] }

/-- The assignment `normals[i] = v` at an explicit position. -/
def Buffers.setNAt {β : Type} (b : Buffers β) (i : Nat) (v : β) : Buffers β :=
  { b with normals := b.normals.set i v, writesN := b.writesN ++ [i] }

/-- The returned object literal. -/
def Buffers.toMesh {β : Type} (b : Buffers β) : Mesh β :=
  { vertexPositions := b.vertices
    vertexNormals := b.normals
    vertexTextureCoords := b.texCoords
    indices := b.indices }

/-- The four allocations at the head of a generator, cursors at zero, nothing written. -/
def allocate {β : Type} (zero : β) (nVertices nNormals nTexCoords nIndices : Int)
    (maxLength : Option Nat := none) : Except JSError (Buffers β) := do
  let vertices ← newTypedArray zero nVertices maxLength
  let normals ← newTypedArray zero nNormals maxLength
  let texCoords ← newTypedArray zero nTexCoords maxLength
  let indices ← newTypedArray (0 : Nat) nIndices maxLength
  pure { vertices := vertices, normals := normals, texCoords := texCoords, indices := indices,
         kv := 0, kt := 0, ki := 0, writesV := [], writesN := [], writesT := [],
         writesI := [] }

/-- The loop `for (i = 0; i < n; i++) body`. -/
def forRange {σ : Type} (n : Int) (body : Nat → σ → σ) (st : σ) : σ :=
  (List.range n.toNat).foldl (fun acc i => body i acc) st

/-! ## Rounding to doubles and to elements of a Float32Array -/

/-- Rounding of `x` to the nearest integer; a tie goes to the even integer. -/
def roundHalfEven {α : Type} [LinearOrderedField α] [FloorRing α] (x : α) : Int :=
  if Int.fract x < 1 / 2 then ⌊x⌋
  else if 1 / 2 < Int.fract x then ⌊x⌋ + 1
  else if ⌊x⌋ % 2 = 0 then ⌊x⌋ else ⌊x⌋ + 1

/-- Exponent of the last place of the binary floating-point numbers near `x`, for a format
with `p` significant bits whose smallest positive number is `2 ^ emin`: with
`2 ^ k ≤ |x| < 2 ^ (k+1)` it is `k + 1 - p`, and at least `emin`. -/
def ulpExponent {α : Type} [LinearOrderedField α] [FloorRing α] (p : Nat) (emin : Int)
    (x : α) : Int :=
  max (Int.log 2 |x| + 1 - (p : Int)) emin

/-- Rounding of `x` to the nearest number of the binary format (`p` significant bits,
smallest positive number `2 ^ emin`), ties to even, with no upper bound on the exponent. -/
def roundBinary {α : Type} [LinearOrderedField α] [FloorRing α] (p : Nat) (emin : Int)
    (x : α) : α :=
  (roundHalfEven (x / (2 : α) ^ ulpExponent p emin x) : α) * (2 : α) ^ ulpExponent p emin x

/-- Conversion of a real number to a `Number` of JavaScript, an IEEE 754 double: 53
significant bits, smallest positive number `2 ^ (-1074)`, round to nearest, ties to even.
A result beyond the largest double, which JavaScript replaces by `Infinity`, is kept as the
rounded number: the generators only compare such a value with smaller bounds. -/
def toFloat64 {α : Type} [LinearOrderedField α] [FloorRing α] (x : α) : α :=
  roundBinary 53 (-1074) x

/-- An element of a `Float32Array` that was given a finite number. -/
inductive Float32Value (α : Type) where
  /-- A finite number of the format. -/
  | finite (x : α) : Float32Value α
  /-- `Infinity` -/
  | posInfinity : Float32Value α
  /-- `-Infinity` -/
  | negInfinity : Float32Value α
  deriving DecidableEq

/-- A fresh `Float32Array` holds zeros. -/
instance Float32Value.instZero {α : Type} [Zero α] : Zero (Float32Value α) :=
  ⟨Float32Value.finite 0⟩

/-- The sign change of a `Float32Array` element. -/
def Float32Value.neg {α : Type} [Neg α] : Float32Value α → Float32Value α
  | Float32Value.finite x => Float32Value.finite (-x)
  | Float32Value.posInfinity => Float32Value.negInfinity
  | Float32Value.negInfinity => Float32Value.posInfinity

/-- Conversion of a number to an element of a `Float32Array` (`Math.fround`): 24 significant
bits, smallest positive number `2 ^ (-149)`, round to nearest, ties to even; a result of
magnitude `2 ^ 128` or more is an infinity. -/
def toFloat32 {α : Type} [LinearOrderedField α] [FloorRing α] (x : α) : Float32Value α :=
  if (2 : α) ^ (128 : Int) ≤ roundBinary 24 (-149) x then Float32Value.posInfinity
  else if roundBinary 24 (-149) x ≤ -(2 : α) ^ (128 : Int) then Float32Value.negInfinity
  else Float32Value.finite (roundBinary 24 (-149) x)

/-- The numbers of the `float32` format: the integer multiples `z * 2 ^ e` of a power of
two that is not below the last place of the format at this magnitude, below `2 ^ 128` in
magnitude. -/
def IsFloat32 {α : Type} [LinearOrderedField α] [FloorRing α] (x : α) : Prop :=
  ∃ z e : Int, x = (z : α) * (2 : α) ^ e ∧ ulpExponent 24 (-149) x ≤ e ∧
    |x| < (2 : α) ^ (128 : Int)

/-! ## cube -/

/-- The four plain arrays `coords`, `normals`, `texCoords`, `indices` that `cube` fills. -/
structure CubeArrays (α : Type) where
  coords : List α
  normals : List α
  texCoords : List α
  indices : List Int

/-- The inner function `face(xyz, nrm)` of `cube`.  `coords.length` is a multiple of 3 at
every call, so `coords.length/3` is an integer. -/
def cube.face {α : Type} [Zero α] [One α] (st : CubeArrays α) (xyz nrm : List α) :
    CubeArrays α :=
  let start : Int := ((st.coords.length / 3 : Nat) : Int)
  let coords := (List.range 12).foldl (fun c i => c ++ [xyz.getD i 0]) st.coords
  let normals := (List.range 4).foldl
    (fun n _ => n ++ [nrm.getD 0 0, nrm.getD 1 0, nrm.getD 2 0]) st.normals
  { coords := coords
    normals := normals
    texCoords := st.texCoords ++ [0, 0, 1, 0, 1, 1, 0, 1]
    indices := st.indices ++ [start, start + 1, start + 2, start, start + 2, start + 3] }

/-- The plain arrays `coords`, `normals`, `texCoords`, `indices` of `cube` after its six
calls of `face`, for the half side `s`. -/
def cube.arrays {α : Type} [Field α] (s : α) : CubeArrays α :=
  let st : CubeArrays α := { coords := [], normals := [], texCoords := [], indices := [] }
  let st := cube.face st [-s, -s, s, s, -s, s, s, s, s, -s, s, s] [0, 0, 1]
  let st := cube.face st [-s, -s, -s, -s, s, -s, s, s, -s, s, -s, -s] [0, 0, -1]
  let st := cube.face st [-s, s, -s, -s, s, s, s, s, s, s, s, -s] [0, 1, 0]
  let st := cube.face st [-s, -s, -s, s, -s, -s, s, -s, s, -s, -s, s] [0, -1, 0]
  let st := cube.face st [s, -s, -s, s, s, -s, s, s, s, s, -s, s] [1, 0, 0]
  let st := cube.face st [-s, -s, -s, -s, -s, s, -s, s, s, -s, s, -s] [-1, 0, 0]
  st

/-- The generator `cube(side)`.  The half side `(side || 1)/2` is a double; the returned
arrays are `new Float32Array(coords)`, `new Float32Array(normals)`,
`new Float32Array(texCoords)` and `new Uint16Array(indices)`. -/
def cube {α : Type} [LinearOrderedField α] [FloorRing α] (side : Option α) :
    Mesh (Float32Value α) :=
  let s := toFloat64 (orDefault side 1 / 2)
  let st := cube.arrays s
  { vertexPositions := st.coords.map toFloat32
    vertexNormals := st.normals.map toFloat32
    vertexTextureCoords := st.texCoords.map toFloat32
    indices := st.indices.map toUint16 }

/-! ## ring -/

/-- The part of the program state that a generator can reach: the global variables `c` and
`s`, which `ring` assigns and reads without declaring them (`none`: the variable holds no
number).  Every other variable of a generator is a parameter or declared with `var` in its
body. -/
structure Globals (α : Type) where
  c : Option α
  s : Option α

/-- State of a run of `ring`: the typed arrays and the two globals.  An array element is an
`Option`: `none` stands for `NaN`, the result of arithmetic on an `undefined` inner
radius. -/
structure RingState (α : Type) where
  buf : Buffers (Option α)
  globals : Globals α

/-- Body of the first loop of `ring` (disk, `innerRadius == 0`).  The assignments
`c = Math.cos(d*i)` and `s = Math.sin(d*i)` go to the globals, and every later `c` and `s`
is read from there. -/
def ring.diskStep {α : Type} [Field α] (M : JSMath α) (outerRadius : α) (slices : Int)
    (i : Nat) (st : RingState α) : RingState α :=
  let d := 2 * M.PI / (slices : α)
  let g : Globals α := { st.globals with c := some (M.cos (d * (i : α))) }
  let g : Globals α := { g with s := some (M.sin (d * (i : α))) }
  let b := st.buf
  let b := b.pushV (g.c.map (fun c => c * outerRadius))
  let b := b.pushV (g.s.map (fun s => s * outerRadius))
  let b := b.pushV (some 0)
  let b := b.pushT (g.c.map (fun c => 1 / 2 + 1 / 2 * c))
  let b := b.pushT (g.s.map (fun s => 1 / 2 + 1 / 2 * s))
  let b := b.pushI slices
  let b := b.pushI (i : Int)
  let b := b.pushI (if (i : Int) = slices - 1 then 0 else (i : Int) + 1)
  { buf := b, globals := g }

/-- Body of the vertex loop of `ring` (annulus).  As in the disk loop, `c` and `s` are
assigned to the globals and read from there. -/
def ring.annulusStep {α : Type} [Field α] (M : JSMath α) (innerRadius : Option α)
    (outerRadius : α) (slices : Int) (i : Nat) (st : RingState α) : RingState α :=
  let d := 2 * M.PI / (slices : α)
  let r := innerRadius.map (fun x => x / outerRadius)
  let g : Globals α := { st.globals with c := some (M.cos (d * (i : α))) }
  let g : Globals α := { g with s := some (M.sin (d * (i : α))) }
  let b := st.buf
  let b := b.pushV (g.c.bind (fun c => innerRadius.map (fun x => c * x)))
  let b := b.pushV (g.s.bind (fun s => innerRadius.map (fun x => s * x)))
  let b := b.pushV (some 0)
  let b := b.pushT (g.c.bind (fun c => r.map (fun x => 1 / 2 + 1 / 2 * c * x)))
  let b := b.pushT (g.s.bind (fun s => r.map (fun x => 1 / 2 + 1 / 2 * s * x)))
  let b := b.pushV (g.c.map (fun c => c * outerRadius))
  let b := b.pushV (g.s.map (fun s => s * outerRadius))
  let b := b.pushV (some 0)
  let b := b.pushT (g.c.map (fun c => 1 / 2 + 1 / 2 * c))
  let b := b.pushT (g.s.map (fun s => 1 / 2 + 1 / 2 * s))
  { buf := b, globals := g }

/-- Body of the index loop of `ring` (annulus). -/
def ring.annulusIndexStep {β : Type} (i : Nat) (b : Buffers β) : Buffers β :=
  let b := b.pushI (2 * (i : Int))
  let b := b.pushI (2 * (i : Int) + 1)
  let b := b.pushI (2 * (i : Int) + 3)
  let b := b.pushI (2 * (i : Int))
  let b := b.pushI (2 * (i : Int) + 3)
  let b := b.pushI (2 * (i : Int) + 2)
  b

/-- The six assignments after the index loop of `ring`, where `i` is the value the loop
variable is left with. -/
def ring.annulusLast {β : Type} (i : Int) (b : Buffers β) : Buffers β :=
  let b := b.pushI (2 * i)
  let b := b.pushI (2 * i + 1)
  let b := b.pushI 1
  let b := b.pushI (2 * i)
  let b := b.pushI 1
  let b := b.pushI 0
  b

/-- Body of the last loop of `ring`, which sets every normal to `(0, 0, 1)`. -/
def ring.normalStep {α : Type} [Field α] (i : Nat) (b : Buffers (Option α)) :
    Buffers (Option α) :=
  let b := b.setNAt (3 * i + 1) (some 0)
  let b := b.setNAt (3 * i) (some 0)
  let b := b.setNAt (3 * i + 2) (some 1)
  b

/-- The generator `ring(innerRadius, outerRadius, slices)`, returning its whole final state.
`argumentsLength` is `arguments.length` and `g` holds the globals `c`, `s` before the call. -/
def ring.run {α : Type} [Field α] [DecidableEq α] (M : JSMath α) (g : Globals α)
    (argumentsLength : Nat) (innerRadius outerRadius : Option α) (slices : Option Int)
    (maxLength : Option Nat := none) : Except JSError (RingState α) := do
  let innerRadius : Option α := if argumentsLength = 0 then some (1 / 4) else innerRadius
  let outerRadius : α :=
    orDefault outerRadius (orDefault (innerRadius.map (fun x => x * 2)) (1 / 2))
  let slices : Int := orDefault slices 32
  let vertexCount : Int := if innerRadius = some 0 then slices + 1 else slices * 2
  let b ← allocate (some (0 : α)) (3 * vertexCount) (3 * vertexCount) (2 * vertexCount)
    (if innerRadius = some 0 then 3 * slices else 3 * 2 * slices) maxLength
  let st : RingState α := { buf := b, globals := g }
  let st : RingState α :=
    if innerRadius = some 0 then
      let st := forRange slices (ring.diskStep M outerRadius slices) st
      let b := st.buf
      let b := b.pushV (some 0)
      let b := b.pushV (some 0)
      let b := b.pushV (some 0)
      let b := b.pushT (some 0)
      let b := b.pushT (some 0)
      { st with buf := b }
    else
      let st := forRange slices (ring.annulusStep M innerRadius outerRadius slices) st
      let b := forRange (slices - 1) ring.annulusIndexStep st.buf
      let b := ring.annulusLast (max (slices - 1) 0) b
      { st with buf := b }
  let b := forRange vertexCount ring.normalStep st.buf
  pure { st with buf := b }

/-- The mesh returned by `ring`. -/
def ring {α : Type} [Field α] [DecidableEq α] (M : JSMath α) (g : Globals α)
    (argumentsLength : Nat) (innerRadius outerRadius : Option α) (slices : Option Int)
    (maxLength : Option Nat := none) : Except JSError (Mesh (Option α)) :=
  (ring.run M g argumentsLength innerRadius outerRadius slices maxLength).map
    (fun st => st.buf.toMesh)

/-! ## uvSphere and uvTorus

The parameter `stacks` of the source is written `nstacks`, since `stacks` is a reserved word. -/

/-- Body of the index loops of `uvSphere`, `uvTorus` and `uvCone`: the two triangles of the
grid cell in row `j`, column `i`. -/
def gridIndexStep {β : Type} (slices : Int) (j i : Nat) (b : Buffers β) : Buffers β :=
  let row1 : Int := (j : Int) * (slices + 1)
  let row2 : Int := ((j : Int) + 1) * (slices + 1)
  let b := b.pushI (row1 + (i : Int))
  let b := b.pushI (row2 + (i : Int) + 1)
  let b := b.pushI (row2 + (i : Int))
  let b := b.pushI (row1 + (i : Int))
  let b := b.pushI (row1 + (i : Int) + 1)
  let b := b.pushI (row2 + (i : Int) + 1)
  b

/-- Body of the vertex loop of `uvSphere`: row `i` (latitude), column `j` (longitude). -/
def uvSphere.vertexStep {α : Type} [Field α] (M : JSMath α) (radius pos_x pos_y pos_z : α)
    (slices nstacks : Int) (i j : Nat) (b : Buffers α) : Buffers α :=
  let du := 2 * M.PI / (slices : α)
  let dv := M.PI / (nstacks : α)
  let v := -M.PI / 2 + (i : α) * dv
  let u := (j : α) * du
  let x := M.cos u * M.cos v
  let y := M.sin u * M.cos v
  let z := M.sin v
  let b := b.setV (radius * x + pos_x)
  let b := b.pushN x
  let b := b.setV (radius * y + pos_y)
  let b := b.pushN y
  let b := b.setV (radius * z + pos_z)
  let b := b.pushN z
  let b := b.pushT ((j : α) / (slices : α))
  let b := b.pushT ((i : α) / (nstacks : α))
  b

/-- The generator `uvSphere(radius, slices, stacks, pos_x, pos_y, pos_z)`, returning its
whole final state. -/
def uvSphere.run {α : Type} [Field α] [DecidableEq α] (M : JSMath α) (radius : Option α)
    (slices nstacks : Option Int) (pos_x pos_y pos_z : Option α)
    (maxLength : Option Nat := none) : Except JSError (Buffers α) := do
  let radius : α := orDefault radius (1 / 2)
  let slices : Int := orDefault slices 32
  let nstacks : Int := orDefault nstacks 16
  let pos_x : α := orDefault pos_x 0
  let pos_y : α := orDefault pos_y 0
  let pos_z : α := orDefault pos_z 0
  let vertexCount : Int := (slices + 1) * (nstacks + 1)
  let b ← allocate (0 : α) (3 * vertexCount) (3 * vertexCount) (2 * vertexCount)
    (2 * slices * nstacks * 3) maxLength
  let b := forRange (nstacks + 1) (fun i b =>
    forRange (slices + 1) (uvSphere.vertexStep M radius pos_x pos_y pos_z slices nstacks i) b) b
  let b := forRange nstacks (fun j b => forRange slices (gridIndexStep slices j) b) b
  pure b

/-- The mesh returned by `uvSphere`. -/
def uvSphere {α : Type} [Field α] [DecidableEq α] (M : JSMath α) (radius : Option α)
    (slices nstacks : Option Int) (pos_x pos_y pos_z : Option α)
    (maxLength : Option Nat := none) : Except JSError (Mesh α) :=
  (uvSphere.run M radius slices nstacks pos_x pos_y pos_z maxLength).map Buffers.toMesh

/-- Body of the vertex loop of `uvTorus`: row `j` (around the tube), column `i`. -/
def uvTorus.vertexStep {α : Type} [Field α] (M : JSMath α) (outerRadius innerRadius : α)
    (slices nstacks : Int) (j i : Nat) (b : Buffers α) : Buffers α :=
  let du := 2 * M.PI / (slices : α)
  let dv := 2 * M.PI / (nstacks : α)
  let centerRadius := (innerRadius + outerRadius) / 2
  let tubeRadius := outerRadius - centerRadius
  let v := -M.PI + (j : α) * dv
  let cos := M.cos v
  let sin := M.sin v
  let u := (i : α) * du
  let cx := M.cos u
  let cy := M.sin u
  let x := cx * (centerRadius + tubeRadius * cos)
  let y := cy * (centerRadius + tubeRadius * cos)
  let z := sin * tubeRadius
  let b := b.setV x
  let b := b.pushN (cx * cos)
  let b := b.setV y
  let b := b.pushN (cy * cos)
  let b := b.setV z
  let b := b.pushN sin
  let b := b.pushT ((i : α) / (slices : α))
  let b := b.pushT ((j : α) / (nstacks : α))
  b

/-- The generator `uvTorus(outerRadius, innerRadius, slices, stacks)`, returning its whole
final state. -/
def uvTorus.run {α : Type} [Field α] [DecidableEq α] (M : JSMath α)
    (outerRadius innerRadius : Option α) (slices nstacks : Option Int)
    (maxLength : Option Nat := none) : Except JSError (Buffers α) := do
  let outerRadius : α := orDefault outerRadius (1 / 2)
  let innerRadius : α := orDefault innerRadius (outerRadius / 3)
  let slices : Int := orDefault slices 32
  let nstacks : Int := orDefault nstacks 16
  let vertexCount : Int := (slices + 1) * (nstacks + 1)
  let b ← allocate (0 : α) (3 * vertexCount) (3 * vertexCount) (2 * vertexCount)
    (2 * slices * nstacks * 3) maxLength
  let b := forRange (nstacks + 1) (fun j b =>
    forRange (slices + 1) (uvTorus.vertexStep M outerRadius innerRadius slices nstacks j) b) b
  let b := forRange nstacks (fun j b => forRange slices (gridIndexStep slices j) b) b
  pure b

/-- The mesh returned by `uvTorus`. -/
def uvTorus {α : Type} [Field α] [DecidableEq α] (M : JSMath α)
    (outerRadius innerRadius : Option α) (slices nstacks : Option Int)
    (maxLength : Option Nat := none) : Except JSError (Mesh α) :=
  (uvTorus.run M outerRadius innerRadius slices nstacks maxLength).map Buffers.toMesh

/-! ## uvCylinder -/

/-- Body of a cap fan loop of `uvCylinder` and `uvCone`: one triangle of the fan whose
center is vertex `startIndex`. -/
def capIndexStep {β : Type} (startIndex : Int) (i : Nat) (b : Buffers β) : Buffers β :=
  let b := b.pushI startIndex
  let b := b.pushI (startIndex + (i : Int) + 1)
  let b := b.pushI (startIndex + (i : Int) + 2)
  b

/-- Body of the first loop of `uvCylinder`: the bottom and the top vertex of the side at
angle `i*du`. -/
def uvCylinder.sideStep {α : Type} [Field α] (M : JSMath α) (radius height : α)
    (slices : Int) (i : Nat) (b : Buffers α) : Buffers α :=
  let du := 2 * M.PI / (slices : α)
  let u := (i : α) * du
  let c := M.cos u
  let s := M.sin u
  let b := b.setV (c * radius)
  let b := b.pushN c
  let b := b.setV (s * radius)
  let b := b.pushN s
  let b := b.setV (-height / 2)
  let b := b.pushN 0
  let b := b.pushT ((i : α) / (slices : α))
  let b := b.pushT 0
  let b := b.setV (c * radius)
  let b := b.pushN c
  let b := b.setV (s * radius)
  let b := b.pushN s
  let b := b.setV (height / 2)
  let b := b.pushN 0
  let b := b.pushT ((i : α) / (slices : α))
  let b := b.pushT 1
  b

/-- Body of the second loop of `uvCylinder`: the two triangles of side segment `i`. -/
def uvCylinder.sideIndexStep {β : Type} (i : Nat) (b : Buffers β) : Buffers β :=
  let b := b.pushI (2 * (i : Int))
  let b := b.pushI (2 * (i : Int) + 3)
  let b := b.pushI (2 * (i : Int) + 1)
  let b := b.pushI (2 * (i : Int))
  let b := b.pushI (2 * (i : Int) + 2)
  let b := b.pushI (2 * (i : Int) + 3)
  b

/-- The center vertex of a cap at height `z` with normal `(0, 0, nz)`. -/
def capCenter {α : Type} [Field α] (z nz : α) (b : Buffers α) : Buffers α :=
  let b := b.setV 0
  let b := b.pushN 0
  let b := b.setV 0
  let b := b.pushN 0
  let b := b.setV z
  let b := b.pushN nz
  let b := b.pushT (1 / 2)
  let b := b.pushT (1 / 2)
  b

/-- Body of the rim loop of the bottom cap (of `uvCylinder` and of `uvCone`). -/
def bottomRimStep {α : Type} [Field α] (M : JSMath α) (radius height : α) (slices : Int)
    (i : Nat) (b : Buffers α) : Buffers α :=
  let du := 2 * M.PI / (slices : α)
  let u := 2 * M.PI - (i : α) * du
  let c := M.cos u
  let s := M.sin u
  let b := b.setV (c * radius)
  let b := b.pushN 0
  let b := b.setV (s * radius)
  let b := b.pushN 0
  let b := b.setV (-height / 2)
  let b := b.pushN (-1)
  let b := b.pushT (1 / 2 - 1 / 2 * c)
  let b := b.pushT (1 / 2 + 1 / 2 * s)
  b

/-- Body of the rim loop of the top cap of `uvCylinder`. -/
def uvCylinder.topRimStep {α : Type} [Field α] (M : JSMath α) (radius height : α)
    (slices : Int) (i : Nat) (b : Buffers α) : Buffers α :=
  let du := 2 * M.PI / (slices : α)
  let u := (i : α) * du
  let c := M.cos u
  let s := M.sin u
  let b := b.setV (c * radius)
  let b := b.pushN 0
  let b := b.setV (s * radius)
  let b := b.pushN 0
  let b := b.setV (height / 2)
  let b := b.pushN 1
  let b := b.pushT (1 / 2 + 1 / 2 * c)
  let b := b.pushT (1 / 2 + 1 / 2 * s)
  b

/-- The block `if (!noBottom) ...`: center, rim and fan of the bottom cap.  `kv` is a
multiple of 3 at this point, so `kv/3` is an integer. -/
def bottomCap {α : Type} [Field α] (M : JSMath α) (radius height : α) (slices : Int)
    (b : Buffers α) : Buffers α :=
  let startIndex : Int := ((b.kv / 3 : Nat) : Int)
  let b := capCenter (-height / 2) (-1) b
  let b := forRange (slices + 1) (bottomRimStep M radius height slices) b
  let b := forRange slices (capIndexStep startIndex) b
  b

/-- The block `if (!noTop) ...` of `uvCylinder`: center, rim and fan of the top cap. -/
def uvCylinder.topCap {α : Type} [Field α] (M : JSMath α) (radius height : α)
    (slices : Int) (b : Buffers α) : Buffers α :=
  let startIndex : Int := ((b.kv / 3 : Nat) : Int)
  let b := capCenter (height / 2) 1 b
  let b := forRange (slices + 1) (uvCylinder.topRimStep M radius height slices) b
  let b := forRange slices (capIndexStep startIndex) b
  b

/-- The generator `uvCylinder(radius, height, slices, noTop, noBottom)`, returning its whole
final state.  The flags are given by their truth value. -/
def uvCylinder.run {α : Type} [Field α] [DecidableEq α] (M : JSMath α)
    (radius height : Option α) (slices : Option Int) (noTop noBottom : Bool)
    (maxLength : Option Nat := none) : Except JSError (Buffers α) := do
  let radius : α := orDefault radius (1 / 2)
  let height : α := orDefault height (2 * radius)
  let slices : Int := orDefault slices 32
  let vertexCount : Int := 2 * (slices + 1)
  let vertexCount := if !noTop then vertexCount + (slices + 2) else vertexCount
  let vertexCount := if !noBottom then vertexCount + (slices + 2) else vertexCount
  let triangleCount : Int := 2 * slices
  let triangleCount := if !noTop then triangleCount + slices else triangleCount
  let triangleCount := if !noBottom then triangleCount + slices else triangleCount
  let b ← allocate (0 : α) (vertexCount * 3) (vertexCount * 3) (vertexCount * 2)
    (triangleCount * 3) maxLength
  let b := forRange (slices + 1) (uvCylinder.sideStep M radius height slices) b
  let b := forRange slices uvCylinder.sideIndexStep b
  let b := if !noBottom then bottomCap M radius height slices b else b
  let b := if !noTop then uvCylinder.topCap M radius height slices b else b
  pure b

/-- The mesh returned by `uvCylinder`. -/
def uvCylinder {α : Type} [Field α] [DecidableEq α] (M : JSMath α)
    (radius height : Option α) (slices : Option Int) (noTop noBottom : Bool)
    (maxLength : Option Nat := none) : Except JSError (Mesh α) :=
  (uvCylinder.run M radius height slices noTop noBottom maxLength).map Buffers.toMesh

/-! ## uvCone -/

/-- The array `fractions` of `uvCone`. -/
def uvCone.fractions {α : Type} [Field α] : List α := [0, 1 / 2, 3 / 4, 7 / 8, 15 / 16]

/-- Body of the first loop nest of `uvCone`: vertex `i` of ring `j`. -/
def uvCone.vertexStep {α : Type} [Field α] (M : JSMath α) (radius height : α)
    (slices : Int) (j i : Nat) (b : Buffers α) : Buffers α :=
  let normallength := M.sqrt (height * height + radius * radius)
  let n1 := height / normallength
  let n2 := radius / normallength
  let du := 2 * M.PI / (slices : α)
  let uoffset : α := if j % 2 = 0 then 0 else 1 / 2
  let fj : α := (uvCone.fractions).getD j 0
  let h1 := -height / 2 + fj * height
  let u := ((i : α) + uoffset) * du
  let c := M.cos u
  let s := M.sin u
  let b := b.setV (c * radius * (1 - fj))
  let b := b.pushN (c * n1)
  let b := b.setV (s * radius * (1 - fj))
  let b := b.pushN (s * n1)
  let b := b.setV h1
  let b := b.pushN n2
  let b := b.pushT (((i : α) + uoffset) / (slices : α))
  let b := b.pushT fj
  b

/-- Body of the loop of `uvCone` that adds the `slices` vertices at the tip. -/
def uvCone.tipStep {α : Type} [Field α] (M : JSMath α) (radius height : α)
    (slices : Int) (i : Nat) (b : Buffers α) : Buffers α :=
  let normallength := M.sqrt (height * height + radius * radius)
  let n1 := height / normallength
  let n2 := radius / normallength
  let du := 2 * M.PI / (slices : α)
  let u := ((i : α) + 1 / 2) * du
  let c := M.cos u
  let s := M.sin u
  let b := b.setV 0
  let b := b.pushN (c * n1)
  let b := b.setV 0
  let b := b.pushN (s * n1)
  let b := b.setV (height / 2)
  let b := b.pushN n2
  let b := b.pushT (((i : α) + 1 / 2) / (slices : α))
  let b := b.pushT 1
  b

/-- Body of the loop of `uvCone` that joins the last ring to the tip vertices. -/
def uvCone.tipIndexStep {β : Type} (start slices : Int) (i : Nat) (b : Buffers β) :
    Buffers β :=
  let b := b.pushI (start + (i : Int))
  let b := b.pushI (start + (i : Int) + 1)
  let b := b.pushI (start + (slices + 1) + (i : Int))
  b

/-- The generator `uvCone(radius, height, slices, noBottom)`, returning its whole final
state.  The flag is given by its truth value; `kv` is a multiple of 3 where `kv/3` is
taken. -/
def uvCone.run {α : Type} [Field α] [DecidableEq α] (M : JSMath α)
    (radius height : Option α) (slices : Option Int) (noBottom : Bool)
    (maxLength : Option Nat := none) : Except JSError (Buffers α) := do
  let radius : α := orDefault radius (1 / 2)
  let height : α := orDefault height (2 * radius)
  let slices : Int := orDefault slices 32
  let fractionsLength : Int := (((uvCone.fractions : List α).length : Nat) : Int)
  let vertexCount : Int := fractionsLength * (slices + 1) + slices
  let vertexCount := if !noBottom then vertexCount + (slices + 2) else vertexCount
  let triangleCount : Int := (fractionsLength - 1) * slices * 2 + slices
  let triangleCount := if !noBottom then triangleCount + slices else triangleCount
  let b ← allocate (0 : α) (vertexCount * 3) (vertexCount * 3) (vertexCount * 2)
    (triangleCount * 3) maxLength
  let b := forRange fractionsLength (fun j b =>
    forRange (slices + 1) (uvCone.vertexStep M radius height slices j) b) b
  let b := { b with ki := 0 }
  let b := forRange (fractionsLength - 1) (fun j b =>
    forRange slices (gridIndexStep slices j) b) b
  let start : Int := ((b.kv / 3 : Nat) : Int) - (slices + 1)
  let b := forRange slices (uvCone.tipStep M radius height slices) b
  let b := forRange slices (uvCone.tipIndexStep start slices) b
  let b := if !noBottom then bottomCap M radius height slices b else b
  pure b

/-- The mesh returned by `uvCone`. -/
def uvCone {α : Type} [Field α] [DecidableEq α] (M : JSMath α)
    (radius height : Option α) (slices : Option Int) (noBottom : Bool)
    (maxLength : Option Nat := none) : Except JSError (Mesh α) :=
  (uvCone.run M radius height slices noBottom maxLength).map Buffers.toMesh

/-! ## obj_sphere -/

/-- A four-component vector, as built by `vec4(x, y, z, w)`. -/
structure Vec4 (α : Type) where
  x : α
  y : α
  z : α
  w : α

/-- Modelled from the spec: the helper `scalev` is absent from the sources; the spec says
that the position is "scaled by radius a second time via a helper", taken here as the
multiplication of every component by the scalar, giving a fresh vector. -/
def scalev {α : Type} [Field α] (k : α) (v : Vec4 α) : Vec4 α :=
  { x := k * v.x, y := k * v.y, z := k * v.z, w := k * v.w }

/-- Modelled from the spec: the helper `normalize` is absent from the sources; the spec says
that the normal is the "direction from center to vertex (translation removed, then
normalized)".  With a second argument that is true, as in `normalize(V, 1)`, the last
component is left out: the first three are divided by their Euclidean length. -/
def normalize {α : Type} [Field α] (M : JSMath α) (v : Vec4 α) : Vec4 α :=
  let len := M.sqrt (v.x * v.x + v.y * v.y + v.z * v.z)
  { x := v.x / len, y := v.y / len, z := v.z / len, w := v.w }

/-- The fields of the object that `new obj_sphere(...)` builds. -/
structure SceneObject (α : Type) where
  numVertices : Nat
  pointsArray : List (Vec4 α)
  colorsArray : List (Vec4 α)
  normalsArray : List (Vec4 α)
  texcoords : List α
  pos_loc : List α

/-- The method `this.spherePoint(theta, phi)` defined inside `obj_sphere`. -/
def obj_sphere.spherePoint {α : Type} [Field α] (M : JSMath α)
    (radius pos_x pos_y pos_z alpha : α) (theta phi : α) (o : SceneObject α) :
    SceneObject α :=
  let V : Vec4 α :=
    { x := radius * M.cos theta * M.cos phi + pos_x
      y := radius * M.sin phi + pos_y
      z := radius * M.sin theta * M.cos phi + pos_z
      w := 1 }
  let smallV := scalev radius V
  let V : Vec4 α := { x := V.x - pos_x, y := V.y - pos_y, z := V.z - pos_z, w := 0 }
  let V := normalize M V
  { o with
    pointsArray := o.pointsArray ++ [smallV]
    normalsArray := o.normalsArray ++ [V]
    colorsArray := o.colorsArray ++ [{ x := 1, y := 0, z := 0, w := alpha }]
    texcoords := o.texcoords ++ [0 + theta / M.PI / 2, 0 + phi / M.PI + 1 / 2] }

/-- The variables of the two loops of `obj_sphere`, with the object under construction. -/
structure SphereLoop (α : Type) where
  obj : SceneObject α
  phi : α
  theta : α
  lastPhi : α
  lastTheta : α

/-- A loop `for (...; cond; ...) body` whose trip count is not known beforehand: `fuel`
bounds the number of iterations, and `none` reports that the bound was too small. -/
def loopWhile {σ : Type} (cond : σ → Bool) (body : σ → Option σ) : Nat → σ → Option σ
  | 0, st => if cond st then none else some st
  | fuel + 1, st =>
    if cond st then (body st).bind (loopWhile cond body fuel) else some st

/-- Body of the inner loop of `obj_sphere` (over `theta`), followed by `theta += step`.
`fl` is the rounding of a sum to a number of JavaScript: `toFloat64` for the doubles of the
program, and by default the identity, which is exact arithmetic. -/
def obj_sphere.thetaStep {α : Type} [LinearOrderedField α] (M : JSMath α)
    (radius pos_x pos_y pos_z alpha step : α) (st : SphereLoop α) (fl : α → α := id) :
    SphereLoop α :=
  let rP1 := st.lastPhi / 180 * M.PI
  let rP2 := st.phi / 180 * M.PI
  let rT1 := st.lastTheta / 180 * M.PI
  let rT2 := st.theta / 180 * M.PI
  let point := obj_sphere.spherePoint M radius pos_x pos_y pos_z alpha
  let o := st.obj
  let o :=
    if st.lastPhi ≠ -90 then
      let o := point rT1 rP1 o
      let o := point rT2 rP1 o
      let o := point rT1 rP2 o
      { o with numVertices := o.numVertices + 3 }
    else o
  let o :=
    if st.phi ≠ 90 then
      let o := point rT2 rP2 o
      let o := point rT1 rP2 o
      let o := point rT2 rP1 o
      { o with numVertices := o.numVertices + 3 }
    else o
  { st with obj := o, lastTheta := st.theta, theta := fl (st.theta + step) }

/-- Body of the outer loop of `obj_sphere` (over `phi`), followed by `phi += step`; the
bound `360+step` of the inner loop and both increments are sums rounded by `fl`. -/
def obj_sphere.phiStep {α : Type} [LinearOrderedField α] (M : JSMath α)
    (radius pos_x pos_y pos_z alpha step : α) (fuel : Nat) (st : SphereLoop α)
    (fl : α → α := id) : Option (SphereLoop α) :=
  (loopWhile (fun st => decide (st.theta ≤ fl (360 + step)))
    (fun st => some (obj_sphere.thetaStep M radius pos_x pos_y pos_z alpha step st fl))
    fuel { st with theta := step }).map
    (fun st => { st with lastPhi := st.phi, phi := fl (st.phi + step) })

/-- The constructor `obj_sphere(radius, pos_x, pos_y, pos_z, alpha, degree)`; each loop may
run `fuel` times.  The loop variables `phi` and `theta` are sums rounded by `fl`
(`toFloat64` for the program, by default the identity, which is exact arithmetic); the
coordinates of the points are computed exactly. -/
def obj_sphere {α : Type} [LinearOrderedField α] (M : JSMath α) (fuel : Nat)
    (radius pos_x pos_y pos_z alpha degree : α) (fl : α → α := id) :
    Option (SceneObject α) :=
  let o : SceneObject α :=
    { numVertices := 0, pointsArray := [], colorsArray := [], normalsArray := [],
      texcoords := [], pos_loc := [pos_x, pos_y, pos_z] }
  let step := degree
  let st : SphereLoop α :=
    { obj := o, phi := fl (-90 + step), theta := 0, lastPhi := -90, lastTheta := 0 }
  (loopWhile (fun st => decide (st.phi ≤ 90))
    (fun st => obj_sphere.phiStep M radius pos_x pos_y pos_z alpha step fuel st fl)
    fuel st).map
    (fun st => st.obj)

/-! ## obj_ring -/

/-- The method `this.spherePoint(theta, radius)` defined inside `obj_ring`; it pushes a
point, a normal and a color, and no texture coordinate. -/
def obj_ring.spherePoint {α : Type} [Field α] (M : JSMath α)
    (pos_x pos_y pos_z alpha : α) (theta radius : α) (o : SceneObject α) : SceneObject α :=
  let V : Vec4 α :=
    { x := radius * M.cos theta + pos_x
      y := 0 + pos_y
      z := radius * M.sin theta + pos_z
      w := 1 }
  let smallV := scalev radius V
  let V : Vec4 α := { x := V.x - pos_x, y := V.y - pos_y, z := V.z - pos_z, w := 0 }
  let V := normalize M V
  { o with
    pointsArray := o.pointsArray ++ [smallV]
    normalsArray := o.normalsArray ++ [V]
    colorsArray := o.colorsArray ++ [{ x := 1, y := 0, z := 0, w := alpha }] }

/-- The two statements `this.texcoords.push(a); this.texcoords.push(b)`. -/
def obj_ring.pushTex {α : Type} (a b : α) (o : SceneObject α) : SceneObject α :=
  { o with texcoords := o.texcoords ++ [a, b] }

/-- The variables of the loop of `obj_ring`, with the object under construction. -/
structure RingLoop (α : Type) where
  obj : SceneObject α
  theta : α
  lastTheta : α

/-- Body of the loop of `obj_ring`, followed by `theta += step`, a sum rounded by `fl`
(`toFloat64` for the program, by default the identity, which is exact arithmetic). -/
def obj_ring.thetaStep {α : Type} [LinearOrderedField α] (M : JSMath α)
    (inner_radius outer_radius pos_x pos_y pos_z alpha step : α) (st : RingLoop α)
    (fl : α → α := id) : RingLoop α :=
  let rT1 := st.lastTheta / 180 * M.PI
  let rT2 := st.theta / 180 * M.PI
  let point := obj_ring.spherePoint M pos_x pos_y pos_z alpha
  let o := st.obj
  let o := point rT1 inner_radius o
  let o := obj_ring.pushTex 1 1 o
  let o := point rT2 outer_radius o
  let o := obj_ring.pushTex 0 0 o
  let o := point rT1 outer_radius o
  let o := obj_ring.pushTex 1 0 o
  let o := { o with numVertices := o.numVertices + 3 }
  let o := point rT2 outer_radius o
  let o := obj_ring.pushTex 0 0 o
  let o := point rT1 inner_radius o
  let o := obj_ring.pushTex 1 1 o
  let o := point rT2 inner_radius o
  let o := obj_ring.pushTex 0 1 o
  let o := { o with numVertices := o.numVertices + 3 }
  { obj := o, lastTheta := st.theta, theta := fl (st.theta + step) }

/-- The constructor `obj_ring(inner_radius, outer_radius, pos_x, pos_y, pos_z, alpha,
degree)`; the loop may run `fuel` times.  The loop variable `theta` is a sum rounded by
`fl`, as in `obj_sphere`. -/
def obj_ring {α : Type} [LinearOrderedField α] (M : JSMath α) (fuel : Nat)
    (inner_radius outer_radius pos_x pos_y pos_z alpha degree : α) (fl : α → α := id) :
    Option (SceneObject α) :=
  let o : SceneObject α :=
    { numVertices := 0, pointsArray := [], colorsArray := [], normalsArray := [],
      texcoords := [], pos_loc := [pos_x, pos_y, pos_z] }
  let step := degree
  let st : RingLoop α := { obj := o, theta := step, lastTheta := 0 }
  (loopWhile (fun st => decide (st.theta ≤ 360))
    (fun st => some (obj_ring.thetaStep M inner_radius outer_radius pos_x pos_y pos_z alpha
      step st fl)) fuel st).map (fun st => st.obj)

/-! ## Vocabulary of the statements -/

/-- The `i`-th triple of a flat array of 3-component vectors. -/
def vec3At {α : Type} [Zero α] (l : List α) (i : Nat) : α × α × α :=
  (l.getD (3 * i) 0, l.getD (3 * i + 1) 0, l.getD (3 * i + 2) 0)

/-- All triples of a flat array of 3-component vectors, in order. -/
def triples {α : Type} [Zero α] (l : List α) : List (α × α × α) :=
  (List.range (l.length / 3)).map (vec3At l)

/-- Squared Euclidean length. -/
def normSq {α : Type} [Field α] (v : α × α × α) : α :=
  v.1 * v.1 + v.2.1 * v.2.1 + v.2.2 * v.2.2

/-- Dot product. -/
def dot {α : Type} [Field α] (u v : α × α × α) : α :=
  u.1 * v.1 + u.2.1 * v.2.1 + u.2.2 * v.2.2

/-- The cross product `(b - a) × (c - a)` of two edges of the triangle `a`, `b`, `c`. -/
def triangleCross {α : Type} [Field α] (a b c : α × α × α) : α × α × α :=
  let u : α × α × α := (b.1 - a.1, b.2.1 - a.2.1, b.2.2 - a.2.2)
  let v : α × α × α := (c.1 - a.1, c.2.1 - a.2.1, c.2.2 - a.2.2)
  (u.2.1 * v.2.2 - u.2.2 * v.2.1, u.2.2 * v.1 - u.1 * v.2.2, u.1 * v.2.1 - u.2.1 * v.1)

/-- Multiplication of a vector by a scalar. -/
def scale3 {α : Type} [Field α] (k : α) (v : α × α × α) : α × α × α :=
  (k * v.1, k * v.2.1, k * v.2.2)

/-! ## Invariants used in the proofs -/

/-- The state `b2` has arrays of the same lengths as `b1`, and its cursors are those of
`b1` advanced by `dv`, `dt` and `di`. -/
def Adv {β : Type} (dv dt di : Nat) (b1 b2 : Buffers β) : Prop :=
  b2.vertices.length = b1.vertices.length ∧ b2.normals.length = b1.normals.length ∧
  b2.texCoords.length = b1.texCoords.length ∧ b2.indices.length = b1.indices.length ∧
  b2.kv = b1.kv + dv ∧ b2.kt = b1.kt + dt ∧ b2.ki = b1.ki + di

/-- Every stored index is below `N`. -/
def IdxBound {β : Type} (N : Nat) (b : Buffers β) : Prop := ∀ x ∈ b.indices, x < N

/-- Every normal written so far (below the cursor `kv`) has squared length 1. -/
def NormalsOK {α : Type} [Field α] (b : Buffers α) : Prop :=
  b.kv % 3 = 0 ∧
  ∀ i, 3 * i + 2 < b.kv → 3 * i + 2 < b.normals.length → normSq (vec3At b.normals i) = 1

/-- The state right after the four allocations. -/
def fresh {β : Type} (zero : β) (nv nn nt ni : Nat) : Buffers β :=
  { vertices := List.replicate nv zero, normals := List.replicate nn zero,
    texCoords := List.replicate nt zero, indices := List.replicate ni 0,
    kv := 0, kt := 0, ki := 0, writesV := [], writesN := [], writesT := [], writesI := [] }

/-- The identity `cos² + sin² = 1`, the only property of `Math.cos` and `Math.sin` that
the normals depend on. -/
def Pythagorean {α : Type} [Field α] (M : JSMath α) : Prop :=
  ∀ x, M.cos x * M.cos x + M.sin x * M.sin x = 1

/-- Number of vertices of `uvCylinder`. -/
def cylinderVertices (slices : Nat) (noTop noBottom : Bool) : Nat :=
  2 * (slices + 1) + (if noTop then 0 else slices + 2) + (if noBottom then 0 else slices + 2)

/-- Number of triangles of `uvCylinder`. -/
def cylinderTriangles (slices : Nat) (noTop noBottom : Bool) : Nat :=
  2 * slices + (if noTop then 0 else slices) + (if noBottom then 0 else slices)

/-- Number of vertices of `uvCone`. -/
def coneVertices (slices : Nat) (noBottom : Bool) : Nat :=
  5 * (slices + 1) + slices + (if noBottom then 0 else slices + 2)

/-- Number of triangles of `uvCone`. -/
def coneTriangles (slices : Nat) (noBottom : Bool) : Nat :=
  4 * slices * 2 + slices + (if noBottom then 0 else slices)

/-- The slanted normal `(c*n1, s*n1, n2)` of `uvCone` is a unit vector: with
`L = sqrt(height² + radius²)`, `(height/L)² + (radius/L)² = 1`. -/
def ConeSlant {α : Type} [Field α] (M : JSMath α) (radius height : α) : Prop :=
  height / M.sqrt (height * height + radius * radius) *
      (height / M.sqrt (height * height + radius * radius)) +
    radius / M.sqrt (height * height + radius * radius) *
      (radius / M.sqrt (height * height + radius * radius)) = 1

/-- Every normal of the first `m` vertices is `(0, 0, 1)`. -/
def RingNormals {α : Type} [Field α] (m : Nat) (l : List (Option α)) : Prop :=
  ∀ i, i < m → l.getD (3 * i) none = some 0 ∧ l.getD (3 * i + 1) none = some 0 ∧
    l.getD (3 * i + 2) none = some 1

/-- The value of `innerRadius` after the test on `arguments.length`. -/
def ringInner {α : Type} [Field α] (argumentsLength : Nat) (innerRadius : Option α) :
    Option α :=
  if argumentsLength = 0 then some (1 / 4) else innerRadius

/-- Every normal of the object has squared length 1 in its first three components. -/
def UnitNormals {α : Type} [Field α] (o : SceneObject α) : Prop :=
  ∀ n ∈ o.normalsArray, n.x * n.x + n.y * n.y + n.z * n.z = 1

/-- The property of `Math.sqrt` that `normalize` depends on at radius `r`: the square root of
`r²` is a number whose square is `r²`. -/
def SqrtOfSquare {α : Type} [Field α] (M : JSMath α) (radius : α) : Prop :=
  ∀ x y z : α, x * x + y * y + z * z = radius * radius →
    M.sqrt (x * x + y * y + z * z) * M.sqrt (x * x + y * y + z * z) = radius * radius

/-- Every index of the mesh is below its vertex count `vertexPositions.length / 3`. -/
def IndicesInRange {β : Type} (m : Mesh β) : Prop :=
  ∀ x ∈ m.indices, x < m.vertexPositions.length / 3

/-- The three attribute arrays describe the same number `V` of vertices. -/
def VertexParity {β : Type} (m : Mesh β) : Prop :=
  ∃ V, m.vertexPositions.length = 3 * V ∧ m.vertexNormals.length = 3 * V ∧
    m.vertexTextureCoords.length = 2 * V

/-- A vector of Euclidean length exactly 1. -/
def UnitLength (v : ℝ × ℝ × ℝ) : Prop := Real.sqrt (normSq v) = 1

/-- The bookkeeping of a non-indexed object: one point, normal and color and two texture
coordinates per vertex, and whole triangles. -/
def VertexCounts {α : Type} (o : SceneObject α) : Prop :=
  o.pointsArray.length = o.numVertices ∧ o.normalsArray.length = o.numVertices ∧
  o.colorsArray.length = o.numVertices ∧ o.texcoords.length = 2 * o.numVertices ∧
  o.numVertices % 3 = 0

/-- The point that `obj_sphere` stores for the angles `theta`, `phi`: `radius` times
`V = (radius*cos(theta)*cos(phi) + pos_x, radius*sin(phi) + pos_y,
radius*sin(theta)*cos(phi) + pos_z, 1)`. -/
def spherePosition {α : Type} [Field α] (M : JSMath α) (radius pos_x pos_y pos_z : α)
    (theta phi : α) : Vec4 α :=
  scalev radius
    { x := radius * M.cos theta * M.cos phi + pos_x
      y := radius * M.sin phi + pos_y
      z := radius * M.sin theta * M.cos phi + pos_z
      w := 1 }

/-- The point that `obj_ring` stores for the angle `theta` on the circle `radius`:
`radius` times `V = (radius*cos(theta) + pos_x, 0 + pos_y, radius*sin(theta) + pos_z, 1)`. -/
def ringPosition {α : Type} [Field α] (M : JSMath α) (pos_x pos_y pos_z : α)
    (theta radius : α) : Vec4 α :=
  scalev radius
    { x := radius * M.cos theta + pos_x
      y := 0 + pos_y
      z := radius * M.sin theta + pos_z
      w := 1 }

/-- The final state of `ring` in disk mode, from the state `st0` after the allocations. -/
def ringDiskFinal {α : Type} [Field α] (M : JSMath α) (outerRadius : α) (slices : Int)
    (st0 : RingState α) : RingState α :=
  let st := forRange slices (ring.diskStep M outerRadius slices) st0
  { buf := forRange (slices + 1) ring.normalStep
      (((((st.buf.pushV (some 0)).pushV (some 0)).pushV (some 0)).pushT (some 0)).pushT
        (some 0))
    globals := st.globals }

/-- The final state of `ring` in annulus mode, from the state `st0` after the
allocations. -/
def ringAnnulusFinal {α : Type} [Field α] (M : JSMath α) (innerRadius : Option α)
    (outerRadius : α) (slices : Int) (st0 : RingState α) : RingState α :=
  let st := forRange slices (ring.annulusStep M innerRadius outerRadius slices) st0
  { buf := forRange (slices * 2) ring.normalStep
      (ring.annulusLast (max (slices - 1) 0)
        (forRange (slices - 1) ring.annulusIndexStep st.buf))
    globals := st.globals }

/-- The value of `outerRadius` after its defaulting. -/
def ringOuter {α : Type} [Field α] [DecidableEq α] (argumentsLength : Nat)
    (innerRadius outerRadius : Option α) : α :=
  orDefault outerRadius
    (orDefault ((ringInner argumentsLength innerRadius).map (fun x => x * 2)) (1 / 2))

/-- Every vertex written so far (below the cursor `kv`) satisfies `P`, a property of the
vertex number, the position and the normal. -/
def VertsOK {α : Type} [Zero α] (P : Nat → α × α × α → α × α × α → Prop) (b : Buffers α) :
    Prop :=
  b.kv % 3 = 0 ∧
  ∀ i, 3 * i + 2 < b.kv → 3 * i + 2 < b.vertices.length → 3 * i + 2 < b.normals.length →
    P i (vec3At b.vertices i) (vec3At b.normals i)

/-- Every index triple written so far (below the cursor `ki`) satisfies `Q`, a property of
the triangle number and the three stored indices. -/
def TrisOK {β : Type} (Q : Nat → Nat × Nat × Nat → Prop) (b : Buffers β) : Prop :=
  b.ki % 3 = 0 ∧
  ∀ t, 3 * t + 2 < b.ki → 3 * t + 2 < b.indices.length → Q t (vec3At b.indices t)

/-- Position and normal of vertex number `i` of the fully capped cylinder with `n` slices:
the side vertices `2k` (bottom) and `2k+1` (top) at angle `k*du` for `k ≤ n`, the bottom
center `2n+2`, the bottom rim `2n+3+k` at angle `2π - k*du`, the top center `3n+4` and the
top rim `3n+5+k` at angle `k*du`. -/
def cylinderVertex {α : Type} [Field α] (M : JSMath α) (radius height : α) (n i : Nat) :
    (α × α × α) × (α × α × α) :=
  if i < 2 * n + 2 then
    ((M.cos (((i / 2 : Nat) : α) * (2 * M.PI / ((n : Int) : α))) * radius,
      M.sin (((i / 2 : Nat) : α) * (2 * M.PI / ((n : Int) : α))) * radius,
      if i % 2 = 0 then -height / 2 else height / 2),
     (M.cos (((i / 2 : Nat) : α) * (2 * M.PI / ((n : Int) : α))),
      M.sin (((i / 2 : Nat) : α) * (2 * M.PI / ((n : Int) : α))), 0))
  else if i = 2 * n + 2 then ((0, 0, -height / 2), (0, 0, -1))
  else if i < 3 * n + 4 then
    ((M.cos (2 * M.PI - ((i - (2 * n + 3) : Nat) : α) * (2 * M.PI / ((n : Int) : α))) * radius,
      M.sin (2 * M.PI - ((i - (2 * n + 3) : Nat) : α) * (2 * M.PI / ((n : Int) : α))) * radius,
      -height / 2),
     (0, 0, -1))
  else if i = 3 * n + 4 then ((0, 0, height / 2), (0, 0, 1))
  else
    ((M.cos (((i - (3 * n + 5) : Nat) : α) * (2 * M.PI / ((n : Int) : α))) * radius,
      M.sin (((i - (3 * n + 5) : Nat) : α) * (2 * M.PI / ((n : Int) : α))) * radius,
      height / 2),
     (0, 0, 1))

/-- The vertex numbers that the code computes for triangle number `t` of the fully capped
cylinder with `n` slices, before they are stored in the `Uint16Array`: the side triangles
`2k` and `2k+1`, the bottom fan `2n+k` and the top fan `3n+k`, for `k < n`. -/
def cylinderTriangle (n t : Nat) : Nat × Nat × Nat :=
  if t < 2 * n then
    if t % 2 = 0 then (2 * (t / 2), 2 * (t / 2) + 3, 2 * (t / 2) + 1)
    else (2 * (t / 2), 2 * (t / 2) + 2, 2 * (t / 2) + 3)
  else if t < 3 * n then (2 * n + 2, 2 * n + 2 + (t - 2 * n) + 1, 2 * n + 2 + (t - 2 * n) + 2)
  else (3 * n + 4, 3 * n + 4 + (t - 3 * n) + 1, 3 * n + 4 + (t - 3 * n) + 2)

/-- The three values as stored in a `Uint16Array`. -/
def storedTriangle (t : Nat × Nat × Nat) : Nat × Nat × Nat :=
  (toUint16 (t.1 : Int), toUint16 (t.2.1 : Int), toUint16 (t.2.2 : Int))

/-- Every vertex written so far is the one of the closed form `cylinderVertex`. -/
def CylinderVerts {α : Type} [Field α] (M : JSMath α) (radius height : α) (n : Nat)
    (b : Buffers α) : Prop :=
  VertsOK (fun i p nr => (p, nr) = cylinderVertex M radius height n i) b

/-- Every triangle written so far is the stored form of `cylinderTriangle`. -/
def CylinderTris {β : Type} (n : Nat) (b : Buffers β) : Prop :=
  TrisOK (fun t tri => tri = storedTriangle (cylinderTriangle n t)) b

/-- The points of the torus surface: `(cos u * (C + T cos v), sin u * (C + T cos v),
sin v * T)` with `C = (innerRadius + outerRadius)/2` and `T = outerRadius - C`. -/
def OnTorus {α : Type} [Field α] (M : JSMath α) (outerRadius innerRadius : α)
    (p : α × α × α) : Prop :=
  ∃ u v : α, p =
    (M.cos u * ((innerRadius + outerRadius) / 2 +
        (outerRadius - (innerRadius + outerRadius) / 2) * M.cos v),
      M.sin u * ((innerRadius + outerRadius) / 2 +
        (outerRadius - (innerRadius + outerRadius) / 2) * M.cos v),
      M.sin v * (outerRadius - (innerRadius + outerRadius) / 2))

/-- The vertex numbers that the index loops of `uvSphere`, `uvTorus` and `uvCone` compute for
triangle number `t` of a grid with `slices` columns, before they are stored in the
`Uint16Array`: cell `t / 2` lies in row `j = t / 2 / slices` and column
`i = t / 2 % slices`, and with `r1 = j*(slices+1)`, `r2 = (j+1)*(slices+1)` its two
triangles are `(r1+i, r2+i+1, r2+i)` and `(r1+i, r1+i+1, r2+i+1)`. -/
def gridTriangle (slices t : Nat) : Nat × Nat × Nat :=
  if t % 2 = 0 then
    (t / 2 / slices * (slices + 1) + t / 2 % slices,
     (t / 2 / slices + 1) * (slices + 1) + t / 2 % slices + 1,
     (t / 2 / slices + 1) * (slices + 1) + t / 2 % slices)
  else
    (t / 2 / slices * (slices + 1) + t / 2 % slices,
     t / 2 / slices * (slices + 1) + t / 2 % slices + 1,
     (t / 2 / slices + 1) * (slices + 1) + t / 2 % slices + 1)

/-- Every triangle written so far is the stored form of `gridTriangle`. -/
def GridTris {β : Type} (slices : Nat) (b : Buffers β) : Prop :=
  TrisOK (fun t tri => tri = storedTriangle (gridTriangle slices t)) b

/-- The vertex numbers that the disk loop of `ring` computes for triangle `t` of the fan:
the center `slices`, the rim vertex `t` and the next rim vertex, `0` after the last one. -/
def ringDiskTriangle (slices t : Nat) : Nat × Nat × Nat := (slices, t, (t + 1) % slices)

/-- The vertex numbers that `ring` computes for triangle `t` of the annulus: segment
`i = t / 2` yields `(2i, 2i+1, 2i+3)` and `(2i, 2i+3, 2i+2)`, where the last segment uses
`1` for `2i+3` and `0` for `2i+2`. -/
def ringAnnulusTriangle (slices t : Nat) : Nat × Nat × Nat :=
  if t % 2 = 0 then (2 * (t / 2), 2 * (t / 2) + 1, (2 * (t / 2) + 3) % (2 * slices))
  else (2 * (t / 2), (2 * (t / 2) + 3) % (2 * slices), (2 * (t / 2) + 2) % (2 * slices))

/-- Position and normal of vertex `i` of ring `j` of `uvCone` with `n` slices: the angle is
`u = (i + uoffset)*du` with `uoffset = 0` for even `j` and `1/2` for odd `j`, the fraction
is `f = fractions[j]`, the position `(cos u * radius * (1-f), sin u * radius * (1-f),
-height/2 + f*height)` and the normal `(cos u * n1, sin u * n1, n2)` with
`n1 = height/L`, `n2 = radius/L`, `L = sqrt(height² + radius²)`. -/
def coneRingVertex {α : Type} [Field α] (M : JSMath α) (radius height : α) (n j i : Nat) :
    (α × α × α) × (α × α × α) :=
  ((M.cos (((i : α) + (if j % 2 = 0 then 0 else 1 / 2)) * (2 * M.PI / ((n : Int) : α))) *
        radius * (1 - (uvCone.fractions).getD j 0),
      M.sin (((i : α) + (if j % 2 = 0 then 0 else 1 / 2)) * (2 * M.PI / ((n : Int) : α))) *
        radius * (1 - (uvCone.fractions).getD j 0),
      -height / 2 + (uvCone.fractions).getD j 0 * height),
    (M.cos (((i : α) + (if j % 2 = 0 then 0 else 1 / 2)) * (2 * M.PI / ((n : Int) : α))) *
        (height / M.sqrt (height * height + radius * radius)),
      M.sin (((i : α) + (if j % 2 = 0 then 0 else 1 / 2)) * (2 * M.PI / ((n : Int) : α))) *
        (height / M.sqrt (height * height + radius * radius)),
      radius / M.sqrt (height * height + radius * radius)))

/-- Position and normal of tip vertex `i` of `uvCone` with `n` slices: the position is the
tip `(0, 0, height/2)`, the normal that of the angle `(i + 1/2)*du`. -/
def coneTipVertex {α : Type} [Field α] (M : JSMath α) (radius height : α) (n i : Nat) :
    (α × α × α) × (α × α × α) :=
  ((0, 0, height / 2),
    (M.cos (((i : α) + 1 / 2) * (2 * M.PI / ((n : Int) : α))) *
        (height / M.sqrt (height * height + radius * radius)),
      M.sin (((i : α) + 1 / 2) * (2 * M.PI / ((n : Int) : α))) *
        (height / M.sqrt (height * height + radius * radius)),
      radius / M.sqrt (height * height + radius * radius)))

/-- Position and normal of lateral vertex number `i` of `uvCone` with `n` slices: five rings
of `n + 1` vertices, then `n` vertices at the tip. -/
def coneVertex {α : Type} [Field α] (M : JSMath α) (radius height : α) (n i : Nat) :
    (α × α × α) × (α × α × α) :=
  if i < 5 * (n + 1) then coneRingVertex M radius height n (i / (n + 1)) (i % (n + 1))
  else coneTipVertex M radius height n (i - 5 * (n + 1))

/-- Every lateral vertex written so far is the one of the closed form `coneVertex`. -/
def ConeVerts {α : Type} [Field α] (M : JSMath α) (radius height : α) (n : Nat)
    (b : Buffers α) : Prop :=
  VertsOK (fun i p nr => i < 5 * (n + 1) + n → (p, nr) = coneVertex M radius height n i) b

/-- The state of the loop of `obj_ring` before its first iteration. -/
def obj_ring.ringStart {α : Type} [LinearOrderedField α] (pos_x pos_y pos_z step : α) :
    RingLoop α :=
  { obj := { numVertices := 0, pointsArray := [], colorsArray := [], normalsArray := [],
             texcoords := [], pos_loc := [pos_x, pos_y, pos_z] }
    theta := step
    lastTheta := 0 }

/-- The six points that step `k` of `obj_ring` (counted from 0) emits: with
`rT1 = k*step/180*π` and `rT2 = (k+1)*step/180*π`, the triangles
`(rT1 inner, rT2 outer, rT1 outer)` and `(rT2 outer, rT1 inner, rT2 inner)`. -/
def ringStepPoints {α : Type} [Field α] (M : JSMath α)
    (inner_radius outer_radius pos_x pos_y pos_z step : α) (k : Nat) : List (Vec4 α) :=
  [ringPosition M pos_x pos_y pos_z ((k : α) * step / 180 * M.PI) inner_radius,
   ringPosition M pos_x pos_y pos_z (((k + 1 : Nat) : α) * step / 180 * M.PI) outer_radius,
   ringPosition M pos_x pos_y pos_z ((k : α) * step / 180 * M.PI) outer_radius,
   ringPosition M pos_x pos_y pos_z (((k + 1 : Nat) : α) * step / 180 * M.PI) outer_radius,
   ringPosition M pos_x pos_y pos_z ((k : α) * step / 180 * M.PI) inner_radius,
   ringPosition M pos_x pos_y pos_z (((k + 1 : Nat) : α) * step / 180 * M.PI) inner_radius]

/-- The state of the loops of `obj_sphere` before the first iteration. -/
def obj_sphere.sphereStart {α : Type} [LinearOrderedField α] (pos_x pos_y pos_z step : α)
    (fl : α → α := id) : SphereLoop α :=
  { obj := { numVertices := 0, pointsArray := [], colorsArray := [], normalsArray := [],
             texcoords := [], pos_loc := [pos_x, pos_y, pos_z] }
    phi := fl (-90 + step)
    theta := 0
    lastPhi := -90
    lastTheta := 0 }

/-- One iteration of the outer loop of `obj_sphere` when its inner loop makes `cols`
iterations: `theta = step`, `cols` times the inner body, then `lastPhi = phi` and
`phi += step`. -/
def obj_sphere.rowOf {α : Type} [LinearOrderedField α] (M : JSMath α)
    (radius pos_x pos_y pos_z alpha step : α) (cols : Nat) (st : SphereLoop α)
    (fl : α → α := id) : SphereLoop α :=
  { ((fun st => obj_sphere.thetaStep M radius pos_x pos_y pos_z alpha step st fl)^[cols]
      { st with theta := step }) with
    lastPhi := ((fun st => obj_sphere.thetaStep M radius pos_x pos_y pos_z alpha step st
      fl)^[cols] { st with theta := step }).phi
    phi := fl (((fun st => obj_sphere.thetaStep M radius pos_x pos_y pos_z alpha step st
      fl)^[cols] { st with theta := step }).phi + step) }

/-- Number of triangles that `obj_sphere` emits in each cell of row `r` (counted from 0):
the first triangle is left out in row 0 (`lastPhi = -90`), the second in a row whose
latitude `-90 + (r+1)*step` is 90. -/
def rowTriangles {α : Type} [LinearOrderedField α] (step : α) (r : Nat) : Nat :=
  (if r = 0 then 0 else 1) + (if ((r + 1 : Nat) : α) * step = 180 then 0 else 1)

/-- The points that the inner body of `obj_sphere` appends in state `st`. -/
def cellPoints {α : Type} [LinearOrderedField α] (M : JSMath α)
    (radius pos_x pos_y pos_z : α) (st : SphereLoop α) : List (Vec4 α) :=
  (if st.lastPhi ≠ -90 then
    [spherePosition M radius pos_x pos_y pos_z (st.lastTheta / 180 * M.PI)
        (st.lastPhi / 180 * M.PI),
      spherePosition M radius pos_x pos_y pos_z (st.theta / 180 * M.PI)
        (st.lastPhi / 180 * M.PI),
      spherePosition M radius pos_x pos_y pos_z (st.lastTheta / 180 * M.PI)
        (st.phi / 180 * M.PI)]
   else []) ++
  (if st.phi ≠ 90 then
    [spherePosition M radius pos_x pos_y pos_z (st.theta / 180 * M.PI)
        (st.phi / 180 * M.PI),
      spherePosition M radius pos_x pos_y pos_z (st.lastTheta / 180 * M.PI)
        (st.phi / 180 * M.PI),
      spherePosition M radius pos_x pos_y pos_z (st.theta / 180 * M.PI)
        (st.lastPhi / 180 * M.PI)]
   else [])

/-- The texture coordinates that the inner body of `obj_sphere` appends in state `st`:
`(theta/π/2, phi/π + 1/2)` for each point of `cellPoints`. -/
def cellTex {α : Type} [LinearOrderedField α] (M : JSMath α) (st : SphereLoop α) : List α :=
  (if st.lastPhi ≠ -90 then
    [0 + st.lastTheta / 180 * M.PI / M.PI / 2, 0 + st.lastPhi / 180 * M.PI / M.PI + 1 / 2,
      0 + st.theta / 180 * M.PI / M.PI / 2, 0 + st.lastPhi / 180 * M.PI / M.PI + 1 / 2,
      0 + st.lastTheta / 180 * M.PI / M.PI / 2, 0 + st.phi / 180 * M.PI / M.PI + 1 / 2]
   else []) ++
  (if st.phi ≠ 90 then
    [0 + st.theta / 180 * M.PI / M.PI / 2, 0 + st.phi / 180 * M.PI / M.PI + 1 / 2,
      0 + st.lastTheta / 180 * M.PI / M.PI / 2, 0 + st.phi / 180 * M.PI / M.PI + 1 / 2,
      0 + st.theta / 180 * M.PI / M.PI / 2, 0 + st.lastPhi / 180 * M.PI / M.PI + 1 / 2]
   else [])

/-- The first three components of a point. -/
def xyz {α : Type} (v : Vec4 α) : α × α × α := (v.x, v.y, v.z)

/-! ## Record of the writes -/

/-- The assignments made so far went to the positions `0, 1, ...` below the cursors, each
once and in this order: in `vertices` and `normals` up to `kv`, in `texCoords` up to `kt`
and in `indices` up to `ki`. -/
def WritesInOrder {β : Type} (b : Buffers β) : Prop :=
  b.writesV = List.range b.kv ∧ b.writesN = List.range b.kv ∧
  b.writesT = List.range b.kt ∧ b.writesI = List.range b.ki

/-- As `WritesInOrder`, for `ring` before its last loop: no normal has been assigned. -/
def RingWritesInOrder {β : Type} (b : Buffers β) : Prop :=
  b.writesV = List.range b.kv ∧ b.writesN = [] ∧
  b.writesT = List.range b.kt ∧ b.writesI = List.range b.ki

/-- The positions that the last loop of `ring` assigns in its first `n` iterations. -/
def ringNormalWrites (n : Nat) : List Nat :=
  (List.range n).flatMap (fun i => [3 * i + 1, 3 * i, 3 * i + 2])

/-! ## Generator calls on the program state -/

/-- A call of one of the eight generators of the program, with its arguments. -/
inductive GeneratorCall (α : Type) where
  /-- `cube(side)` -/
  | cube (side : Option α) : GeneratorCall α
  /-- `ring(innerRadius, outerRadius, slices)` with `arguments.length` -/
  | ring (argumentsLength : Nat) (innerRadius outerRadius : Option α)
      (slices : Option Int) : GeneratorCall α
  /-- `uvSphere(radius, slices, stacks, pos_x, pos_y, pos_z)` -/
  | uvSphere (radius : Option α) (slices nstacks : Option Int)
      (pos_x pos_y pos_z : Option α) : GeneratorCall α
  /-- `uvTorus(outerRadius, innerRadius, slices, stacks)` -/
  | uvTorus (outerRadius innerRadius : Option α) (slices nstacks : Option Int) :
      GeneratorCall α
  /-- `uvCylinder(radius, height, slices, noTop, noBottom)` -/
  | uvCylinder (radius height : Option α) (slices : Option Int) (noTop noBottom : Bool) :
      GeneratorCall α
  /-- `uvCone(radius, height, slices, noBottom)` -/
  | uvCone (radius height : Option α) (slices : Option Int) (noBottom : Bool) :
      GeneratorCall α
  /-- `new obj_sphere(radius, pos_x, pos_y, pos_z, alpha, degree)` -/
  | obj_sphere (radius pos_x pos_y pos_z alpha degree : α) : GeneratorCall α
  /-- `new obj_ring(inner_radius, outer_radius, pos_x, pos_y, pos_z, alpha, degree)` -/
  | obj_ring (inner_radius outer_radius pos_x pos_y pos_z alpha degree : α) :
      GeneratorCall α

/-- What a call of a generator gives back. -/
inductive GeneratorResult (α : Type) where
  /-- The mesh of `cube`, with `Float32Array` elements. -/
  | cubeMesh (m : Mesh (Float32Value α)) : GeneratorResult α
  /-- The mesh of `ring`, or the error it raised. -/
  | ringMesh (m : Except JSError (Mesh (Option α))) : GeneratorResult α
  /-- The mesh of `uvSphere`, `uvTorus`, `uvCylinder` or `uvCone`, or the error raised. -/
  | mesh (m : Except JSError (Mesh α)) : GeneratorResult α
  /-- The object built by `obj_sphere` or `obj_ring`; `none`: the loops did not end within
  the fuel. -/
  | object (o : Option (SceneObject α)) : GeneratorResult α

/-- One call of a generator in the program state `g`, in the arithmetic of the program
(loop variables of `obj_sphere` and `obj_ring` are doubles): what the call gives back and
the program state after it.  `ring` is run on `g` and leaves the globals it has assigned; a
`ring` that raises does so in the allocation, before its first assignment.  The body of no
other generator names a variable that is not a parameter or a `var` of its own, so that
such a call neither reads `g` nor changes it. -/
def GeneratorCall.exec {α : Type} [LinearOrderedField α] [FloorRing α] (M : JSMath α)
    (maxLength : Option Nat) (fuel : Nat) (g : Globals α) :
    GeneratorCall α → GeneratorResult α × Globals α
  | GeneratorCall.cube side => (GeneratorResult.cubeMesh (IFS.cube side), g)
  | GeneratorCall.ring argumentsLength innerRadius outerRadius slices =>
    match ring.run M g argumentsLength innerRadius outerRadius slices maxLength with
    | Except.ok st => (GeneratorResult.ringMesh (Except.ok st.buf.toMesh), st.globals)
    | Except.error e => (GeneratorResult.ringMesh (Except.error e), g)
  | GeneratorCall.uvSphere radius slices nstacks pos_x pos_y pos_z =>
    (GeneratorResult.mesh (IFS.uvSphere M radius slices nstacks pos_x pos_y pos_z maxLength),
      g)
  | GeneratorCall.uvTorus outerRadius innerRadius slices nstacks =>
    (GeneratorResult.mesh (IFS.uvTorus M outerRadius innerRadius slices nstacks maxLength), g)
  | GeneratorCall.uvCylinder radius height slices noTop noBottom =>
    (GeneratorResult.mesh (IFS.uvCylinder M radius height slices noTop noBottom maxLength),
      g)
  | GeneratorCall.uvCone radius height slices noBottom =>
    (GeneratorResult.mesh (IFS.uvCone M radius height slices noBottom maxLength), g)
  | GeneratorCall.obj_sphere radius pos_x pos_y pos_z alpha degree =>
    (GeneratorResult.object
      (IFS.obj_sphere M fuel radius pos_x pos_y pos_z alpha degree toFloat64), g)
  | GeneratorCall.obj_ring inner_radius outer_radius pos_x pos_y pos_z alpha degree =>
    (GeneratorResult.object
      (IFS.obj_ring M fuel inner_radius outer_radius pos_x pos_y pos_z alpha degree
        toFloat64), g)

/-- The program state after a sequence of generator calls. -/
def runCalls {α : Type} [LinearOrderedField α] [FloorRing α] (M : JSMath α)
    (maxLength : Option Nat) (fuel : Nat) (calls : List (GeneratorCall α)) (g : Globals α) :
    Globals α :=
  calls.foldl (fun g call => (call.exec M maxLength fuel g).2) g

/-! ## Theorems -/

/-! ### Loops -/

/-- Induction over the iterations of `forRange`. -/
theorem forRange_induction {σ : Type} (P : Nat → σ → Prop) (n : Int) (body : Nat → σ → σ)
    (st : σ) (h0 : P 0 st)
    (hstep : ∀ i s, i < n.toNat → P i s → P (i + 1) (body i s)) :
    P n.toNat (forRange n body st) := by
  unfold forRange
  generalize n.toNat = m at hstep ⊢
  induction m with
  | zero => simpa using h0
  | succ k ih =>
    rw [List.range_succ, List.foldl_append]
    simp only [List.foldl_cons, List.foldl_nil]
    exact hstep k _ (Nat.lt_succ_self k)
      (ih (fun i s hi hp => hstep i s (Nat.lt_succ_of_lt hi) hp))

/-- An invariant of the body is an invariant of the loop. -/
theorem forRange_invariant {σ : Type} (P : σ → Prop) (n : Int) (body : Nat → σ → σ)
    (st : σ) (h0 : P st) (hstep : ∀ i s, i < n.toNat → P s → P (body i s)) :
    P (forRange n body st) :=
  forRange_induction (fun _ s => P s) n body st h0 hstep

/-! ### Array lengths and cursors -/

theorem Adv.trans {β : Type} {dv dt di dv2 dt2 di2 : Nat} {b1 b2 b3 : Buffers β}
    (h1 : Adv dv dt di b1 b2) (h2 : Adv dv2 dt2 di2 b2 b3) :
    Adv (dv + dv2) (dt + dt2) (di + di2) b1 b3 := by
  obtain ⟨a1, a2, a3, a4, a5, a6, a7⟩ := h1
  obtain ⟨c1, c2, c3, c4, c5, c6, c7⟩ := h2
  refine ⟨?_, ?_, ?_, ?_, ?_, ?_, ?_⟩ <;> omega

theorem Adv.cast {β : Type} {dv dt di dv2 dt2 di2 : Nat} {b1 b2 : Buffers β}
    (h : Adv dv dt di b1 b2) (hv : dv = dv2) (ht : dt = dt2) (hi : di = di2) :
    Adv dv2 dt2 di2 b1 b2 := by
  subst hv ht hi
  exact h

/-- A loop whose body advances the cursors by fixed amounts advances them by the trip
count times these amounts. -/
theorem Adv.loop {β : Type} {dv dt di : Nat} (n : Int) (body : Nat → Buffers β → Buffers β)
    (b : Buffers β) (h : ∀ i s, i < n.toNat → Adv dv dt di s (body i s)) :
    Adv (n.toNat * dv) (n.toNat * dt) (n.toNat * di) b (forRange n body b) := by
  refine forRange_induction (fun i s => Adv (i * dv) (i * dt) (i * di) b s) n body b ?_ ?_
  · simp [Adv]
  · intro i s hi hs
    exact ((hs.trans (h i s hi)).cast (by ring) (by ring) (by ring))

/-! ### Index bound -/

theorem toUint16_lt {v : Int} {N : Nat} (h0 : 0 ≤ v) (h : v < (N : Int)) : toUint16 v < N := by
  unfold toUint16
  omega

theorem IdxBound.store {β : Type} {N : Nat} {b : Buffers β} (h : IdxBound N b) {v : Int}
    (h0 : 0 ≤ v) (hv : v < (N : Int)) : IdxBound N (b.pushI v) := by
  intro x hx
  rcases List.mem_or_eq_of_mem_set hx with hx | hx
  · exact h x hx
  · rw [hx]; exact toUint16_lt h0 hv

theorem IdxBound.of_indices_eq {β : Type} {N : Nat} {b b2 : Buffers β} (h : IdxBound N b)
    (he : b2.indices = b.indices) : IdxBound N b2 := by
  intro x hx
  rw [he] at hx
  exact h x hx

/-! ### Unit normals -/

theorem getD_set_ne {β : Type} (l : List β) (i j : Nat) (v d : β) (h : i ≠ j) :
    (l.set i v).getD j d = l.getD j d := by
  simp [List.getD_eq_getElem?_getD, List.getElem?_set_ne h]

theorem getD_set_eq {β : Type} (l : List β) (i j : Nat) (v d : β) (hij : i = j)
    (h : i < l.length) : (l.set i v).getD j d = v := by
  subst hij
  simp [List.getD_eq_getElem?_getD, List.getElem?_set_self, h]

theorem NormalsOK.of_eq {α : Type} [Field α] {b b2 : Buffers α} (h : NormalsOK b)
    (hn : b2.normals = b.normals) (hk : b2.kv = b.kv) : NormalsOK b2 := by
  unfold NormalsOK
  rw [hn, hk]
  exact h

theorem NormalsOK.keepTex {α : Type} [Field α] {b : Buffers α} (h : NormalsOK b) (v : α) :
    NormalsOK (b.pushT v) := h.of_eq rfl rfl

theorem NormalsOK.keepIndex {α : Type} [Field α] {b : Buffers α} (h : NormalsOK b) (v : Int) :
    NormalsOK (b.pushI v) := h.of_eq rfl rfl

/-- Writing one vertex, position and unit normal, keeps the normals written so far unit. -/
theorem NormalsOK.triple {α : Type} [Field α] {b : Buffers α} (h : NormalsOK b)
    (a1 a2 a3 x y z : α) (hu : normSq (x, y, z) = 1) :
    NormalsOK ((((((b.setV a1).pushN x).setV a2).pushN y).setV a3).pushN z) := by
  obtain ⟨h3, hn⟩ := h
  refine ⟨?_, ?_⟩
  · simp only [Buffers.setV, Buffers.pushN]; omega
  · intro i hi hl
    simp only [Buffers.setV, Buffers.pushN, List.length_set] at hi hl ⊢
    by_cases hlt : 3 * i + 2 < b.kv
    · have := hn i hlt hl
      simp only [vec3At] at this ⊢
      rw [getD_set_ne _ _ _ _ _ (by omega), getD_set_ne _ _ _ _ _ (by omega),
        getD_set_ne _ _ _ _ _ (by omega), getD_set_ne _ _ _ _ _ (by omega),
        getD_set_ne _ _ _ _ _ (by omega), getD_set_ne _ _ _ _ _ (by omega),
        getD_set_ne _ _ _ _ _ (by omega), getD_set_ne _ _ _ _ _ (by omega),
        getD_set_ne _ _ _ _ _ (by omega)]
      exact this
    · have hk : b.kv = 3 * i := by omega
      simp only [vec3At]
      rw [getD_set_ne _ _ _ _ _ (by omega), getD_set_ne _ _ _ _ _ (by omega),
        getD_set_eq _ _ _ _ _ (by omega) (by omega),
        getD_set_ne _ _ _ _ _ (by omega),
        getD_set_eq _ _ _ _ _ (by omega) (by simp only [List.length_set]; omega),
        getD_set_eq _ _ _ _ _ (by omega) (by simp only [List.length_set]; omega)]
      exact hu

theorem allocate_ok {β : Type} (zero : β) (a b c d : Int) (ha : 0 ≤ a) (hb : 0 ≤ b)
    (hc : 0 ≤ c) (hd : 0 ≤ d) :
    allocate zero a b c d = Except.ok (fresh zero a.toNat b.toNat c.toNat d.toNat) := by
  simp [allocate, newTypedArray, not_lt.mpr ha, not_lt.mpr hb, not_lt.mpr hc, not_lt.mpr hd,
    fresh, bind, Except.bind, pure, Except.pure]

theorem IdxBound.atStart {β : Type} (zero : β) (nv nn nt ni N : Nat) (hN : 0 < N) :
    IdxBound N (fresh zero nv nn nt ni) := by
  intro x hx
  simp only [IFS.fresh, List.mem_replicate] at hx
  omega

theorem NormalsOK.atStart0 {α : Type} [Field α] (nv nn nt ni : Nat) :
    NormalsOK (fresh (0 : α) nv nn nt ni) := by
  refine ⟨rfl, ?_⟩
  intro i hi
  simp [IFS.fresh] at hi

theorem orDefault_some {α : Type} [Zero α] [DecidableEq α] (v d : α) (h : v ≠ 0) :
    orDefault (some v) d = v := by
  simp [orDefault, h]

/-! ### uvSphere -/

theorem uvSphere_run_eq {α : Type} [Field α] [DecidableEq α] (M : JSMath α)
    (radius : Option α) (slices nstacks : Nat) (hs : 0 < slices) (ht : 0 < nstacks)
    (pos_x pos_y pos_z : Option α) :
    uvSphere.run M radius (some (slices : Int)) (some (nstacks : Int)) pos_x pos_y pos_z =
      Except.ok
        (forRange (nstacks : Int) (fun j b => forRange (slices : Int)
            (gridIndexStep (slices : Int) j) b)
          (forRange ((nstacks : Int) + 1) (fun i b => forRange ((slices : Int) + 1)
            (uvSphere.vertexStep M (orDefault radius (1 / 2)) (orDefault pos_x 0)
              (orDefault pos_y 0) (orDefault pos_z 0) (slices : Int) (nstacks : Int) i) b)
            (fresh (0 : α) (3 * ((slices + 1) * (nstacks + 1)))
              (3 * ((slices + 1) * (nstacks + 1))) (2 * ((slices + 1) * (nstacks + 1)))
              (2 * slices * nstacks * 3)))) := by
  have h1 : ((slices : Int)) ≠ 0 := by omega
  have h2 : ((nstacks : Int)) ≠ 0 := by omega
  have e1 : (3 * (((slices : Int) + 1) * ((nstacks : Int) + 1))).toNat =
      3 * ((slices + 1) * (nstacks + 1)) := by
    have : (3 * (((slices : Int) + 1) * ((nstacks : Int) + 1))) =
      ((3 * ((slices + 1) * (nstacks + 1)) : Nat) : Int) := by push_cast; ring
    rw [this, Int.toNat_ofNat]
  have e2 : (2 * (((slices : Int) + 1) * ((nstacks : Int) + 1))).toNat =
      2 * ((slices + 1) * (nstacks + 1)) := by
    have : (2 * (((slices : Int) + 1) * ((nstacks : Int) + 1))) =
      ((2 * ((slices + 1) * (nstacks + 1)) : Nat) : Int) := by push_cast; ring
    rw [this, Int.toNat_ofNat]
  have e3 : (2 * (slices : Int) * (nstacks : Int) * 3).toNat = 2 * slices * nstacks * 3 := by
    have : (2 * (slices : Int) * (nstacks : Int) * 3) =
      ((2 * slices * nstacks * 3 : Nat) : Int) := by push_cast; ring
    rw [this, Int.toNat_ofNat]
  simp only [uvSphere.run, orDefault_some _ _ h1, orDefault_some _ _ h2]
  rw [allocate_ok _ _ _ _ _ (by positivity) (by positivity) (by positivity) (by positivity)]
  simp only [e1, e2, e3]
  rfl

/-! ### Grid triangulation (uvSphere, uvTorus, uvCone) -/

theorem gridIndexStep_adv {β : Type} (slices : Int) (j i : Nat) (b : Buffers β) :
    Adv 0 0 6 b (gridIndexStep slices j i b) := by
  simp [Adv, gridIndexStep, Buffers.pushI]

theorem gridIndexStep_normals {α : Type} [Field α] (slices : Int) (j i : Nat)
    (b : Buffers α) (h : NormalsOK b) : NormalsOK (gridIndexStep slices j i b) :=
  h.of_eq rfl rfl

theorem gridIndexStep_idx {β : Type} (slices rows N j i : Nat) (b : Buffers β)
    (hN : (rows + 1) * (slices + 1) ≤ N) (hj : j < rows) (hi : i < slices)
    (h : IdxBound N b) : IdxBound N (gridIndexStep (slices : Int) j i b) := by
  have h1 : (j + 2) * (slices + 1) ≤ (rows + 1) * (slices + 1) :=
    Nat.mul_le_mul_right _ (by omega)
  have h2 : (((j + 2) * (slices + 1) : Nat) : Int) ≤ (N : Int) := by
    exact_mod_cast le_trans h1 hN
  push_cast at h2
  have hj0 : (0 : Int) ≤ (j : Int) * ((slices : Int) + 1) := by positivity
  have hj1 : (0 : Int) ≤ ((j : Int) + 1) * ((slices : Int) + 1) := by positivity
  have hi' : (i : Int) < (slices : Int) := by exact_mod_cast hi
  have hi0 : (0 : Int) ≤ (i : Int) := by positivity
  unfold gridIndexStep
  refine IdxBound.store (IdxBound.store (IdxBound.store (IdxBound.store (IdxBound.store
    (IdxBound.store h ?_ ?_) ?_ ?_) ?_ ?_) ?_ ?_) ?_ ?_) ?_ ?_ <;> nlinarith

theorem toNat_cast_succ (n : Nat) : ((n : Int) + 1).toNat = n + 1 := by omega

theorem gridIndex_adv {β : Type} (slices rows : Nat) (b : Buffers β) :
    Adv 0 0 (rows * (slices * 6)) b
      (forRange (rows : Int) (fun j b =>
        forRange (slices : Int) (gridIndexStep (slices : Int) j) b) b) := by
  have h := Adv.loop (rows : Int)
    (fun j b => forRange (slices : Int) (gridIndexStep (slices : Int) j) b) b
    (fun j s1 _ => Adv.loop (slices : Int) (gridIndexStep (slices : Int) j) s1
      (fun i s2 _ => gridIndexStep_adv (slices : Int) j i s2))
  simpa using h

theorem gridIndex_normals {α : Type} [Field α] (slices rows : Nat) (b : Buffers α)
    (h : NormalsOK b) :
    NormalsOK (forRange (rows : Int) (fun j b =>
        forRange (slices : Int) (gridIndexStep (slices : Int) j) b) b) :=
  forRange_invariant NormalsOK _ _ _ h (fun j s _ hs =>
    forRange_invariant NormalsOK _ _ _ hs (fun i s2 _ hs2 =>
      gridIndexStep_normals _ j i s2 hs2))

theorem gridIndex_idx {β : Type} (slices rows N : Nat) (b : Buffers β)
    (hN : (rows + 1) * (slices + 1) ≤ N) (h : IdxBound N b) :
    IdxBound N (forRange (rows : Int) (fun j b =>
        forRange (slices : Int) (gridIndexStep (slices : Int) j) b) b) :=
  forRange_invariant (IdxBound N) _ _ _ h (fun j s hj hs =>
    forRange_invariant (IdxBound N) _ _ _ hs (fun i s2 hi hs2 =>
      gridIndexStep_idx slices rows N j i s2 hN (by simpa using hj) (by simpa using hi) hs2))

theorem uvSphere_vertexStep_adv {α : Type} [Field α] (M : JSMath α)
    (radius pos_x pos_y pos_z : α) (slices nstacks : Int) (i j : Nat) (b : Buffers α) :
    Adv 3 2 0 b (uvSphere.vertexStep M radius pos_x pos_y pos_z slices nstacks i j b) := by
  simp [Adv, uvSphere.vertexStep, Buffers.pushT, Buffers.pushN, Buffers.setV]

theorem uvSphere_vertexStep_normals {α : Type} [Field α] (M : JSMath α) (hM : Pythagorean M)
    (radius pos_x pos_y pos_z : α) (slices nstacks : Int) (i j : Nat) (b : Buffers α)
    (h : NormalsOK b) :
    NormalsOK (uvSphere.vertexStep M radius pos_x pos_y pos_z slices nstacks i j b) := by
  unfold uvSphere.vertexStep
  refine ((h.triple _ _ _ _ _ _ ?_).keepTex _).keepTex _
  have hu := hM ((j : α) * (2 * M.PI / (slices : α)))
  have hv := hM (-M.PI / 2 + (i : α) * (M.PI / (nstacks : α)))
  simp only [normSq]
  linear_combination
    (M.cos (-M.PI / 2 + (i : α) * (M.PI / (nstacks : α))) *
      M.cos (-M.PI / 2 + (i : α) * (M.PI / (nstacks : α)))) * hu + hv

/-- What a run of `uvSphere` with positive `slices` and `stacks` leaves behind: arrays of
the allocated lengths, cursors at the ends of the arrays, indices below the vertex count,
and unit normals. -/
theorem uvSphere_run_spec {α : Type} [Field α] [DecidableEq α] (M : JSMath α)
    (radius : Option α) (slices nstacks : Nat) (hs : 0 < slices) (ht : 0 < nstacks)
    (pos_x pos_y pos_z : Option α) :
    ∃ b, uvSphere.run M radius (some (slices : Int)) (some (nstacks : Int))
        pos_x pos_y pos_z = Except.ok b ∧
      Adv (3 * ((slices + 1) * (nstacks + 1))) (2 * ((slices + 1) * (nstacks + 1)))
        (2 * slices * nstacks * 3)
        (fresh (0 : α) (3 * ((slices + 1) * (nstacks + 1)))
          (3 * ((slices + 1) * (nstacks + 1))) (2 * ((slices + 1) * (nstacks + 1)))
          (2 * slices * nstacks * 3)) b ∧
      IdxBound ((slices + 1) * (nstacks + 1)) b ∧ (Pythagorean M → NormalsOK b) := by
  refine ⟨_, uvSphere_run_eq M radius slices nstacks hs ht pos_x pos_y pos_z, ?_, ?_, ?_⟩
  · have h1 := Adv.loop ((nstacks : Int) + 1)
      (fun i b => forRange ((slices : Int) + 1)
        (uvSphere.vertexStep M (orDefault radius (1 / 2)) (orDefault pos_x 0)
          (orDefault pos_y 0) (orDefault pos_z 0) (slices : Int) (nstacks : Int) i) b)
      (fresh (0 : α) (3 * ((slices + 1) * (nstacks + 1)))
          (3 * ((slices + 1) * (nstacks + 1))) (2 * ((slices + 1) * (nstacks + 1)))
          (2 * slices * nstacks * 3))
      (fun i s _ => Adv.loop ((slices : Int) + 1) _ s
        (fun j s2 _ => uvSphere_vertexStep_adv M _ _ _ _ _ _ i j s2))
    refine (h1.trans (gridIndex_adv slices nstacks _)).cast ?_ ?_ ?_
    · simp only [toNat_cast_succ]; ring
    · simp only [toNat_cast_succ]; ring
    · ring
  · refine gridIndex_idx slices nstacks _ _ (by rw [Nat.mul_comm]) ?_
    refine forRange_invariant (IdxBound _) _ _ _
      (IdxBound.atStart _ _ _ _ _ _ (by positivity)) ?_
    intro i s _ hs'
    exact forRange_invariant (IdxBound _) _ _ _ hs' (fun j s2 _ h2 => h2.of_indices_eq rfl)
  · intro hM
    refine gridIndex_normals slices nstacks _ ?_
    refine forRange_invariant NormalsOK _ _ _ (NormalsOK.atStart0 _ _ _ _) ?_
    intro i s _ hs'
    exact forRange_invariant NormalsOK _ _ _ hs'
      (fun j s2 _ h2 => uvSphere_vertexStep_normals M hM _ _ _ _ _ _ i j s2 h2)

/-! ### uvTorus -/

theorem uvTorus_run_eq {α : Type} [Field α] [DecidableEq α] (M : JSMath α)
    (outerRadius innerRadius : Option α) (slices nstacks : Nat) (hs : 0 < slices)
    (ht : 0 < nstacks) :
    uvTorus.run M outerRadius innerRadius (some (slices : Int)) (some (nstacks : Int)) =
      Except.ok
        (forRange (nstacks : Int) (fun j b => forRange (slices : Int)
            (gridIndexStep (slices : Int) j) b)
          (forRange ((nstacks : Int) + 1) (fun j b => forRange ((slices : Int) + 1)
            (uvTorus.vertexStep M (orDefault outerRadius (1 / 2))
              (orDefault innerRadius (orDefault outerRadius (1 / 2) / 3))
              (slices : Int) (nstacks : Int) j) b)
            (fresh (0 : α) (3 * ((slices + 1) * (nstacks + 1)))
              (3 * ((slices + 1) * (nstacks + 1))) (2 * ((slices + 1) * (nstacks + 1)))
              (2 * slices * nstacks * 3)))) := by
  have h1 : ((slices : Int)) ≠ 0 := by omega
  have h2 : ((nstacks : Int)) ≠ 0 := by omega
  have e1 : (3 * (((slices : Int) + 1) * ((nstacks : Int) + 1))).toNat =
      3 * ((slices + 1) * (nstacks + 1)) := by
    have : (3 * (((slices : Int) + 1) * ((nstacks : Int) + 1))) =
      ((3 * ((slices + 1) * (nstacks + 1)) : Nat) : Int) := by push_cast; ring
    rw [this, Int.toNat_ofNat]
  have e2 : (2 * (((slices : Int) + 1) * ((nstacks : Int) + 1))).toNat =
      2 * ((slices + 1) * (nstacks + 1)) := by
    have : (2 * (((slices : Int) + 1) * ((nstacks : Int) + 1))) =
      ((2 * ((slices + 1) * (nstacks + 1)) : Nat) : Int) := by push_cast; ring
    rw [this, Int.toNat_ofNat]
  have e3 : (2 * (slices : Int) * (nstacks : Int) * 3).toNat = 2 * slices * nstacks * 3 := by
    have : (2 * (slices : Int) * (nstacks : Int) * 3) =
      ((2 * slices * nstacks * 3 : Nat) : Int) := by push_cast; ring
    rw [this, Int.toNat_ofNat]
  simp only [uvTorus.run, orDefault_some _ _ h1, orDefault_some _ _ h2]
  rw [allocate_ok _ _ _ _ _ (by positivity) (by positivity) (by positivity) (by positivity)]
  simp only [e1, e2, e3]
  rfl

theorem uvTorus_vertexStep_adv {α : Type} [Field α] (M : JSMath α)
    (outerRadius innerRadius : α) (slices nstacks : Int) (j i : Nat) (b : Buffers α) :
    Adv 3 2 0 b (uvTorus.vertexStep M outerRadius innerRadius slices nstacks j i b) := by
  simp [Adv, uvTorus.vertexStep, Buffers.pushT, Buffers.pushN, Buffers.setV]

theorem uvTorus_vertexStep_normals {α : Type} [Field α] (M : JSMath α) (hM : Pythagorean M)
    (outerRadius innerRadius : α) (slices nstacks : Int) (j i : Nat) (b : Buffers α)
    (h : NormalsOK b) :
    NormalsOK (uvTorus.vertexStep M outerRadius innerRadius slices nstacks j i b) := by
  unfold uvTorus.vertexStep
  refine ((h.triple _ _ _ _ _ _ ?_).keepTex _).keepTex _
  have hu := hM ((i : α) * (2 * M.PI / (slices : α)))
  have hv := hM (-M.PI + (j : α) * (2 * M.PI / (nstacks : α)))
  simp only [normSq]
  linear_combination
    (M.cos (-M.PI + (j : α) * (2 * M.PI / (nstacks : α))) *
      M.cos (-M.PI + (j : α) * (2 * M.PI / (nstacks : α)))) * hu + hv

/-- What a run of `uvTorus` with positive `slices` and `stacks` leaves behind. -/
theorem uvTorus_run_spec {α : Type} [Field α] [DecidableEq α] (M : JSMath α)
    (outerRadius innerRadius : Option α) (slices nstacks : Nat) (hs : 0 < slices)
    (ht : 0 < nstacks) :
    ∃ b, uvTorus.run M outerRadius innerRadius (some (slices : Int))
        (some (nstacks : Int)) = Except.ok b ∧
      Adv (3 * ((slices + 1) * (nstacks + 1))) (2 * ((slices + 1) * (nstacks + 1)))
        (2 * slices * nstacks * 3)
        (fresh (0 : α) (3 * ((slices + 1) * (nstacks + 1)))
          (3 * ((slices + 1) * (nstacks + 1))) (2 * ((slices + 1) * (nstacks + 1)))
          (2 * slices * nstacks * 3)) b ∧
      IdxBound ((slices + 1) * (nstacks + 1)) b ∧ (Pythagorean M → NormalsOK b) := by
  refine ⟨_, uvTorus_run_eq M outerRadius innerRadius slices nstacks hs ht, ?_, ?_, ?_⟩
  · have h1 := Adv.loop ((nstacks : Int) + 1)
      (fun j b => forRange ((slices : Int) + 1)
        (uvTorus.vertexStep M (orDefault outerRadius (1 / 2))
          (orDefault innerRadius (orDefault outerRadius (1 / 2) / 3))
          (slices : Int) (nstacks : Int) j) b)
      (fresh (0 : α) (3 * ((slices + 1) * (nstacks + 1)))
          (3 * ((slices + 1) * (nstacks + 1))) (2 * ((slices + 1) * (nstacks + 1)))
          (2 * slices * nstacks * 3))
      (fun j s _ => Adv.loop ((slices : Int) + 1) _ s
        (fun i s2 _ => uvTorus_vertexStep_adv M _ _ _ _ j i s2))
    refine (h1.trans (gridIndex_adv slices nstacks _)).cast ?_ ?_ ?_
    · simp only [toNat_cast_succ]; ring
    · simp only [toNat_cast_succ]; ring
    · ring
  · refine gridIndex_idx slices nstacks _ _ (by rw [Nat.mul_comm]) ?_
    refine forRange_invariant (IdxBound _) _ _ _
      (IdxBound.atStart _ _ _ _ _ _ (by positivity)) ?_
    intro i s _ hs'
    exact forRange_invariant (IdxBound _) _ _ _ hs' (fun j s2 _ h2 => h2.of_indices_eq rfl)
  · intro hM
    refine gridIndex_normals slices nstacks _ ?_
    refine forRange_invariant NormalsOK _ _ _ (NormalsOK.atStart0 _ _ _ _) ?_
    intro j s _ hs'
    exact forRange_invariant NormalsOK _ _ _ hs'
      (fun i s2 _ h2 => uvTorus_vertexStep_normals M hM _ _ _ _ j i s2 h2)

/-! ### Caps (uvCylinder, uvCone) -/

theorem capIndexStep_adv {β : Type} (startIndex : Int) (i : Nat) (b : Buffers β) :
    Adv 0 0 3 b (capIndexStep startIndex i b) := by
  simp [Adv, capIndexStep, Buffers.pushI]

theorem capIndexStep_idx {β : Type} (start slices N i : Nat) (b : Buffers β)
    (hN : start + slices + 2 ≤ N) (hi : i < slices) (h : IdxBound N b) :
    IdxBound N (capIndexStep (start : Int) i b) := by
  unfold capIndexStep
  refine IdxBound.store (IdxBound.store (IdxBound.store h ?_ ?_) ?_ ?_) ?_ ?_ <;> omega

theorem capCenter_adv {α : Type} [Field α] (z nz : α) (b : Buffers α) :
    Adv 3 2 0 b (capCenter z nz b) := by
  simp [Adv, capCenter, Buffers.pushT, Buffers.pushN, Buffers.setV]

theorem capCenter_normals {α : Type} [Field α] (z nz : α) (hnz : nz * nz = 1)
    (b : Buffers α) (h : NormalsOK b) : NormalsOK (capCenter z nz b) := by
  unfold capCenter
  refine ((h.triple _ _ _ _ _ _ ?_).keepTex _).keepTex _
  simp [normSq, hnz]

theorem bottomRimStep_adv {α : Type} [Field α] (M : JSMath α) (radius height : α)
    (slices : Int) (i : Nat) (b : Buffers α) :
    Adv 3 2 0 b (bottomRimStep M radius height slices i b) := by
  simp [Adv, bottomRimStep, Buffers.pushT, Buffers.pushN, Buffers.setV]

theorem bottomRimStep_normals {α : Type} [Field α] (M : JSMath α) (radius height : α)
    (slices : Int) (i : Nat) (b : Buffers α) (h : NormalsOK b) :
    NormalsOK (bottomRimStep M radius height slices i b) := by
  unfold bottomRimStep
  refine ((h.triple _ _ _ _ _ _ ?_).keepTex _).keepTex _
  simp [normSq]

theorem topRimStep_adv {α : Type} [Field α] (M : JSMath α) (radius height : α)
    (slices : Int) (i : Nat) (b : Buffers α) :
    Adv 3 2 0 b (uvCylinder.topRimStep M radius height slices i b) := by
  simp [Adv, uvCylinder.topRimStep, Buffers.pushT, Buffers.pushN, Buffers.setV]

theorem topRimStep_normals {α : Type} [Field α] (M : JSMath α) (radius height : α)
    (slices : Int) (i : Nat) (b : Buffers α) (h : NormalsOK b) :
    NormalsOK (uvCylinder.topRimStep M radius height slices i b) := by
  unfold uvCylinder.topRimStep
  refine ((h.triple _ _ _ _ _ _ ?_).keepTex _).keepTex _
  simp [normSq]

/-- The bottom cap adds `slices + 2` vertices and `slices` triangles. -/
theorem bottomCap_adv {α : Type} [Field α] (M : JSMath α) (radius height : α)
    (slices : Nat) (b : Buffers α) :
    Adv (3 * (slices + 2)) (2 * (slices + 2)) (3 * slices) b
      (bottomCap M radius height (slices : Int) b) := by
  unfold bottomCap
  have h1 := capCenter_adv (-height / 2) (-1) b
  have h2 := Adv.loop ((slices : Int) + 1) (bottomRimStep M radius height (slices : Int))
    (capCenter (-height / 2) (-1) b) (fun i s _ => bottomRimStep_adv M radius height _ i s)
  have h3 := Adv.loop (slices : Int) (capIndexStep (((b.kv / 3 : Nat) : Int)))
    (forRange ((slices : Int) + 1) (bottomRimStep M radius height (slices : Int))
      (capCenter (-height / 2) (-1) b)) (fun i s _ => capIndexStep_adv _ i s)
  refine ((h1.trans h2).trans h3).cast ?_ ?_ ?_
  · simp only [toNat_cast_succ]; ring
  · simp only [toNat_cast_succ]; ring
  · simp only [Int.toNat_ofNat]; ring

theorem bottomCap_normals {α : Type} [Field α] (M : JSMath α) (radius height : α)
    (slices : Nat) (b : Buffers α) (h : NormalsOK b) :
    NormalsOK (bottomCap M radius height (slices : Int) b) := by
  unfold bottomCap
  refine forRange_invariant NormalsOK _ _ _ ?_ (fun i s _ hs => hs.of_eq rfl rfl)
  refine forRange_invariant NormalsOK _ _ _ (capCenter_normals _ _ (by ring) b h) ?_
  exact fun i s _ hs => bottomRimStep_normals M radius height _ i s hs

theorem bottomCap_idx {α : Type} [Field α] (M : JSMath α) (radius height : α)
    (slices N : Nat) (b : Buffers α) (hN : b.kv / 3 + slices + 2 ≤ N) (h : IdxBound N b) :
    IdxBound N (bottomCap M radius height (slices : Int) b) := by
  unfold bottomCap
  refine forRange_invariant (IdxBound N) _ _ _ ?_
    (fun i s hi hs => capIndexStep_idx (b.kv / 3) slices N i s hN (by simpa using hi) hs)
  refine forRange_invariant (IdxBound N) _ _ _ (h.of_indices_eq rfl) ?_
  exact fun i s _ hs => hs.of_indices_eq rfl

/-- The top cap of the cylinder adds `slices + 2` vertices and `slices` triangles. -/
theorem topCap_adv {α : Type} [Field α] (M : JSMath α) (radius height : α)
    (slices : Nat) (b : Buffers α) :
    Adv (3 * (slices + 2)) (2 * (slices + 2)) (3 * slices) b
      (uvCylinder.topCap M radius height (slices : Int) b) := by
  unfold uvCylinder.topCap
  have h1 := capCenter_adv (height / 2) 1 b
  have h2 := Adv.loop ((slices : Int) + 1)
    (uvCylinder.topRimStep M radius height (slices : Int))
    (capCenter (height / 2) 1 b) (fun i s _ => topRimStep_adv M radius height _ i s)
  have h3 := Adv.loop (slices : Int) (capIndexStep (((b.kv / 3 : Nat) : Int)))
    (forRange ((slices : Int) + 1) (uvCylinder.topRimStep M radius height (slices : Int))
      (capCenter (height / 2) 1 b)) (fun i s _ => capIndexStep_adv _ i s)
  refine ((h1.trans h2).trans h3).cast ?_ ?_ ?_
  · simp only [toNat_cast_succ]; ring
  · simp only [toNat_cast_succ]; ring
  · simp only [Int.toNat_ofNat]; ring

theorem topCap_normals {α : Type} [Field α] (M : JSMath α) (radius height : α)
    (slices : Nat) (b : Buffers α) (h : NormalsOK b) :
    NormalsOK (uvCylinder.topCap M radius height (slices : Int) b) := by
  unfold uvCylinder.topCap
  refine forRange_invariant NormalsOK _ _ _ ?_ (fun i s _ hs => hs.of_eq rfl rfl)
  refine forRange_invariant NormalsOK _ _ _ (capCenter_normals _ _ (by ring) b h) ?_
  exact fun i s _ hs => topRimStep_normals M radius height _ i s hs

theorem topCap_idx {α : Type} [Field α] (M : JSMath α) (radius height : α)
    (slices N : Nat) (b : Buffers α) (hN : b.kv / 3 + slices + 2 ≤ N) (h : IdxBound N b) :
    IdxBound N (uvCylinder.topCap M radius height (slices : Int) b) := by
  unfold uvCylinder.topCap
  refine forRange_invariant (IdxBound N) _ _ _ ?_
    (fun i s hi hs => capIndexStep_idx (b.kv / 3) slices N i s hN (by simpa using hi) hs)
  refine forRange_invariant (IdxBound N) _ _ _ (h.of_indices_eq rfl) ?_
  exact fun i s _ hs => hs.of_indices_eq rfl

/-! ### uvCylinder -/

theorem sideStep_adv {α : Type} [Field α] (M : JSMath α) (radius height : α)
    (slices : Int) (i : Nat) (b : Buffers α) :
    Adv 6 4 0 b (uvCylinder.sideStep M radius height slices i b) := by
  simp [Adv, uvCylinder.sideStep, Buffers.pushT, Buffers.pushN, Buffers.setV]

theorem sideStep_normals {α : Type} [Field α] (M : JSMath α) (hM : Pythagorean M)
    (radius height : α) (slices : Int) (i : Nat) (b : Buffers α) (h : NormalsOK b) :
    NormalsOK (uvCylinder.sideStep M radius height slices i b) := by
  unfold uvCylinder.sideStep
  have hu := hM ((i : α) * (2 * M.PI / (slices : α)))
  have hn : normSq (M.cos ((i : α) * (2 * M.PI / (slices : α))),
      M.sin ((i : α) * (2 * M.PI / (slices : α))), (0 : α)) = 1 := by
    simp only [normSq]
    linear_combination hu
  exact ((((((h.triple _ _ _ _ _ _ hn).keepTex _).keepTex _).triple _ _ _ _ _ _ hn).keepTex _).keepTex _)

theorem sideIndexStep_adv {β : Type} (i : Nat) (b : Buffers β) :
    Adv 0 0 6 b (uvCylinder.sideIndexStep i b) := by
  simp [Adv, uvCylinder.sideIndexStep, Buffers.pushI]

theorem sideIndexStep_idx {β : Type} (slices N i : Nat) (b : Buffers β)
    (hN : 2 * (slices + 1) ≤ N) (hi : i < slices) (h : IdxBound N b) :
    IdxBound N (uvCylinder.sideIndexStep i b) := by
  unfold uvCylinder.sideIndexStep
  refine IdxBound.store (IdxBound.store (IdxBound.store (IdxBound.store (IdxBound.store
    (IdxBound.store h ?_ ?_) ?_ ?_) ?_ ?_) ?_ ?_) ?_ ?_) ?_ ?_ <;> omega

/-- The side of the cylinder: `2*(slices+1)` vertices and `2*slices` triangles. -/
theorem cylinder_side_spec {α : Type} [Field α] (M : JSMath α) (radius height : α)
    (slices N : Nat) (b : Buffers α) (hN : 2 * (slices + 1) ≤ N) (hi : IdxBound N b) :
    Adv (6 * (slices + 1)) (4 * (slices + 1)) (6 * slices) b
      (forRange (slices : Int) uvCylinder.sideIndexStep
        (forRange ((slices : Int) + 1) (uvCylinder.sideStep M radius height (slices : Int)) b)) ∧
    IdxBound N (forRange (slices : Int) uvCylinder.sideIndexStep
        (forRange ((slices : Int) + 1) (uvCylinder.sideStep M radius height (slices : Int)) b)) ∧
    (Pythagorean M → NormalsOK b →
      NormalsOK (forRange (slices : Int) uvCylinder.sideIndexStep
        (forRange ((slices : Int) + 1)
          (uvCylinder.sideStep M radius height (slices : Int)) b))) := by
  refine ⟨?_, ?_, ?_⟩
  · have h1 := Adv.loop ((slices : Int) + 1)
      (uvCylinder.sideStep M radius height (slices : Int)) b
      (fun i s _ => sideStep_adv M radius height _ i s)
    have h2 := Adv.loop (slices : Int) uvCylinder.sideIndexStep
      (forRange ((slices : Int) + 1) (uvCylinder.sideStep M radius height (slices : Int)) b)
      (fun i s _ => sideIndexStep_adv i s)
    refine (h1.trans h2).cast ?_ ?_ ?_
    · simp only [toNat_cast_succ]; ring
    · simp only [toNat_cast_succ]; ring
    · simp only [Int.toNat_ofNat]; ring
  · refine forRange_invariant (IdxBound N) _ _ _ ?_
      (fun i s hi' hs => sideIndexStep_idx slices N i s hN (by simpa using hi') hs)
    exact forRange_invariant (IdxBound N) _ _ _ hi (fun i s _ hs => hs.of_indices_eq rfl)
  · intro hM hb
    refine forRange_invariant NormalsOK _ _ _ ?_ (fun i s _ hs => hs.of_eq rfl rfl)
    exact forRange_invariant NormalsOK _ _ _ hb
      (fun i s _ hs => sideStep_normals M hM radius height _ i s hs)

theorem fresh_kv {β : Type} (zero : β) (nv nn nt ni : Nat) : (fresh zero nv nn nt ni).kv = 0 :=
  rfl

/-- What a run of `uvCylinder` with positive `slices` leaves behind. -/
theorem uvCylinder_run_spec {α : Type} [Field α] [DecidableEq α] (M : JSMath α)
    (radius height : Option α) (slices : Nat) (hs : 0 < slices) (noTop noBottom : Bool) :
    ∃ b, uvCylinder.run M radius height (some (slices : Int)) noTop noBottom = Except.ok b ∧
      Adv (3 * cylinderVertices slices noTop noBottom)
        (2 * cylinderVertices slices noTop noBottom)
        (3 * cylinderTriangles slices noTop noBottom)
        (fresh (0 : α) (3 * cylinderVertices slices noTop noBottom)
          (3 * cylinderVertices slices noTop noBottom)
          (2 * cylinderVertices slices noTop noBottom)
          (3 * cylinderTriangles slices noTop noBottom)) b ∧
      IdxBound (cylinderVertices slices noTop noBottom) b ∧
      (Pythagorean M → NormalsOK b) := by
  have h1 : ((slices : Int)) ≠ 0 := by omega
  set r := orDefault radius (1 / 2) with hr
  set h := orDefault height (2 * r) with hh
  cases noTop <;> cases noBottom
  · rw [show cylinderVertices slices false false = 4 * slices + 6 by
        first | (simp [cylinderVertices]; done) | (simp [cylinderVertices]; omega),
      show cylinderTriangles slices false false = 4 * slices by
        first | (simp [cylinderTriangles]; done) | (simp [cylinderTriangles]; omega)]
    have e3 : ((2 * ((slices : Int) + 1) + ((slices : Int) + 2) + ((slices : Int) + 2)) * 3).toNat = 3 * (4 * slices + 6) := by omega
    have e2 : ((2 * ((slices : Int) + 1) + ((slices : Int) + 2) + ((slices : Int) + 2)) * 2).toNat = 2 * (4 * slices + 6) := by omega
    have e1 : ((2 * (slices : Int) + (slices : Int) + (slices : Int)) * 3).toNat = 3 * (4 * slices) := by omega
    obtain ⟨a1, a2, a3⟩ := cylinder_side_spec M r h slices (4 * slices + 6)
      (fresh (0 : α) (3 * (4 * slices + 6)) (3 * (4 * slices + 6)) (2 * (4 * slices + 6)) (3 * (4 * slices)))
      (by omega) (IdxBound.atStart _ _ _ _ _ _ (by omega))
    refine ⟨?w0, ?heq0, ?_, ?_, ?_⟩
    case heq0 =>
      simp only [uvCylinder.run, orDefault_some _ _ h1, Bool.not_false, Bool.not_true,
        if_true, Bool.false_eq_true, if_false]
      rw [allocate_ok _ _ _ _ _ (by positivity) (by positivity) (by positivity) (by positivity)]
      simp only [e1, e2, e3]
      exact rfl
    · refine ((a1.trans (bottomCap_adv M r h slices _)).trans (topCap_adv M r h slices _)).cast ?_ ?_ ?_ <;> omega
    · refine (topCap_idx M r h slices _ _ ?_ (bottomCap_idx M r h slices _ _ ?_ a2))
      · have hkv := (a1.trans (bottomCap_adv M r h slices _)).2.2.2.2.1
        rw [hkv, fresh_kv]
        omega
      · have hkv := a1.2.2.2.2.1
        rw [hkv, fresh_kv]
        omega
    · intro hM
      exact (topCap_normals M r h slices _ (bottomCap_normals M r h slices _ (a3 hM (NormalsOK.atStart0 _ _ _ _))))
  · rw [show cylinderVertices slices false true = 3 * slices + 4 by
        first | (simp [cylinderVertices]; done) | (simp [cylinderVertices]; omega),
      show cylinderTriangles slices false true = 3 * slices by
        first | (simp [cylinderTriangles]; done) | (simp [cylinderTriangles]; omega)]
    have e3 : ((2 * ((slices : Int) + 1) + ((slices : Int) + 2)) * 3).toNat = 3 * (3 * slices + 4) := by omega
    have e2 : ((2 * ((slices : Int) + 1) + ((slices : Int) + 2)) * 2).toNat = 2 * (3 * slices + 4) := by omega
    have e1 : ((2 * (slices : Int) + (slices : Int)) * 3).toNat = 3 * (3 * slices) := by omega
    obtain ⟨a1, a2, a3⟩ := cylinder_side_spec M r h slices (3 * slices + 4)
      (fresh (0 : α) (3 * (3 * slices + 4)) (3 * (3 * slices + 4)) (2 * (3 * slices + 4)) (3 * (3 * slices)))
      (by omega) (IdxBound.atStart _ _ _ _ _ _ (by omega))
    refine ⟨?w1, ?heq1, ?_, ?_, ?_⟩
    case heq1 =>
      simp only [uvCylinder.run, orDefault_some _ _ h1, Bool.not_false, Bool.not_true,
        if_true, Bool.false_eq_true, if_false]
      rw [allocate_ok _ _ _ _ _ (by positivity) (by positivity) (by positivity) (by positivity)]
      simp only [e1, e2, e3]
      exact rfl
    · refine (a1.trans (topCap_adv M r h slices _)).cast ?_ ?_ ?_ <;> omega
    · refine (topCap_idx M r h slices _ _ ?_ a2)
      · have hkv := a1.2.2.2.2.1
        rw [hkv, fresh_kv]
        omega
    · intro hM
      exact (topCap_normals M r h slices _ (a3 hM (NormalsOK.atStart0 _ _ _ _)))
  · rw [show cylinderVertices slices true false = 3 * slices + 4 by
        first | (simp [cylinderVertices]; done) | (simp [cylinderVertices]; omega),
      show cylinderTriangles slices true false = 3 * slices by
        first | (simp [cylinderTriangles]; done) | (simp [cylinderTriangles]; omega)]
    have e3 : ((2 * ((slices : Int) + 1) + ((slices : Int) + 2)) * 3).toNat = 3 * (3 * slices + 4) := by omega
    have e2 : ((2 * ((slices : Int) + 1) + ((slices : Int) + 2)) * 2).toNat = 2 * (3 * slices + 4) := by omega
    have e1 : ((2 * (slices : Int) + (slices : Int)) * 3).toNat = 3 * (3 * slices) := by omega
    obtain ⟨a1, a2, a3⟩ := cylinder_side_spec M r h slices (3 * slices + 4)
      (fresh (0 : α) (3 * (3 * slices + 4)) (3 * (3 * slices + 4)) (2 * (3 * slices + 4)) (3 * (3 * slices)))
      (by omega) (IdxBound.atStart _ _ _ _ _ _ (by omega))
    refine ⟨?w2, ?heq2, ?_, ?_, ?_⟩
    case heq2 =>
      simp only [uvCylinder.run, orDefault_some _ _ h1, Bool.not_false, Bool.not_true,
        if_true, Bool.false_eq_true, if_false]
      rw [allocate_ok _ _ _ _ _ (by positivity) (by positivity) (by positivity) (by positivity)]
      simp only [e1, e2, e3]
      exact rfl
    · refine (a1.trans (bottomCap_adv M r h slices _)).cast ?_ ?_ ?_ <;> omega
    · refine (bottomCap_idx M r h slices _ _ ?_ a2)
      · have hkv := a1.2.2.2.2.1
        rw [hkv, fresh_kv]
        omega
    · intro hM
      exact (bottomCap_normals M r h slices _ (a3 hM (NormalsOK.atStart0 _ _ _ _)))
  · rw [show cylinderVertices slices true true = 2 * slices + 2 by
        first | (simp [cylinderVertices]; done) | (simp [cylinderVertices]; omega),
      show cylinderTriangles slices true true = 2 * slices by simp [cylinderTriangles]]
    have e3 : ((2 * ((slices : Int) + 1)) * 3).toNat = 3 * (2 * slices + 2) := by omega
    have e2 : ((2 * ((slices : Int) + 1)) * 2).toNat = 2 * (2 * slices + 2) := by omega
    have e1 : ((2 * (slices : Int)) * 3).toNat = 3 * (2 * slices) := by omega
    obtain ⟨a1, a2, a3⟩ := cylinder_side_spec M r h slices (2 * slices + 2)
      (fresh (0 : α) (3 * (2 * slices + 2)) (3 * (2 * slices + 2)) (2 * (2 * slices + 2)) (3 * (2 * slices)))
      (by omega) (IdxBound.atStart _ _ _ _ _ _ (by omega))
    refine ⟨?w3, ?heq3, ?_, ?_, ?_⟩
    case heq3 =>
      simp only [uvCylinder.run, orDefault_some _ _ h1, Bool.not_false, Bool.not_true,
        if_true, Bool.false_eq_true, if_false]
      rw [allocate_ok _ _ _ _ _ (by positivity) (by positivity) (by positivity) (by positivity)]
      simp only [e1, e2, e3]
      exact rfl
    · refine a1.cast ?_ ?_ ?_ <;> omega
    · exact a2
    · intro hM
      exact (a3 hM (NormalsOK.atStart0 _ _ _ _))

/-! ### uvCone -/

theorem cone_vertexStep_adv {α : Type} [Field α] (M : JSMath α) (radius height : α)
    (slices : Int) (j i : Nat) (b : Buffers α) :
    Adv 3 2 0 b (uvCone.vertexStep M radius height slices j i b) := by
  simp [Adv, uvCone.vertexStep, Buffers.pushT, Buffers.pushN, Buffers.setV]

theorem cone_slant_normal {α : Type} [Field α] (M : JSMath α) (hM : Pythagorean M)
    (radius height : α) (hn : ConeSlant M radius height) (u : α) :
    normSq (M.cos u * (height / M.sqrt (height * height + radius * radius)),
      M.sin u * (height / M.sqrt (height * height + radius * radius)),
      radius / M.sqrt (height * height + radius * radius)) = 1 := by
  have hu := hM u
  unfold ConeSlant at hn
  simp only [normSq]
  linear_combination
    (height / M.sqrt (height * height + radius * radius) *
      (height / M.sqrt (height * height + radius * radius))) * hu + hn

theorem cone_vertexStep_normals {α : Type} [Field α] (M : JSMath α) (hM : Pythagorean M)
    (radius height : α) (hn : ConeSlant M radius height) (slices : Int) (j i : Nat)
    (b : Buffers α) (h : NormalsOK b) :
    NormalsOK (uvCone.vertexStep M radius height slices j i b) := by
  unfold uvCone.vertexStep
  exact ((h.triple _ _ _ _ _ _ (cone_slant_normal M hM radius height hn _)).keepTex _).keepTex _

theorem cone_tipStep_adv {α : Type} [Field α] (M : JSMath α) (radius height : α)
    (slices : Int) (i : Nat) (b : Buffers α) :
    Adv 3 2 0 b (uvCone.tipStep M radius height slices i b) := by
  simp [Adv, uvCone.tipStep, Buffers.pushT, Buffers.pushN, Buffers.setV]

theorem cone_tipStep_normals {α : Type} [Field α] (M : JSMath α) (hM : Pythagorean M)
    (radius height : α) (hn : ConeSlant M radius height) (slices : Int) (i : Nat)
    (b : Buffers α) (h : NormalsOK b) :
    NormalsOK (uvCone.tipStep M radius height slices i b) := by
  unfold uvCone.tipStep
  exact ((h.triple _ _ _ _ _ _ (cone_slant_normal M hM radius height hn _)).keepTex _).keepTex _

theorem cone_tipIndexStep_adv {β : Type} (start slices : Int) (i : Nat) (b : Buffers β) :
    Adv 0 0 3 b (uvCone.tipIndexStep start slices i b) := by
  simp [Adv, uvCone.tipIndexStep, Buffers.pushI]

theorem cone_tipIndexStep_idx {β : Type} (start : Int) (slices N i : Nat) (b : Buffers β)
    (h0 : 0 ≤ start) (hN : start + ((slices : Int) + 1) + (slices : Int) ≤ (N : Int))
    (hi : i < slices) (h : IdxBound N b) :
    IdxBound N (uvCone.tipIndexStep start (slices : Int) i b) := by
  unfold uvCone.tipIndexStep
  refine IdxBound.store (IdxBound.store (IdxBound.store h ?_ ?_) ?_ ?_) ?_ ?_ <;> omega

theorem resetKi_eq {β : Type} (b : Buffers β) (h : b.ki = 0) : { b with ki := 0 } = b := by
  cases b
  simp only [Buffers.mk.injEq, true_and, and_true] at h ⊢
  exact h.symm

/-- The lateral surface of the cone, before the bottom cap. -/
theorem cone_lateral_spec {α : Type} [Field α] (M : JSMath α) (radius height : α)
    (slices N : Nat) (b : Buffers α)
    (hN : 5 * (slices + 1) + slices ≤ N) (hi : IdxBound N b) :
    Adv (3 * (5 * (slices + 1) + slices)) (2 * (5 * (slices + 1) + slices))
        (3 * (4 * slices * 2 + slices)) b
      (forRange (slices : Int)
        (uvCone.tipIndexStep (((5 * (slices + 1) : Nat) : Int) - ((slices : Int) + 1))
          (slices : Int))
        (forRange (slices : Int) (uvCone.tipStep M radius height (slices : Int))
          (forRange (4 : Int) (fun j b => forRange (slices : Int)
              (gridIndexStep (slices : Int) j) b)
            (forRange (5 : Int) (fun j b => forRange ((slices : Int) + 1)
              (uvCone.vertexStep M radius height (slices : Int) j) b) b)))) ∧
    IdxBound N
      (forRange (slices : Int)
        (uvCone.tipIndexStep (((5 * (slices + 1) : Nat) : Int) - ((slices : Int) + 1))
          (slices : Int))
        (forRange (slices : Int) (uvCone.tipStep M radius height (slices : Int))
          (forRange (4 : Int) (fun j b => forRange (slices : Int)
              (gridIndexStep (slices : Int) j) b)
            (forRange (5 : Int) (fun j b => forRange ((slices : Int) + 1)
              (uvCone.vertexStep M radius height (slices : Int) j) b) b)))) ∧
    (Pythagorean M → ConeSlant M radius height → NormalsOK b →
      NormalsOK
      (forRange (slices : Int)
        (uvCone.tipIndexStep (((5 * (slices + 1) : Nat) : Int) - ((slices : Int) + 1))
          (slices : Int))
        (forRange (slices : Int) (uvCone.tipStep M radius height (slices : Int))
          (forRange (4 : Int) (fun j b => forRange (slices : Int)
              (gridIndexStep (slices : Int) j) b)
            (forRange (5 : Int) (fun j b => forRange ((slices : Int) + 1)
              (uvCone.vertexStep M radius height (slices : Int) j) b) b))))) := by
  have hv := Adv.loop (5 : Int) (fun j b => forRange ((slices : Int) + 1)
      (uvCone.vertexStep M radius height (slices : Int) j) b) b
    (fun j s _ => Adv.loop ((slices : Int) + 1) _ s
      (fun i s2 _ => cone_vertexStep_adv M radius height _ j i s2))
  have hg := gridIndex_adv slices 4 (forRange (5 : Int) (fun j b => forRange ((slices : Int) + 1)
      (uvCone.vertexStep M radius height (slices : Int) j) b) b)
  have ht := Adv.loop (slices : Int) (uvCone.tipStep M radius height (slices : Int))
    (forRange (4 : Int) (fun j b => forRange (slices : Int)
        (gridIndexStep (slices : Int) j) b)
      (forRange (5 : Int) (fun j b => forRange ((slices : Int) + 1)
        (uvCone.vertexStep M radius height (slices : Int) j) b) b))
    (fun i s _ => cone_tipStep_adv M radius height _ i s)
  have hx := Adv.loop (slices : Int)
    (uvCone.tipIndexStep (((5 * (slices + 1) : Nat) : Int) - ((slices : Int) + 1))
      (slices : Int))
    (forRange (slices : Int) (uvCone.tipStep M radius height (slices : Int))
      (forRange (4 : Int) (fun j b => forRange (slices : Int)
          (gridIndexStep (slices : Int) j) b)
        (forRange (5 : Int) (fun j b => forRange ((slices : Int) + 1)
          (uvCone.vertexStep M radius height (slices : Int) j) b) b)))
    (fun i s _ => cone_tipIndexStep_adv _ _ i s)
  have h5 : (5 : Int).toNat = 5 := rfl
  refine ⟨?_, ?_, ?_⟩
  · refine (((hv.trans hg).trans ht).trans hx).cast ?_ ?_ ?_
    · simp only [toNat_cast_succ, Int.toNat_ofNat, h5]
      omega
    · simp only [toNat_cast_succ, Int.toNat_ofNat, h5]
      omega
    · simp only [toNat_cast_succ, Int.toNat_ofNat, h5]
      omega
  · refine forRange_invariant (IdxBound N) _ _ _ ?_ (fun i s hi' hs =>
      cone_tipIndexStep_idx _ slices N i s (by push_cast; omega) (by push_cast; omega)
        (by simpa using hi') hs)
    refine forRange_invariant (IdxBound N) _ _ _ ?_ (fun i s _ hs => hs.of_indices_eq rfl)
    refine gridIndex_idx slices 4 N _ (by omega) ?_
    refine forRange_invariant (IdxBound N) _ _ _ hi ?_
    intro j s _ hs'
    exact forRange_invariant (IdxBound N) _ _ _ hs' (fun i s2 _ h2 => h2.of_indices_eq rfl)
  · intro hM hn hb'
    refine forRange_invariant NormalsOK _ _ _ ?_ (fun i s _ hs => hs.of_eq rfl rfl)
    refine forRange_invariant NormalsOK _ _ _ ?_
      (fun i s _ hs => cone_tipStep_normals M hM radius height hn _ i s hs)
    refine gridIndex_normals slices 4 _ ?_
    refine forRange_invariant NormalsOK _ _ _ hb' ?_
    intro j s _ hs'
    exact forRange_invariant NormalsOK _ _ _ hs'
      (fun i s2 _ h2 => cone_vertexStep_normals M hM radius height hn _ j i s2 h2)

/-- What a run of `uvCone` with positive `slices` leaves behind. -/
theorem uvCone_run_spec {α : Type} [Field α] [DecidableEq α] (M : JSMath α)
    (radius height : Option α) (slices : Nat) (hs : 0 < slices) (noBottom : Bool) :
    ∃ b, uvCone.run M radius height (some (slices : Int)) noBottom = Except.ok b ∧
      Adv (3 * coneVertices slices noBottom) (2 * coneVertices slices noBottom)
        (3 * coneTriangles slices noBottom)
        (fresh (0 : α) (3 * coneVertices slices noBottom) (3 * coneVertices slices noBottom)
          (2 * coneVertices slices noBottom) (3 * coneTriangles slices noBottom)) b ∧
      IdxBound (coneVertices slices noBottom) b ∧
      (Pythagorean M →
        ConeSlant M (orDefault radius (1 / 2))
          (orDefault height (2 * orDefault radius (1 / 2))) → NormalsOK b) := by
  have h1 : ((slices : Int)) ≠ 0 := by omega
  have h5 : (5 : Int).toNat = 5 := rfl
  have hf : (uvCone.fractions : List α).length = 5 := rfl
  set r := orDefault radius (1 / 2) with hr
  set h := orDefault height (2 * r) with hh
  cases noBottom
  · rw [show coneVertices slices false = 7 * slices + 7 by
        first | (simp [coneVertices]; done) | (simp [coneVertices]; omega),
      show coneTriangles slices false = 10 * slices by
        first | (simp [coneTriangles]; done) | (simp [coneTriangles]; omega)]
    have e3 : ((5 * ((slices : Int) + 1) + (slices : Int) + ((slices : Int) + 2)) * 3).toNat = 3 * (7 * slices + 7) := by omega
    have e2 : ((5 * ((slices : Int) + 1) + (slices : Int) + ((slices : Int) + 2)) * 2).toNat = 2 * (7 * slices + 7) := by omega
    have e1 : ((4 * (slices : Int) * 2 + (slices : Int) + (slices : Int)) * 3).toNat = 3 * (10 * slices) := by omega
    obtain ⟨a1, a2, a3⟩ := cone_lateral_spec M r h slices (7 * slices + 7)
      (fresh (0 : α) (3 * (7 * slices + 7)) (3 * (7 * slices + 7)) (2 * (7 * slices + 7)) (3 * (10 * slices)))
      (by omega) (IdxBound.atStart _ _ _ _ _ _ (by omega))
    have hv := Adv.loop (5 : Int) (fun j b => forRange ((slices : Int) + 1)
        (uvCone.vertexStep M r h (slices : Int) j) b)
      (fresh (0 : α) (3 * (7 * slices + 7)) (3 * (7 * slices + 7)) (2 * (7 * slices + 7)) (3 * (10 * slices)))
      (fun j s _ => Adv.loop ((slices : Int) + 1) _ s
        (fun i s2 _ => cone_vertexStep_adv M r h _ j i s2))
    have hki : (forRange (5 : Int) (fun j b => forRange ((slices : Int) + 1)
        (uvCone.vertexStep M r h (slices : Int) j) b)
      (fresh (0 : α) (3 * (7 * slices + 7)) (3 * (7 * slices + 7)) (2 * (7 * slices + 7)) (3 * (10 * slices)))).ki = 0 := by
      rw [hv.2.2.2.2.2.2]
      simp [fresh]
    have hg := gridIndex_adv slices 4 (forRange (5 : Int) (fun j b =>
        forRange ((slices : Int) + 1) (uvCone.vertexStep M r h (slices : Int) j) b)
      (fresh (0 : α) (3 * (7 * slices + 7)) (3 * (7 * slices + 7)) (2 * (7 * slices + 7)) (3 * (10 * slices))))
    have hkv : (forRange (4 : Int) (fun j b => forRange (slices : Int)
          (gridIndexStep (slices : Int) j) b)
        (forRange (5 : Int) (fun j b => forRange ((slices : Int) + 1)
          (uvCone.vertexStep M r h (slices : Int) j) b)
        (fresh (0 : α) (3 * (7 * slices + 7)) (3 * (7 * slices + 7)) (2 * (7 * slices + 7)) (3 * (10 * slices))))).kv / 3 =
        5 * (slices + 1) := by
      have := (hv.trans hg).2.2.2.2.1
      rw [Nat.cast_ofNat] at this
      rw [this, fresh_kv, h5, toNat_cast_succ]
      omega
    refine ⟨?w0, ?heq0, ?_, ?_, ?_⟩
    case heq0 =>
      simp only [uvCone.run, orDefault_some _ _ h1, Bool.not_false, Bool.not_true,
        if_true, Bool.false_eq_true, if_false, hf, Nat.cast_ofNat, Int.reduceSub]
      rw [allocate_ok _ _ _ _ _ (by positivity) (by positivity) (by positivity) (by positivity)]
      simp only [e1, e2, e3]
      simp only [bind, Except.bind, pure, Except.pure]
      rw [resetKi_eq _ hki, hkv]
      exact rfl
    · exact (a1.trans (bottomCap_adv M r h slices _)).cast (by omega) (by omega) (by omega)
    · refine bottomCap_idx M r h slices _ _ ?_ a2
      have hk := a1.2.2.2.2.1
      rw [hk, fresh_kv]
      omega
    · intro hM hn
      exact bottomCap_normals M r h slices _ (a3 hM hn (NormalsOK.atStart0 _ _ _ _))
  · rw [show coneVertices slices true = 6 * slices + 5 by
        first | (simp [coneVertices]; done) | (simp [coneVertices]; omega),
      show coneTriangles slices true = 9 * slices by
        first | (simp [coneTriangles]; done) | (simp [coneTriangles]; omega)]
    have e3 : ((5 * ((slices : Int) + 1) + (slices : Int)) * 3).toNat = 3 * (6 * slices + 5) := by omega
    have e2 : ((5 * ((slices : Int) + 1) + (slices : Int)) * 2).toNat = 2 * (6 * slices + 5) := by omega
    have e1 : ((4 * (slices : Int) * 2 + (slices : Int)) * 3).toNat = 3 * (9 * slices) := by omega
    obtain ⟨a1, a2, a3⟩ := cone_lateral_spec M r h slices (6 * slices + 5)
      (fresh (0 : α) (3 * (6 * slices + 5)) (3 * (6 * slices + 5)) (2 * (6 * slices + 5)) (3 * (9 * slices)))
      (by omega) (IdxBound.atStart _ _ _ _ _ _ (by omega))
    have hv := Adv.loop (5 : Int) (fun j b => forRange ((slices : Int) + 1)
        (uvCone.vertexStep M r h (slices : Int) j) b)
      (fresh (0 : α) (3 * (6 * slices + 5)) (3 * (6 * slices + 5)) (2 * (6 * slices + 5)) (3 * (9 * slices)))
      (fun j s _ => Adv.loop ((slices : Int) + 1) _ s
        (fun i s2 _ => cone_vertexStep_adv M r h _ j i s2))
    have hki : (forRange (5 : Int) (fun j b => forRange ((slices : Int) + 1)
        (uvCone.vertexStep M r h (slices : Int) j) b)
      (fresh (0 : α) (3 * (6 * slices + 5)) (3 * (6 * slices + 5)) (2 * (6 * slices + 5)) (3 * (9 * slices)))).ki = 0 := by
      rw [hv.2.2.2.2.2.2]
      simp [fresh]
    have hg := gridIndex_adv slices 4 (forRange (5 : Int) (fun j b =>
        forRange ((slices : Int) + 1) (uvCone.vertexStep M r h (slices : Int) j) b)
      (fresh (0 : α) (3 * (6 * slices + 5)) (3 * (6 * slices + 5)) (2 * (6 * slices + 5)) (3 * (9 * slices))))
    have hkv : (forRange (4 : Int) (fun j b => forRange (slices : Int)
          (gridIndexStep (slices : Int) j) b)
        (forRange (5 : Int) (fun j b => forRange ((slices : Int) + 1)
          (uvCone.vertexStep M r h (slices : Int) j) b)
        (fresh (0 : α) (3 * (6 * slices + 5)) (3 * (6 * slices + 5)) (2 * (6 * slices + 5)) (3 * (9 * slices))))).kv / 3 =
        5 * (slices + 1) := by
      have := (hv.trans hg).2.2.2.2.1
      rw [Nat.cast_ofNat] at this
      rw [this, fresh_kv, h5, toNat_cast_succ]
      omega
    refine ⟨?w1, ?heq1, ?_, ?_, ?_⟩
    case heq1 =>
      simp only [uvCone.run, orDefault_some _ _ h1, Bool.not_false, Bool.not_true,
        if_true, Bool.false_eq_true, if_false, hf, Nat.cast_ofNat, Int.reduceSub]
      rw [allocate_ok _ _ _ _ _ (by positivity) (by positivity) (by positivity) (by positivity)]
      simp only [e1, e2, e3]
      simp only [bind, Except.bind, pure, Except.pure]
      rw [resetKi_eq _ hki, hkv]
      exact rfl
    · exact a1.cast (by omega) (by omega) (by omega)
    · exact a2
    · intro hM hn
      exact a3 hM hn (NormalsOK.atStart0 _ _ _ _)

/-! ### ring -/

/-- Cursor bookkeeping for a loop over the state of `ring`. -/
theorem ring_forRange_adv {α : Type} {dv dt di : Nat} (n : Int)
    (body : Nat → RingState α → RingState α) (st : RingState α)
    (h : ∀ i s, i < n.toNat → Adv dv dt di s.buf (body i s).buf) :
    Adv (n.toNat * dv) (n.toNat * dt) (n.toNat * di) st.buf (forRange n body st).buf := by
  refine forRange_induction (fun i s => Adv (i * dv) (i * dt) (i * di) st.buf s.buf)
    n body st ?_ ?_
  · simp [Adv]
  · intro i s hi hs
    exact ((hs.trans (h i s hi)).cast (by ring) (by ring) (by ring))

theorem ring_diskStep_adv {α : Type} [Field α] (M : JSMath α) (outerRadius : α)
    (slices : Int) (i : Nat) (st : RingState α) :
    Adv 3 2 3 st.buf (ring.diskStep M outerRadius slices i st).buf := by
  simp [Adv, ring.diskStep, Buffers.pushT, Buffers.pushV, Buffers.pushI]

theorem ring_diskStep_idx {α : Type} [Field α] (M : JSMath α) (outerRadius : α)
    (slices N i : Nat) (st : RingState α) (hN : slices + 1 ≤ N) (hi : i < slices)
    (h : IdxBound N st.buf) :
    IdxBound N (ring.diskStep M outerRadius (slices : Int) i st).buf := by
  unfold ring.diskStep
  refine IdxBound.store (IdxBound.store (IdxBound.store (h.of_indices_eq rfl) ?_ ?_) ?_ ?_)
    ?_ ?_
  · omega
  · omega
  · omega
  · omega
  · split <;> omega
  · split <;> omega

theorem ring_annulusStep_adv {α : Type} [Field α] (M : JSMath α) (innerRadius : Option α)
    (outerRadius : α) (slices : Int) (i : Nat) (st : RingState α) :
    Adv 6 4 0 st.buf (ring.annulusStep M innerRadius outerRadius slices i st).buf := by
  simp [Adv, ring.annulusStep, Buffers.pushT, Buffers.pushV]

theorem ring_annulusIndexStep_adv {β : Type} (i : Nat) (b : Buffers β) :
    Adv 0 0 6 b (ring.annulusIndexStep i b) := by
  simp [Adv, ring.annulusIndexStep, Buffers.pushI]

theorem ring_annulusIndexStep_idx {β : Type} (slices N i : Nat) (b : Buffers β)
    (hN : 2 * slices ≤ N) (hi : i + 1 < slices) (h : IdxBound N b) :
    IdxBound N (ring.annulusIndexStep i b) := by
  unfold ring.annulusIndexStep
  refine IdxBound.store (IdxBound.store (IdxBound.store (IdxBound.store (IdxBound.store
    (IdxBound.store h ?_ ?_) ?_ ?_) ?_ ?_) ?_ ?_) ?_ ?_) ?_ ?_ <;> omega

theorem ring_annulusLast_adv {β : Type} (i : Int) (b : Buffers β) :
    Adv 0 0 6 b (ring.annulusLast i b) := by
  simp [Adv, ring.annulusLast, Buffers.pushI]

theorem ring_annulusLast_idx {β : Type} (slices N : Nat) (b : Buffers β)
    (hs : 0 < slices) (hN : 2 * slices ≤ N) (h : IdxBound N b) :
    IdxBound N (ring.annulusLast (max ((slices : Int) - 1) 0) b) := by
  unfold ring.annulusLast
  refine IdxBound.store (IdxBound.store (IdxBound.store (IdxBound.store (IdxBound.store
    (IdxBound.store h ?_ ?_) ?_ ?_) ?_ ?_) ?_ ?_) ?_ ?_) ?_ ?_ <;> omega

theorem ring_normalStep_adv {α : Type} [Field α] (i : Nat) (b : Buffers (Option α)) :
    Adv 0 0 0 b (ring.normalStep i b) := by
  simp [Adv, ring.normalStep, Buffers.setNAt]

/-- The last loop of `ring` sets the normals of all `n` vertices to `(0, 0, 1)`, when the
array has room for them. -/
theorem ring_normals_loop {α : Type} [Field α] (n : Nat) (b : Buffers (Option α))
    (hlen : 3 * n ≤ b.normals.length) :
    RingNormals n (forRange (n : Int) ring.normalStep b).normals ∧
    (forRange (n : Int) ring.normalStep b).indices = b.indices ∧
    Adv 0 0 0 b (forRange (n : Int) ring.normalStep b) := by
  have key := forRange_induction
    (fun m s => (m ≤ n → RingNormals m s.normals) ∧ s.indices = b.indices ∧ Adv 0 0 0 b s)
    (n : Int) ring.normalStep b ⟨fun _ i hi => absurd hi (Nat.not_lt_zero i), rfl, by simp [Adv]⟩
    (by
      intro i s hi ⟨h1, h2, h3⟩
      have hi' : i < n := by simpa using hi
      refine ⟨?_, ?_, ?_⟩
      · intro _ j hj
        have hl : s.normals.length = b.normals.length := h3.2.1
        simp only [ring.normalStep, Buffers.setNAt]
        by_cases hji : j = i
        · subst hji
          refine ⟨?_, ?_, ?_⟩
          · rw [getD_set_ne _ _ _ _ _ (by omega), getD_set_eq _ _ _ _ _ rfl
              (by simp only [List.length_set]; omega)]
          · rw [getD_set_ne _ _ _ _ _ (by omega), getD_set_ne _ _ _ _ _ (by omega),
              getD_set_eq _ _ _ _ _ rfl (by omega)]
          · rw [getD_set_eq _ _ _ _ _ rfl (by simp only [List.length_set]; omega)]
        · have hjlt : j < i := by omega
          obtain ⟨q1, q2, q3⟩ := h1 (by omega) j hjlt
          refine ⟨?_, ?_, ?_⟩
          · rw [getD_set_ne _ _ _ _ _ (by omega), getD_set_ne _ _ _ _ _ (by omega),
              getD_set_ne _ _ _ _ _ (by omega)]
            exact q1
          · rw [getD_set_ne _ _ _ _ _ (by omega), getD_set_ne _ _ _ _ _ (by omega),
              getD_set_ne _ _ _ _ _ (by omega)]
            exact q2
          · rw [getD_set_ne _ _ _ _ _ (by omega), getD_set_ne _ _ _ _ _ (by omega),
              getD_set_ne _ _ _ _ _ (by omega)]
            exact q3
      · rw [← h2]; rfl
      · exact (h3.trans (ring_normalStep_adv i s)).cast rfl rfl rfl)
  simp only [Int.toNat_ofNat] at key
  exact ⟨key.1 le_rfl, key.2.1, key.2.2⟩

/-- What a run of `ring` in disk mode with positive `slices` leaves behind. -/
theorem ring_run_disk {α : Type} [Field α] [DecidableEq α] (M : JSMath α) (g : Globals α)
    (argumentsLength : Nat) (innerRadius outerRadius : Option α) (slices : Nat)
    (hs : 0 < slices) (hdisk : ringInner argumentsLength innerRadius = some 0) :
    ∃ st, ring.run M g argumentsLength innerRadius outerRadius (some (slices : Int)) =
        Except.ok st ∧
      Adv (3 * (slices + 1)) (2 * (slices + 1)) (3 * slices)
        (fresh (some (0 : α)) (3 * (slices + 1)) (3 * (slices + 1)) (2 * (slices + 1))
          (3 * slices)) st.buf ∧
      IdxBound (slices + 1) st.buf ∧ RingNormals (slices + 1) st.buf.normals := by
  have h1 : ((slices : Int)) ≠ 0 := by omega
  have e3 : (3 * ((slices : Int) + 1)).toNat = 3 * (slices + 1) := by omega
  have e2 : (2 * ((slices : Int) + 1)).toNat = 2 * (slices + 1) := by omega
  have e1 : (3 * (slices : Int)).toNat = 3 * slices := by omega
  unfold ringInner at hdisk
  set o := orDefault outerRadius (orDefault (Option.map (fun x => x * 2)
    (some (0 : α))) (1 / 2)) with ho
  have hd := ring_forRange_adv (slices : Int) (ring.diskStep M o (slices : Int))
    { buf := fresh (some (0 : α)) (3 * (slices + 1)) (3 * (slices + 1)) (2 * (slices + 1))
        (3 * slices), globals := g }
    (fun i s _ => ring_diskStep_adv M o _ i s)
  have hi : IdxBound (slices + 1) (forRange (slices : Int) (ring.diskStep M o (slices : Int))
    { buf := fresh (some (0 : α)) (3 * (slices + 1)) (3 * (slices + 1)) (2 * (slices + 1))
        (3 * slices), globals := g }).buf :=
    forRange_invariant (fun s => IdxBound (slices + 1) s.buf) _ _ _
      (IdxBound.atStart _ _ _ _ _ _ (by omega))
      (fun i s hi hs => ring_diskStep_idx M o slices _ i s le_rfl (by simpa using hi) hs)
  have h5 : ∀ B : Buffers (Option α), Adv 3 2 0 B
      (((((B.pushV (some 0)).pushV (some 0)).pushV (some 0)).pushT (some 0)).pushT
        (some 0)) := by
    intro B
    simp [Adv, Buffers.pushT, Buffers.pushV]
  have hB := (hd.trans (h5 _))
  have hlen : 3 * (slices + 1) ≤ _ := le_of_eq (hB.2.1.trans (by simp [fresh])).symm
  have hn := ring_normals_loop (slices + 1) _ hlen
  rw [Nat.cast_succ] at hn
  refine ⟨?w, ?heq, ?_, ?_, ?_⟩
  case heq =>
    simp only [ring.run, orDefault_some _ _ h1, hdisk, if_true]
    rw [allocate_ok _ _ _ _ _ (by positivity) (by positivity) (by positivity) (by positivity)]
    simp only [e1, e2, e3]
    exact rfl
  · refine (hB.trans hn.2.2).cast ?_ ?_ ?_ <;> omega
  · exact (hi.of_indices_eq rfl).of_indices_eq hn.2.1
  · exact hn.1

/-- What a run of `ring` in annulus mode with positive `slices` leaves behind. -/
theorem ring_run_annulus {α : Type} [Field α] [DecidableEq α] (M : JSMath α) (g : Globals α)
    (argumentsLength : Nat) (innerRadius outerRadius : Option α) (slices : Nat)
    (hs : 0 < slices) (hann : ringInner argumentsLength innerRadius ≠ some 0) :
    ∃ st, ring.run M g argumentsLength innerRadius outerRadius (some (slices : Int)) =
        Except.ok st ∧
      Adv (3 * (2 * slices)) (2 * (2 * slices)) (6 * slices)
        (fresh (some (0 : α)) (3 * (2 * slices)) (3 * (2 * slices)) (2 * (2 * slices))
          (6 * slices)) st.buf ∧
      IdxBound (2 * slices) st.buf ∧ RingNormals (2 * slices) st.buf.normals := by
  have h1 : ((slices : Int)) ≠ 0 := by omega
  have e3 : (3 * ((slices : Int) * 2)).toNat = 3 * (2 * slices) := by omega
  have e2 : (2 * ((slices : Int) * 2)).toNat = 2 * (2 * slices) := by omega
  have e1 : (3 * 2 * (slices : Int)).toNat = 6 * slices := by omega
  unfold ringInner at hann
  set inner := (if argumentsLength = 0 then some (1 / 4) else innerRadius) with hinner
  set o := orDefault outerRadius (orDefault (Option.map (fun x => x * 2) inner) (1 / 2))
    with ho
  have hd := ring_forRange_adv (slices : Int) (ring.annulusStep M inner o (slices : Int))
    { buf := fresh (some (0 : α)) (3 * (2 * slices)) (3 * (2 * slices)) (2 * (2 * slices))
        (6 * slices), globals := g }
    (fun i s _ => ring_annulusStep_adv M inner o _ i s)
  have hi : IdxBound (2 * slices) (forRange (slices : Int)
      (ring.annulusStep M inner o (slices : Int))
    { buf := fresh (some (0 : α)) (3 * (2 * slices)) (3 * (2 * slices)) (2 * (2 * slices))
        (6 * slices), globals := g }).buf :=
    forRange_invariant (fun s : RingState α => IdxBound (2 * slices) s.buf) _ _ _
      (IdxBound.atStart _ _ _ _ _ _ (by omega))
      (fun i s _ hs => hs.of_indices_eq rfl)
  have hx := hd.trans (Adv.loop ((slices : Int) - 1) ring.annulusIndexStep _
    (fun i s _ => ring_annulusIndexStep_adv i s))
  have hix := forRange_invariant (IdxBound (2 * slices)) ((slices : Int) - 1)
    ring.annulusIndexStep _ hi
    (fun i (s : Buffers (Option α)) hi' hs =>
      ring_annulusIndexStep_idx slices _ i s le_rfl (by omega) hs)
  have hl := hx.trans (ring_annulusLast_adv (max ((slices : Int) - 1) 0) _)
  have hil := ring_annulusLast_idx slices _ _ hs le_rfl hix
  have hlen : 3 * (2 * slices) ≤ _ := le_of_eq (hl.2.1.trans (by simp [fresh])).symm
  have hn := ring_normals_loop (2 * slices) _ hlen
  rw [show ((2 * slices : Nat) : Int) = (slices : Int) * 2 by push_cast; ring] at hn
  refine ⟨?w, ?heq, ?_, ?_, ?_⟩
  case heq =>
    simp only [ring.run, orDefault_some _ _ h1, ← hinner, hann, if_false]
    rw [allocate_ok _ _ _ _ _ (by positivity) (by positivity) (by positivity) (by positivity)]
    simp only [e1, e2, e3]
    exact rfl
  · refine (hl.trans hn.2.2).cast ?_ ?_ ?_ <;> omega
  · exact hil.of_indices_eq hn.2.1
  · exact hn.1

/-! ### obj_sphere -/

/-- An invariant of the body is an invariant of `loopWhile`. -/
theorem loopWhile_invariant {σ : Type} (P : σ → Prop) (cond : σ → Bool)
    (body : σ → Option σ) (hbody : ∀ s s2, P s → body s = some s2 → P s2) :
    ∀ (fuel : Nat) (s s2 : σ), P s → loopWhile cond body fuel s = some s2 → P s2 := by
  intro fuel
  induction fuel with
  | zero =>
    intro s s2 hs h
    simp only [loopWhile] at h
    split at h
    · cases h
    · cases h; exact hs
  | succ n ih =>
    intro s s2 hs h
    simp only [loopWhile] at h
    split at h
    · cases hb : body s with
      | none => rw [hb] at h; cases h
      | some s3 =>
        rw [hb] at h
        exact ih s3 s2 (hbody s s3 hs hb) h
    · cases h; exact hs

/-- A loop whose counter `pos` grows by `step > 0` at each iteration and that stops when the
counter exceeds `bound` returns as soon as the fuel `n` satisfies `bound < pos + n*step`. -/
theorem loopWhile_terminates {σ α : Type} [LinearOrderedField α] (cond : σ → Bool)
    (body : σ → Option σ) (pos : σ → α) (bound step : α)
    (hcond : ∀ s, cond s = true → pos s ≤ bound)
    (hbody : ∀ s, cond s = true → ∃ s2, body s = some s2 ∧ pos s2 = pos s + step) :
    ∀ (n : Nat) (s : σ), bound < pos s + (n : α) * step →
      ∃ s2, loopWhile cond body n s = some s2 := by
  intro n
  induction n with
  | zero =>
    intro s h
    simp only [Nat.cast_zero, zero_mul, add_zero] at h
    have hc : cond s = false := by
      by_contra hc
      have := hcond s (by simpa using hc)
      exact absurd h (not_lt.mpr this)
    exact ⟨s, by simp [loopWhile, hc]⟩
  | succ n ih =>
    intro s h
    by_cases hc : cond s = true
    · obtain ⟨s2, hs2, hp⟩ := hbody s hc
      have h2 : bound < pos s2 + (n : α) * step := by
        rw [hp]
        push_cast at h
        linarith
      obtain ⟨s3, hs3⟩ := ih s2 h2
      exact ⟨s3, by simp [loopWhile, hc, hs2, hs3]⟩
    · exact ⟨s, by simp [loopWhile, hc]⟩

/-- A vector of squared length `r² ≠ 0` is normalized to a vector of squared length 1. -/
theorem normalize_unit {α : Type} [Field α] (M : JSMath α) (radius : α) (hr : radius ≠ 0)
    (hq : SqrtOfSquare M radius) (x y z w : α) (hsum : x * x + y * y + z * z = radius * radius) :
    (normalize M { x := x, y := y, z := z, w := w }).x *
        (normalize M { x := x, y := y, z := z, w := w }).x +
      (normalize M { x := x, y := y, z := z, w := w }).y *
        (normalize M { x := x, y := y, z := z, w := w }).y +
      (normalize M { x := x, y := y, z := z, w := w }).z *
        (normalize M { x := x, y := y, z := z, w := w }).z = 1 := by
  have hL := hq x y z hsum
  have hL0 : M.sqrt (x * x + y * y + z * z) ≠ 0 := by
    intro h0
    rw [h0] at hL
    have : radius * radius = 0 := by simpa using hL.symm
    exact hr (mul_self_eq_zero.mp this)
  simp only [normalize]
  generalize M.sqrt (x * x + y * y + z * z) = L at hL hL0
  field_simp
  linear_combination hsum - hL

theorem spherePoint_unit {α : Type} [Field α] (M : JSMath α) (hM : Pythagorean M)
    (radius pos_x pos_y pos_z alpha : α) (hr : radius ≠ 0) (hq : SqrtOfSquare M radius)
    (theta phi : α) (o : SceneObject α) (h : UnitNormals o) :
    UnitNormals (obj_sphere.spherePoint M radius pos_x pos_y pos_z alpha theta phi o) := by
  intro n hn
  simp only [obj_sphere.spherePoint, List.mem_append, List.mem_singleton] at hn
  rcases hn with hn | hn
  · exact h n hn
  · subst hn
    have ht := hM theta
    have hp := hM phi
    refine normalize_unit M radius hr hq _ _ _ _ ?_
    linear_combination (radius * radius * M.cos phi * M.cos phi) * ht +
      (radius * radius) * hp

theorem thetaStep_unit {α : Type} [LinearOrderedField α] (M : JSMath α) (hM : Pythagorean M)
    (radius pos_x pos_y pos_z alpha step : α) (hr : radius ≠ 0) (hq : SqrtOfSquare M radius)
    (st : SphereLoop α) (h : UnitNormals st.obj) :
    UnitNormals (obj_sphere.thetaStep M radius pos_x pos_y pos_z alpha step st).obj := by
  have hp := fun t p o ho =>
    spherePoint_unit M hM radius pos_x pos_y pos_z alpha hr hq t p o ho
  simp only [obj_sphere.thetaStep]
  split <;> split <;>
    first
      | exact h
      | exact hp _ _ _ (hp _ _ _ (hp _ _ _ h))
      | exact hp _ _ _ (hp _ _ _ (hp _ _ _ (hp _ _ _ (hp _ _ _ (hp _ _ _ h)))))

/-- Whatever the fuel, an object that `obj_sphere` returns has unit normals. -/
theorem obj_sphere_unit {α : Type} [LinearOrderedField α] (M : JSMath α) (hM : Pythagorean M)
    (radius pos_x pos_y pos_z alpha degree : α) (hr : radius ≠ 0)
    (hq : SqrtOfSquare M radius) (fuel : Nat) (o : SceneObject α)
    (h : obj_sphere M fuel radius pos_x pos_y pos_z alpha degree = some o) :
    UnitNormals o := by
  simp only [obj_sphere, Option.map_eq_some'] at h
  obtain ⟨st, hst, rfl⟩ := h
  refine loopWhile_invariant (fun s : SphereLoop α => UnitNormals s.obj) _ _ ?_ fuel _ st
    (by intro n hn; simp at hn) hst
  intro s s2 hs h2
  simp only [obj_sphere.phiStep, Option.map_eq_some'] at h2
  obtain ⟨s3, hs3, rfl⟩ := h2
  refine loopWhile_invariant (fun s : SphereLoop α => UnitNormals s.obj) _ _ ?_ fuel _ s3
    (show UnitNormals ({ s with theta := degree } : SphereLoop α).obj from hs) hs3
  intro s4 s5 hs4 h5
  cases h5
  exact thetaStep_unit M hM radius pos_x pos_y pos_z alpha degree hr hq s4 hs4

theorem thetaStep_theta {α : Type} [LinearOrderedField α] (M : JSMath α)
    (radius pos_x pos_y pos_z alpha step : α) (st : SphereLoop α) :
    (obj_sphere.thetaStep M radius pos_x pos_y pos_z alpha step st).theta = st.theta + step ∧
    (obj_sphere.thetaStep M radius pos_x pos_y pos_z alpha step st).phi = st.phi := by
  simp [obj_sphere.thetaStep]

/-- The loops of `obj_sphere` end: any fuel with `360 < fuel * degree` is enough. -/
theorem obj_sphere_terminates {α : Type} [LinearOrderedField α] (M : JSMath α)
    (radius pos_x pos_y pos_z alpha degree : α) (hd : 0 < degree) (fuel : Nat)
    (hf : 360 < (fuel : α) * degree) :
    ∃ o, obj_sphere M fuel radius pos_x pos_y pos_z alpha degree = some o := by
  have inner : ∀ s : SphereLoop α, ∃ s3,
      loopWhile (fun st => decide (st.theta ≤ 360 + degree))
        (fun st => some (obj_sphere.thetaStep M radius pos_x pos_y pos_z alpha degree st))
        fuel { s with theta := degree } = some s3 ∧ s3.phi = s.phi := by
    intro s
    obtain ⟨s3, hs3⟩ := loopWhile_terminates
      (fun st : SphereLoop α => decide (st.theta ≤ 360 + degree))
      (fun st => some (obj_sphere.thetaStep M radius pos_x pos_y pos_z alpha degree st))
      (fun st => st.theta) (360 + degree) degree
      (fun st hc => by simpa using hc)
      (fun st _ => ⟨_, rfl, (thetaStep_theta M radius pos_x pos_y pos_z alpha degree st).1⟩)
      fuel { s with theta := degree } (by simp only; linarith)
    refine ⟨s3, hs3, ?_⟩
    exact loopWhile_invariant (fun t : SphereLoop α => t.phi = s.phi)
      (fun st : SphereLoop α => decide (st.theta ≤ 360 + degree))
      (fun st => some (obj_sphere.thetaStep M radius pos_x pos_y pos_z alpha degree st))
      (fun t t2 ht h2 => by
        simp only [Option.some.injEq] at h2
        subst h2
        simp only [(thetaStep_theta M radius pos_x pos_y pos_z alpha degree t).2]
        exact ht)
      fuel { s with theta := degree } s3 rfl hs3
  obtain ⟨st, hst⟩ := loopWhile_terminates
    (fun st : SphereLoop α => decide (st.phi ≤ 90))
    (obj_sphere.phiStep M radius pos_x pos_y pos_z alpha degree fuel)
    (fun st => st.phi) 90 degree
    (fun st hc => by simpa using hc)
    (fun st _ => by
      obtain ⟨s3, hs3, hphi⟩ := inner st
      refine ⟨{ s3 with lastPhi := s3.phi, phi := s3.phi + degree }, ?_, ?_⟩
      · simp only [obj_sphere.phiStep, id_eq, hs3, Option.map_some']
      · simp only [hphi])
    fuel { obj := { numVertices := 0, pointsArray := [], colorsArray := [], normalsArray := [],
                    texcoords := [], pos_loc := [pos_x, pos_y, pos_z] },
           phi := -90 + degree, theta := 0, lastPhi := -90, lastTheta := 0 }
    (by simp only; linarith)
  exact ⟨st.obj, by simp only [obj_sphere, id_eq, hst, Option.map_some']⟩

/-! ### From the final state to the returned mesh -/

theorem mesh_lengths {β : Type} (z : β) (V I dv dt di : Nat) (b : Buffers β)
    (h : Adv dv dt di (fresh z (3 * V) (3 * V) (2 * V) I) b) :
    b.toMesh.vertexPositions.length = 3 * V ∧ b.toMesh.vertexNormals.length = 3 * V ∧
    b.toMesh.vertexTextureCoords.length = 2 * V ∧ b.toMesh.indices.length = I := by
  obtain ⟨h1, h2, h3, h4, _⟩ := h
  simp only [fresh, List.length_replicate] at h1 h2 h3 h4
  exact ⟨h1, h2, h3, h4⟩

theorem mesh_indices_in_range {β : Type} (V : Nat) (b : Buffers β)
    (hl : b.vertices.length = 3 * V) (h : IdxBound V b) : IndicesInRange b.toMesh := by
  intro x hx
  have : b.toMesh.vertexPositions.length / 3 = V := by
    show b.vertices.length / 3 = V
    omega
  rw [this]
  exact h x hx

theorem mesh_unit_normals (V dt di : Nat) (b : Buffers ℝ) (I : Nat)
    (h : Adv (3 * V) dt di (fresh (0 : ℝ) (3 * V) (3 * V) (2 * V) I) b) (hn : NormalsOK b) :
    ∀ n ∈ triples b.toMesh.vertexNormals, UnitLength n := by
  obtain ⟨_, h2, _, _, h5, _⟩ := h
  simp only [fresh, List.length_replicate, zero_add] at h2 h5
  intro n hn'
  simp only [triples, Buffers.toMesh, List.mem_map, List.mem_range] at hn'
  obtain ⟨i, hi, rfl⟩ := hn'
  unfold UnitLength
  rw [hn.2 i (by omega) (by omega), Real.sqrt_one]

theorem real_pythagorean : Pythagorean (JSMath.mk Real.cos Real.sin Real.sqrt Real.pi) := by
  intro x
  have := Real.cos_sq_add_sin_sq x
  simp only
  nlinarith [this]

theorem real_sqrtOfSquare (radius : ℝ) :
    SqrtOfSquare (JSMath.mk Real.cos Real.sin Real.sqrt Real.pi) radius := by
  intro x y z h
  simp only
  rw [Real.mul_self_sqrt (by rw [h]; exact mul_self_nonneg radius), h]

theorem real_coneSlant (radius height : ℝ) (hr : radius ≠ 0) :
    ConeSlant (JSMath.mk Real.cos Real.sin Real.sqrt Real.pi) radius height := by
  have hpos : 0 < height * height + radius * radius := by
    have := mul_self_nonneg height
    have := mul_self_pos.mpr hr
    linarith
  have hL : Real.sqrt (height * height + radius * radius) *
      Real.sqrt (height * height + radius * radius) = height * height + radius * radius :=
    Real.mul_self_sqrt hpos.le
  have hL0 : Real.sqrt (height * height + radius * radius) ≠ 0 :=
    (Real.sqrt_pos.mpr hpos).ne'
  unfold ConeSlant
  simp only
  generalize Real.sqrt (height * height + radius * radius) = L at hL hL0
  field_simp
  linear_combination -hL

theorem orDefault_ne_zero {α : Type} [Zero α] [DecidableEq α] (x : Option α) (d : α)
    (hd : d ≠ 0) : orDefault x d ≠ 0 := by
  unfold orDefault
  cases x with
  | none => exact hd
  | some v =>
    simp only
    split
    · exact hd
    · assumption

/-- A missing `slices` argument of `ring` is the same as `32`. -/
theorem ring_default_slices {α : Type} [Field α] [DecidableEq α] (M : JSMath α) (g : Globals α)
    (argumentsLength : Nat) (innerRadius outerRadius : Option α) :
    ring M g argumentsLength innerRadius outerRadius none =
      ring M g argumentsLength innerRadius outerRadius (some 32) := by
  simp [ring, ring.run, orDefault]

/-! ### cube -/

/-- Each call of `face` appends 12 coordinates, 12 normal components, 8 texture
components and 6 indices. -/
theorem cube_face_lengths {α : Type} [Zero α] [One α] (st : CubeArrays α) (xyz nrm : List α) :
    (cube.face st xyz nrm).coords.length = st.coords.length + 12 ∧
    (cube.face st xyz nrm).normals.length = st.normals.length + 12 ∧
    (cube.face st xyz nrm).texCoords.length = st.texCoords.length + 8 ∧
    (cube.face st xyz nrm).indices.length = st.indices.length + 6 := by
  simp [cube.face, List.range, List.range.loop]

/-- Reading triple `i` of a flat array whose length is a multiple of 3. -/
theorem vec3At_eq_getD_triples {α : Type} [Zero α] (l : List α) (h3 : l.length % 3 = 0)
    (i : Nat) : vec3At l i = (triples l).getD i (0, 0, 0) := by
  by_cases h : i < l.length / 3
  · simp [triples, List.getD_eq_getElem?_getD, List.getElem?_map, List.getElem?_range h]
  · have h1 : (triples l).length ≤ i := by simp [triples]; omega
    have h2 : l.length ≤ 3 * i := by omega
    rw [List.getD_eq_default _ _ h1]
    simp only [vec3At]
    rw [List.getD_eq_default _ _ h2, List.getD_eq_default _ _ (by omega),
      List.getD_eq_default _ _ (by omega)]

/-! ### Rounding -/

theorem roundHalfEven_intCast {α : Type} [LinearOrderedField α] [FloorRing α] (z : Int) :
    roundHalfEven (z : α) = z := by
  unfold roundHalfEven
  rw [Int.fract_intCast, Int.floor_intCast, if_pos (by norm_num)]

theorem roundHalfEven_le {α : Type} [LinearOrderedField α] [FloorRing α] (x : α) (b : Int)
    (h : x ≤ (b : α)) : roundHalfEven x ≤ b := by
  have hf : ⌊x⌋ ≤ b := by
    have := Int.floor_le x
    exact_mod_cast (this.trans h)
  have hstrict : 0 < Int.fract x → ⌊x⌋ + 1 ≤ b := by
    intro hpos
    have h1 : (⌊x⌋ : α) < x := by
      have := Int.self_sub_floor x
      linarith
    have h2 : ((⌊x⌋ : Int) : α) < (b : α) := lt_of_lt_of_le h1 h
    have h3 : ⌊x⌋ < b := by exact_mod_cast h2
    omega
  unfold roundHalfEven
  split_ifs with h1 h2 h3
  · exact hf
  · exact hstrict (lt_trans (by norm_num) h2)
  · exact hf
  · exact hstrict (lt_of_lt_of_le (by norm_num) (not_lt.mp h1))

theorem le_roundHalfEven {α : Type} [LinearOrderedField α] [FloorRing α] (x : α) (a : Int)
    (h : (a : α) ≤ x) : a ≤ roundHalfEven x := by
  have hf : a ≤ ⌊x⌋ := Int.le_floor.mpr h
  unfold roundHalfEven
  split_ifs <;> omega

theorem roundHalfEven_eq_of_abs_sub_lt {α : Type} [LinearOrderedField α] [FloorRing α]
    (x : α) (z : Int) (h : |x - (z : α)| < 1 / 2) : roundHalfEven x = z := by
  rw [abs_lt] at h
  obtain ⟨h1, h2⟩ := h
  by_cases hc : (z : α) ≤ x
  · have hfl : ⌊x⌋ = z := Int.floor_eq_iff.mpr ⟨hc, by linarith⟩
    have hfr : Int.fract x = x - z := by rw [← Int.self_sub_floor, hfl]
    unfold roundHalfEven
    rw [if_pos (by rw [hfr]; exact h2), hfl]
  · have hc' : x < z := not_le.mp hc
    have hfl : ⌊x⌋ = z - 1 := Int.floor_eq_iff.mpr ⟨by push_cast; linarith, by push_cast; linarith⟩
    have hfr : Int.fract x = x - z + 1 := by rw [← Int.self_sub_floor, hfl]; push_cast; ring
    unfold roundHalfEven
    rw [if_neg (by rw [hfr]; linarith), if_pos (by rw [hfr]; linarith), hfl]
    ring

theorem roundHalfEven_neg {α : Type} [LinearOrderedField α] [FloorRing α] (x : α) :
    roundHalfEven (-x) = -roundHalfEven x := by
  by_cases hint : Int.fract x = 0
  · have hx : x = ((⌊x⌋ : Int) : α) := by
      have := Int.self_sub_floor x
      linarith
    have hneg : -x = (((-⌊x⌋ : Int)) : α) := by push_cast; linarith
    rw [hneg, roundHalfEven_intCast]
    nth_rewrite 2 [hx]
    rw [roundHalfEven_intCast]
  · have hpos : 0 < Int.fract x := lt_of_le_of_ne (Int.fract_nonneg x) (Ne.symm hint)
    have hlt : Int.fract x < 1 := Int.fract_lt_one x
    have hfx := Int.self_sub_floor x
    have hfl : ⌊-x⌋ = -⌊x⌋ - 1 :=
      Int.floor_eq_iff.mpr ⟨by push_cast; linarith, by push_cast; linarith⟩
    have hfr : Int.fract (-x) = 1 - Int.fract x := by
      rw [← Int.self_sub_floor (-x), hfl]; push_cast; linarith
    unfold roundHalfEven
    rw [hfr, hfl]
    by_cases h1 : Int.fract x < 1 / 2
    · rw [if_pos h1, if_neg (by linarith), if_pos (by linarith)]
      ring
    · by_cases h2 : 1 / 2 < Int.fract x
      · rw [if_neg h1, if_pos h2, if_pos (by linarith)]
        ring
      · have he : Int.fract x = 1 / 2 := le_antisymm (not_lt.mp h2) (not_lt.mp h1)
        rw [if_neg h1, if_neg h2, if_neg (by rw [he]; norm_num), if_neg (by rw [he]; norm_num)]
        by_cases hev : ⌊x⌋ % 2 = 0
        · rw [if_pos hev, if_neg (by omega)]
          ring
        · rw [if_neg hev, if_pos (by omega)]
          ring

theorem ulpExponent_neg {α : Type} [LinearOrderedField α] [FloorRing α] (p : Nat)
    (emin : Int) (x : α) : ulpExponent p emin (-x) = ulpExponent p emin x := by
  unfold ulpExponent
  rw [abs_neg]

theorem roundBinary_neg {α : Type} [LinearOrderedField α] [FloorRing α] (p : Nat)
    (emin : Int) (x : α) : roundBinary p emin (-x) = -roundBinary p emin x := by
  unfold roundBinary
  rw [ulpExponent_neg, neg_div, roundHalfEven_neg]
  push_cast
  ring

theorem two_zpow_pos (α : Type) [LinearOrderedField α] (e : Int) : (0 : α) < (2 : α) ^ e :=
  zpow_pos (by norm_num) e

/-- A number `z * 2 ^ e` whose exponent `e` is not below the last place of the format at
this magnitude is a number of the format: rounding leaves it as it is. -/
theorem roundBinary_eq_self {α : Type} [LinearOrderedField α] [FloorRing α] (p : Nat)
    (emin : Int) (x : α) (z e : Int) (hx : x = (z : α) * (2 : α) ^ e)
    (he : ulpExponent p emin x ≤ e) : roundBinary p emin x = x := by
  unfold roundBinary
  generalize ulpExponent p emin x = u at he
  have h2 : (2 : α) ≠ 0 := by norm_num
  have hq : x / (2 : α) ^ u = ((z * 2 ^ (e - u).toNat : Int) : α) := by
    have e1 : e = u + ((e - u).toNat : Int) := by omega
    rw [hx]
    nth_rewrite 1 [e1]
    rw [zpow_add₀ h2, zpow_natCast]
    push_cast
    field_simp
    ring
  rw [hq, roundHalfEven_intCast, ← hq]
  field_simp

theorem log_two_lt {α : Type} [LinearOrderedField α] [FloorRing α] (x : α) (n : Int)
    (h0 : 0 < x) (hx : x < (2 : α) ^ n) : Int.log 2 x < n :=
  (Int.lt_zpow_iff_log_lt (b := 2) (by norm_num) h0).mp (by exact_mod_cast hx)

theorem le_log_two {α : Type} [LinearOrderedField α] [FloorRing α] (x : α) (n : Int)
    (h0 : 0 < x) (hx : (2 : α) ^ n ≤ x) : n ≤ Int.log 2 x :=
  (Int.zpow_le_iff_le_log (b := 2) (by norm_num) h0).mp (by exact_mod_cast hx)

theorem log_two_eq {α : Type} [LinearOrderedField α] [FloorRing α] (x : α) (k : Int)
    (hlo : (2 : α) ^ k ≤ x) (hhi : x < (2 : α) ^ (k + 1)) : Int.log 2 x = k := by
  have h0 : 0 < x := lt_of_lt_of_le (two_zpow_pos α k) hlo
  have h1 := log_two_lt x (k + 1) h0 hhi
  have h2 := le_log_two x k h0 hlo
  omega

theorem ulpExponent_eq {α : Type} [LinearOrderedField α] [FloorRing α] (p : Nat) (emin : Int)
    (x : α) (k : Int) (hlo : (2 : α) ^ k ≤ |x|) (hhi : |x| < (2 : α) ^ (k + 1)) :
    ulpExponent p emin x = max (k + 1 - (p : Int)) emin := by
  unfold ulpExponent
  rw [log_two_eq |x| k hlo hhi]

/-- The last place of the format at a magnitude below `2 ^ n`. -/
theorem ulpExponent_le {α : Type} [LinearOrderedField α] [FloorRing α] (p : Nat) (emin : Int)
    (x : α) (n : Int) (hn : 0 < n) (hhi : |x| < (2 : α) ^ n) :
    ulpExponent p emin x ≤ max (n - (p : Int)) emin := by
  unfold ulpExponent
  have hlog : Int.log 2 |x| < n := by
    by_cases h0 : 0 < |x|
    · exact log_two_lt |x| n h0 hhi
    · have hz : |x| = 0 := le_antisymm (not_lt.mp h0) (abs_nonneg x)
      rw [hz, Int.log_zero_right]
      exact hn
  omega

/-- When `x` lies in the binade `[2^k, 2^(k+1))` and `x / 2^e` is within less than one half
of the integer `m`, where `e` is the last place of the format there, `x` rounds to
`m * 2^e`. -/
theorem roundBinary_eq_of_near {α : Type} [LinearOrderedField α] [FloorRing α] (p : Nat)
    (emin : Int) (x : α) (k e m : Int) (hlo : (2 : α) ^ k ≤ |x|)
    (hhi : |x| < (2 : α) ^ (k + 1)) (he : e = max (k + 1 - (p : Int)) emin)
    (hm : |x / (2 : α) ^ e - (m : α)| < 1 / 2) :
    roundBinary p emin x = (m : α) * (2 : α) ^ e := by
  unfold roundBinary
  rw [ulpExponent_eq p emin x k hlo hhi, ← he, roundHalfEven_eq_of_abs_sub_lt _ m hm]

/-- A number below half the smallest positive number of the format rounds to zero. -/
theorem roundBinary_eq_zero {α : Type} [LinearOrderedField α] [FloorRing α] (p : Nat)
    (emin : Int) (x : α) (h : |x| < (2 : α) ^ (emin - 1)) :
    roundBinary p emin x = 0 := by
  by_cases h0 : 0 < |x|
  · have hu : ulpExponent p emin x = emin := by
      unfold ulpExponent
      have hl := log_two_lt |x| _ h0 h
      omega
    unfold roundBinary
    rw [hu]
    have hpos := two_zpow_pos α emin
    have hm : |x / (2 : α) ^ emin - ((0 : Int) : α)| < 1 / 2 := by
      rw [Int.cast_zero, sub_zero, abs_div, abs_of_pos hpos, div_lt_iff₀ hpos]
      have e : (2 : α) ^ (emin - 1) = 1 / 2 * (2 : α) ^ emin := by
        rw [zpow_sub_one₀ (by norm_num : (2 : α) ≠ 0)]
        ring
      rw [← e]
      exact h
    rw [roundHalfEven_eq_of_abs_sub_lt _ 0 hm]
    simp
  · have hz : x = 0 := abs_eq_zero.mp (le_antisymm (not_lt.mp h0) (abs_nonneg x))
    unfold roundBinary
    rw [hz, zero_div]
    have h := roundHalfEven_intCast 0 (α := α)
    rw [Int.cast_zero] at h
    rw [h]
    simp

/-- Rounding does not pass an integer multiple of the last place. -/
theorem roundBinary_le {α : Type} [LinearOrderedField α] [FloorRing α] (p : Nat)
    (emin : Int) (x : α) (b : Int) (h : x ≤ (b : α) * (2 : α) ^ ulpExponent p emin x) :
    roundBinary p emin x ≤ (b : α) * (2 : α) ^ ulpExponent p emin x := by
  unfold roundBinary
  have hpos := two_zpow_pos α (ulpExponent p emin x)
  have h1 : x / (2 : α) ^ ulpExponent p emin x ≤ (b : α) := by
    rw [div_le_iff₀ hpos]
    exact h
  have h2 := roundHalfEven_le _ b h1
  have h3 : ((roundHalfEven (x / (2 : α) ^ ulpExponent p emin x) : Int) : α) ≤ (b : α) := by
    exact_mod_cast h2
  exact mul_le_mul_of_nonneg_right h3 hpos.le

theorem le_roundBinary {α : Type} [LinearOrderedField α] [FloorRing α] (p : Nat)
    (emin : Int) (x : α) (a : Int) (h : (a : α) * (2 : α) ^ ulpExponent p emin x ≤ x) :
    (a : α) * (2 : α) ^ ulpExponent p emin x ≤ roundBinary p emin x := by
  unfold roundBinary
  have hpos := two_zpow_pos α (ulpExponent p emin x)
  have h1 : (a : α) ≤ x / (2 : α) ^ ulpExponent p emin x := by
    rw [le_div_iff₀ hpos]
    exact h
  have h2 := le_roundHalfEven _ a h1
  have h3 : (a : α) ≤ ((roundHalfEven (x / (2 : α) ^ ulpExponent p emin x) : Int) : α) := by
    exact_mod_cast h2
  exact mul_le_mul_of_nonneg_right h3 hpos.le

theorem toFloat32_neg {α : Type} [LinearOrderedField α] [FloorRing α] (x : α) :
    toFloat32 (-x) = (toFloat32 x).neg := by
  have hpos := two_zpow_pos α 128
  unfold toFloat32
  rw [roundBinary_neg]
  by_cases h1 : (2 : α) ^ (128 : Int) ≤ roundBinary 24 (-149) x
  · rw [if_pos h1, if_neg (by linarith), if_pos (by linarith)]
    rfl
  · by_cases h2 : roundBinary 24 (-149) x ≤ -(2 : α) ^ (128 : Int)
    · rw [if_neg h1, if_pos h2, if_pos (by linarith)]
      rfl
    · rw [if_neg h1, if_neg h2, if_neg (by linarith), if_neg (by linarith)]
      rfl

/-- A number of the `float32` format is stored as it is. -/
theorem toFloat32_eq_self {α : Type} [LinearOrderedField α] [FloorRing α] (x : α)
    (z e : Int) (hx : x = (z : α) * (2 : α) ^ e) (he : ulpExponent 24 (-149) x ≤ e)
    (hlt : |x| < (2 : α) ^ (128 : Int)) : toFloat32 x = Float32Value.finite x := by
  unfold toFloat32
  rw [roundBinary_eq_self 24 (-149) x z e hx he]
  rw [abs_lt] at hlt
  rw [if_neg (by linarith), if_neg (by linarith)]

theorem ulpExponent_zero {α : Type} [LinearOrderedField α] [FloorRing α] (p : Nat)
    (emin : Int) : ulpExponent p emin (0 : α) = max (1 - (p : Int)) emin := by
  unfold ulpExponent
  rw [abs_zero, Int.log_zero_right]
  ring_nf

theorem ulpExponent_one {α : Type} [LinearOrderedField α] [FloorRing α] (p : Nat)
    (emin : Int) : ulpExponent p emin (1 : α) = max (1 - (p : Int)) emin := by
  rw [ulpExponent_eq p emin 1 0 (by simp) (by simp)]
  ring_nf

theorem toFloat32_zero {α : Type} [LinearOrderedField α] [FloorRing α] :
    toFloat32 (0 : α) = Float32Value.finite 0 :=
  toFloat32_eq_self 0 0 0 (by simp) (by rw [ulpExponent_zero]; norm_num)
    (by rw [abs_zero]; exact two_zpow_pos α 128)

theorem toFloat32_one {α : Type} [LinearOrderedField α] [FloorRing α] :
    toFloat32 (1 : α) = Float32Value.finite 1 :=
  toFloat32_eq_self 1 1 0 (by simp) (by rw [ulpExponent_one]; norm_num)
    (by rw [abs_one]; exact one_lt_zpow₀ (by norm_num) (by norm_num))

theorem toFloat32_neg_one {α : Type} [LinearOrderedField α] [FloorRing α] :
    toFloat32 (-1 : α) = Float32Value.finite (-1) := by
  rw [toFloat32_neg, toFloat32_one]
  rfl

/-- Every integer of magnitude below `2 ^ 53` is a double. -/
theorem toFloat64_intCast {α : Type} [LinearOrderedField α] [FloorRing α] (n : Int)
    (h : |n| < 2 ^ 53) : toFloat64 (n : α) = (n : α) := by
  unfold toFloat64
  refine roundBinary_eq_self 53 (-1074) (n : α) n 0 (by simp) ?_
  have hlt : |(n : α)| < (2 : α) ^ (53 : Int) := by
    have : ((|n| : Int) : α) < ((2 ^ 53 : Int) : α) := by exact_mod_cast h
    rw [Int.cast_abs] at this
    rw [zpow_ofNat]
    exact_mod_cast this
  have := ulpExponent_le 53 (-1074) (n : α) 53 (by norm_num) hlt
  have e : max ((53 : Int) - ((53 : Nat) : Int)) (-1074) = 0 := by norm_num
  rw [e] at this
  exact this

theorem toFloat64_natCast {α : Type} [LinearOrderedField α] [FloorRing α] (n : Nat)
    (h : n < 2 ^ 53) : toFloat64 (n : α) = (n : α) := by
  have := toFloat64_intCast (α := α) (n : Int) (by rw [Nat.abs_cast]; exact_mod_cast h)
  rw [Int.cast_natCast] at this
  exact this

theorem two_zpow_toNat {α : Type} [LinearOrderedField α] (a b : Int) (h : b ≤ a) :
    (((2 : Int) ^ (a - b).toNat : Int) : α) * (2 : α) ^ b = (2 : α) ^ a := by
  have e1 : a = b + ((a - b).toNat : Int) := by omega
  nth_rewrite 2 [e1]
  rw [zpow_add₀ (by norm_num : (2 : α) ≠ 0), zpow_natCast]
  push_cast
  ring

/-- Rounding does not fall below a power of two of the format that the number reaches. -/
theorem roundBinary_ge_pow {α : Type} [LinearOrderedField α] [FloorRing α] (p : Nat)
    (emin : Int) (x : α) (k : Int) (hp : 1 ≤ p) (hk : emin ≤ k) (h : (2 : α) ^ k ≤ x) :
    (2 : α) ^ k ≤ roundBinary p emin x := by
  have h0 : 0 < x := lt_of_lt_of_le (two_zpow_pos α k) h
  have hK : k ≤ Int.log 2 x := le_log_two x k h0 h
  have hxK : (2 : α) ^ (Int.log 2 x) ≤ x := by
    have := Int.zpow_log_le_self (b := 2) (by norm_num) h0
    exact_mod_cast this
  have hu : ulpExponent p emin x ≤ Int.log 2 x := by
    unfold ulpExponent
    rw [abs_of_pos h0]
    have : (1 : Int) ≤ (p : Int) := by exact_mod_cast hp
    omega
  have hle := le_roundBinary p emin x ((2 : Int) ^ (Int.log 2 x - ulpExponent p emin x).toNat)
    (by rw [two_zpow_toNat _ _ hu]; exact hxK)
  rw [two_zpow_toNat _ _ hu] at hle
  exact le_trans (zpow_le_zpow_right₀ (by norm_num) hK) hle

/-- Rounding does not pass a power of two of the format that bounds the number. -/
theorem roundBinary_le_pow {α : Type} [LinearOrderedField α] [FloorRing α] (p : Nat)
    (emin : Int) (x : α) (n : Int) (hp : 1 ≤ p) (hn : 0 ≤ n) (hmin : emin ≤ n)
    (h : |x| ≤ (2 : α) ^ n) : roundBinary p emin x ≤ (2 : α) ^ n := by
  have hlt : |x| < (2 : α) ^ (n + 1) :=
    lt_of_le_of_lt h (zpow_lt_zpow_right₀ (by norm_num) (by omega))
  have hu : ulpExponent p emin x ≤ n := by
    have := ulpExponent_le p emin x (n + 1) (by omega) hlt
    have hp' : (1 : Int) ≤ (p : Int) := by exact_mod_cast hp
    omega
  have hle := roundBinary_le p emin x ((2 : Int) ^ (n - ulpExponent p emin x).toNat)
    (by rw [two_zpow_toNat _ _ hu]; exact le_trans (le_abs_self x) h)
  rw [two_zpow_toNat _ _ hu] at hle
  exact hle

theorem roundBinary_nonneg {α : Type} [LinearOrderedField α] [FloorRing α] (p : Nat)
    (emin : Int) (x : α) (h : 0 ≤ x) : 0 ≤ roundBinary p emin x := by
  have := le_roundBinary p emin x 0 (by simpa using h)
  simpa using this

theorem roundBinary_nonpos {α : Type} [LinearOrderedField α] [FloorRing α] (p : Nat)
    (emin : Int) (x : α) (h : x ≤ 0) : roundBinary p emin x ≤ 0 := by
  have := roundBinary_le p emin x 0 (by simpa using h)
  simpa using this

/-- A number from `2 ^ (-149)` to `2 ^ 127`, taken as a double, is stored in a
`Float32Array` as a finite number of the same range. -/
theorem toFloat32_toFloat64_range {α : Type} [LinearOrderedField α] [FloorRing α] (x : α)
    (hlo : (2 : α) ^ (-149 : Int) ≤ x) (hhi : x ≤ (2 : α) ^ (127 : Int)) :
    ∃ f : α, (2 : α) ^ (-149 : Int) ≤ f ∧ f ≤ (2 : α) ^ (127 : Int) ∧
      toFloat32 (toFloat64 x) = Float32Value.finite f := by
  have h0 : 0 < x := lt_of_lt_of_le (two_zpow_pos α _) hlo
  have y1 : (2 : α) ^ (-149 : Int) ≤ toFloat64 x :=
    roundBinary_ge_pow 53 (-1074) x (-149) (by norm_num) (by norm_num) hlo
  have y2 : toFloat64 x ≤ (2 : α) ^ (127 : Int) :=
    roundBinary_le_pow 53 (-1074) x 127 (by norm_num) (by norm_num) (by norm_num)
      (by rw [abs_of_pos h0]; exact hhi)
  have y0 : 0 < toFloat64 x := lt_of_lt_of_le (two_zpow_pos α _) y1
  have f1 : (2 : α) ^ (-149 : Int) ≤ roundBinary 24 (-149) (toFloat64 x) :=
    roundBinary_ge_pow 24 (-149) _ (-149) (by norm_num) (by norm_num) y1
  have f2 : roundBinary 24 (-149) (toFloat64 x) ≤ (2 : α) ^ (127 : Int) :=
    roundBinary_le_pow 24 (-149) _ 127 (by norm_num) (by norm_num) (by norm_num)
      (by rw [abs_of_pos y0]; exact y2)
  have hpw : (2 : α) ^ (127 : Int) < (2 : α) ^ (128 : Int) :=
    zpow_lt_zpow_right₀ (by norm_num) (by norm_num)
  have f0 : 0 < roundBinary 24 (-149) (toFloat64 x) := lt_of_lt_of_le (two_zpow_pos α _) f1
  refine ⟨_, f1, f2, ?_⟩
  unfold toFloat32
  rw [if_neg (by linarith), if_neg (by linarith [two_zpow_pos α 128])]

/-- A non-negative number up to `2 ^ 127`, taken as a double, is stored in a `Float32Array`
as a finite non-negative number. -/
theorem toFloat32_toFloat64_nonneg {α : Type} [LinearOrderedField α] [FloorRing α] (x : α)
    (hlo : 0 ≤ x) (hhi : x ≤ (2 : α) ^ (127 : Int)) :
    ∃ f : α, 0 ≤ f ∧ f ≤ (2 : α) ^ (127 : Int) ∧
      toFloat32 (toFloat64 x) = Float32Value.finite f := by
  have y1 : 0 ≤ toFloat64 x := roundBinary_nonneg 53 (-1074) x hlo
  have y2 : toFloat64 x ≤ (2 : α) ^ (127 : Int) :=
    roundBinary_le_pow 53 (-1074) x 127 (by norm_num) (by norm_num) (by norm_num)
      (by rw [abs_of_nonneg hlo]; exact hhi)
  have f1 : 0 ≤ roundBinary 24 (-149) (toFloat64 x) := roundBinary_nonneg 24 (-149) _ y1
  have f2 : roundBinary 24 (-149) (toFloat64 x) ≤ (2 : α) ^ (127 : Int) :=
    roundBinary_le_pow 24 (-149) _ 127 (by norm_num) (by norm_num) (by norm_num)
      (by rw [abs_of_nonneg y1]; exact y2)
  have hpw : (2 : α) ^ (127 : Int) < (2 : α) ^ (128 : Int) :=
    zpow_lt_zpow_right₀ (by norm_num) (by norm_num)
  refine ⟨_, f1, f2, ?_⟩
  unfold toFloat32
  rw [if_neg (by linarith), if_neg (by linarith [two_zpow_pos α 128])]

/-- A number of magnitude below `2 ^ (-150)` is stored in a `Float32Array` as zero. -/
theorem toFloat32_underflow {α : Type} [LinearOrderedField α] [FloorRing α] (x : α)
    (h : |x| < (2 : α) ^ (-150 : Int)) : toFloat32 x = Float32Value.finite 0 := by
  unfold toFloat32
  rw [roundBinary_eq_zero 24 (-149) x (by simpa using h)]
  have := two_zpow_pos α 128
  rw [if_neg (by linarith), if_neg (by linarith)]

/-- A number from `2 ^ 128` on is stored in a `Float32Array` as `Infinity`. -/
theorem toFloat32_overflow {α : Type} [LinearOrderedField α] [FloorRing α] (x : α)
    (h : (2 : α) ^ (128 : Int) ≤ x) : toFloat32 x = Float32Value.posInfinity := by
  unfold toFloat32
  rw [if_pos (roundBinary_ge_pow 24 (-149) x 128 (by norm_num) (by norm_num) h)]

theorem ulpExponent_mono_format {α : Type} [LinearOrderedField α] [FloorRing α] (x : α) :
    ulpExponent 53 (-1074) x ≤ ulpExponent 24 (-149) x := by
  unfold ulpExponent
  have : ((24 : Nat) : Int) ≤ ((53 : Nat) : Int) := by norm_num
  omega

/-- A number of the `float32` format is a double, and a `Float32Array` stores it as it
is. -/
theorem toFloat32_toFloat64_of_isFloat32 {α : Type} [LinearOrderedField α] [FloorRing α]
    (x : α) (h : IsFloat32 x) : toFloat32 (toFloat64 x) = Float32Value.finite x := by
  obtain ⟨z, e, hx, he, hlt⟩ := h
  have h64 : toFloat64 x = x :=
    roundBinary_eq_self 53 (-1074) x z e hx (le_trans (ulpExponent_mono_format x) he)
  rw [h64]
  exact toFloat32_eq_self x z e hx he hlt

/-! ### The arrays of cube -/

/-- The arrays of `cube` before the conversion to typed arrays, written out. -/
theorem cube_arrays_explicit {α : Type} [Field α] (s : α) :
    cube.arrays s =
      { coords :=
          [-s, -s, s, s, -s, s, s, s, s, -s, s, s,
           -s, -s, -s, -s, s, -s, s, s, -s, s, -s, -s,
           -s, s, -s, -s, s, s, s, s, s, s, s, -s,
           -s, -s, -s, s, -s, -s, s, -s, s, -s, -s, s,
           s, -s, -s, s, s, -s, s, s, s, s, -s, s,
           -s, -s, -s, -s, -s, s, -s, s, s, -s, s, -s]
        normals :=
          [0, 0, 1, 0, 0, 1, 0, 0, 1, 0, 0, 1,
           0, 0, -1, 0, 0, -1, 0, 0, -1, 0, 0, -1,
           0, 1, 0, 0, 1, 0, 0, 1, 0, 0, 1, 0,
           0, -1, 0, 0, -1, 0, 0, -1, 0, 0, -1, 0,
           1, 0, 0, 1, 0, 0, 1, 0, 0, 1, 0, 0,
           -1, 0, 0, -1, 0, 0, -1, 0, 0, -1, 0, 0]
        texCoords :=
          [0, 0, 1, 0, 1, 1, 0, 1, 0, 0, 1, 0, 1, 1, 0, 1, 0, 0, 1, 0, 1, 1, 0, 1,
           0, 0, 1, 0, 1, 1, 0, 1, 0, 0, 1, 0, 1, 1, 0, 1, 0, 0, 1, 0, 1, 1, 0, 1]
        indices :=
          [0, 1, 2, 0, 2, 3, 4, 5, 6, 4, 6, 7, 8, 9, 10, 8, 10, 11,
           12, 13, 14, 12, 14, 15, 16, 17, 18, 16, 18, 19, 20, 21, 22, 20, 22, 23] } := by
  simp [cube.arrays, cube.face, List.range, List.range.loop]

/-- The arrays of `cube(side)` when its half side is stored as the finite number `f`. -/
theorem cube_finite {α : Type} [LinearOrderedField α] [FloorRing α] (side : α) (h : side ≠ 0)
    (f : α) (hf : toFloat32 (toFloat64 (side / 2)) = Float32Value.finite f) :
    cube (some side) =
      { vertexPositions := (cube.arrays f).coords.map Float32Value.finite
        vertexNormals := (cube.arrays f).normals.map Float32Value.finite
        vertexTextureCoords := (cube.arrays f).texCoords.map Float32Value.finite
        indices := (cube.arrays f).indices.map toUint16 } := by
  have hneg : toFloat32 (-toFloat64 (side / 2)) = Float32Value.finite (-f) := by
    rw [toFloat32_neg, hf]
    rfl
  simp only [cube, orDefault, if_neg h, cube_arrays_explicit, List.map_cons, List.map_nil,
    hf, hneg, toFloat32_zero, toFloat32_one, toFloat32_neg_one]

theorem cube_eq_some {α : Type} [LinearOrderedField α] [FloorRing α] (side : Option α) :
    cube side = cube (some (orDefault side 1)) := by
  have h : orDefault (some (orDefault side (1 : α))) 1 = orDefault side 1 :=
    orDefault_some _ _ (orDefault_ne_zero side 1 one_ne_zero)
  simp only [cube, h]

theorem cube_lengths {α : Type} [LinearOrderedField α] [FloorRing α] (side : Option α) :
    (cube side).vertexPositions.length = 72 ∧ (cube side).vertexNormals.length = 72 ∧
    (cube side).vertexTextureCoords.length = 48 ∧ (cube side).indices.length = 36 := by
  simp [cube, cube_arrays_explicit]

/-- The indices of `cube` and its normal and texture arrays do not depend on `side`. -/
theorem cube_fixed_arrays {α : Type} [LinearOrderedField α] [FloorRing α] (side : Option α) :
    (cube side).vertexNormals = (cube.arrays (0 : α)).normals.map Float32Value.finite ∧
    (cube side).vertexTextureCoords =
      (cube.arrays (0 : α)).texCoords.map Float32Value.finite ∧
    (cube side).indices =
      [0, 1, 2, 0, 2, 3, 4, 5, 6, 4, 6, 7, 8, 9, 10, 8, 10, 11,
       12, 13, 14, 12, 14, 15, 16, 17, 18, 16, 18, 19, 20, 21, 22, 20, 22, 23] := by
  simp [cube, cube_arrays_explicit, toFloat32_zero, toFloat32_one, toFloat32_neg_one,
    toUint16]

/-- C3: for every `side` argument (a number, zero, or `undefined`), `cube` returns 72
position components, 72 normal components and 48 texture components, that is 24 vertices,
and 36 indices. -/
theorem cube_counts {α : Type} [LinearOrderedField α] [FloorRing α] (side : Option α) :
    (cube side).vertexPositions.length = 72 ∧ (cube side).vertexNormals.length = 72 ∧
    (cube side).vertexTextureCoords.length = 48 ∧ (cube side).indices.length = 36 ∧
    (cube side).vertexPositions.length / 3 = 24 ∧
    (cube side).vertexNormals.length / 3 = 24 ∧
    (cube side).vertexTextureCoords.length / 2 = 24 := by
  obtain ⟨h1, h2, h3, h4⟩ := cube_lengths side
  refine ⟨h1, h2, h3, h4, ?_, ?_, ?_⟩
  · rw [h1]
  · rw [h2]
  · rw [h3]

theorem cube_arrays_normal_triples {α : Type} [Field α] (s : α) :
    triples (cube.arrays s).normals =
      [(0, 0, 1), (0, 0, 1), (0, 0, 1), (0, 0, 1), (0, 0, -1), (0, 0, -1), (0, 0, -1), (0, 0, -1),
       (0, 1, 0), (0, 1, 0), (0, 1, 0), (0, 1, 0), (0, -1, 0), (0, -1, 0), (0, -1, 0), (0, -1, 0),
       (1, 0, 0), (1, 0, 0), (1, 0, 0), (1, 0, 0), (-1, 0, 0), (-1, 0, 0), (-1, 0, 0), (-1, 0, 0)] := by
  rw [cube_arrays_explicit]
  simp [triples, vec3At, List.range, List.range.loop]

theorem cube_arrays_position_triples {α : Type} [Field α] (s : α) :
    triples (cube.arrays s).coords =
      [(-s, -s, s), (s, -s, s), (s, s, s), (-s, s, s),
       (-s, -s, -s), (-s, s, -s), (s, s, -s), (s, -s, -s),
       (-s, s, -s), (-s, s, s), (s, s, s), (s, s, -s),
       (-s, -s, -s), (s, -s, -s), (s, -s, s), (-s, -s, s),
       (s, -s, -s), (s, s, -s), (s, s, s), (s, -s, s),
       (-s, -s, -s), (-s, -s, s), (-s, s, s), (-s, s, -s)] := by
  rw [cube_arrays_explicit]
  simp [triples, vec3At, List.range, List.range.loop]

theorem cube_index_triples {α : Type} [LinearOrderedField α] [FloorRing α] (side : Option α) :
    triples (cube side).indices =
      [(0, 1, 2), (0, 2, 3), (4, 5, 6), (4, 6, 7), (8, 9, 10), (8, 10, 11),
       (12, 13, 14), (12, 14, 15), (16, 17, 18), (16, 18, 19), (20, 21, 22), (20, 22, 23)] := by
  rw [(cube_fixed_arrays side).2.2]
  simp [triples, vec3At, List.range, List.range.loop]

theorem half_le_pow {α : Type} [LinearOrderedField α] (side : α)
    (h : side ≤ (2 : α) ^ (128 : Int)) : side / 2 ≤ (2 : α) ^ (127 : Int) := by
  have e : (2 : α) ^ (128 : Int) = 2 * (2 : α) ^ (127 : Int) := by
    rw [show (128 : Int) = 127 + 1 by norm_num, zpow_add_one₀ (by norm_num : (2 : α) ≠ 0)]
    ring
  rw [e] at h
  linarith

theorem pow_le_half {α : Type} [LinearOrderedField α] (side : α)
    (h : (2 : α) ^ (-148 : Int) ≤ side) : (2 : α) ^ (-149 : Int) ≤ side / 2 := by
  have e : (2 : α) ^ (-148 : Int) = 2 * (2 : α) ^ (-149 : Int) := by
    rw [show (-148 : Int) = -149 + 1 by norm_num, zpow_add_one₀ (by norm_num : (2 : α) ≠ 0)]
    ring
  rw [e] at h
  generalize (2 : α) ^ (-149 : Int) = t at h ⊢
  linarith

set_option maxHeartbeats 1000000 in
/-- C4, amended: let `f` be the half side as `cube` stores it, `side/2` rounded to the
nearest `float32` number.  For every `side` with `0 < side ≤ 2^128`, `f` is finite and not
negative, and it is `side/2` itself when `side/2` is a `float32` number.  Every coordinate
of every vertex of the cube is `f` or `-f`; the 24 normals are the six axis-aligned unit
vectors, each exactly 4 times; each vertex lies on the face its normal points to
(position · normal = `f`); every coordinate lies in `[-f, f]` and on each axis both bounds
are attained, so the bounding box is exactly `[-f, f]^3`. -/
theorem cube_geometry {α : Type} [LinearOrderedField α] [FloorRing α] (side : α)
    (h : 0 < side) (hmax : side ≤ (2 : α) ^ (128 : Int)) :
    ∃ (f : α) (P N : List α), 0 ≤ f ∧
      toFloat32 (toFloat64 (side / 2)) = Float32Value.finite f ∧
      (IsFloat32 (side / 2) → f = side / 2) ∧
      (cube (some side)).vertexPositions = P.map Float32Value.finite ∧
      (cube (some side)).vertexNormals = N.map Float32Value.finite ∧
      (∀ x ∈ P, x = f ∨ x = -f) ∧
      (triples N).length = 24 ∧ (triples P).length = 24 ∧
      (∀ n ∈ [((0 : α), (0 : α), (1 : α)), (0, 0, -1), (0, 1, 0), (0, -1, 0), (1, 0, 0),
        (-1, 0, 0)], (triples N).count n = 4) ∧
      (∀ pn ∈ List.zip (triples P) (triples N), dot pn.1 pn.2 = f) ∧
      (∀ x ∈ P, -f ≤ x ∧ x ≤ f) ∧
      (∃ p ∈ triples P, p.1 = -f) ∧ (∃ p ∈ triples P, p.1 = f) ∧
      (∃ p ∈ triples P, p.2.1 = -f) ∧ (∃ p ∈ triples P, p.2.1 = f) ∧
      (∃ p ∈ triples P, p.2.2 = -f) ∧ (∃ p ∈ triples P, p.2.2 = f) := by
  have hs : side ≠ 0 := ne_of_gt h
  obtain ⟨f, hf0, _, hf⟩ := toFloat32_toFloat64_nonneg (side / 2) (by positivity)
    (half_le_pow side hmax)
  have hcube := cube_finite side hs f hf
  have hcoord : ∀ x ∈ (cube.arrays f).coords, x = f ∨ x = -f := by
    rw [cube_arrays_explicit]
    intro x hx
    simp only [List.mem_cons, List.mem_singleton, List.not_mem_nil, or_false] at hx
    tauto
  have h1 : (1 : α) ≠ -1 := by
    intro h'
    have : (0 : α) < 1 := one_pos
    linarith
  have h1' : (-1 : α) ≠ 1 := fun h' => h1 h'.symm
  refine ⟨f, (cube.arrays f).coords, (cube.arrays f).normals, hf0, hf, ?_, ?_, ?_, hcoord, ?_⟩
  · intro hrep
    have := toFloat32_toFloat64_of_isFloat32 (side / 2) hrep
    rw [hf] at this
    exact Float32Value.finite.inj this
  · rw [hcube]
  · rw [hcube]
  rw [cube_arrays_normal_triples, cube_arrays_position_triples]
  refine ⟨rfl, rfl, ?_, ?_, ?_, ?_, ?_, ?_, ?_, ?_, ?_⟩
  · intro n hn
    simp only [List.mem_cons, List.mem_singleton, List.not_mem_nil, or_false] at hn
    rcases hn with hn | hn | hn | hn | hn | hn <;> subst hn <;>
      simp [List.count_cons, h1, h1']
  · intro pn hpn
    simp only [List.zip_cons_cons, List.zip_nil_right, List.mem_cons, List.mem_singleton,
      List.not_mem_nil, or_false] at hpn
    rcases hpn with hpn | hpn | hpn | hpn | hpn | hpn | hpn | hpn | hpn | hpn | hpn | hpn |
      hpn | hpn | hpn | hpn | hpn | hpn | hpn | hpn | hpn | hpn | hpn | hpn <;> subst hpn <;>
      simp [dot]
  · intro x hx
    rcases hcoord x hx with hx' | hx' <;> subst hx' <;> constructor <;> linarith
  · exact ⟨_, List.mem_cons_self _ _, rfl⟩
  · exact ⟨_, List.mem_cons_of_mem _ (List.mem_cons_self _ _), rfl⟩
  · exact ⟨_, List.mem_cons_self _ _, rfl⟩
  · exact ⟨_, List.mem_cons_of_mem _ (List.mem_cons_of_mem _ (List.mem_cons_self _ _)), rfl⟩
  · exact ⟨_, List.mem_cons_of_mem _ (List.mem_cons_of_mem _ (List.mem_cons_of_mem _
      (List.mem_cons_of_mem _ (List.mem_cons_self _ _)))), rfl⟩
  · exact ⟨_, List.mem_cons_self _ _, rfl⟩

theorem isFloat32_one {α : Type} [LinearOrderedField α] [FloorRing α] : IsFloat32 (1 : α) :=
  ⟨1, 0, by simp, by rw [ulpExponent_one]; norm_num,
    by rw [abs_one]; exact one_lt_zpow₀ (by norm_num) (by norm_num)⟩

theorem isFloat32_half {α : Type} [LinearOrderedField α] [FloorRing α] :
    IsFloat32 (1 / 2 : α) := by
  have hlo : (2 : α) ^ (-1 : Int) ≤ |(1 / 2 : α)| := by
    rw [abs_of_pos (by norm_num), zpow_neg_one]
    norm_num
  have hhi : |(1 / 2 : α)| < (2 : α) ^ ((-1 : Int) + 1) := by
    rw [abs_of_pos (by norm_num)]
    norm_num
  refine ⟨1, -1, by rw [zpow_neg_one]; norm_num, ?_, ?_⟩
  · rw [ulpExponent_eq 24 (-149) _ (-1) hlo hhi]
    norm_num
  · rw [abs_of_pos (by norm_num)]
    exact lt_trans (by norm_num) (one_lt_zpow₀ (by norm_num : (1 : α) < 2) (by norm_num))

/-- Instances of `cube_geometry`: the bounding box of `cube(2)` is `[-1, 1]^3` and that of
`cube(1)` is `[-0.5, 0.5]^3`. -/
theorem cube_geometry_witness :
    ((0 : ℚ) < 2 ∧ (2 : ℚ) ≤ (2 : ℚ) ^ (128 : Int)) ∧
    (∃ P : List ℚ, (cube (some (2 : ℚ))).vertexPositions = P.map Float32Value.finite ∧
      (∀ x ∈ P, -1 ≤ x ∧ x ≤ 1) ∧ (∃ p ∈ triples P, p.1 = -1) ∧ (∃ p ∈ triples P, p.1 = 1)) ∧
    (∃ P : List ℚ, (cube (some (1 : ℚ))).vertexPositions = P.map Float32Value.finite ∧
      (∀ x ∈ P, -(1 / 2) ≤ x ∧ x ≤ 1 / 2) ∧ (∃ p ∈ triples P, p.1 = -(1 / 2)) ∧
      (∃ p ∈ triples P, p.1 = 1 / 2)) := by
  have b2 : (2 : ℚ) ≤ (2 : ℚ) ^ (128 : Int) := by
    have := zpow_le_zpow_right₀ (by norm_num : (1 : ℚ) ≤ 2) (by norm_num : (1 : Int) ≤ 128)
    simpa using this
  have b1 : (1 : ℚ) ≤ (2 : ℚ) ^ (128 : Int) := le_trans (by norm_num) b2
  refine ⟨⟨by norm_num, b2⟩, ?_, ?_⟩
  · obtain ⟨f, P, N, _, _, hrep, hP, _, _, _, _, _, _, hbox, hx1, hx2, _⟩ :=
      cube_geometry (2 : ℚ) (by norm_num) b2
    have hf : f = 1 := by
      rw [hrep (by rw [show (2 : ℚ) / 2 = 1 by norm_num]; exact isFloat32_one)]
      norm_num
    subst hf
    exact ⟨P, hP, hbox, hx1, hx2⟩
  · obtain ⟨f, P, N, _, _, hrep, hP, _, _, _, _, _, _, hbox, hx1, hx2, _⟩ :=
      cube_geometry (1 : ℚ) (by norm_num) b1
    have hf : f = 1 / 2 := hrep isFloat32_half
    subst hf
    exact ⟨P, hP, hbox, hx1, hx2⟩

/-- The double `0.1`, halved, is stored in a `Float32Array` as `13421773 / 2^28`, which is
`0.0500000007450580596923828125`. -/
theorem toFloat32_half_of_tenth :
    toFloat32 (toFloat64 ((3602879701896397 / 36028797018963968 : ℚ) / 2)) =
      Float32Value.finite (13421773 / 268435456) := by
  have ex : (3602879701896397 / 36028797018963968 : ℚ) / 2 =
      3602879701896397 / 72057594037927936 := by norm_num
  have hlo : (2 : ℚ) ^ (-5 : Int) ≤ |(3602879701896397 / 72057594037927936 : ℚ)| := by
    rw [abs_of_pos (by norm_num)]
    norm_num [zpow_neg]
  have hhi : |(3602879701896397 / 72057594037927936 : ℚ)| < (2 : ℚ) ^ ((-5 : Int) + 1) := by
    rw [abs_of_pos (by norm_num)]
    norm_num [zpow_neg]
  have h64 : toFloat64 (3602879701896397 / 72057594037927936 : ℚ) =
      3602879701896397 / 72057594037927936 := by
    unfold toFloat64
    refine roundBinary_eq_self 53 (-1074) _ 3602879701896397 (-56) (by norm_num [zpow_neg]) ?_
    rw [ulpExponent_eq 53 (-1074) _ (-5) hlo hhi]
    norm_num
  have h32 : roundBinary 24 (-149) (3602879701896397 / 72057594037927936 : ℚ) =
      13421773 / 268435456 := by
    rw [roundBinary_eq_of_near 24 (-149) _ (-5) (-28) 13421773 hlo hhi (by norm_num)
      (by rw [abs_lt]; norm_num [zpow_neg])]
    norm_num [zpow_neg]
  rw [ex, h64]
  unfold toFloat32
  rw [h32, if_neg (by norm_num), if_neg (by norm_num)]

/-- C4 as stated fails: `cube(0.1)` has the half side `0.05` (the double
`3602879701896397 / 2^56`), and the `Float32Array` stores `13421773 / 2^28`, which is
`0.05000000074505806`: the first vertex is `(-f, -f, f)` with this `f`, and `f` is not
`side/2`. -/
theorem cube_stores_float32 :
    (cube (some (3602879701896397 / 36028797018963968 : ℚ))).vertexPositions.take 3 =
      [Float32Value.finite (-(13421773 / 268435456)),
        Float32Value.finite (-(13421773 / 268435456)),
        Float32Value.finite (13421773 / 268435456)] ∧
    (13421773 / 268435456 : ℚ) ≠ (3602879701896397 / 36028797018963968) / 2 := by
  refine ⟨?_, by norm_num⟩
  rw [cube_finite _ (by norm_num) _ toFloat32_half_of_tenth, cube_arrays_explicit]
  rfl

theorem cube_arrays_lengths {α : Type} [Field α] (s : α) :
    (cube.arrays s).coords.length = 72 ∧ (cube.arrays s).normals.length = 72 := by
  simp [cube_arrays_explicit]

set_option maxHeartbeats 1000000 in
/-- C10, amended: for every `side` from `2^(-148)` to `2^128`, the half side is stored as a
finite number `f > 0`, `cube` has 12 triangles and each of them is wound counter-clockwise
seen from outside: for the index triple `(a, b, c)` the cross product
`(P_b - P_a) × (P_c - P_a)` of the stored positions is a positive multiple of the normal
stored for `a`, which is also the normal stored for `b` and for `c`. -/
theorem cube_winding {α : Type} [LinearOrderedField α] [FloorRing α] (side : α)
    (hmin : (2 : α) ^ (-148 : Int) ≤ side) (hmax : side ≤ (2 : α) ^ (128 : Int)) :
    ∃ (f : α) (P N : List α), 0 < f ∧
      toFloat32 (toFloat64 (side / 2)) = Float32Value.finite f ∧
      (cube (some side)).vertexPositions = P.map Float32Value.finite ∧
      (cube (some side)).vertexNormals = N.map Float32Value.finite ∧
      (triples (cube (some side)).indices).length = 12 ∧
      ∀ t ∈ triples (cube (some side)).indices, ∃ k : α, 0 < k ∧
        triangleCross (vec3At P t.1) (vec3At P t.2.1) (vec3At P t.2.2) =
          scale3 k (vec3At N t.1) ∧
        vec3At N t.2.1 = vec3At N t.1 ∧ vec3At N t.2.2 = vec3At N t.1 := by
  have h : 0 < side := lt_of_lt_of_le (two_zpow_pos α _) hmin
  have hs : side ≠ 0 := ne_of_gt h
  obtain ⟨f, hf1, _, hf⟩ := toFloat32_toFloat64_range (side / 2) (pow_le_half side hmin)
    (half_le_pow side hmax)
  have hf0 : 0 < f := lt_of_lt_of_le (two_zpow_pos α _) hf1
  have hcube := cube_finite side hs f hf
  have hk : 0 < f * f * 4 := by positivity
  have hP : ∀ i, vec3At (cube.arrays f).coords i =
      (triples (cube.arrays f).coords).getD i (0, 0, 0) :=
    vec3At_eq_getD_triples _ (by rw [(cube_arrays_lengths f).1])
  have hN : ∀ i, vec3At (cube.arrays f).normals i =
      (triples (cube.arrays f).normals).getD i (0, 0, 0) :=
    vec3At_eq_getD_triples _ (by rw [(cube_arrays_lengths f).2])
  rw [cube_arrays_position_triples] at hP
  rw [cube_arrays_normal_triples] at hN
  refine ⟨f, (cube.arrays f).coords, (cube.arrays f).normals, hf0, hf, by rw [hcube],
    by rw [hcube], ?_⟩
  rw [cube_index_triples]
  refine ⟨rfl, ?_⟩
  intro t ht
  simp only [List.mem_cons, List.mem_singleton, List.not_mem_nil, or_false] at ht
  refine ⟨f * f * 4, hk, ?_⟩
  rcases ht with ht | ht | ht | ht | ht | ht | ht | ht | ht | ht | ht | ht <;> subst ht <;>
    (simp only [hP, hN]
     simp [triangleCross, scale3]
     try ring_nf
     try simp)

/-- Instance of `cube_winding` at `cube(1)`. -/
theorem cube_winding_witness :
    ((2 : ℚ) ^ (-148 : Int) ≤ 1 ∧ (1 : ℚ) ≤ (2 : ℚ) ^ (128 : Int)) ∧
    (triples (cube (some (1 : ℚ))).indices).length = 12 := by
  have b1 : (1 : ℚ) ≤ (2 : ℚ) ^ (128 : Int) := one_le_zpow₀ (by norm_num) (by norm_num)
  have b0 : (2 : ℚ) ^ (-148 : Int) ≤ 1 := zpow_le_one_of_nonpos₀ (by norm_num) (by norm_num)
  obtain ⟨f, P, N, _, _, _, _, hl, _⟩ := cube_winding (1 : ℚ) b0 b1
  exact ⟨⟨b0, b1⟩, hl⟩

/-- C10 as stated fails: for `side = 2^(-152)`, a positive double, the half side `2^(-153)`
is stored in the `Float32Array` as `0`: all 72 coordinates are `0`, and the cross product
of the first triangle, `(0, 0, 0)`, is no positive multiple of the normal `(0, 0, 1)`. -/
theorem cube_tiny_side_degenerate :
    (0 : ℚ) < (2 : ℚ) ^ (-152 : Int) ∧
    ∃ P N : List ℚ,
      (cube (some ((2 : ℚ) ^ (-152 : Int)))).vertexPositions = P.map Float32Value.finite ∧
      (cube (some ((2 : ℚ) ^ (-152 : Int)))).vertexNormals = N.map Float32Value.finite ∧
      P = List.replicate 72 0 ∧ vec3At N 0 = (0, 0, 1) ∧
      vec3At (cube (some ((2 : ℚ) ^ (-152 : Int)))).indices 0 = (0, 1, 2) ∧
      triangleCross (vec3At P 0) (vec3At P 1) (vec3At P 2) = (0, 0, 0) ∧
      ¬ ∃ k : ℚ, 0 < k ∧
        triangleCross (vec3At P 0) (vec3At P 1) (vec3At P 2) = scale3 k (vec3At N 0) := by
  have hpos : (0 : ℚ) < (2 : ℚ) ^ (-152 : Int) := two_zpow_pos ℚ _
  have e : (2 : ℚ) ^ (-152 : Int) / 2 = (2 : ℚ) ^ (-153 : Int) := by
    rw [show (-152 : Int) = -153 + 1 by norm_num, zpow_add_one₀ (by norm_num : (2 : ℚ) ≠ 0)]
    field_simp
    ring
  have h64 : toFloat64 ((2 : ℚ) ^ (-153 : Int)) = (2 : ℚ) ^ (-153 : Int) := by
    unfold toFloat64
    refine roundBinary_eq_self 53 (-1074) _ 1 (-153) (by simp) ?_
    rw [ulpExponent_eq 53 (-1074) _ (-153)
      (by rw [abs_of_pos (two_zpow_pos ℚ _)])
      (by rw [abs_of_pos (two_zpow_pos ℚ _)]
          exact zpow_lt_zpow_right₀ (by norm_num) (by norm_num))]
    norm_num
  have hf : toFloat32 (toFloat64 ((2 : ℚ) ^ (-152 : Int) / 2)) = Float32Value.finite 0 := by
    rw [e, h64]
    exact toFloat32_underflow _ (by
      rw [abs_of_pos (two_zpow_pos ℚ _)]
      exact zpow_lt_zpow_right₀ (by norm_num) (by norm_num))
  have hcube := cube_finite _ (ne_of_gt hpos) 0 hf
  refine ⟨hpos, (cube.arrays (0 : ℚ)).coords, (cube.arrays (0 : ℚ)).normals, by rw [hcube],
    by rw [hcube], ?_, ?_, ?_, ?_, ?_⟩
  · rw [cube_arrays_explicit]
    simp [List.replicate]
  · rw [cube_arrays_explicit]
    simp [vec3At]
  · rw [(cube_fixed_arrays _).2.2]
    simp [vec3At]
  · rw [cube_arrays_explicit]
    simp [vec3At, triangleCross]
  · rintro ⟨k, hk, hc⟩
    rw [cube_arrays_explicit] at hc
    simp only [vec3At, triangleCross, scale3, List.getD_cons_zero, List.getD_cons_succ,
      sub_self, mul_zero, mul_one, Prod.mk.injEq] at hc
    linarith [hc.2.2]

/-! ### Results on the returned meshes -/

/-- The mesh of `ring` with positive `slices`: lengths of its arrays for `V` vertices, and
indices in range, where `V = slices + 1` in disk mode and `2 * slices` otherwise. -/
theorem ring_mesh_spec {α : Type} [Field α] [DecidableEq α] (M : JSMath α) (g : Globals α)
    (argumentsLength : Nat) (innerRadius outerRadius : Option α) (slices : Nat)
    (hs : 0 < slices) :
    ∃ m, ring M g argumentsLength innerRadius outerRadius (some (slices : Int)) =
        Except.ok m ∧
      (m.vertexPositions.length =
          3 * (if ringInner argumentsLength innerRadius = some 0 then slices + 1
            else 2 * slices) ∧
        m.vertexNormals.length =
          3 * (if ringInner argumentsLength innerRadius = some 0 then slices + 1
            else 2 * slices) ∧
        m.vertexTextureCoords.length =
          2 * (if ringInner argumentsLength innerRadius = some 0 then slices + 1
            else 2 * slices) ∧
        m.indices.length =
          (if ringInner argumentsLength innerRadius = some 0 then 3 * slices
            else 6 * slices)) ∧
      IndicesInRange m ∧
      RingNormals (m.vertexNormals.length / 3) m.vertexNormals := by
  by_cases hd : ringInner argumentsLength innerRadius = some 0
  · obtain ⟨st, hst, hadv, hidx, hn⟩ :=
      ring_run_disk M g argumentsLength innerRadius outerRadius slices hs hd
    have hl := mesh_lengths _ _ _ _ _ _ _ hadv
    refine ⟨st.buf.toMesh, by simp [ring, hst, Except.map], ?_, ?_, ?_⟩
    · simpa only [hd, if_true] using hl
    · exact mesh_indices_in_range _ _ hl.1 hidx
    · rw [hl.2.1, Nat.mul_div_cancel_left _ (by norm_num : 0 < 3)]
      exact hn
  · obtain ⟨st, hst, hadv, hidx, hn⟩ :=
      ring_run_annulus M g argumentsLength innerRadius outerRadius slices hs hd
    have hl := mesh_lengths _ _ _ _ _ _ _ hadv
    refine ⟨st.buf.toMesh, by simp [ring, hst, Except.map], ?_, ?_, ?_⟩
    · simpa only [hd, if_false] using hl
    · exact mesh_indices_in_range _ _ hl.1 hidx
    · rw [hl.2.1, Nat.mul_div_cancel_left _ (by norm_num : 0 < 3)]
      exact hn

/-- The mesh of `uvSphere` with positive `slices` and `stacks`. -/
theorem uvSphere_mesh_spec {α : Type} [Field α] [DecidableEq α] (M : JSMath α)
    (radius : Option α) (slices nstacks : Nat) (hs : 0 < slices) (ht : 0 < nstacks)
    (pos_x pos_y pos_z : Option α) :
    ∃ m, uvSphere M radius (some (slices : Int)) (some (nstacks : Int)) pos_x pos_y pos_z =
        Except.ok m ∧
      (m.vertexPositions.length = 3 * ((slices + 1) * (nstacks + 1)) ∧
        m.vertexNormals.length = 3 * ((slices + 1) * (nstacks + 1)) ∧
        m.vertexTextureCoords.length = 2 * ((slices + 1) * (nstacks + 1)) ∧
        m.indices.length = 2 * slices * nstacks * 3) ∧
      IndicesInRange m := by
  obtain ⟨b, hb, hadv, hidx, _⟩ :=
    uvSphere_run_spec M radius slices nstacks hs ht pos_x pos_y pos_z
  have hl := mesh_lengths _ _ _ _ _ _ _ hadv
  exact ⟨b.toMesh, by simp [uvSphere, hb, Except.map], hl, mesh_indices_in_range _ _ hl.1 hidx⟩

/-- The mesh of `uvTorus` with positive `slices` and `stacks`. -/
theorem uvTorus_mesh_spec {α : Type} [Field α] [DecidableEq α] (M : JSMath α)
    (outerRadius innerRadius : Option α) (slices nstacks : Nat) (hs : 0 < slices)
    (ht : 0 < nstacks) :
    ∃ m, uvTorus M outerRadius innerRadius (some (slices : Int)) (some (nstacks : Int)) =
        Except.ok m ∧
      (m.vertexPositions.length = 3 * ((slices + 1) * (nstacks + 1)) ∧
        m.vertexNormals.length = 3 * ((slices + 1) * (nstacks + 1)) ∧
        m.vertexTextureCoords.length = 2 * ((slices + 1) * (nstacks + 1)) ∧
        m.indices.length = 2 * slices * nstacks * 3) ∧
      IndicesInRange m := by
  obtain ⟨b, hb, hadv, hidx, _⟩ :=
    uvTorus_run_spec M outerRadius innerRadius slices nstacks hs ht
  have hl := mesh_lengths _ _ _ _ _ _ _ hadv
  exact ⟨b.toMesh, by simp [uvTorus, hb, Except.map], hl, mesh_indices_in_range _ _ hl.1 hidx⟩

/-- The mesh of `uvCylinder` with positive `slices`. -/
theorem uvCylinder_mesh_spec {α : Type} [Field α] [DecidableEq α] (M : JSMath α)
    (radius height : Option α) (slices : Nat) (hs : 0 < slices) (noTop noBottom : Bool) :
    ∃ m, uvCylinder M radius height (some (slices : Int)) noTop noBottom = Except.ok m ∧
      (m.vertexPositions.length = 3 * cylinderVertices slices noTop noBottom ∧
        m.vertexNormals.length = 3 * cylinderVertices slices noTop noBottom ∧
        m.vertexTextureCoords.length = 2 * cylinderVertices slices noTop noBottom ∧
        m.indices.length = 3 * cylinderTriangles slices noTop noBottom) ∧
      IndicesInRange m := by
  obtain ⟨b, hb, hadv, hidx, _⟩ := uvCylinder_run_spec M radius height slices hs noTop noBottom
  have hl := mesh_lengths _ _ _ _ _ _ _ hadv
  exact ⟨b.toMesh, by simp [uvCylinder, hb, Except.map], hl,
    mesh_indices_in_range _ _ hl.1 hidx⟩

/-- The mesh of `uvCone` with positive `slices`. -/
theorem uvCone_mesh_spec {α : Type} [Field α] [DecidableEq α] (M : JSMath α)
    (radius height : Option α) (slices : Nat) (hs : 0 < slices) (noBottom : Bool) :
    ∃ m, uvCone M radius height (some (slices : Int)) noBottom = Except.ok m ∧
      (m.vertexPositions.length = 3 * coneVertices slices noBottom ∧
        m.vertexNormals.length = 3 * coneVertices slices noBottom ∧
        m.vertexTextureCoords.length = 2 * coneVertices slices noBottom ∧
        m.indices.length = 3 * coneTriangles slices noBottom) ∧
      IndicesInRange m := by
  obtain ⟨b, hb, hadv, hidx, _⟩ := uvCone_run_spec M radius height slices hs noBottom
  have hl := mesh_lengths _ _ _ _ _ _ _ hadv
  exact ⟨b.toMesh, by simp [uvCone, hb, Except.map], hl, mesh_indices_in_range _ _ hl.1 hidx⟩

/-- The indices of `cube` are `0 .. 23`, in range for its 24 vertices. -/
theorem cube_indices_in_range {α : Type} [LinearOrderedField α] [FloorRing α]
    (side : Option α) : IndicesInRange (cube side) := by
  intro x hx
  rw [(cube_lengths side).1]
  rw [(cube_fixed_arrays side).2.2] at hx
  simp only [List.mem_cons, List.mem_singleton, List.not_mem_nil, or_false] at hx
  omega

/-- C1: for all positive integers `slices` and `stacks` and every combination of the flags
`noTop`, `noBottom`, every value of the `indices` array returned by `cube`, `ring` (disk
and annulus), `uvSphere`, `uvTorus`, `uvCylinder` and `uvCone` is strictly below the vertex
count `vertexPositions.length / 3` of the mesh; each of these calls returns a mesh. -/
theorem indices_below_vertex_count {α : Type} [Field α] [DecidableEq α] (M : JSMath α)
    (g : Globals α) (slices nstacks : Nat) (hs : 0 < slices) (ht : 0 < nstacks) :
    (∀ (γ : Type) [LinearOrderedField γ] [FloorRing γ] (side : Option γ),
      IndicesInRange (cube side)) ∧
    (∀ (argumentsLength : Nat) (innerRadius outerRadius : Option α),
      ∃ m, ring M g argumentsLength innerRadius outerRadius (some (slices : Int)) =
        Except.ok m ∧ IndicesInRange m) ∧
    (∀ radius pos_x pos_y pos_z : Option α,
      ∃ m, uvSphere M radius (some (slices : Int)) (some (nstacks : Int))
        pos_x pos_y pos_z = Except.ok m ∧ IndicesInRange m) ∧
    (∀ outerRadius innerRadius : Option α,
      ∃ m, uvTorus M outerRadius innerRadius (some (slices : Int)) (some (nstacks : Int)) =
        Except.ok m ∧ IndicesInRange m) ∧
    (∀ (radius height : Option α) (noTop noBottom : Bool),
      ∃ m, uvCylinder M radius height (some (slices : Int)) noTop noBottom = Except.ok m ∧
        IndicesInRange m) ∧
    (∀ (radius height : Option α) (noBottom : Bool),
      ∃ m, uvCone M radius height (some (slices : Int)) noBottom = Except.ok m ∧
        IndicesInRange m) := by
  refine ⟨fun γ _ _ side => cube_indices_in_range side, ?_, ?_, ?_, ?_, ?_⟩
  · intro a i o
    obtain ⟨m, hm, _, hi, _⟩ := ring_mesh_spec M g a i o slices hs
    exact ⟨m, hm, hi⟩
  · intro r x y z
    obtain ⟨m, hm, _, hi⟩ := uvSphere_mesh_spec M r slices nstacks hs ht x y z
    exact ⟨m, hm, hi⟩
  · intro o i
    obtain ⟨m, hm, _, hi⟩ := uvTorus_mesh_spec M o i slices nstacks hs ht
    exact ⟨m, hm, hi⟩
  · intro r h nt nb
    obtain ⟨m, hm, _, hi⟩ := uvCylinder_mesh_spec M r h slices hs nt nb
    exact ⟨m, hm, hi⟩
  · intro r h nb
    obtain ⟨m, hm, _, hi⟩ := uvCone_mesh_spec M r h slices hs nb
    exact ⟨m, hm, hi⟩

/-- Instance of `indices_below_vertex_count`: `uvSphere(1, 4, 2)` over the reals. -/
theorem indices_below_vertex_count_witness :
    (0 < 4 ∧ 0 < 2) ∧
    ∃ m, uvSphere (JSMath.mk Real.cos Real.sin Real.sqrt Real.pi) (some 1)
        (some ((4 : Nat) : Int)) (some ((2 : Nat) : Int)) none none none = Except.ok m ∧
      IndicesInRange m :=
  ⟨⟨by norm_num, by norm_num⟩,
    (indices_below_vertex_count (JSMath.mk Real.cos Real.sin Real.sqrt Real.pi)
      { c := none, s := none } 4 2 (by norm_num) (by norm_num)).2.2.1 (some 1) none none none⟩

/-- C2: for every indexed generator (`cube`, `ring`, `uvSphere`, `uvTorus`, `uvCylinder`,
`uvCone`) and all positive integers `slices`, `stacks`, the returned arrays describe the
same number `V` of vertices: `vertexPositions` and `vertexNormals` have `3 * V` elements
and `vertexTextureCoords` has `2 * V`. -/
theorem vertex_count_parity {α : Type} [Field α] [DecidableEq α] (M : JSMath α)
    (g : Globals α) (slices nstacks : Nat) (hs : 0 < slices) (ht : 0 < nstacks) :
    (∀ (γ : Type) [LinearOrderedField γ] [FloorRing γ] (side : Option γ),
      VertexParity (cube side)) ∧
    (∀ (argumentsLength : Nat) (innerRadius outerRadius : Option α),
      ∃ m, ring M g argumentsLength innerRadius outerRadius (some (slices : Int)) =
        Except.ok m ∧ VertexParity m) ∧
    (∀ radius pos_x pos_y pos_z : Option α,
      ∃ m, uvSphere M radius (some (slices : Int)) (some (nstacks : Int))
        pos_x pos_y pos_z = Except.ok m ∧ VertexParity m) ∧
    (∀ outerRadius innerRadius : Option α,
      ∃ m, uvTorus M outerRadius innerRadius (some (slices : Int)) (some (nstacks : Int)) =
        Except.ok m ∧ VertexParity m) ∧
    (∀ (radius height : Option α) (noTop noBottom : Bool),
      ∃ m, uvCylinder M radius height (some (slices : Int)) noTop noBottom = Except.ok m ∧
        VertexParity m) ∧
    (∀ (radius height : Option α) (noBottom : Bool),
      ∃ m, uvCone M radius height (some (slices : Int)) noBottom = Except.ok m ∧
        VertexParity m) := by
  refine ⟨?_, ?_, ?_, ?_, ?_, ?_⟩
  · intro γ _ _ side
    obtain ⟨h1, h2, h3, _⟩ := cube_lengths side
    exact ⟨24, h1, h2, h3⟩
  · intro a i o
    obtain ⟨m, hm, hl, _⟩ := ring_mesh_spec M g a i o slices hs
    exact ⟨m, hm, _, hl.1, hl.2.1, hl.2.2.1⟩
  · intro r x y z
    obtain ⟨m, hm, hl, _⟩ := uvSphere_mesh_spec M r slices nstacks hs ht x y z
    exact ⟨m, hm, _, hl.1, hl.2.1, hl.2.2.1⟩
  · intro o i
    obtain ⟨m, hm, hl, _⟩ := uvTorus_mesh_spec M o i slices nstacks hs ht
    exact ⟨m, hm, _, hl.1, hl.2.1, hl.2.2.1⟩
  · intro r h nt nb
    obtain ⟨m, hm, hl, _⟩ := uvCylinder_mesh_spec M r h slices hs nt nb
    exact ⟨m, hm, _, hl.1, hl.2.1, hl.2.2.1⟩
  · intro r h nb
    obtain ⟨m, hm, hl, _⟩ := uvCone_mesh_spec M r h slices hs nb
    exact ⟨m, hm, _, hl.1, hl.2.1, hl.2.2.1⟩

/-- Instance of `vertex_count_parity`: the fully capped `uvCylinder(1, 2, 3)` over the
reals. -/
theorem vertex_count_parity_witness :
    (0 < 3 ∧ 0 < 1) ∧
    ∃ m, uvCylinder (JSMath.mk Real.cos Real.sin Real.sqrt Real.pi) (some 1) (some 2)
        (some ((3 : Nat) : Int)) false false = Except.ok m ∧ VertexParity m :=
  ⟨⟨by norm_num, by norm_num⟩,
    (vertex_count_parity (JSMath.mk Real.cos Real.sin Real.sqrt Real.pi)
      { c := none, s := none } 3 1 (by norm_num) (by norm_num)).2.2.2.2.1
      (some 1) (some 2) false false⟩

/-- C5 as stated fails: over the reals, `ring()` with no arguments does not return 33
vertices and 96 indices. -/
theorem ring_noargs_not_33_96 :
    ¬ ∃ m, ring (JSMath.mk Real.cos Real.sin Real.sqrt Real.pi) { c := none, s := none }
        0 none none none = Except.ok m ∧
      m.vertexPositions.length / 3 = 33 ∧ m.indices.length = 96 := by
  rintro ⟨m, hm, hv, _⟩
  rw [ring_default_slices] at hm
  have hin : ringInner 0 (none : Option ℝ) ≠ some 0 := by
    simp [ringInner]
  obtain ⟨m2, hm2, hl, _⟩ := ring_mesh_spec
    (JSMath.mk Real.cos Real.sin Real.sqrt Real.pi) { c := none, s := none } 0 none none 32
    (by norm_num)
  rw [show ((32 : Nat) : Int) = 32 by norm_num] at hm2
  rw [hm2] at hm
  cases hm
  rw [hl.1, if_neg hin] at hv
  omega

/-- C5, amended: `ring()` with no arguments is an annulus (`innerRadius` defaults to
`0.25`, which is not zero): it returns 64 vertices (32 on the inner and 32 on the outer
circle) and 192 indices (64 triangles). -/
theorem ring_noargs_counts {α : Type} [Field α] [CharZero α] [DecidableEq α] (M : JSMath α)
    (g : Globals α) :
    ∃ m, ring M g 0 none none none = Except.ok m ∧
      m.vertexPositions.length = 3 * 64 ∧ m.vertexPositions.length / 3 = 64 ∧
      m.indices.length = 192 := by
  have hin : ringInner 0 (none : Option α) ≠ some 0 := by
    simp [ringInner]
  obtain ⟨m, hm, hl, _⟩ := ring_mesh_spec M g 0 none none 32 (by norm_num)
  rw [show ((32 : Nat) : Int) = 32 by norm_num] at hm
  rw [if_neg hin, if_neg hin] at hl
  refine ⟨m, by rw [ring_default_slices]; exact hm, hl.1, ?_, hl.2.2.2⟩
  rw [hl.1]

/-- Instance of `ring_noargs_counts` over the reals. -/
theorem ring_noargs_counts_witness :
    ∃ m, ring (JSMath.mk Real.cos Real.sin Real.sqrt Real.pi) { c := none, s := none }
        0 none none none = Except.ok m ∧
      m.vertexPositions.length = 3 * 64 ∧ m.vertexPositions.length / 3 = 64 ∧
      m.indices.length = 192 :=
  ring_noargs_counts (JSMath.mk Real.cos Real.sin Real.sqrt Real.pi) { c := none, s := none }

/-- C6: for every positive integer `slices`, `ring` called with `innerRadius == 0` returns
`slices + 1` vertices and `3 * slices` indices, and `ring` called with `innerRadius > 0`
returns `2 * slices` vertices and `6 * slices` indices; in particular `ring(0, 1, 8)`
returns 9 vertices and 24 indices. -/
theorem ring_counts {α : Type} [LinearOrderedField α] (M : JSMath α) (g : Globals α)
    (argumentsLength : Nat) (hargs : 0 < argumentsLength) (outerRadius : Option α)
    (slices : Nat) (hs : 0 < slices) :
    (∃ m, ring M g argumentsLength (some 0) outerRadius (some (slices : Int)) = Except.ok m ∧
      m.vertexPositions.length = 3 * (slices + 1) ∧ m.indices.length = 3 * slices) ∧
    (∀ innerRadius : α, 0 < innerRadius →
      ∃ m, ring M g argumentsLength (some innerRadius) outerRadius (some (slices : Int)) =
          Except.ok m ∧
        m.vertexPositions.length = 3 * (2 * slices) ∧ m.indices.length = 6 * slices) ∧
    (∃ m, ring M g 3 (some 0) (some 1) (some 8) = Except.ok m ∧
      m.vertexPositions.length = 3 * 9 ∧ m.indices.length = 24) := by
  have hne : argumentsLength ≠ 0 := Nat.pos_iff_ne_zero.mp hargs
  refine ⟨?_, ?_, ?_⟩
  · have hin : ringInner argumentsLength (some (0 : α)) = some 0 := by
      simp [ringInner, hne]
    obtain ⟨m, hm, hl, _⟩ := ring_mesh_spec M g argumentsLength (some 0) outerRadius slices hs
    rw [if_pos hin, if_pos hin] at hl
    exact ⟨m, hm, hl.1, hl.2.2.2⟩
  · intro r hr
    have hin : ringInner argumentsLength (some r) ≠ some 0 := by
      simp [ringInner, hne, ne_of_gt hr]
    obtain ⟨m, hm, hl, _⟩ := ring_mesh_spec M g argumentsLength (some r) outerRadius slices hs
    rw [if_neg hin, if_neg hin] at hl
    exact ⟨m, hm, hl.1, hl.2.2.2⟩
  · have hin : ringInner 3 (some (0 : α)) = some 0 := by
      simp [ringInner]
    obtain ⟨m, hm, hl, _⟩ := ring_mesh_spec M g 3 (some 0) (some 1) 8 (by norm_num)
    rw [show ((8 : Nat) : Int) = 8 by norm_num] at hm
    rw [if_pos hin, if_pos hin] at hl
    exact ⟨m, hm, hl.1, hl.2.2.2⟩

/-- Instance of `ring_counts`: `ring(0.5, 1, 6)` over the reals has 12 vertices and 36
indices. -/
theorem ring_counts_witness :
    (0 < 3 ∧ 0 < 6 ∧ (0 : ℝ) < 1 / 2) ∧
    ∃ m, ring (JSMath.mk Real.cos Real.sin Real.sqrt Real.pi) { c := none, s := none } 3
        (some (1 / 2)) (some 1) (some ((6 : Nat) : Int)) = Except.ok m ∧
      m.vertexPositions.length = 3 * (2 * 6) ∧ m.indices.length = 6 * 6 :=
  ⟨⟨by norm_num, by norm_num, by norm_num⟩,
    (ring_counts (JSMath.mk Real.cos Real.sin Real.sqrt Real.pi) { c := none, s := none } 3
      (by norm_num) (some 1) 6 (by norm_num)).2.1 (1 / 2) (by norm_num)⟩

/-- C7: for all positive integers `slices` and `stacks`, `uvSphere` and `uvTorus` each
return `(slices+1)*(stacks+1)` vertices and `2*slices*stacks*3` indices; in particular
`uvSphere(1, 4, 2)` returns 15 vertices and 48 indices and `uvTorus(1, 0.3, 8, 8)` returns
81 vertices and 384 indices. -/
theorem uvSphere_uvTorus_counts {α : Type} [Field α] [DecidableEq α] (M : JSMath α)
    (slices nstacks : Nat) (hs : 0 < slices) (ht : 0 < nstacks) :
    (∀ radius pos_x pos_y pos_z : Option α,
      ∃ m, uvSphere M radius (some (slices : Int)) (some (nstacks : Int))
          pos_x pos_y pos_z = Except.ok m ∧
        m.vertexPositions.length = 3 * ((slices + 1) * (nstacks + 1)) ∧
        m.indices.length = 2 * slices * nstacks * 3) ∧
    (∀ outerRadius innerRadius : Option α,
      ∃ m, uvTorus M outerRadius innerRadius (some (slices : Int)) (some (nstacks : Int)) =
          Except.ok m ∧
        m.vertexPositions.length = 3 * ((slices + 1) * (nstacks + 1)) ∧
        m.indices.length = 2 * slices * nstacks * 3) ∧
    (∃ m, uvSphere M (some 1) (some 4) (some 2) none none none = Except.ok m ∧
      m.vertexPositions.length = 3 * 15 ∧ m.indices.length = 48) ∧
    (∃ m, uvTorus M (some 1) (some (3 / 10)) (some 8) (some 8) = Except.ok m ∧
      m.vertexPositions.length = 3 * 81 ∧ m.indices.length = 384) := by
  refine ⟨?_, ?_, ?_, ?_⟩
  · intro r x y z
    obtain ⟨m, hm, hl, _⟩ := uvSphere_mesh_spec M r slices nstacks hs ht x y z
    exact ⟨m, hm, hl.1, hl.2.2.2⟩
  · intro o i
    obtain ⟨m, hm, hl, _⟩ := uvTorus_mesh_spec M o i slices nstacks hs ht
    exact ⟨m, hm, hl.1, hl.2.2.2⟩
  · obtain ⟨m, hm, hl, _⟩ := uvSphere_mesh_spec M (some 1) 4 2 (by norm_num) (by norm_num)
      none none none
    rw [show ((4 : Nat) : Int) = 4 by norm_num, show ((2 : Nat) : Int) = 2 by norm_num] at hm
    exact ⟨m, hm, hl.1, hl.2.2.2⟩
  · obtain ⟨m, hm, hl, _⟩ := uvTorus_mesh_spec M (some 1) (some (3 / 10)) 8 8 (by norm_num)
      (by norm_num)
    rw [show ((8 : Nat) : Int) = 8 by norm_num] at hm
    exact ⟨m, hm, hl.1, hl.2.2.2⟩

/-- Instance of `uvSphere_uvTorus_counts`: `uvSphere(1, 4, 2)` over the reals. -/
theorem uvSphere_uvTorus_counts_witness :
    (0 < 4 ∧ 0 < 2) ∧
    ∃ m, uvSphere (JSMath.mk Real.cos Real.sin Real.sqrt Real.pi) (some 1)
        (some ((4 : Nat) : Int)) (some ((2 : Nat) : Int)) none none none = Except.ok m ∧
      m.vertexPositions.length = 3 * ((4 + 1) * (2 + 1)) ∧ m.indices.length = 2 * 4 * 2 * 3 :=
  ⟨⟨by norm_num, by norm_num⟩,
    (uvSphere_uvTorus_counts (JSMath.mk Real.cos Real.sin Real.sqrt Real.pi) 4 2
      (by norm_num) (by norm_num)).1 (some 1) none none none⟩

/-- C8: for every positive integer `slices`, `uvCylinder` with `noTop` and `noBottom` both
true returns exactly `2*(slices+1)` vertices and `2*slices*3` indices; each cap that is not
suppressed adds exactly `slices+2` vertices and `slices` triangles (`3*slices` indices);
the fully capped cylinder has `4*slices+6` vertices and `12*slices` indices. -/
theorem uvCylinder_counts {α : Type} [Field α] [DecidableEq α] (M : JSMath α)
    (radius height : Option α) (slices : Nat) (hs : 0 < slices) :
    (∃ m, uvCylinder M radius height (some (slices : Int)) true true = Except.ok m ∧
      m.vertexPositions.length = 3 * (2 * (slices + 1)) ∧
      m.indices.length = 2 * slices * 3) ∧
    (∀ noTop noBottom : Bool,
      ∃ m, uvCylinder M radius height (some (slices : Int)) noTop noBottom = Except.ok m ∧
        m.vertexPositions.length =
          3 * (2 * (slices + 1) + (if noTop then 0 else slices + 2) +
            (if noBottom then 0 else slices + 2)) ∧
        m.indices.length =
          2 * slices * 3 + (if noTop then 0 else 3 * slices) +
            (if noBottom then 0 else 3 * slices)) ∧
    (∃ m, uvCylinder M radius height (some (slices : Int)) false false = Except.ok m ∧
      m.vertexPositions.length = 3 * (4 * slices + 6) ∧ m.indices.length = 12 * slices) := by
  refine ⟨?_, ?_, ?_⟩
  · obtain ⟨m, hm, hl, _⟩ := uvCylinder_mesh_spec M radius height slices hs true true
    refine ⟨m, hm, ?_, ?_⟩
    · rw [hl.1]; simp [cylinderVertices]
    · rw [hl.2.2.2]; simp [cylinderTriangles]; ring
  · intro nt nb
    obtain ⟨m, hm, hl, _⟩ := uvCylinder_mesh_spec M radius height slices hs nt nb
    refine ⟨m, hm, ?_, ?_⟩
    · rw [hl.1]; rfl
    · rw [hl.2.2.2]
      cases nt <;> cases nb <;> simp [cylinderTriangles] <;> ring
  · obtain ⟨m, hm, hl, _⟩ := uvCylinder_mesh_spec M radius height slices hs false false
    refine ⟨m, hm, ?_, ?_⟩
    · rw [hl.1]; simp [cylinderVertices]; ring
    · rw [hl.2.2.2]; simp [cylinderTriangles]; ring

/-- Instance of `uvCylinder_counts`: `uvCylinder(1, 2, 3, true, true)` over the reals has 8
vertices and 18 indices. -/
theorem uvCylinder_counts_witness :
    0 < 3 ∧
    ∃ m, uvCylinder (JSMath.mk Real.cos Real.sin Real.sqrt Real.pi) (some 1) (some 2)
        (some ((3 : Nat) : Int)) true true = Except.ok m ∧
      m.vertexPositions.length = 3 * (2 * (3 + 1)) ∧ m.indices.length = 2 * 3 * 3 :=
  ⟨by norm_num,
    (uvCylinder_counts (JSMath.mk Real.cos Real.sin Real.sqrt Real.pi) (some 1) (some 2) 3
      (by norm_num)).1⟩

/-! ### Unit normals over the reals -/

/-- The normals of `cube` are finite numbers and have Euclidean length 1. -/
theorem cube_unit_normals (side : Option ℝ) :
    ∃ N : List ℝ, (cube side).vertexNormals = N.map Float32Value.finite ∧
      ∀ n ∈ triples N, UnitLength n := by
  refine ⟨(cube.arrays (0 : ℝ)).normals, (cube_fixed_arrays side).1, ?_⟩
  rw [cube_arrays_normal_triples]
  intro n hn
  simp only [List.mem_cons, List.mem_singleton, List.not_mem_nil, or_false] at hn
  unfold UnitLength
  rcases hn with hn | hn | hn | hn | hn | hn | hn | hn | hn | hn | hn | hn | hn | hn |
    hn | hn | hn | hn | hn | hn | hn | hn | hn | hn <;> subst hn <;> simp [normSq]

/-- C9: over exact real arithmetic, every normal vector produced by `cube`, `ring`,
`uvSphere`, `uvTorus`, `uvCylinder` (sides and caps), `uvCone` (lateral rings, tip vertices
and bottom cap) and `obj_sphere` (its first three components) has Euclidean length exactly
1, for all positive integers `slices`, `stacks`, every `radius > 0` and `height > 0`; each
of these calls returns (for `obj_sphere`, with a positive `degree`, when given enough
fuel). -/
theorem normals_unit_length (slices nstacks : Nat) (hs : 0 < slices) (ht : 0 < nstacks)
    (radius height : ℝ) (hr : 0 < radius) (hh : 0 < height) :
    (∀ side : Option ℝ, ∃ N : List ℝ, (cube side).vertexNormals = N.map Float32Value.finite ∧
      ∀ n ∈ triples N, UnitLength n) ∧
    (∀ (g : Globals ℝ) (argumentsLength : Nat) (innerRadius outerRadius : Option ℝ),
      ∃ m, ring (JSMath.mk Real.cos Real.sin Real.sqrt Real.pi) g argumentsLength
          innerRadius outerRadius (some (slices : Int)) = Except.ok m ∧
        ∀ i, i < m.vertexNormals.length / 3 → ∃ v : ℝ × ℝ × ℝ,
          m.vertexNormals.getD (3 * i) none = some v.1 ∧
          m.vertexNormals.getD (3 * i + 1) none = some v.2.1 ∧
          m.vertexNormals.getD (3 * i + 2) none = some v.2.2 ∧ UnitLength v) ∧
    (∀ pos_x pos_y pos_z : Option ℝ,
      ∃ m, uvSphere (JSMath.mk Real.cos Real.sin Real.sqrt Real.pi) (some radius)
          (some (slices : Int)) (some (nstacks : Int)) pos_x pos_y pos_z = Except.ok m ∧
        ∀ n ∈ triples m.vertexNormals, UnitLength n) ∧
    (∀ innerRadius : Option ℝ,
      ∃ m, uvTorus (JSMath.mk Real.cos Real.sin Real.sqrt Real.pi) (some radius)
          innerRadius (some (slices : Int)) (some (nstacks : Int)) = Except.ok m ∧
        ∀ n ∈ triples m.vertexNormals, UnitLength n) ∧
    (∀ noTop noBottom : Bool,
      ∃ m, uvCylinder (JSMath.mk Real.cos Real.sin Real.sqrt Real.pi) (some radius)
          (some height) (some (slices : Int)) noTop noBottom = Except.ok m ∧
        ∀ n ∈ triples m.vertexNormals, UnitLength n) ∧
    (∀ noBottom : Bool,
      ∃ m, uvCone (JSMath.mk Real.cos Real.sin Real.sqrt Real.pi) (some radius)
          (some height) (some (slices : Int)) noBottom = Except.ok m ∧
        ∀ n ∈ triples m.vertexNormals, UnitLength n) ∧
    (∀ pos_x pos_y pos_z alpha degree : ℝ, 0 < degree →
      (∃ fuel o, obj_sphere (JSMath.mk Real.cos Real.sin Real.sqrt Real.pi) fuel radius
          pos_x pos_y pos_z alpha degree = some o) ∧
      ∀ fuel o, obj_sphere (JSMath.mk Real.cos Real.sin Real.sqrt Real.pi) fuel radius
          pos_x pos_y pos_z alpha degree = some o →
        ∀ n ∈ o.normalsArray, Real.sqrt (n.x * n.x + n.y * n.y + n.z * n.z) = 1) := by
  have hr0 : radius ≠ 0 := ne_of_gt hr
  have hh0 : height ≠ 0 := ne_of_gt hh
  refine ⟨cube_unit_normals, ?_, ?_, ?_, ?_, ?_, ?_⟩
  · intro g a i o
    obtain ⟨m, hm, _, _, hn⟩ :=
      ring_mesh_spec (JSMath.mk Real.cos Real.sin Real.sqrt Real.pi) g a i o slices hs
    refine ⟨m, hm, ?_⟩
    intro j hj
    obtain ⟨h1, h2, h3⟩ := hn j hj
    exact ⟨(0, 0, 1), h1, h2, h3, by simp [UnitLength, normSq]⟩
  · intro x y z
    obtain ⟨b, hb, hadv, _, hn⟩ := uvSphere_run_spec
      (JSMath.mk Real.cos Real.sin Real.sqrt Real.pi) (some radius) slices nstacks hs ht x y z
    exact ⟨b.toMesh, by simp [uvSphere, hb, Except.map],
      mesh_unit_normals _ _ _ b _ hadv (hn real_pythagorean)⟩
  · intro i
    obtain ⟨b, hb, hadv, _, hn⟩ := uvTorus_run_spec
      (JSMath.mk Real.cos Real.sin Real.sqrt Real.pi) (some radius) i slices nstacks hs ht
    exact ⟨b.toMesh, by simp [uvTorus, hb, Except.map],
      mesh_unit_normals _ _ _ b _ hadv (hn real_pythagorean)⟩
  · intro nt nb
    obtain ⟨b, hb, hadv, _, hn⟩ := uvCylinder_run_spec
      (JSMath.mk Real.cos Real.sin Real.sqrt Real.pi) (some radius) (some height) slices hs
      nt nb
    exact ⟨b.toMesh, by simp [uvCylinder, hb, Except.map],
      mesh_unit_normals _ _ _ b _ hadv (hn real_pythagorean)⟩
  · intro nb
    obtain ⟨b, hb, hadv, _, hn⟩ := uvCone_run_spec
      (JSMath.mk Real.cos Real.sin Real.sqrt Real.pi) (some radius) (some height) slices hs nb
    rw [orDefault_some _ _ hr0, orDefault_some _ _ hh0] at hn
    exact ⟨b.toMesh, by simp [uvCone, hb, Except.map],
      mesh_unit_normals _ _ _ b _ hadv (hn real_pythagorean (real_coneSlant radius height hr0))⟩
  · intro x y z a d hd
    refine ⟨?_, ?_⟩
    · obtain ⟨F, hF⟩ := exists_nat_gt (360 / d)
      have hF2 : 360 < (F : ℝ) * d := by
        rw [div_lt_iff₀ hd] at hF
        exact hF
      obtain ⟨o, ho⟩ := obj_sphere_terminates
        (JSMath.mk Real.cos Real.sin Real.sqrt Real.pi) radius x y z a d hd F hF2
      exact ⟨F, o, ho⟩
    · intro fuel o ho n hn
      have := obj_sphere_unit (JSMath.mk Real.cos Real.sin Real.sqrt Real.pi)
        real_pythagorean radius x y z a d hr0 (real_sqrtOfSquare radius) fuel o ho n hn
      rw [this, Real.sqrt_one]

/-- Instance of `normals_unit_length`: the normals of `uvCone(1, 2, 3)` with its bottom
cap, over the reals. -/
theorem normals_unit_length_witness :
    (0 < 3 ∧ 0 < 1 ∧ (0 : ℝ) < 1 ∧ (0 : ℝ) < 2) ∧
    ∃ m, uvCone (JSMath.mk Real.cos Real.sin Real.sqrt Real.pi) (some 1) (some 2)
        (some ((3 : Nat) : Int)) false = Except.ok m ∧
      ∀ n ∈ triples m.vertexNormals, UnitLength n :=
  ⟨⟨by norm_num, by norm_num, by norm_num, by norm_num⟩,
    (normals_unit_length 3 1 (by norm_num) (by norm_num) 1 2 (by norm_num)
      (by norm_num)).2.2.2.2.2.1 false⟩

/-! ### obj_sphere and obj_ring: counts -/

theorem obj_sphere_thetaStep_counts {α : Type} [LinearOrderedField α] (M : JSMath α)
    (radius pos_x pos_y pos_z alpha step : α) (st : SphereLoop α) (h : VertexCounts st.obj) :
    VertexCounts (obj_sphere.thetaStep M radius pos_x pos_y pos_z alpha step st).obj := by
  obtain ⟨h1, h2, h3, h4, h5⟩ := h
  simp only [obj_sphere.thetaStep, obj_sphere.spherePoint, VertexCounts]
  split <;> split <;>
    (try simp only [List.length_append, List.length_cons, List.length_nil]) <;>
    refine ⟨?_, ?_, ?_, ?_, ?_⟩ <;> omega

/-- Whatever the fuel, an object that `obj_sphere` returns has consistent counts. -/
theorem obj_sphere_counts {α : Type} [LinearOrderedField α] (M : JSMath α)
    (radius pos_x pos_y pos_z alpha degree : α) (fuel : Nat) (o : SceneObject α)
    (h : obj_sphere M fuel radius pos_x pos_y pos_z alpha degree = some o) :
    VertexCounts o := by
  simp only [obj_sphere, Option.map_eq_some'] at h
  obtain ⟨st, hst, rfl⟩ := h
  refine loopWhile_invariant (fun s : SphereLoop α => VertexCounts s.obj) _ _ ?_ fuel _ st
    (by simp [VertexCounts]) hst
  intro s s2 hs h2
  simp only [obj_sphere.phiStep, Option.map_eq_some'] at h2
  obtain ⟨s3, hs3, rfl⟩ := h2
  refine loopWhile_invariant (fun s : SphereLoop α => VertexCounts s.obj) _ _ ?_ fuel _ s3
    (show VertexCounts ({ s with theta := degree } : SphereLoop α).obj from hs) hs3
  intro s4 s5 hs4 h5
  cases h5
  exact obj_sphere_thetaStep_counts M radius pos_x pos_y pos_z alpha degree s4 hs4

theorem obj_ring_thetaStep_counts {α : Type} [LinearOrderedField α] (M : JSMath α)
    (inner_radius outer_radius pos_x pos_y pos_z alpha step : α) (st : RingLoop α)
    (h : VertexCounts st.obj) :
    VertexCounts (obj_ring.thetaStep M inner_radius outer_radius pos_x pos_y pos_z alpha
      step st).obj := by
  obtain ⟨h1, h2, h3, h4, h5⟩ := h
  simp only [obj_ring.thetaStep, obj_ring.spherePoint, obj_ring.pushTex, VertexCounts,
    List.length_append, List.length_cons, List.length_nil]
  refine ⟨?_, ?_, ?_, ?_, ?_⟩ <;> omega

/-- Whatever the fuel, an object that `obj_ring` returns has consistent counts. -/
theorem obj_ring_counts {α : Type} [LinearOrderedField α] (M : JSMath α)
    (inner_radius outer_radius pos_x pos_y pos_z alpha degree : α) (fuel : Nat)
    (o : SceneObject α)
    (h : obj_ring M fuel inner_radius outer_radius pos_x pos_y pos_z alpha degree = some o) :
    VertexCounts o := by
  simp only [obj_ring, Option.map_eq_some'] at h
  obtain ⟨st, hst, rfl⟩ := h
  refine loopWhile_invariant (fun s : RingLoop α => VertexCounts s.obj)
    (fun st : RingLoop α => decide (st.theta ≤ 360))
    (fun st => some (obj_ring.thetaStep M inner_radius outer_radius pos_x pos_y pos_z alpha
      degree st)) ?_ fuel _ st (by simp [VertexCounts]) hst
  intro s s2 hs h2
  simp only [Option.some.injEq] at h2
  subst h2
  exact obj_ring_thetaStep_counts M inner_radius outer_radius pos_x pos_y pos_z alpha degree
    s hs

/-- The loop of `obj_ring` ends: any fuel with `360 < fuel * degree` is enough. -/
theorem obj_ring_terminates {α : Type} [LinearOrderedField α] (M : JSMath α)
    (inner_radius outer_radius pos_x pos_y pos_z alpha degree : α) (hd : 0 < degree)
    (fuel : Nat) (hf : 360 < (fuel : α) * degree) :
    ∃ o, obj_ring M fuel inner_radius outer_radius pos_x pos_y pos_z alpha degree = some o := by
  obtain ⟨st, hst⟩ := loopWhile_terminates
    (fun st : RingLoop α => decide (st.theta ≤ 360))
    (fun st => some (obj_ring.thetaStep M inner_radius outer_radius pos_x pos_y pos_z alpha
      degree st))
    (fun st => st.theta) 360 degree
    (fun st hc => by simpa using hc)
    (fun st _ => ⟨_, rfl, rfl⟩)
    fuel { obj := { numVertices := 0, pointsArray := [], colorsArray := [],
                    normalsArray := [], texcoords := [], pos_loc := [pos_x, pos_y, pos_z] },
           theta := degree, lastTheta := 0 }
    (by simp only; linarith)
  exact ⟨st.obj, by simp only [obj_ring, hst, Option.map_some']⟩

/-- For a positive real `degree` some fuel satisfies `360 < fuel * degree`. -/
theorem exists_fuel (degree : ℝ) (hd : 0 < degree) : ∃ F : Nat, 360 < (F : ℝ) * degree := by
  obtain ⟨F, hF⟩ := exists_nat_gt (360 / degree)
  exact ⟨F, by rwa [div_lt_iff₀ hd] at hF⟩

/-- C17: for every `degree > 0`, the objects built by `obj_sphere` and `obj_ring` (which
have no index buffer: `SceneObject` has no such field) satisfy `numVertices =
pointsArray.length = normalsArray.length = colorsArray.length`, `texcoords.length = 2 *
numVertices`, and `numVertices` is a multiple of 3; both constructors return. -/
theorem scene_object_counts (M : JSMath ℝ) (degree : ℝ) (hd : 0 < degree)
    (radius inner_radius outer_radius pos_x pos_y pos_z alpha : ℝ) :
    (∃ fuel o, obj_sphere M fuel radius pos_x pos_y pos_z alpha degree = some o) ∧
    (∀ fuel o, obj_sphere M fuel radius pos_x pos_y pos_z alpha degree = some o →
      o.numVertices = o.pointsArray.length ∧ o.pointsArray.length = o.normalsArray.length ∧
      o.normalsArray.length = o.colorsArray.length ∧
      o.texcoords.length = 2 * o.numVertices ∧ o.numVertices % 3 = 0) ∧
    (∃ fuel o, obj_ring M fuel inner_radius outer_radius pos_x pos_y pos_z alpha degree =
      some o) ∧
    (∀ fuel o, obj_ring M fuel inner_radius outer_radius pos_x pos_y pos_z alpha degree =
        some o →
      o.numVertices = o.pointsArray.length ∧ o.pointsArray.length = o.normalsArray.length ∧
      o.normalsArray.length = o.colorsArray.length ∧
      o.texcoords.length = 2 * o.numVertices ∧ o.numVertices % 3 = 0) := by
  obtain ⟨F, hF⟩ := exists_fuel degree hd
  refine ⟨?_, ?_, ?_, ?_⟩
  · obtain ⟨o, ho⟩ := obj_sphere_terminates M radius pos_x pos_y pos_z alpha degree hd F hF
    exact ⟨F, o, ho⟩
  · intro fuel o h
    obtain ⟨h1, h2, h3, h4, h5⟩ :=
      obj_sphere_counts M radius pos_x pos_y pos_z alpha degree fuel o h
    exact ⟨h1.symm, by omega, by omega, h4, h5⟩
  · obtain ⟨o, ho⟩ := obj_ring_terminates M inner_radius outer_radius pos_x pos_y pos_z alpha
      degree hd F hF
    exact ⟨F, o, ho⟩
  · intro fuel o h
    obtain ⟨h1, h2, h3, h4, h5⟩ :=
      obj_ring_counts M inner_radius outer_radius pos_x pos_y pos_z alpha degree fuel o h
    exact ⟨h1.symm, by omega, by omega, h4, h5⟩

/-- Instance of `scene_object_counts`: `obj_sphere(1, 0, 0, 0, 1, 30)` returns. -/
theorem scene_object_counts_witness :
    (0 : ℝ) < 30 ∧
    ∃ fuel o, obj_sphere (JSMath.mk Real.cos Real.sin Real.sqrt Real.pi) fuel 1 0 0 0 1 30 =
      some o :=
  ⟨by norm_num,
    (scene_object_counts (JSMath.mk Real.cos Real.sin Real.sqrt Real.pi) 30 (by norm_num)
      1 1 2 0 0 0 1).1⟩

/-! ### obj_sphere and obj_ring: positions -/

theorem obj_sphere_spherePoint_points {α : Type} [Field α] (M : JSMath α)
    (radius pos_x pos_y pos_z alpha theta phi : α) (o : SceneObject α) :
    (obj_sphere.spherePoint M radius pos_x pos_y pos_z alpha theta phi o).pointsArray =
      o.pointsArray ++ [spherePosition M radius pos_x pos_y pos_z theta phi] := rfl

theorem obj_ring_spherePoint_points {α : Type} [Field α] (M : JSMath α)
    (pos_x pos_y pos_z alpha theta radius : α) (o : SceneObject α) :
    (obj_ring.spherePoint M pos_x pos_y pos_z alpha theta radius o).pointsArray =
      o.pointsArray ++ [ringPosition M pos_x pos_y pos_z theta radius] := rfl

/-- Every point stored by `obj_sphere` is `spherePosition` at some angles. -/
theorem obj_sphere_points {α : Type} [LinearOrderedField α] (M : JSMath α)
    (radius pos_x pos_y pos_z alpha degree : α) (fuel : Nat) (o : SceneObject α)
    (h : obj_sphere M fuel radius pos_x pos_y pos_z alpha degree = some o) :
    ∀ p ∈ o.pointsArray, ∃ theta phi, p = spherePosition M radius pos_x pos_y pos_z theta phi := by
  simp only [obj_sphere, Option.map_eq_some'] at h
  obtain ⟨st, hst, rfl⟩ := h
  refine loopWhile_invariant (fun s : SphereLoop α => ∀ p ∈ s.obj.pointsArray,
      ∃ theta phi, p = spherePosition M radius pos_x pos_y pos_z theta phi) _ _ ?_ fuel _ st
    (by intro p hp; simp at hp) hst
  intro s s2 hs h2
  simp only [obj_sphere.phiStep, Option.map_eq_some'] at h2
  obtain ⟨s3, hs3, rfl⟩ := h2
  refine loopWhile_invariant (fun s : SphereLoop α => ∀ p ∈ s.obj.pointsArray,
      ∃ theta phi, p = spherePosition M radius pos_x pos_y pos_z theta phi) _ _ ?_ fuel _ s3
    (show ∀ p ∈ ({ s with theta := degree } : SphereLoop α).obj.pointsArray, _ from hs) hs3
  intro s4 s5 hs4 h5
  cases h5
  intro p hp
  simp only [obj_sphere.thetaStep] at hp
  split at hp <;> split at hp <;>
    (try simp only [obj_sphere_spherePoint_points, List.mem_append, List.mem_singleton]
      at hp) <;>
    first
      | exact hs4 p hp
      | (rcases hp with ((hp | hp) | hp) | hp
         · exact hs4 p hp
         all_goals exact ⟨_, _, hp⟩)
      | (rcases hp with (((((hp | hp) | hp) | hp) | hp) | hp) | hp
         · exact hs4 p hp
         all_goals exact ⟨_, _, hp⟩)

/-- Every point stored by `obj_ring` is `ringPosition` at some angle, on the inner or the
outer radius. -/
theorem obj_ring_points {α : Type} [LinearOrderedField α] (M : JSMath α)
    (inner_radius outer_radius pos_x pos_y pos_z alpha degree : α) (fuel : Nat)
    (o : SceneObject α)
    (h : obj_ring M fuel inner_radius outer_radius pos_x pos_y pos_z alpha degree = some o) :
    ∀ p ∈ o.pointsArray, ∃ theta radius, (radius = inner_radius ∨ radius = outer_radius) ∧
      p = ringPosition M pos_x pos_y pos_z theta radius := by
  simp only [obj_ring, Option.map_eq_some'] at h
  obtain ⟨st, hst, rfl⟩ := h
  refine loopWhile_invariant (fun s : RingLoop α => ∀ p ∈ s.obj.pointsArray,
      ∃ theta radius, (radius = inner_radius ∨ radius = outer_radius) ∧
        p = ringPosition M pos_x pos_y pos_z theta radius)
    (fun st : RingLoop α => decide (st.theta ≤ 360))
    (fun st => some (obj_ring.thetaStep M inner_radius outer_radius pos_x pos_y pos_z alpha
      degree st)) ?_ fuel _ st (by intro p hp; simp at hp) hst
  intro s s2 hs h2
  simp only [Option.some.injEq] at h2
  subst h2
  intro p hp
  simp only [obj_ring.thetaStep, obj_ring.pushTex, obj_ring_spherePoint_points,
    List.mem_append, List.mem_singleton] at hp
  rcases hp with (((((hp | hp) | hp) | hp) | hp) | hp) | hp
  · exact hs p hp
  · exact ⟨_, _, Or.inl rfl, hp⟩
  · exact ⟨_, _, Or.inr rfl, hp⟩
  · exact ⟨_, _, Or.inr rfl, hp⟩
  · exact ⟨_, _, Or.inr rfl, hp⟩
  · exact ⟨_, _, Or.inl rfl, hp⟩
  · exact ⟨_, _, Or.inl rfl, hp⟩

/-- The first two points that `obj_ring` emits, at the angles 0 (inner radius) and
`degree` (outer radius), are in the object it returns. -/
theorem obj_ring_first_points {α : Type} [LinearOrderedField α] (M : JSMath α)
    (inner_radius outer_radius pos_x pos_y pos_z alpha degree : α) (hd : degree ≤ 360)
    (fuel : Nat) (o : SceneObject α)
    (h : obj_ring M fuel inner_radius outer_radius pos_x pos_y pos_z alpha degree = some o) :
    ringPosition M pos_x pos_y pos_z (0 / 180 * M.PI) inner_radius ∈ o.pointsArray ∧
    ringPosition M pos_x pos_y pos_z (degree / 180 * M.PI) outer_radius ∈ o.pointsArray := by
  simp only [obj_ring, Option.map_eq_some'] at h
  obtain ⟨st, hst, rfl⟩ := h
  cases fuel with
  | zero => simp [loopWhile, hd] at hst
  | succ k =>
    simp only [loopWhile, hd, decide_True, if_true, Option.some_bind] at hst
    refine loopWhile_invariant (fun s : RingLoop α =>
        ringPosition M pos_x pos_y pos_z (0 / 180 * M.PI) inner_radius ∈ s.obj.pointsArray ∧
        ringPosition M pos_x pos_y pos_z (degree / 180 * M.PI) outer_radius ∈
          s.obj.pointsArray)
      (fun st : RingLoop α => decide (st.theta ≤ 360))
      (fun st => some (obj_ring.thetaStep M inner_radius outer_radius pos_x pos_y pos_z alpha
        degree st)) ?_ k _ st ?_ hst
    · intro s s2 hs h2
      simp only [Option.some.injEq] at h2
      subst h2
      simp only [obj_ring.thetaStep, obj_ring.pushTex, obj_ring_spherePoint_points,
        List.mem_append, List.mem_singleton]
      exact ⟨Or.inl (Or.inl (Or.inl (Or.inl (Or.inl (Or.inl hs.1))))),
        Or.inl (Or.inl (Or.inl (Or.inl (Or.inl (Or.inl hs.2)))))⟩
    · refine ⟨?_, ?_⟩ <;>
        simp [obj_ring.thetaStep, obj_ring.pushTex, obj_ring_spherePoint_points]

/-- C18: for every `(theta, phi)` emitted by `obj_sphere`, the stored point is `radius`
times `V`, where `V = (radius*cos(theta)*cos(phi) + pos_x, radius*sin(phi) + pos_y,
radius*sin(theta)*cos(phi) + pos_z, 1)` and `scalev` multiplies every component: the sphere
direction ends up scaled by `radius²` and the translation by `radius`. This holds for every
point of the object that `obj_sphere` returns, and it returns for every `degree > 0`. -/
theorem obj_sphere_point_scaled_twice (M : JSMath ℝ)
    (radius pos_x pos_y pos_z alpha degree : ℝ) (hd : 0 < degree) :
    (∀ (theta phi : ℝ) (o : SceneObject ℝ),
      (obj_sphere.spherePoint M radius pos_x pos_y pos_z alpha theta phi o).pointsArray =
        o.pointsArray ++ [scalev radius
          { x := radius * M.cos theta * M.cos phi + pos_x
            y := radius * M.sin phi + pos_y
            z := radius * M.sin theta * M.cos phi + pos_z
            w := 1 }]) ∧
    (∃ fuel o, obj_sphere M fuel radius pos_x pos_y pos_z alpha degree = some o) ∧
    (∀ fuel o, obj_sphere M fuel radius pos_x pos_y pos_z alpha degree = some o →
      ∀ p ∈ o.pointsArray, ∃ theta phi : ℝ,
        p = scalev radius
          { x := radius * M.cos theta * M.cos phi + pos_x
            y := radius * M.sin phi + pos_y
            z := radius * M.sin theta * M.cos phi + pos_z
            w := 1 } ∧
        p.x = radius * radius * (M.cos theta * M.cos phi) + radius * pos_x ∧
        p.y = radius * radius * M.sin phi + radius * pos_y ∧
        p.z = radius * radius * (M.sin theta * M.cos phi) + radius * pos_z ∧
        p.w = radius) := by
  refine ⟨fun _ _ _ => rfl, ?_, ?_⟩
  · obtain ⟨F, hF⟩ := exists_fuel degree hd
    obtain ⟨o, ho⟩ := obj_sphere_terminates M radius pos_x pos_y pos_z alpha degree hd F hF
    exact ⟨F, o, ho⟩
  · intro fuel o h p hp
    obtain ⟨theta, phi, rfl⟩ :=
      obj_sphere_points M radius pos_x pos_y pos_z alpha degree fuel o h p hp
    refine ⟨theta, phi, rfl, ?_, ?_, ?_, ?_⟩ <;> simp only [spherePosition, scalev] <;> ring

/-- Instance of `obj_sphere_point_scaled_twice`: `obj_sphere(2, 1, 0, 0, 1, 30)` over the
reals returns. -/
theorem obj_sphere_point_scaled_twice_witness :
    (0 : ℝ) < 30 ∧
    ∃ fuel o, obj_sphere (JSMath.mk Real.cos Real.sin Real.sqrt Real.pi) fuel 2 1 0 0 1 30 =
      some o :=
  ⟨by norm_num,
    (obj_sphere_point_scaled_twice (JSMath.mk Real.cos Real.sin Real.sqrt Real.pi)
      2 1 0 0 1 30 (by norm_num)).2.1⟩

/-- C19 as stated fails: over the reals, the points of `obj_ring(1, 2, 0, 0, 0, 1, 90)` do
not share one z-coordinate (the point at angle 0 has `z = 0`, the point at 90 degrees on
the outer radius has `z = 4`). -/
theorem obj_ring_z_varies :
    ∃ fuel o, obj_ring (JSMath.mk Real.cos Real.sin Real.sqrt Real.pi) fuel 1 2 0 0 0 1 90 =
        some o ∧
      ∃ p ∈ o.pointsArray, ∃ q ∈ o.pointsArray, p.z = 0 ∧ q.z = 4 ∧ p.z ≠ q.z := by
  obtain ⟨F, hF⟩ := exists_fuel 90 (by norm_num)
  obtain ⟨o, ho⟩ := obj_ring_terminates (JSMath.mk Real.cos Real.sin Real.sqrt Real.pi)
    1 2 0 0 0 1 90 (by norm_num) F hF
  obtain ⟨h1, h2⟩ := obj_ring_first_points (JSMath.mk Real.cos Real.sin Real.sqrt Real.pi)
    1 2 0 0 0 1 90 (by norm_num) F o ho
  have hz1 : (ringPosition (JSMath.mk Real.cos Real.sin Real.sqrt Real.pi) 0 0 0
      (0 / 180 * Real.pi) 1).z = 0 := by
    simp [ringPosition, scalev]
  have hz2 : (ringPosition (JSMath.mk Real.cos Real.sin Real.sqrt Real.pi) 0 0 0
      (90 / 180 * Real.pi) 2).z = 4 := by
    have : (90 : ℝ) / 180 * Real.pi = Real.pi / 2 := by ring
    simp only [ringPosition, scalev, this, Real.sin_pi_div_two]
    norm_num
  exact ⟨F, o, ho, _, h1, _, h2, hz1, hz2, by rw [hz1, hz2]; norm_num⟩

/-- C19, amended: every position emitted by `obj_ring` is
`R * (R*cos(theta) + pos_x, pos_y, R*sin(theta) + pos_z)` with `R` the inner or the outer
radius. Its y-coordinate `R * pos_y` does not depend on the angle (so with `pos_y = 0` all
entries lie in the plane `y = 0`); x and z vary with the angle, on the circle of radius
`R²` around `R * (pos_x, pos_z)`. `obj_ring` returns for every `degree > 0`. -/
theorem obj_ring_positions (inner_radius outer_radius pos_x pos_y pos_z alpha degree : ℝ)
    (hd : 0 < degree) :
    (∃ fuel o, obj_ring (JSMath.mk Real.cos Real.sin Real.sqrt Real.pi) fuel inner_radius
      outer_radius pos_x pos_y pos_z alpha degree = some o) ∧
    (∀ fuel o, obj_ring (JSMath.mk Real.cos Real.sin Real.sqrt Real.pi) fuel inner_radius
        outer_radius pos_x pos_y pos_z alpha degree = some o →
      ∀ p ∈ o.pointsArray, ∃ theta R : ℝ, (R = inner_radius ∨ R = outer_radius) ∧
        p.x = R * (R * Real.cos theta + pos_x) ∧ p.y = R * pos_y ∧
        p.z = R * (R * Real.sin theta + pos_z) ∧
        (pos_y = 0 → p.y = 0) ∧
        (p.x - R * pos_x) ^ 2 + (p.z - R * pos_z) ^ 2 = (R * R) ^ 2) := by
  refine ⟨?_, ?_⟩
  · obtain ⟨F, hF⟩ := exists_fuel degree hd
    obtain ⟨o, ho⟩ := obj_ring_terminates (JSMath.mk Real.cos Real.sin Real.sqrt Real.pi)
      inner_radius outer_radius pos_x pos_y pos_z alpha degree hd F hF
    exact ⟨F, o, ho⟩
  · intro fuel o h p hp
    obtain ⟨theta, R, hR, rfl⟩ := obj_ring_points _ inner_radius outer_radius pos_x pos_y
      pos_z alpha degree fuel o h p hp
    have hcs := Real.cos_sq_add_sin_sq theta
    refine ⟨theta, R, hR, ?_, ?_, ?_, ?_, ?_⟩
    · simp only [ringPosition, scalev]
    · simp only [ringPosition, scalev]; ring
    · simp only [ringPosition, scalev]
    · intro h0
      simp only [ringPosition, scalev, h0]; ring
    · simp only [ringPosition, scalev]
      linear_combination (R * R) ^ 2 * hcs

/-- Instance of `obj_ring_positions`: the scene's ring `obj_ring(0.25, 0.15, 3.2, 0, 0, 1,
0.01)` returns. -/
theorem obj_ring_positions_witness :
    (0 : ℝ) < 1 / 100 ∧
    ∃ fuel o, obj_ring (JSMath.mk Real.cos Real.sin Real.sqrt Real.pi) fuel (1 / 4) (3 / 20)
      (16 / 5) 0 0 1 (1 / 100) = some o :=
  ⟨by norm_num, (obj_ring_positions (1 / 4) (3 / 20) (16 / 5) 0 0 1 (1 / 100)
    (by norm_num)).1⟩

/-! ### Defaults of falsy arguments -/

/-- C14: in the UV family and `cube`, a zero or missing argument is replaced by its
default: `cube(0) = cube() = cube(1)`; `uvSphere(0,0,0) = uvSphere() =
uvSphere(0.5,32,16)`; `uvTorus(0,0,0,0) = uvTorus() = uvTorus(0.5, 0.5/3, 32, 16)`
(`innerRadius` defaults to `outerRadius/3`); `uvCylinder(0,0,0) = uvCylinder() =
uvCylinder(0.5,1,32)` and `uvCone(0,0,0) = uvCone() = uvCone(0.5,1,32)` (`height` defaults
to `2*radius`), whatever the flags. -/
theorem falsy_arguments_default {α : Type} [LinearOrderedField α] (M : JSMath α) :
    (∀ (γ : Type) [LinearOrderedField γ] [FloorRing γ],
      cube (some (0 : γ)) = cube (some 1) ∧ cube (none : Option γ) = cube (some 1)) ∧
    (uvSphere M (some 0) (some 0) (some 0) none none none =
        uvSphere M (some (1 / 2)) (some 32) (some 16) none none none ∧
      uvSphere M none none none none none none =
        uvSphere M (some (1 / 2)) (some 32) (some 16) none none none) ∧
    (uvTorus M (some 0) (some 0) (some 0) (some 0) =
        uvTorus M (some (1 / 2)) (some (1 / 2 / 3)) (some 32) (some 16) ∧
      uvTorus M none none none none =
        uvTorus M (some (1 / 2)) (some (1 / 2 / 3)) (some 32) (some 16)) ∧
    (∀ noTop noBottom : Bool,
      uvCylinder M (some 0) (some 0) (some 0) noTop noBottom =
        uvCylinder M (some (1 / 2)) (some 1) (some 32) noTop noBottom ∧
      uvCylinder M none none none noTop noBottom =
        uvCylinder M (some (1 / 2)) (some 1) (some 32) noTop noBottom) ∧
    (∀ noBottom : Bool,
      uvCone M (some 0) (some 0) (some 0) noBottom =
        uvCone M (some (1 / 2)) (some 1) (some 32) noBottom ∧
      uvCone M none none none noBottom =
        uvCone M (some (1 / 2)) (some 1) (some 32) noBottom) := by
  have h2 : (2 : α) * (1 / 2) = 1 := by norm_num
  refine ⟨fun γ _ _ => ⟨?_, ?_⟩, ⟨?_, ?_⟩, ⟨?_, ?_⟩, ?_, ?_⟩
  · simp [cube, orDefault]
  · simp [cube, orDefault]
  · simp [uvSphere, uvSphere.run, orDefault]
  · simp [uvSphere, uvSphere.run, orDefault]
  · simp [uvTorus, uvTorus.run, orDefault]
  · simp [uvTorus, uvTorus.run, orDefault]
  · intro nt nb
    constructor <;> simp [uvCylinder, uvCylinder.run, orDefault, h2]
  · intro nb
    constructor <;> simp [uvCone, uvCone.run, orDefault, h2]

/-! ### Returned meshes and raised errors -/

/-- The value of `slices || d` for a `slices` that is missing, zero or positive is a
positive integer. -/
theorem orDefault_pos (x : Option Int) (d : Int) (hd : 0 < d) (hx : ∀ n, x = some n → 0 ≤ n) :
    ∃ k : Nat, 0 < k ∧ orDefault x d = (k : Int) := by
  have h0 : orDefault x d ≠ 0 := orDefault_ne_zero x d (ne_of_gt hd)
  have h1 : 0 ≤ orDefault x d := by
    unfold orDefault
    cases x with
    | none => exact hd.le
    | some v =>
      simp only
      split
      · exact hd.le
      · exact hx v rfl
  exact ⟨(orDefault x d).toNat, by omega, by omega⟩

theorem ring_slices_default {α : Type} [Field α] [DecidableEq α] (M : JSMath α) (g : Globals α)
    (argumentsLength : Nat) (innerRadius outerRadius : Option α) (slices : Option Int) :
    ring M g argumentsLength innerRadius outerRadius slices =
      ring M g argumentsLength innerRadius outerRadius (some (orDefault slices 32)) := by
  have h : orDefault (some (orDefault slices (32 : Int))) 32 = orDefault slices 32 :=
    orDefault_some _ _ (orDefault_ne_zero slices 32 (by norm_num))
  simp only [ring, ring.run, h]

theorem uvSphere_slices_default {α : Type} [Field α] [DecidableEq α] (M : JSMath α)
    (radius : Option α) (slices nstacks : Option Int) (pos_x pos_y pos_z : Option α) :
    uvSphere M radius slices nstacks pos_x pos_y pos_z =
      uvSphere M radius (some (orDefault slices 32)) (some (orDefault nstacks 16))
        pos_x pos_y pos_z := by
  have h : orDefault (some (orDefault slices (32 : Int))) 32 = orDefault slices 32 :=
    orDefault_some _ _ (orDefault_ne_zero slices 32 (by norm_num))
  have h2 : orDefault (some (orDefault nstacks (16 : Int))) 16 = orDefault nstacks 16 :=
    orDefault_some _ _ (orDefault_ne_zero nstacks 16 (by norm_num))
  simp only [uvSphere, uvSphere.run, h, h2]

theorem uvTorus_slices_default {α : Type} [Field α] [DecidableEq α] (M : JSMath α)
    (outerRadius innerRadius : Option α) (slices nstacks : Option Int) :
    uvTorus M outerRadius innerRadius slices nstacks =
      uvTorus M outerRadius innerRadius (some (orDefault slices 32))
        (some (orDefault nstacks 16)) := by
  have h : orDefault (some (orDefault slices (32 : Int))) 32 = orDefault slices 32 :=
    orDefault_some _ _ (orDefault_ne_zero slices 32 (by norm_num))
  have h2 : orDefault (some (orDefault nstacks (16 : Int))) 16 = orDefault nstacks 16 :=
    orDefault_some _ _ (orDefault_ne_zero nstacks 16 (by norm_num))
  simp only [uvTorus, uvTorus.run, h, h2]

theorem uvCylinder_slices_default {α : Type} [Field α] [DecidableEq α] (M : JSMath α)
    (radius height : Option α) (slices : Option Int) (noTop noBottom : Bool) :
    uvCylinder M radius height slices noTop noBottom =
      uvCylinder M radius height (some (orDefault slices 32)) noTop noBottom := by
  have h : orDefault (some (orDefault slices (32 : Int))) 32 = orDefault slices 32 :=
    orDefault_some _ _ (orDefault_ne_zero slices 32 (by norm_num))
  simp only [uvCylinder, uvCylinder.run, h]

theorem uvCone_slices_default {α : Type} [Field α] [DecidableEq α] (M : JSMath α)
    (radius height : Option α) (slices : Option Int) (noBottom : Bool) :
    uvCone M radius height slices noBottom =
      uvCone M radius height (some (orDefault slices 32)) noBottom := by
  have h : orDefault (some (orDefault slices (32 : Int))) 32 = orDefault slices 32 :=
    orDefault_some _ _ (orDefault_ne_zero slices 32 (by norm_num))
  simp only [uvCone, uvCone.run, h]

/-- C12 as stated fails: `ring(0.25, 0.5, -1)` raises a `RangeError`. -/
theorem ring_negative_slices_raises :
    ring (JSMath.mk Real.cos Real.sin Real.sqrt Real.pi) { c := none, s := none } 3
      (some (1 / 4)) (some (1 / 2)) (some (-1)) = Except.error JSError.rangeError := by
  simp [ring, ring.run, orDefault, allocate, newTypedArray, bind, Except.bind, Except.map]

/-! ### ring: the final state written out -/

theorem ring_run_eq_disk {α : Type} [Field α] [DecidableEq α] (M : JSMath α) (g : Globals α)
    (argumentsLength : Nat) (innerRadius outerRadius : Option α) (slices : Nat)
    (hs : 0 < slices) (hdisk : ringInner argumentsLength innerRadius = some 0) :
    ring.run M g argumentsLength innerRadius outerRadius (some (slices : Int)) =
      Except.ok (ringDiskFinal M (ringOuter argumentsLength innerRadius outerRadius)
        (slices : Int)
        { buf := fresh (some (0 : α)) (3 * (slices + 1)) (3 * (slices + 1))
            (2 * (slices + 1)) (3 * slices), globals := g }) := by
  have h1 : ((slices : Int)) ≠ 0 := by omega
  have e3 : (3 * ((slices : Int) + 1)).toNat = 3 * (slices + 1) := by omega
  have e2 : (2 * ((slices : Int) + 1)).toNat = 2 * (slices + 1) := by omega
  have e1 : (3 * (slices : Int)).toNat = 3 * slices := by omega
  unfold ringOuter
  rw [hdisk]
  unfold ringInner at hdisk
  simp only [ring.run, orDefault_some _ _ h1, hdisk, if_true]
  rw [allocate_ok _ _ _ _ _ (by positivity) (by positivity) (by positivity) (by positivity)]
  simp only [e1, e2, e3]
  exact rfl

theorem ring_run_eq_annulus {α : Type} [Field α] [DecidableEq α] (M : JSMath α)
    (g : Globals α) (argumentsLength : Nat) (innerRadius outerRadius : Option α)
    (slices : Nat) (hs : 0 < slices)
    (hann : ringInner argumentsLength innerRadius ≠ some 0) :
    ring.run M g argumentsLength innerRadius outerRadius (some (slices : Int)) =
      Except.ok (ringAnnulusFinal M (ringInner argumentsLength innerRadius)
        (ringOuter argumentsLength innerRadius outerRadius) (slices : Int)
        { buf := fresh (some (0 : α)) (3 * (2 * slices)) (3 * (2 * slices))
            (2 * (2 * slices)) (6 * slices), globals := g }) := by
  have h1 : ((slices : Int)) ≠ 0 := by omega
  have e3 : (3 * ((slices : Int) * 2)).toNat = 3 * (2 * slices) := by omega
  have e2 : (2 * ((slices : Int) * 2)).toNat = 2 * (2 * slices) := by omega
  have e1 : (3 * 2 * (slices : Int)).toNat = 6 * slices := by omega
  unfold ringOuter
  unfold ringInner at hann ⊢
  set inner := (if argumentsLength = 0 then some (1 / 4) else innerRadius) with hinner
  simp only [ring.run, orDefault_some _ _ h1, ← hinner, hann, if_false]
  rw [allocate_ok _ _ _ _ _ (by positivity) (by positivity) (by positivity) (by positivity)]
  simp only [e1, e2, e3]
  exact rfl

/-! ### ring: globals and undefined inner radius -/

/-- A loop of `ring` leaves in the globals `c`, `s` the values of its last iteration. -/
theorem ring_loop_globals {α : Type} (n : Int) (body : Nat → RingState α → RingState α)
    (c s : Nat → α) (st : RingState α)
    (hbody : ∀ i t, (body i t).globals = { c := some (c i), s := some (s i) })
    (hn : 0 < n.toNat) :
    (forRange n body st).globals =
      { c := some (c (n.toNat - 1)), s := some (s (n.toNat - 1)) } := by
  have key := forRange_induction
    (fun i (t : RingState α) => 0 < i → t.globals = { c := some (c (i - 1)), s := some (s (i - 1)) })
    n body st (fun h => absurd h (Nat.lt_irrefl 0))
    (fun i t _ _ _ => by simpa using hbody i t)
  exact key hn

/-- The state of the arrays after a loop of `ring` does not depend on the globals. -/
theorem ring_loop_buf {α : Type} (body : Nat → RingState α → RingState α)
    (hbody : ∀ i t1 t2, t1.buf = t2.buf → (body i t1).buf = (body i t2).buf)
    (n : Int) (t1 t2 : RingState α) (h : t1.buf = t2.buf) :
    (forRange n body t1).buf = (forRange n body t2).buf := by
  unfold forRange
  generalize List.range n.toNat = l
  induction l generalizing t1 t2 with
  | nil => simpa using h
  | cons i l ih =>
    simp only [List.foldl_cons]
    exact ih _ _ (hbody i t1 t2 h)

/-- Every call of `ring` with positive `slices` assigns the globals `c` and `s`: they end
up holding the cosine and sine of the last angle. -/
theorem ring_run_globals {α : Type} [Field α] [DecidableEq α] (M : JSMath α) (g : Globals α)
    (argumentsLength : Nat) (innerRadius outerRadius : Option α) (slices : Nat)
    (hs : 0 < slices) :
    ∃ st, ring.run M g argumentsLength innerRadius outerRadius (some (slices : Int)) =
        Except.ok st ∧
      st.globals =
        { c := some (M.cos (2 * M.PI / ((slices : Int) : α) * ((slices - 1 : Nat) : α)))
          s := some (M.sin (2 * M.PI / ((slices : Int) : α) * ((slices - 1 : Nat) : α))) } := by
  have hn : 0 < ((slices : Int)).toNat := by omega
  by_cases hd : ringInner argumentsLength innerRadius = some 0
  · refine ⟨_, ring_run_eq_disk M g argumentsLength innerRadius outerRadius slices hs hd, ?_⟩
    have := ring_loop_globals (slices : Int)
      (ring.diskStep M (ringOuter argumentsLength innerRadius outerRadius) (slices : Int))
      (fun i => M.cos (2 * M.PI / ((slices : Int) : α) * (i : α)))
      (fun i => M.sin (2 * M.PI / ((slices : Int) : α) * (i : α)))
      { buf := fresh (some (0 : α)) (3 * (slices + 1)) (3 * (slices + 1))
            (2 * (slices + 1)) (3 * slices), globals := g }
      (fun i t => rfl) hn
    simpa [ringDiskFinal] using this
  · refine ⟨_, ring_run_eq_annulus M g argumentsLength innerRadius outerRadius slices hs hd,
      ?_⟩
    have := ring_loop_globals (slices : Int)
      (ring.annulusStep M (ringInner argumentsLength innerRadius)
        (ringOuter argumentsLength innerRadius outerRadius) (slices : Int))
      (fun i => M.cos (2 * M.PI / ((slices : Int) : α) * (i : α)))
      (fun i => M.sin (2 * M.PI / ((slices : Int) : α) * (i : α)))
      { buf := fresh (some (0 : α)) (3 * (2 * slices)) (3 * (2 * slices))
            (2 * (2 * slices)) (6 * slices), globals := g }
      (fun i t => rfl) hn
    simpa [ringAnnulusFinal] using this

/-- In annulus mode the first position component is `cos(0) * innerRadius`, which is `NaN`
(`none`) when `innerRadius` is `undefined`. -/
theorem ring_annulus_first_vertex {α : Type} [Field α] (M : JSMath α)
    (innerRadius : Option α) (outerRadius : α) (slices : Nat) (hs : 0 < slices)
    (st0 : RingState α) (hk : st0.buf.kv = 0) (hl : 0 < st0.buf.vertices.length) (d0 : Option α) :
    (forRange (slices : Int) (ring.annulusStep M innerRadius outerRadius (slices : Int))
        st0).buf.vertices.getD 0 d0 =
      innerRadius.map (fun x => M.cos (2 * M.PI / ((slices : Int) : α) * ((0 : Nat) : α)) * x) := by
  have key := forRange_induction
    (fun i (t : RingState α) => t.buf.kv = 6 * i ∧
      t.buf.vertices.length = st0.buf.vertices.length ∧
      (0 < i → t.buf.vertices.getD 0 d0 =
        innerRadius.map
          (fun x => M.cos (2 * M.PI / ((slices : Int) : α) * ((0 : Nat) : α)) * x)))
    (slices : Int) (ring.annulusStep M innerRadius outerRadius (slices : Int)) st0
    ⟨by simpa using hk, rfl, fun h => absurd h (Nat.lt_irrefl 0)⟩
    (by
      intro i t _ ⟨h1, h2, h3⟩
      refine ⟨?_, ?_, ?_⟩
      · simp only [ring.annulusStep, Buffers.pushV, Buffers.pushT]
        omega
      · simp only [ring.annulusStep, Buffers.pushV, Buffers.pushT, List.length_set]
        exact h2
      · intro _
        simp only [ring.annulusStep, Buffers.pushV, Buffers.pushT]
        by_cases hi : i = 0
        · subst hi
          rw [getD_set_ne _ _ _ _ _ (by omega), getD_set_ne _ _ _ _ _ (by omega),
            getD_set_ne _ _ _ _ _ (by omega), getD_set_ne _ _ _ _ _ (by omega),
            getD_set_ne _ _ _ _ _ (by omega),
            getD_set_eq _ _ _ _ _ (by omega) (by omega)]
          rfl
        · rw [getD_set_ne _ _ _ _ _ (by omega), getD_set_ne _ _ _ _ _ (by omega),
            getD_set_ne _ _ _ _ _ (by omega), getD_set_ne _ _ _ _ _ (by omega),
            getD_set_ne _ _ _ _ _ (by omega), getD_set_ne _ _ _ _ _ (by omega)]
          exact h3 (by omega))
  exact key.2.2 (by omega)

/-- The positions of the final state in annulus mode are those left by the vertex loop. -/
theorem ringAnnulusFinal_vertices {α : Type} [Field α] (M : JSMath α)
    (innerRadius : Option α) (outerRadius : α) (slices : Int) (st0 : RingState α) :
    (ringAnnulusFinal M innerRadius outerRadius slices st0).buf.vertices =
      (forRange slices (ring.annulusStep M innerRadius outerRadius slices) st0).buf.vertices := by
  simp only [ringAnnulusFinal]
  refine forRange_invariant (fun b : Buffers (Option α) => b.vertices = _) _ _ _ ?_
    (fun i b _ hb => by simpa [ring.normalStep, Buffers.setNAt] using hb)
  simp only [ring.annulusLast, Buffers.pushI]
  exact forRange_invariant (fun b : Buffers (Option α) => b.vertices = _) _ _ _ rfl
    (fun i b _ hb => by simpa [ring.annulusIndexStep, Buffers.pushI] using hb)

/-- With arguments given and `innerRadius` not zero, the first position component that
`ring` returns is `cos(0) * innerRadius`, or `NaN` (`none`) for an `undefined`
`innerRadius`. -/
theorem ring_first_position {α : Type} [Field α] [DecidableEq α] (M : JSMath α)
    (g : Globals α) (argumentsLength : Nat) (harg : 0 < argumentsLength)
    (innerRadius outerRadius : Option α) (hin : innerRadius ≠ some 0) (slices : Nat)
    (hs : 0 < slices) (d0 : Option α) :
    ∃ m, ring M g argumentsLength innerRadius outerRadius (some (slices : Int)) =
        Except.ok m ∧
      m.vertexPositions.getD 0 d0 =
        innerRadius.map
          (fun x => M.cos (2 * M.PI / ((slices : Int) : α) * ((0 : Nat) : α)) * x) := by
  have hri : ringInner argumentsLength innerRadius = innerRadius := by
    simp [ringInner, Nat.pos_iff_ne_zero.mp harg]
  have hann : ringInner argumentsLength innerRadius ≠ some 0 := by rw [hri]; exact hin
  have heq := ring_run_eq_annulus M g argumentsLength innerRadius outerRadius slices hs hann
  refine ⟨(ringAnnulusFinal M (ringInner argumentsLength innerRadius)
    (ringOuter argumentsLength innerRadius outerRadius) (slices : Int)
    { buf := fresh (some (0 : α)) (3 * (2 * slices)) (3 * (2 * slices))
        (2 * (2 * slices)) (6 * slices), globals := g }).buf.toMesh,
    by simp only [ring, heq, Except.map], ?_⟩
  simp only [Buffers.toMesh]
  rw [ringAnnulusFinal_vertices, hri]
  exact ring_annulus_first_vertex M innerRadius _ slices hs _ rfl
    (by simp only [fresh, List.length_replicate]; omega) d0

/-! ### Determinism of the fuelled loops -/

/-- The result of `loopWhile` does not depend on the fuel, nor on which of two bodies
that agree wherever both return is run. -/
theorem loopWhile_deterministic {σ : Type} (cond : σ → Bool) (b1 b2 : σ → Option σ)
    (hb : ∀ s x y, b1 s = some x → b2 s = some y → x = y) :
    ∀ (f1 f2 : Nat) (s r1 r2 : σ), loopWhile cond b1 f1 s = some r1 →
      loopWhile cond b2 f2 s = some r2 → r1 = r2 := by
  intro f1
  induction f1 with
  | zero =>
    intro f2 s r1 r2 h1 h2
    simp only [loopWhile] at h1
    split at h1
    · cases h1
    · rename_i hc
      cases h1
      cases f2 with
      | zero => simp only [loopWhile, hc] at h2; cases h2; rfl
      | succ k => simp only [loopWhile, hc] at h2; cases h2; rfl
  | succ n ih =>
    intro f2 s r1 r2 h1 h2
    simp only [loopWhile] at h1
    split at h1
    · rename_i hc
      cases f2 with
      | zero => simp only [loopWhile, hc] at h2; cases h2
      | succ k =>
        simp only [loopWhile, hc, if_true] at h2
        cases h3 : b1 s with
        | none => rw [h3] at h1; cases h1
        | some x =>
          cases h4 : b2 s with
          | none => rw [h4] at h2; cases h2
          | some y =>
            rw [h3] at h1
            rw [h4] at h2
            have hxy := hb s x y h3 h4
            subst hxy
            exact ih k x r1 r2 h1 h2
    · rename_i hc
      cases h1
      cases f2 with
      | zero => simp only [loopWhile, hc] at h2; cases h2; rfl
      | succ k => simp only [loopWhile, hc] at h2; cases h2; rfl

/-! ### Claims on defaults, globals and determinism -/

/-- C13 fails on the code: over the reals, `ring(undefined, 1, 8)` is not
`ring(0.25, 1, 8)`. Its first position component is `NaN` (`none`), where
`ring(0.25, 1, 8)` has `0.25`. -/
theorem ring_undefined_inner_radius_is_nan :
    ∃ m1 m2,
      ring (JSMath.mk Real.cos Real.sin Real.sqrt Real.pi) { c := none, s := none } 3
        none (some 1) (some 8) = Except.ok m1 ∧
      ring (JSMath.mk Real.cos Real.sin Real.sqrt Real.pi) { c := none, s := none } 3
        (some (1 / 4)) (some 1) (some 8) = Except.ok m2 ∧
      m1.vertexPositions.getD 0 (some 0) = none ∧
      m2.vertexPositions.getD 0 (some 0) = some (1 / 4) ∧ m1 ≠ m2 := by
  obtain ⟨m1, h1, v1⟩ := ring_first_position (JSMath.mk Real.cos Real.sin Real.sqrt Real.pi)
    { c := none, s := none } 3 (by norm_num) none (some 1) (by simp) 8 (by norm_num) (some 0)
  obtain ⟨m2, h2, v2⟩ := ring_first_position (JSMath.mk Real.cos Real.sin Real.sqrt Real.pi)
    { c := none, s := none } 3 (by norm_num) (some (1 / 4)) (some 1) (by norm_num) 8
    (by norm_num) (some 0)
  rw [show ((8 : Nat) : Int) = 8 by norm_num] at h1 h2
  simp only [Option.map_none'] at v1
  simp only [Option.map_some', Nat.cast_zero, mul_zero, Real.cos_zero, one_mul] at v2
  refine ⟨m1, m2, h1, h2, v1, v2, ?_⟩
  intro h
  rw [h, v2] at v1
  cases v1

/-- C15 fails on the code: `ring(0, 1, 8)`, run with the globals `c` and `s` unset, leaves
them set (to the cosine and sine of the last angle). -/
theorem ring_assigns_globals :
    ∃ st, ring.run (JSMath.mk Real.cos Real.sin Real.sqrt Real.pi) { c := none, s := none } 3
        (some 0) (some 1) (some 8) = Except.ok st ∧
      st.globals.c = some (Real.cos (2 * Real.pi / 8 * 7)) ∧
      st.globals.s = some (Real.sin (2 * Real.pi / 8 * 7)) ∧
      st.globals ≠ { c := none, s := none } := by
  obtain ⟨st, h, hg⟩ := ring_run_globals (JSMath.mk Real.cos Real.sin Real.sqrt Real.pi)
    { c := none, s := none } 3 (some 0) (some 1) 8 (by norm_num)
  rw [show ((8 : Nat) : Int) = 8 by norm_num] at h
  refine ⟨st, h, ?_, ?_, ?_⟩
  · rw [hg]; norm_num
  · rw [hg]; norm_num
  · rw [hg]; simp

/-! ### Contents of the arrays -/

theorem VertsOK.of_arrays_eq {α : Type} [Zero α] {P : Nat → α × α × α → α × α × α → Prop}
    {b b2 : Buffers α} (h : VertsOK P b) (hv : b2.vertices = b.vertices)
    (hn : b2.normals = b.normals) (hk : b2.kv = b.kv) : VertsOK P b2 := by
  unfold VertsOK
  rw [hv, hn, hk]
  exact h

theorem VertsOK.afterTex {α : Type} [Zero α] {P : Nat → α × α × α → α × α × α → Prop}
    {b : Buffers α} (h : VertsOK P b) (v : α) : VertsOK P (b.pushT v) := h.of_arrays_eq rfl rfl rfl

/-- Writing one vertex that satisfies `P` at its number `k = kv / 3` keeps the invariant. -/
theorem VertsOK.vertex {α : Type} [Zero α] {P : Nat → α × α × α → α × α × α → Prop}
    {b : Buffers α} (h : VertsOK P b) (k : Nat) (hk : b.kv = 3 * k) (a1 a2 a3 x y z : α)
    (hp : P k (a1, a2, a3) (x, y, z)) :
    VertsOK P ((((((b.setV a1).pushN x).setV a2).pushN y).setV a3).pushN z) := by
  obtain ⟨h3, hn⟩ := h
  refine ⟨?_, ?_⟩
  · simp only [Buffers.setV, Buffers.pushN]; omega
  · intro i hi hlv hl
    simp only [Buffers.setV, Buffers.pushN, List.length_set] at hi hlv hl ⊢
    by_cases hlt : 3 * i + 2 < b.kv
    · have := hn i hlt hlv hl
      simp only [vec3At] at this ⊢
      rw [getD_set_ne _ _ _ _ _ (by omega), getD_set_ne _ _ _ _ _ (by omega),
        getD_set_ne _ _ _ _ _ (by omega), getD_set_ne _ _ _ _ _ (by omega),
        getD_set_ne _ _ _ _ _ (by omega), getD_set_ne _ _ _ _ _ (by omega),
        getD_set_ne _ _ _ _ _ (by omega), getD_set_ne _ _ _ _ _ (by omega),
        getD_set_ne _ _ _ _ _ (by omega), getD_set_ne _ _ _ _ _ (by omega),
        getD_set_ne _ _ _ _ _ (by omega), getD_set_ne _ _ _ _ _ (by omega),
        getD_set_ne _ _ _ _ _ (by omega), getD_set_ne _ _ _ _ _ (by omega),
        getD_set_ne _ _ _ _ _ (by omega), getD_set_ne _ _ _ _ _ (by omega),
        getD_set_ne _ _ _ _ _ (by omega), getD_set_ne _ _ _ _ _ (by omega)]
      exact this
    · have hki : k = i := by omega
      rw [hki] at hp hk
      simp only [vec3At]
      rw [getD_set_ne _ _ _ _ _ (by omega), getD_set_ne _ _ _ _ _ (by omega),
        getD_set_eq _ _ _ _ _ (by omega) (by omega),
        getD_set_ne _ _ _ _ _ (by omega),
        getD_set_eq _ _ _ _ _ (by omega) (by simp only [List.length_set]; omega),
        getD_set_eq _ _ _ _ _ (by omega) (by simp only [List.length_set]; omega),
        getD_set_ne _ _ _ _ _ (by omega), getD_set_ne _ _ _ _ _ (by omega),
        getD_set_eq _ _ _ _ _ (by omega) (by omega),
        getD_set_ne _ _ _ _ _ (by omega),
        getD_set_eq _ _ _ _ _ (by omega) (by simp only [List.length_set]; omega),
        getD_set_eq _ _ _ _ _ (by omega) (by simp only [List.length_set]; omega)]
      exact hp

theorem VertsOK.onFresh {α : Type} [Zero α] (P : Nat → α × α × α → α × α × α → Prop)
    (nv nn nt ni : Nat) : VertsOK P (fresh (0 : α) nv nn nt ni) := by
  refine ⟨rfl, ?_⟩
  intro i hi
  simp [IFS.fresh] at hi

theorem TrisOK.of_indices {β : Type} {Q : Nat → Nat × Nat × Nat → Prop} {b b2 : Buffers β}
    (h : TrisOK Q b) (hi : b2.indices = b.indices) (hk : b2.ki = b.ki) : TrisOK Q b2 := by
  unfold TrisOK
  rw [hi, hk]
  exact h

/-- Writing one triangle that satisfies `Q` at its number `t = ki / 3` keeps the
invariant. -/
theorem TrisOK.triangle {β : Type} {Q : Nat → Nat × Nat × Nat → Prop} {b : Buffers β}
    (h : TrisOK Q b) (k : Nat) (hk : b.ki = 3 * k) (v1 v2 v3 : Int)
    (hq : Q k (toUint16 v1, toUint16 v2, toUint16 v3)) :
    TrisOK Q (((b.pushI v1).pushI v2).pushI v3) := by
  obtain ⟨h3, hn⟩ := h
  refine ⟨?_, ?_⟩
  · simp only [Buffers.pushI]; omega
  · intro t hi hl
    simp only [Buffers.pushI, List.length_set] at hi hl ⊢
    by_cases hlt : 3 * t + 2 < b.ki
    · have := hn t hlt hl
      simp only [vec3At] at this ⊢
      rw [getD_set_ne _ _ _ _ _ (by omega), getD_set_ne _ _ _ _ _ (by omega),
        getD_set_ne _ _ _ _ _ (by omega), getD_set_ne _ _ _ _ _ (by omega),
        getD_set_ne _ _ _ _ _ (by omega), getD_set_ne _ _ _ _ _ (by omega),
        getD_set_ne _ _ _ _ _ (by omega), getD_set_ne _ _ _ _ _ (by omega),
        getD_set_ne _ _ _ _ _ (by omega)]
      exact this
    · have hki : k = t := by omega
      rw [hki] at hq hk
      simp only [vec3At]
      rw [getD_set_ne _ _ _ _ _ (by omega), getD_set_ne _ _ _ _ _ (by omega),
        getD_set_eq _ _ _ _ _ (by omega) (by omega),
        getD_set_ne _ _ _ _ _ (by omega),
        getD_set_eq _ _ _ _ _ (by omega) (by simp only [List.length_set]; omega),
        getD_set_eq _ _ _ _ _ (by omega) (by simp only [List.length_set]; omega)]
      exact hq

theorem TrisOK.onFreshIndices {β : Type} (Q : Nat → Nat × Nat × Nat → Prop) (zero : β)
    (nv nn nt ni : Nat) : TrisOK Q (fresh zero nv nn nt ni) := by
  refine ⟨rfl, ?_⟩
  intro i hi
  simp [IFS.fresh] at hi

/-- A loop invariant may use the values of the cursors `kv` and `ki` at each iteration, when
the body advances them by fixed amounts. -/
theorem forRange_cursor {β : Type} (R : Buffers β → Prop) {dv dt di : Nat} (n : Int)
    (body : Nat → Buffers β → Buffers β) (b : Buffers β)
    (hadv : ∀ i s, Adv dv dt di s (body i s)) (h0 : R b)
    (hstep : ∀ i s, i < n.toNat → s.kv = b.kv + i * dv → s.ki = b.ki + i * di →
      R s → R (body i s)) :
    R (forRange n body b) := by
  have h := forRange_induction (fun i s => Adv (i * dv) (i * dt) (i * di) b s ∧ R s) n body b
    ⟨by simp [Adv], h0⟩ ?_
  · exact h.2
  · intro i s hi hs
    obtain ⟨ha, hr⟩ := hs
    refine ⟨((ha.trans (hadv i s)).cast (by ring) (by ring) (by ring)), ?_⟩
    exact hstep i s hi ha.2.2.2.2.1 ha.2.2.2.2.2.2 hr

/-! ### The closed form of the capped cylinder -/

theorem cylinderVertex_bottom {α : Type} [Field α] (M : JSMath α) (radius height : α)
    (n k : Nat) (hk : k ≤ n) :
    cylinderVertex M radius height n (2 * k) =
      ((M.cos ((k : α) * (2 * M.PI / ((n : Int) : α))) * radius,
        M.sin ((k : α) * (2 * M.PI / ((n : Int) : α))) * radius, -height / 2),
       (M.cos ((k : α) * (2 * M.PI / ((n : Int) : α))),
        M.sin ((k : α) * (2 * M.PI / ((n : Int) : α))), 0)) := by
  have h1 : 2 * k < 2 * n + 2 := by omega
  have h2 : 2 * k / 2 = k := by omega
  have h3 : 2 * k % 2 = 0 := by omega
  simp only [cylinderVertex, h1, h2, h3, if_true]

theorem cylinderVertex_top {α : Type} [Field α] (M : JSMath α) (radius height : α)
    (n k : Nat) (hk : k ≤ n) :
    cylinderVertex M radius height n (2 * k + 1) =
      ((M.cos ((k : α) * (2 * M.PI / ((n : Int) : α))) * radius,
        M.sin ((k : α) * (2 * M.PI / ((n : Int) : α))) * radius, height / 2),
       (M.cos ((k : α) * (2 * M.PI / ((n : Int) : α))),
        M.sin ((k : α) * (2 * M.PI / ((n : Int) : α))), 0)) := by
  have h1 : 2 * k + 1 < 2 * n + 2 := by omega
  have h2 : (2 * k + 1) / 2 = k := by omega
  have h3 : (2 * k + 1) % 2 = 1 := by omega
  simp only [cylinderVertex, h1, h2, h3, if_true, one_ne_zero, if_false]

theorem cylinderVertex_bottomCenter {α : Type} [Field α] (M : JSMath α) (radius height : α)
    (n : Nat) :
    cylinderVertex M radius height n (2 * n + 2) = ((0, 0, -height / 2), (0, 0, -1)) := by
  simp only [cylinderVertex, lt_irrefl, if_false, if_true]

theorem cylinderVertex_bottomRim {α : Type} [Field α] (M : JSMath α) (radius height : α)
    (n k : Nat) (hk : k ≤ n) :
    cylinderVertex M radius height n (2 * n + 3 + k) =
      ((M.cos (2 * M.PI - (k : α) * (2 * M.PI / ((n : Int) : α))) * radius,
        M.sin (2 * M.PI - (k : α) * (2 * M.PI / ((n : Int) : α))) * radius, -height / 2),
       (0, 0, -1)) := by
  have h1 : ¬ 2 * n + 3 + k < 2 * n + 2 := by omega
  have h2 : ¬ 2 * n + 3 + k = 2 * n + 2 := by omega
  have h3 : 2 * n + 3 + k < 3 * n + 4 := by omega
  have h4 : 2 * n + 3 + k - (2 * n + 3) = k := by omega
  simp only [cylinderVertex, h1, h2, h3, h4, if_true, if_false]

theorem cylinderVertex_topCenter {α : Type} [Field α] (M : JSMath α) (radius height : α)
    (n : Nat) :
    cylinderVertex M radius height n (3 * n + 4) = ((0, 0, height / 2), (0, 0, 1)) := by
  have h1 : ¬ 3 * n + 4 < 2 * n + 2 := by omega
  have h2 : ¬ 3 * n + 4 = 2 * n + 2 := by omega
  simp only [cylinderVertex, h1, h2, lt_irrefl, if_false, if_true]

theorem cylinderVertex_topRim {α : Type} [Field α] (M : JSMath α) (radius height : α)
    (n k : Nat) :
    cylinderVertex M radius height n (3 * n + 5 + k) =
      ((M.cos ((k : α) * (2 * M.PI / ((n : Int) : α))) * radius,
        M.sin ((k : α) * (2 * M.PI / ((n : Int) : α))) * radius, height / 2),
       (0, 0, 1)) := by
  have h1 : ¬ 3 * n + 5 + k < 2 * n + 2 := by omega
  have h2 : ¬ 3 * n + 5 + k = 2 * n + 2 := by omega
  have h3 : ¬ 3 * n + 5 + k < 3 * n + 4 := by omega
  have h5 : ¬ 3 * n + 5 + k = 3 * n + 4 := by omega
  have h4 : 3 * n + 5 + k - (3 * n + 5) = k := by omega
  simp only [cylinderVertex, h1, h2, h3, h4, h5, if_true, if_false]

theorem cylinderTriangle_side0 (n k : Nat) (hk : k < n) :
    cylinderTriangle n (2 * k) = (2 * k, 2 * k + 3, 2 * k + 1) := by
  have h1 : 2 * k < 2 * n := by omega
  have h2 : 2 * k / 2 = k := by omega
  have h3 : 2 * k % 2 = 0 := by omega
  simp only [cylinderTriangle, h1, h2, h3, if_true]

theorem cylinderTriangle_side1 (n k : Nat) (hk : k < n) :
    cylinderTriangle n (2 * k + 1) = (2 * k, 2 * k + 2, 2 * k + 3) := by
  have h1 : 2 * k + 1 < 2 * n := by omega
  have h2 : (2 * k + 1) / 2 = k := by omega
  have h3 : (2 * k + 1) % 2 = 1 := by omega
  simp only [cylinderTriangle, h1, h2, h3, if_true, one_ne_zero, if_false]

theorem cylinderTriangle_bottom (n k : Nat) (hk : k < n) :
    cylinderTriangle n (2 * n + k) = (2 * n + 2, 2 * n + 2 + k + 1, 2 * n + 2 + k + 2) := by
  have h1 : ¬ 2 * n + k < 2 * n := by omega
  have h2 : 2 * n + k < 3 * n := by omega
  have h3 : 2 * n + k - 2 * n = k := by omega
  simp only [cylinderTriangle, h1, h2, h3, if_true, if_false]

theorem cylinderTriangle_top (n k : Nat) :
    cylinderTriangle n (3 * n + k) = (3 * n + 4, 3 * n + 4 + k + 1, 3 * n + 4 + k + 2) := by
  have h1 : ¬ 3 * n + k < 2 * n := by omega
  have h2 : ¬ 3 * n + k < 3 * n := by omega
  have h3 : 3 * n + k - 3 * n = k := by omega
  simp only [cylinderTriangle, h1, h2, h3, if_false]

theorem sideStep_content {α : Type} [Field α] (M : JSMath α) (radius height : α)
    (n i : Nat) (hi : i ≤ n) (b : Buffers α) (hk : b.kv = 6 * i)
    (h : CylinderVerts M radius height n b) :
    CylinderVerts M radius height n (uvCylinder.sideStep M radius height (n : Int) i b) := by
  unfold uvCylinder.sideStep
  unfold CylinderVerts at h ⊢
  refine ((((((h.vertex (2 * i) (by omega) _ _ _ _ _ _ ?_).afterTex _).afterTex _).vertex
    (2 * i + 1) ?_ _ _ _ _ _ _ ?_).afterTex _).afterTex _)
  · exact (cylinderVertex_bottom M radius height n i hi).symm
  · simp only [Buffers.setV, Buffers.pushN, Buffers.pushT]; omega
  · exact (cylinderVertex_top M radius height n i hi).symm

theorem sideIndexStep_content {β : Type} (n i : Nat) (hi : i < n) (b : Buffers β)
    (hk : b.ki = 6 * i) (h : CylinderTris n b) :
    CylinderTris n (uvCylinder.sideIndexStep i b) := by
  unfold uvCylinder.sideIndexStep
  unfold CylinderTris at h ⊢
  refine (h.triangle (2 * i) (by omega) _ _ _ ?_).triangle (2 * i + 1) ?_ _ _ _ ?_
  · rw [cylinderTriangle_side0 n i hi]
    simp only [storedTriangle]
    push_cast
    rfl
  · simp only [Buffers.pushI]; omega
  · rw [cylinderTriangle_side1 n i hi]
    simp only [storedTriangle]
    push_cast
    rfl

theorem capCenter_bottom_content {α : Type} [Field α] (M : JSMath α) (radius height : α)
    (n : Nat) (b : Buffers α) (hk : b.kv = 6 * (n + 1))
    (h : CylinderVerts M radius height n b) :
    CylinderVerts M radius height n (capCenter (-height / 2) (-1) b) := by
  unfold capCenter
  unfold CylinderVerts at h ⊢
  refine ((h.vertex (2 * n + 2) (by omega) _ _ _ _ _ _ ?_).afterTex _).afterTex _
  exact (cylinderVertex_bottomCenter M radius height n).symm

theorem capCenter_top_content {α : Type} [Field α] (M : JSMath α) (radius height : α)
    (n : Nat) (b : Buffers α) (hk : b.kv = 9 * n + 12)
    (h : CylinderVerts M radius height n b) :
    CylinderVerts M radius height n (capCenter (height / 2) 1 b) := by
  unfold capCenter
  unfold CylinderVerts at h ⊢
  refine ((h.vertex (3 * n + 4) (by omega) _ _ _ _ _ _ ?_).afterTex _).afterTex _
  exact (cylinderVertex_topCenter M radius height n).symm

theorem bottomRimStep_content {α : Type} [Field α] (M : JSMath α) (radius height : α)
    (n i : Nat) (hi : i ≤ n) (b : Buffers α) (hk : b.kv = 6 * (n + 1) + 3 + i * 3)
    (h : CylinderVerts M radius height n b) :
    CylinderVerts M radius height n (bottomRimStep M radius height (n : Int) i b) := by
  unfold bottomRimStep
  unfold CylinderVerts at h ⊢
  refine ((h.vertex (2 * n + 3 + i) (by omega) _ _ _ _ _ _ ?_).afterTex _).afterTex _
  exact (cylinderVertex_bottomRim M radius height n i hi).symm

theorem topRimStep_content {α : Type} [Field α] (M : JSMath α) (radius height : α)
    (n i : Nat) (b : Buffers α) (hk : b.kv = 9 * n + 12 + 3 + i * 3)
    (h : CylinderVerts M radius height n b) :
    CylinderVerts M radius height n (uvCylinder.topRimStep M radius height (n : Int) i b) := by
  unfold uvCylinder.topRimStep
  unfold CylinderVerts at h ⊢
  refine ((h.vertex (3 * n + 5 + i) (by omega) _ _ _ _ _ _ ?_).afterTex _).afterTex _
  exact (cylinderVertex_topRim M radius height n i).symm

theorem capIndexStep_bottom_content {β : Type} (n i : Nat) (hi : i < n) (b : Buffers β)
    (hk : b.ki = 6 * n + i * 3) (h : CylinderTris n b) :
    CylinderTris n (capIndexStep (((2 * n + 2 : Nat) : Int)) i b) := by
  unfold capIndexStep
  unfold CylinderTris at h ⊢
  refine h.triangle (2 * n + i) (by omega) _ _ _ ?_
  rw [cylinderTriangle_bottom n i hi]
  simp only [storedTriangle]
  push_cast
  rfl

theorem capIndexStep_top_content {β : Type} (n i : Nat) (b : Buffers β)
    (hk : b.ki = 9 * n + i * 3) (h : CylinderTris n b) :
    CylinderTris n (capIndexStep (((3 * n + 4 : Nat) : Int)) i b) := by
  unfold capIndexStep
  unfold CylinderTris at h ⊢
  refine h.triangle (3 * n + i) (by omega) _ _ _ ?_
  rw [cylinderTriangle_top n i]
  simp only [storedTriangle]
  push_cast
  rfl

/-- The bottom cap written after the side: vertices `2n+2 .. 3n+3`, triangles
`2n .. 3n-1`. -/
theorem bottomCap_content {α : Type} [Field α] (M : JSMath α) (radius height : α)
    (n : Nat) (b : Buffers α) (hkv : b.kv = 6 * (n + 1)) (hki : b.ki = 6 * n)
    (hv : CylinderVerts M radius height n b) (ht : CylinderTris n b) :
    CylinderVerts M radius height n (bottomCap M radius height (n : Int) b) ∧
    CylinderTris n (bottomCap M radius height (n : Int) b) := by
  unfold bottomCap
  have hst : b.kv / 3 = 2 * n + 2 := by omega
  rw [hst]
  have a1 := capCenter_adv (-height / 2) (-1) b
  have a2 := Adv.loop ((n : Int) + 1) (bottomRimStep M radius height (n : Int))
    (capCenter (-height / 2) (-1) b) (fun i s _ => bottomRimStep_adv M radius height _ i s)
  have a12 := a1.trans a2
  refine ⟨?_, ?_⟩
  · refine forRange_invariant (CylinderVerts M radius height n) _ _ _ ?_
      (fun i s _ hs => VertsOK.of_arrays_eq hs rfl rfl rfl)
    refine forRange_cursor (CylinderVerts M radius height n) _ _ _
      (fun i s => bottomRimStep_adv M radius height _ i s)
      (capCenter_bottom_content M radius height n b hkv hv) ?_
    intro i s hi hk _ hs
    rw [toNat_cast_succ] at hi
    refine bottomRimStep_content M radius height n i (by omega) s ?_ hs
    rw [hk, a1.2.2.2.2.1, hkv]
  · refine forRange_cursor (CylinderTris n) _ _ _
      (fun i s => capIndexStep_adv _ i s) ?_ ?_
    · refine forRange_invariant (CylinderTris n) _ _ _ (TrisOK.of_indices ht rfl rfl)
        (fun i s _ hs => TrisOK.of_indices hs rfl rfl)
    · intro i s hi _ hk hs
      rw [Int.toNat_ofNat] at hi
      refine capIndexStep_bottom_content n i hi s ?_ hs
      rw [hk, a12.2.2.2.2.2.2, hki]
      omega

/-- The top cap written after the bottom cap: vertices `3n+4 .. 4n+5`, triangles
`3n .. 4n-1`. -/
theorem topCap_content {α : Type} [Field α] (M : JSMath α) (radius height : α)
    (n : Nat) (b : Buffers α) (hkv : b.kv = 9 * n + 12) (hki : b.ki = 9 * n)
    (hv : CylinderVerts M radius height n b) (ht : CylinderTris n b) :
    CylinderVerts M radius height n (uvCylinder.topCap M radius height (n : Int) b) ∧
    CylinderTris n (uvCylinder.topCap M radius height (n : Int) b) := by
  unfold uvCylinder.topCap
  have hst : b.kv / 3 = 3 * n + 4 := by omega
  rw [hst]
  have a1 := capCenter_adv (height / 2) 1 b
  have a2 := Adv.loop ((n : Int) + 1) (uvCylinder.topRimStep M radius height (n : Int))
    (capCenter (height / 2) 1 b) (fun i s _ => topRimStep_adv M radius height _ i s)
  have a12 := a1.trans a2
  refine ⟨?_, ?_⟩
  · refine forRange_invariant (CylinderVerts M radius height n) _ _ _ ?_
      (fun i s _ hs => VertsOK.of_arrays_eq hs rfl rfl rfl)
    refine forRange_cursor (CylinderVerts M radius height n) _ _ _
      (fun i s => topRimStep_adv M radius height _ i s)
      (capCenter_top_content M radius height n b hkv hv) ?_
    intro i s hi hk _ hs
    refine topRimStep_content M radius height n i s ?_ hs
    rw [hk, a1.2.2.2.2.1, hkv]
  · refine forRange_cursor (CylinderTris n) _ _ _
      (fun i s => capIndexStep_adv _ i s) ?_ ?_
    · refine forRange_invariant (CylinderTris n) _ _ _ (TrisOK.of_indices ht rfl rfl)
        (fun i s _ hs => TrisOK.of_indices hs rfl rfl)
    · intro i s hi _ hk hs
      refine capIndexStep_top_content n i s ?_ hs
      rw [hk, a12.2.2.2.2.2.2, hki]
      omega

/-- The side written first: vertices `0 .. 2n+1`, triangles `0 .. 2n-1`. -/
theorem side_content {α : Type} [Field α] (M : JSMath α) (radius height : α)
    (n : Nat) (b : Buffers α) (hkv : b.kv = 0) (hki : b.ki = 0)
    (hv : CylinderVerts M radius height n b) (ht : CylinderTris n b) :
    CylinderVerts M radius height n (forRange (n : Int) uvCylinder.sideIndexStep
      (forRange ((n : Int) + 1) (uvCylinder.sideStep M radius height (n : Int)) b)) ∧
    CylinderTris n (forRange (n : Int) uvCylinder.sideIndexStep
      (forRange ((n : Int) + 1) (uvCylinder.sideStep M radius height (n : Int)) b)) := by
  have a1 := Adv.loop ((n : Int) + 1) (uvCylinder.sideStep M radius height (n : Int)) b
    (fun i s _ => sideStep_adv M radius height _ i s)
  refine ⟨?_, ?_⟩
  · refine forRange_invariant (CylinderVerts M radius height n) _ _ _ ?_
      (fun i s _ hs => VertsOK.of_arrays_eq hs rfl rfl rfl)
    refine forRange_cursor (CylinderVerts M radius height n) _ _ _
      (fun i s => sideStep_adv M radius height _ i s) hv ?_
    intro i s hi hk _ hs
    rw [toNat_cast_succ] at hi
    refine sideStep_content M radius height n i (by omega) s ?_ hs
    rw [hk, hkv]; omega
  · refine forRange_cursor (CylinderTris n) _ _ _
      (fun i s => sideIndexStep_adv i s) ?_ ?_
    · refine forRange_invariant (CylinderTris n) _ _ _ ht
        (fun i s _ hs => TrisOK.of_indices hs rfl rfl)
    · intro i s hi _ hk hs
      rw [Int.toNat_ofNat] at hi
      refine sideIndexStep_content n i hi s ?_ hs
      rw [hk, a1.2.2.2.2.2.2, hki]
      omega

theorem uvCylinder_run_capped_eq {α : Type} [Field α] [DecidableEq α] (M : JSMath α)
    (radius height : Option α) (n : Nat) (hn : 0 < n) :
    uvCylinder.run M radius height (some (n : Int)) false false =
      Except.ok
        (uvCylinder.topCap M (orDefault radius (1 / 2))
          (orDefault height (2 * orDefault radius (1 / 2))) (n : Int)
          (bottomCap M (orDefault radius (1 / 2))
            (orDefault height (2 * orDefault radius (1 / 2))) (n : Int)
            (forRange (n : Int) uvCylinder.sideIndexStep
              (forRange ((n : Int) + 1)
                (uvCylinder.sideStep M (orDefault radius (1 / 2))
                  (orDefault height (2 * orDefault radius (1 / 2))) (n : Int))
                (fresh (0 : α) (3 * (4 * n + 6)) (3 * (4 * n + 6)) (2 * (4 * n + 6))
                  (3 * (4 * n))))))) := by
  have h1 : ((n : Int)) ≠ 0 := by omega
  have e3 : ((2 * ((n : Int) + 1) + ((n : Int) + 2) + ((n : Int) + 2)) * 3).toNat =
      3 * (4 * n + 6) := by omega
  have e2 : ((2 * ((n : Int) + 1) + ((n : Int) + 2) + ((n : Int) + 2)) * 2).toNat =
      2 * (4 * n + 6) := by omega
  have e1 : ((2 * (n : Int) + (n : Int) + (n : Int)) * 3).toNat = 3 * (4 * n) := by omega
  simp only [uvCylinder.run, orDefault_some _ _ h1, Bool.not_false, Bool.not_true,
    if_true, Bool.false_eq_true, if_false]
  rw [allocate_ok _ _ _ _ _ (by positivity) (by positivity) (by positivity) (by positivity)]
  simp only [e1, e2, e3]
  exact rfl

/-- The mesh of the fully capped `uvCylinder` with `n > 0` slices, in closed form: vertex `i`
is `cylinderVertex i` and triangle `t` is the stored form of `cylinderTriangle t`. -/
theorem uvCylinder_capped_content {α : Type} [Field α] [DecidableEq α] (M : JSMath α)
    (radius height : Option α) (n : Nat) (hn : 0 < n) :
    ∃ m, uvCylinder M radius height (some (n : Int)) false false = Except.ok m ∧
      (m.vertexPositions.length = 3 * (4 * n + 6) ∧ m.vertexNormals.length = 3 * (4 * n + 6) ∧
        m.indices.length = 3 * (4 * n)) ∧
      (∀ i, i < 4 * n + 6 →
        (vec3At m.vertexPositions i, vec3At m.vertexNormals i) =
          cylinderVertex M (orDefault radius (1 / 2))
            (orDefault height (2 * orDefault radius (1 / 2))) n i) ∧
      (∀ t, t < 4 * n → vec3At m.indices t = storedTriangle (cylinderTriangle n t)) := by
  have hrun := uvCylinder_run_capped_eq M radius height n hn
  set r := orDefault radius (1 / 2) with hr
  set h := orDefault height (2 * r) with hh
  set b0 := fresh (0 : α) (3 * (4 * n + 6)) (3 * (4 * n + 6)) (2 * (4 * n + 6))
    (3 * (4 * n)) with hb0
  obtain ⟨s1, _, _⟩ := cylinder_side_spec M r h n (4 * n + 6) b0 (by omega)
    (IdxBound.atStart _ _ _ _ _ _ (by omega))
  obtain ⟨v1, t1⟩ := side_content M r h n b0 rfl rfl (VertsOK.onFresh _ _ _ _ _)
    (TrisOK.onFreshIndices _ _ _ _ _ _)
  set bS := forRange (n : Int) uvCylinder.sideIndexStep
    (forRange ((n : Int) + 1) (uvCylinder.sideStep M r h (n : Int)) b0) with hbS
  have k0 : b0.kv = 0 := rfl
  have i0 : b0.ki = 0 := rfl
  have kS : bS.kv = 6 * (n + 1) := by have := s1.2.2.2.2.1; omega
  have iS : bS.ki = 6 * n := by have := s1.2.2.2.2.2.2; omega
  obtain ⟨v2, t2⟩ := bottomCap_content M r h n bS kS iS v1 t1
  have aB := bottomCap_adv M r h n bS
  set bB := bottomCap M r h (n : Int) bS with hbB
  have kB : bB.kv = 9 * n + 12 := by have := aB.2.2.2.2.1; omega
  have iB : bB.ki = 9 * n := by have := aB.2.2.2.2.2.2; omega
  obtain ⟨v3, t3⟩ := topCap_content M r h n bB kB iB v2 t2
  have aT := topCap_adv M r h n bB
  set bT := uvCylinder.topCap M r h (n : Int) bB with hbT
  have kT : bT.kv = 3 * (4 * n + 6) := by have := aT.2.2.2.2.1; omega
  have iT : bT.ki = 3 * (4 * n) := by have := aT.2.2.2.2.2.2; omega
  have l0v : b0.vertices.length = 3 * (4 * n + 6) := by simp [hb0, fresh]
  have l0n : b0.normals.length = 3 * (4 * n + 6) := by simp [hb0, fresh]
  have l0i : b0.indices.length = 3 * (4 * n) := by simp [hb0, fresh]
  have lv : bT.vertices.length = 3 * (4 * n + 6) := by
    rw [aT.1, aB.1, s1.1, l0v]
  have ln : bT.normals.length = 3 * (4 * n + 6) := by
    rw [aT.2.1, aB.2.1, s1.2.1, l0n]
  have li : bT.indices.length = 3 * (4 * n) := by
    rw [aT.2.2.2.1, aB.2.2.2.1, s1.2.2.2.1, l0i]
  refine ⟨bT.toMesh, by simp only [uvCylinder, hrun, Except.map], ⟨lv, ln, li⟩, ?_, ?_⟩
  · intro i hi
    exact v3.2 i (by omega) (by rw [lv]; omega) (by rw [ln]; omega)
  · intro t ht
    exact t3.2 t (by omega) (by rw [li]; omega)

theorem toUint16_natCast (a : Nat) (h : a < 65536) : toUint16 (a : Int) = a := by
  unfold toUint16
  omega

/-! ### Winding of the cylinder over the reals -/

theorem sin_du_pos (n : Nat) (hn : 3 ≤ n) : 0 < Real.sin (2 * Real.pi / ((n : Int) : ℝ)) := by
  have h3 : (3 : ℝ) ≤ (n : ℝ) := by exact_mod_cast hn
  have hp := Real.pi_pos
  rw [Int.cast_natCast]
  refine Real.sin_pos_of_pos_of_lt_pi (by positivity) ?_
  rw [div_lt_iff₀ (by linarith)]
  nlinarith

theorem side0_dot (x y z r h : ℝ) (hz : z = x ∨ z = y) :
    dot (triangleCross (Real.cos x * r, Real.sin x * r, -h / 2)
      (Real.cos y * r, Real.sin y * r, h / 2) (Real.cos x * r, Real.sin x * r, h / 2))
      (Real.cos z, Real.sin z, 0) = r * h * Real.sin (y - x) := by
  rcases hz with rfl | rfl <;> simp only [dot, triangleCross, Real.sin_sub] <;> ring

theorem side1_dot (x y z r h : ℝ) (hz : z = x ∨ z = y) :
    dot (triangleCross (Real.cos x * r, Real.sin x * r, -h / 2)
      (Real.cos y * r, Real.sin y * r, -h / 2) (Real.cos y * r, Real.sin y * r, h / 2))
      (Real.cos z, Real.sin z, 0) = r * h * Real.sin (y - x) := by
  rcases hz with rfl | rfl <;> simp only [dot, triangleCross, Real.sin_sub] <;> ring

theorem cap_dot (x y r z nz : ℝ) :
    dot (triangleCross (0, 0, z) (Real.cos x * r, Real.sin x * r, z)
      (Real.cos y * r, Real.sin y * r, z)) (0, 0, nz) = nz * (r * r * Real.sin (y - x)) := by
  simp only [dot, triangleCross, Real.sin_sub]
  ring

/-- C11 as stated fails for large `slices`: over the reals, `uvCylinder(1, 1, 16383)` has
`4*16383 + 6 = 65538` vertices, the last triangle of the top fan is computed as
`(49153, 65536, 65537)` and stored in the `Uint16Array` as `(49153, 0, 1)`; for these three
vertices the cross product `(P_b - P_a) × (P_c - P_a)` has dot product `0` with the normal
stored for the first of them. -/
theorem uvCylinder_wrapped_triangle_not_outward :
    ∃ m, uvCylinder (JSMath.mk Real.cos Real.sin Real.sqrt Real.pi) (some 1) (some 1)
        (some ((16383 : Nat) : Int)) false false = Except.ok m ∧
      ∃ t ∈ triples m.indices, t = (49153, 0, 1) ∧
        dot (triangleCross (vec3At m.vertexPositions t.1) (vec3At m.vertexPositions t.2.1)
          (vec3At m.vertexPositions t.2.2)) (vec3At m.vertexNormals t.1) = 0 ∧
        ¬ 0 < dot (triangleCross (vec3At m.vertexPositions t.1)
          (vec3At m.vertexPositions t.2.1) (vec3At m.vertexPositions t.2.2))
          (vec3At m.vertexNormals t.1) := by
  obtain ⟨m, hm, ⟨lv, ln, li⟩, hV, hT⟩ := uvCylinder_capped_content
    (JSMath.mk Real.cos Real.sin Real.sqrt Real.pi) (some 1) (some 1) 16383 (by norm_num)
  rw [orDefault_some (1 : ℝ) _ one_ne_zero, orDefault_some (1 : ℝ) _ one_ne_zero] at hV
  have ht := hT 65531 (by norm_num)
  have hc : cylinderTriangle 16383 65531 = (49153, 65536, 65537) := by
    have := cylinderTriangle_top 16383 16382
    norm_num at this
    exact this
  have hst : storedTriangle (49153, 65536, 65537) = (49153, 0, 1) := by
    rfl
  rw [hc, hst] at ht
  have hA := hV 49153 (by norm_num)
  have hB := hV 0 (by norm_num)
  have hC := hV 1 (by norm_num)
  have eA := cylinderVertex_topCenter (JSMath.mk Real.cos Real.sin Real.sqrt Real.pi)
    (1 : ℝ) 1 16383
  have eB := cylinderVertex_bottom (JSMath.mk Real.cos Real.sin Real.sqrt Real.pi)
    (1 : ℝ) 1 16383 0 (by norm_num)
  have eC := cylinderVertex_top (JSMath.mk Real.cos Real.sin Real.sqrt Real.pi)
    (1 : ℝ) 1 16383 0 (by norm_num)
  norm_num at eA eB eC
  rw [eA] at hA
  rw [eB] at hB
  rw [eC] at hC
  have hdot : dot (triangleCross (vec3At m.vertexPositions 49153)
      (vec3At m.vertexPositions 0) (vec3At m.vertexPositions 1))
      (vec3At m.vertexNormals 49153) = 0 := by
    rw [(Prod.mk.inj hA).1, (Prod.mk.inj hA).2, (Prod.mk.inj hB).1, (Prod.mk.inj hC).1]
    simp [dot, triangleCross]
  refine ⟨m, hm, vec3At m.indices 65531, ?_, ht, ?_, ?_⟩
  · simp only [triples, List.mem_map, List.mem_range]
    exact ⟨65531, by rw [li]; norm_num, rfl⟩
  · rw [ht]; exact hdot
  · rw [ht]
    simp only
    rw [hdot]
    exact lt_irrefl 0

set_option maxHeartbeats 1000000 in

/-- C11, amended: for every `slices` with `3 ≤ slices` and `4*slices + 6 ≤ 65536` (all vertex
numbers fit in the `Uint16Array`), `radius > 0` and `height > 0`, over the reals, the fully
capped `uvCylinder` has `4*slices` triangles and each of them is wound outward: for each
index triple `(a, b, c)` the cross product `(P_b - P_a) × (P_c - P_a)` has strictly positive
dot product with the stored normal of each of its three vertices. -/
theorem uvCylinder_winding (radius height : ℝ) (slices : Nat) (hs : 3 ≤ slices)
    (hb : 4 * slices + 6 ≤ 65536) (hr : 0 < radius) (hh : 0 < height) :
    ∃ m, uvCylinder (JSMath.mk Real.cos Real.sin Real.sqrt Real.pi) (some radius)
        (some height) (some (slices : Int)) false false = Except.ok m ∧
      (triples m.indices).length = 4 * slices ∧
      ∀ t ∈ triples m.indices, ∀ v ∈ [t.1, t.2.1, t.2.2],
        0 < dot (triangleCross (vec3At m.vertexPositions t.1)
          (vec3At m.vertexPositions t.2.1) (vec3At m.vertexPositions t.2.2))
          (vec3At m.vertexNormals v) := by
  obtain ⟨m, hm, ⟨lv, ln, li⟩, hV, hT⟩ := uvCylinder_capped_content
    (JSMath.mk Real.cos Real.sin Real.sqrt Real.pi) (some radius) (some height) slices
    (by omega)
  rw [orDefault_some radius _ (ne_of_gt hr), orDefault_some height _ (ne_of_gt hh)] at hV
  have hP : ∀ i, i < 4 * slices + 6 → vec3At m.vertexPositions i =
      (cylinderVertex (JSMath.mk Real.cos Real.sin Real.sqrt Real.pi) radius height
        slices i).1 := fun i hi => by rw [← hV i hi]
  have hN : ∀ i, i < 4 * slices + 6 → vec3At m.vertexNormals i =
      (cylinderVertex (JSMath.mk Real.cos Real.sin Real.sqrt Real.pi) radius height
        slices i).2 := fun i hi => by rw [← hV i hi]
  have hsin := sin_du_pos slices hs
  have hrh : 0 < radius * height * Real.sin (2 * Real.pi / ((slices : Int) : ℝ)) :=
    mul_pos (mul_pos hr hh) hsin
  have hrr : 0 < radius * radius * Real.sin (2 * Real.pi / ((slices : Int) : ℝ)) :=
    mul_pos (mul_pos hr hr) hsin
  have hstep : ∀ k : Nat, ((k + 1 : Nat) : ℝ) * (2 * Real.pi / ((slices : Int) : ℝ)) -
      (k : ℝ) * (2 * Real.pi / ((slices : Int) : ℝ)) = 2 * Real.pi / ((slices : Int) : ℝ) := by
    intro k
    push_cast
    ring
  refine ⟨m, hm, by simp [triples, li], ?_⟩
  intro t ht v hv
  simp only [triples, List.mem_map, List.mem_range] at ht
  obtain ⟨j, hj, rfl⟩ := ht
  have hj4 : j < 4 * slices := by rw [li] at hj; omega
  rw [hT j hj4] at hv ⊢
  by_cases c1 : j < 2 * slices
  · rcases Nat.mod_two_eq_zero_or_one j with hpar | hpar
    · obtain ⟨k, hk, rfl⟩ : ∃ k, k < slices ∧ j = 2 * k := ⟨j / 2, by omega, by omega⟩
      rw [cylinderTriangle_side0 slices k hk] at hv ⊢
      simp only [storedTriangle, toUint16_natCast (2 * k) (by omega),
        toUint16_natCast (2 * k + 3) (by omega), toUint16_natCast (2 * k + 1) (by omega)]
        at hv ⊢
      have e3 : 2 * k + 3 = 2 * (k + 1) + 1 := by ring
      rw [hP (2 * k) (by omega), hP (2 * k + 3) (by omega), hP (2 * k + 1) (by omega), e3,
        cylinderVertex_bottom _ _ _ _ k (by omega),
        cylinderVertex_top _ _ _ _ (k + 1) (by omega),
        cylinderVertex_top _ _ _ _ k (by omega)]
      simp only [List.mem_cons, List.mem_singleton, List.not_mem_nil, or_false] at hv
      rcases hv with rfl | rfl | rfl
      · rw [hN (2 * k) (by omega), cylinderVertex_bottom _ _ _ _ k (by omega)]
        simp only
        rw [side0_dot _ _ _ _ _ (Or.inl rfl), hstep k]
        exact hrh
      · rw [hN (2 * k + 3) (by omega), e3, cylinderVertex_top _ _ _ _ (k + 1) (by omega)]
        simp only
        rw [side0_dot _ _ _ _ _ (Or.inr rfl), hstep k]
        exact hrh
      · rw [hN (2 * k + 1) (by omega), cylinderVertex_top _ _ _ _ k (by omega)]
        simp only
        rw [side0_dot _ _ _ _ _ (Or.inl rfl), hstep k]
        exact hrh
    · obtain ⟨k, hk, rfl⟩ : ∃ k, k < slices ∧ j = 2 * k + 1 := ⟨j / 2, by omega, by omega⟩
      rw [cylinderTriangle_side1 slices k hk] at hv ⊢
      simp only [storedTriangle, toUint16_natCast (2 * k) (by omega),
        toUint16_natCast (2 * k + 3) (by omega), toUint16_natCast (2 * k + 2) (by omega)]
        at hv ⊢
      have e3 : 2 * k + 3 = 2 * (k + 1) + 1 := by ring
      have e2 : 2 * k + 2 = 2 * (k + 1) := by ring
      rw [hP (2 * k) (by omega), hP (2 * k + 3) (by omega), hP (2 * k + 2) (by omega), e3, e2,
        cylinderVertex_bottom _ _ _ _ k (by omega),
        cylinderVertex_top _ _ _ _ (k + 1) (by omega),
        cylinderVertex_bottom _ _ _ _ (k + 1) (by omega)]
      simp only [List.mem_cons, List.mem_singleton, List.not_mem_nil, or_false] at hv
      rcases hv with rfl | rfl | rfl
      · rw [hN (2 * k) (by omega), cylinderVertex_bottom _ _ _ _ k (by omega)]
        simp only
        rw [side1_dot _ _ _ _ _ (Or.inl rfl), hstep k]
        exact hrh
      · rw [hN (2 * k + 2) (by omega), e2, cylinderVertex_bottom _ _ _ _ (k + 1) (by omega)]
        simp only
        rw [side1_dot _ _ _ _ _ (Or.inr rfl), hstep k]
        exact hrh
      · rw [hN (2 * k + 3) (by omega), e3, cylinderVertex_top _ _ _ _ (k + 1) (by omega)]
        simp only
        rw [side1_dot _ _ _ _ _ (Or.inr rfl), hstep k]
        exact hrh
  · by_cases c2 : j < 3 * slices
    · obtain ⟨k, hk, rfl⟩ : ∃ k, k < slices ∧ j = 2 * slices + k :=
        ⟨j - 2 * slices, by omega, by omega⟩
      rw [cylinderTriangle_bottom slices k hk] at hv ⊢
      simp only [storedTriangle, toUint16_natCast (2 * slices + 2) (by omega),
        toUint16_natCast (2 * slices + 2 + k + 1) (by omega),
        toUint16_natCast (2 * slices + 2 + k + 2) (by omega)] at hv ⊢
      have e1 : 2 * slices + 2 + k + 1 = 2 * slices + 3 + k := by ring
      have e2 : 2 * slices + 2 + k + 2 = 2 * slices + 3 + (k + 1) := by ring
      have hNall : vec3At m.vertexNormals v = (0, 0, -1) := by
        simp only [List.mem_cons, List.mem_singleton, List.not_mem_nil, or_false] at hv
        rcases hv with rfl | rfl | rfl
        · rw [hN _ (by omega), cylinderVertex_bottomCenter]
        · rw [hN _ (by omega), e1, cylinderVertex_bottomRim _ _ _ _ k (by omega)]
        · rw [hN _ (by omega), e2, cylinderVertex_bottomRim _ _ _ _ (k + 1) (by omega)]
      rw [hNall, hP _ (by omega : 2 * slices + 2 < 4 * slices + 6),
        hP (2 * slices + 2 + k + 1) (by omega), hP (2 * slices + 2 + k + 2) (by omega), e1, e2,
        cylinderVertex_bottomCenter, cylinderVertex_bottomRim _ _ _ _ k (by omega),
        cylinderVertex_bottomRim _ _ _ _ (k + 1) (by omega)]
      simp only
      rw [cap_dot]
      have hneg : (2 * Real.pi - ((k + 1 : Nat) : ℝ) * (2 * Real.pi / ((slices : Int) : ℝ))) -
          (2 * Real.pi - (k : ℝ) * (2 * Real.pi / ((slices : Int) : ℝ))) =
          -(2 * Real.pi / ((slices : Int) : ℝ)) := by
        push_cast
        ring
      rw [hneg, Real.sin_neg]
      linarith
    · obtain ⟨k, hk, rfl⟩ : ∃ k, k < slices ∧ j = 3 * slices + k :=
        ⟨j - 3 * slices, by omega, by omega⟩
      rw [cylinderTriangle_top slices k] at hv ⊢
      simp only [storedTriangle, toUint16_natCast (3 * slices + 4) (by omega),
        toUint16_natCast (3 * slices + 4 + k + 1) (by omega),
        toUint16_natCast (3 * slices + 4 + k + 2) (by omega)] at hv ⊢
      have e1 : 3 * slices + 4 + k + 1 = 3 * slices + 5 + k := by ring
      have e2 : 3 * slices + 4 + k + 2 = 3 * slices + 5 + (k + 1) := by ring
      have hNall : vec3At m.vertexNormals v = (0, 0, 1) := by
        simp only [List.mem_cons, List.mem_singleton, List.not_mem_nil, or_false] at hv
        rcases hv with rfl | rfl | rfl
        · rw [hN _ (by omega), cylinderVertex_topCenter]
        · rw [hN _ (by omega), e1, cylinderVertex_topRim _ _ _ _ k]
        · rw [hN _ (by omega), e2, cylinderVertex_topRim _ _ _ _ (k + 1)]
      rw [hNall, hP _ (by omega : 3 * slices + 4 < 4 * slices + 6),
        hP (3 * slices + 4 + k + 1) (by omega), hP (3 * slices + 4 + k + 2) (by omega), e1, e2,
        cylinderVertex_topCenter, cylinderVertex_topRim _ _ _ _ k,
        cylinderVertex_topRim _ _ _ _ (k + 1)]
      simp only
      rw [cap_dot, hstep k]
      linarith

/-- Instance of `uvCylinder_winding` at `uvCylinder(0.5, 1, 32)`. -/
theorem uvCylinder_winding_witness :
    3 ≤ 32 ∧ 4 * 32 + 6 ≤ 65536 ∧ (0 : ℝ) < 1 / 2 ∧ (0 : ℝ) < 1 ∧
    ∃ m, uvCylinder (JSMath.mk Real.cos Real.sin Real.sqrt Real.pi) (some (1 / 2))
        (some 1) (some ((32 : Nat) : Int)) false false = Except.ok m ∧
      (triples m.indices).length = 4 * 32 ∧
      ∀ t ∈ triples m.indices, ∀ v ∈ [t.1, t.2.1, t.2.2],
        0 < dot (triangleCross (vec3At m.vertexPositions t.1)
          (vec3At m.vertexPositions t.2.1) (vec3At m.vertexPositions t.2.2))
          (vec3At m.vertexNormals v) :=
  ⟨by norm_num, by norm_num, by norm_num, by norm_num,
    uvCylinder_winding (1 / 2) 1 32 (by norm_num) (by norm_num) (by norm_num) (by norm_num)⟩

/-! ### uvTorus: every vertex lies on the torus -/

theorem uvTorus_vertexStep_onTorus {α : Type} [Field α] (M : JSMath α)
    (outerRadius innerRadius : α) (slices nstacks : Int) (j i : Nat) (b : Buffers α)
    (h : VertsOK (fun _ p _ => OnTorus M outerRadius innerRadius p) b) :
    VertsOK (fun _ p _ => OnTorus M outerRadius innerRadius p)
      (uvTorus.vertexStep M outerRadius innerRadius slices nstacks j i b) := by
  unfold uvTorus.vertexStep
  exact ((h.vertex (b.kv / 3) (by have := h.1; omega) _ _ _ _ _ _ ⟨_, _, rfl⟩).afterTex _).afterTex _

/-- Every vertex of the mesh of `uvTorus` with positive `slices` and `stacks` lies on the
torus surface. -/
theorem uvTorus_vertices_onTorus {α : Type} [Field α] [DecidableEq α] (M : JSMath α)
    (outerRadius innerRadius : Option α) (slices nstacks : Nat) (hs : 0 < slices)
    (ht : 0 < nstacks) :
    ∃ m, uvTorus M outerRadius innerRadius (some (slices : Int)) (some (nstacks : Int)) =
        Except.ok m ∧
      m.vertexPositions.length = 3 * ((slices + 1) * (nstacks + 1)) ∧
      ∀ p ∈ triples m.vertexPositions,
        OnTorus M (orDefault outerRadius (1 / 2))
          (orDefault innerRadius (orDefault outerRadius (1 / 2) / 3)) p := by
  obtain ⟨b, hb, hadv, _, _⟩ := uvTorus_run_spec M outerRadius innerRadius slices nstacks hs ht
  have hl := mesh_lengths _ _ _ _ _ _ _ hadv
  have hrun := uvTorus_run_eq M outerRadius innerRadius slices nstacks hs ht
  rw [hb] at hrun
  have hbe := Except.ok.inj hrun
  have hv : VertsOK (fun _ p _ => OnTorus M (orDefault outerRadius (1 / 2))
      (orDefault innerRadius (orDefault outerRadius (1 / 2) / 3)) p) b := by
    rw [hbe]
    refine forRange_invariant (VertsOK _) _ _ _ ?_
      (fun j s _ hs' => forRange_invariant (VertsOK _) _ _ _ hs'
        (fun i s2 _ h2 => h2.of_arrays_eq rfl rfl rfl))
    refine forRange_invariant (VertsOK _) _ _ _ (VertsOK.onFresh _ _ _ _ _) ?_
    intro j s _ hs'
    exact forRange_invariant (VertsOK _) _ _ _ hs'
      (fun i s2 _ h2 => uvTorus_vertexStep_onTorus M _ _ _ _ j i s2 h2)
  refine ⟨b.toMesh, by simp [uvTorus, hb, Except.map], hl.1, ?_⟩
  intro p hp
  simp only [triples, List.mem_map, List.mem_range] at hp
  obtain ⟨i, hi, rfl⟩ := hp
  have hkv : b.kv = 3 * ((slices + 1) * (nstacks + 1)) := by
    have := hadv.2.2.2.2.1
    rw [fresh_kv] at this
    omega
  have h1 : b.vertices.length = 3 * ((slices + 1) * (nstacks + 1)) := hl.1
  have h2 : b.normals.length = 3 * ((slices + 1) * (nstacks + 1)) := hl.2.1
  have hi2 : i < b.vertices.length / 3 := hi
  exact hv.2 i (by omega) (by omega) (by omega)

/-- C20: for all `0 < innerRadius < outerRadius` and positive `slices`, `stacks`, over the
reals, every vertex `(x, y, z)` of `uvTorus(outerRadius, innerRadius, slices, stacks)`
satisfies `innerRadius ≤ sqrt(x² + y²) ≤ outerRadius` and
`|z| ≤ (outerRadius - innerRadius)/2`. -/
theorem uvTorus_vertex_bounds (outerRadius innerRadius : ℝ) (slices nstacks : Nat)
    (hi : 0 < innerRadius) (hio : innerRadius < outerRadius) (hs : 0 < slices)
    (ht : 0 < nstacks) :
    ∃ m, uvTorus (JSMath.mk Real.cos Real.sin Real.sqrt Real.pi) (some outerRadius)
        (some innerRadius) (some (slices : Int)) (some (nstacks : Int)) = Except.ok m ∧
      m.vertexPositions.length = 3 * ((slices + 1) * (nstacks + 1)) ∧
      ∀ p ∈ triples m.vertexPositions,
        innerRadius ≤ Real.sqrt (p.1 ^ 2 + p.2.1 ^ 2) ∧
        Real.sqrt (p.1 ^ 2 + p.2.1 ^ 2) ≤ outerRadius ∧
        |p.2.2| ≤ (outerRadius - innerRadius) / 2 := by
  obtain ⟨m, hm, hl, hv⟩ := uvTorus_vertices_onTorus
    (JSMath.mk Real.cos Real.sin Real.sqrt Real.pi) (some outerRadius) (some innerRadius)
    slices nstacks hs ht
  rw [orDefault_some _ _ (ne_of_gt (lt_trans hi hio)), orDefault_some _ _ (ne_of_gt hi)] at hv
  refine ⟨m, hm, hl, ?_⟩
  intro p hp
  obtain ⟨u, v, rfl⟩ := hv p hp
  simp only
  have hT : outerRadius - (innerRadius + outerRadius) / 2 = (outerRadius - innerRadius) / 2 := by
    ring
  have hT0 : 0 < (outerRadius - innerRadius) / 2 := by linarith
  have hc1 := Real.cos_le_one v
  have hc2 := Real.neg_one_le_cos v
  have hlo : innerRadius ≤ (innerRadius + outerRadius) / 2 +
      (outerRadius - innerRadius) / 2 * Real.cos v := by nlinarith
  have hhi : (innerRadius + outerRadius) / 2 +
      (outerRadius - innerRadius) / 2 * Real.cos v ≤ outerRadius := by nlinarith
  have hsq : (Real.cos u * ((innerRadius + outerRadius) / 2 +
        (outerRadius - innerRadius) / 2 * Real.cos v)) ^ 2 +
      (Real.sin u * ((innerRadius + outerRadius) / 2 +
        (outerRadius - innerRadius) / 2 * Real.cos v)) ^ 2 =
      ((innerRadius + outerRadius) / 2 + (outerRadius - innerRadius) / 2 * Real.cos v) ^ 2 := by
    have := Real.cos_sq_add_sin_sq u
    linear_combination ((innerRadius + outerRadius) / 2 +
      (outerRadius - innerRadius) / 2 * Real.cos v) ^ 2 * this
  rw [hT, hsq, Real.sqrt_sq (by linarith)]
  refine ⟨hlo, hhi, ?_⟩
  rw [abs_mul, abs_of_pos hT0]
  have := Real.abs_sin_le_one v
  nlinarith

/-- Instance of `uvTorus_vertex_bounds` at `uvTorus(1, 0.3, 8, 8)`. -/
theorem uvTorus_vertex_bounds_witness :
    (0 : ℝ) < 3 / 10 ∧ (3 / 10 : ℝ) < 1 ∧ 0 < 8 ∧
    ∃ m, uvTorus (JSMath.mk Real.cos Real.sin Real.sqrt Real.pi) (some 1)
        (some (3 / 10)) (some ((8 : Nat) : Int)) (some ((8 : Nat) : Int)) = Except.ok m ∧
      m.vertexPositions.length = 3 * ((8 + 1) * (8 + 1)) ∧
      ∀ p ∈ triples m.vertexPositions,
        (3 / 10 : ℝ) ≤ Real.sqrt (p.1 ^ 2 + p.2.1 ^ 2) ∧
        Real.sqrt (p.1 ^ 2 + p.2.1 ^ 2) ≤ 1 ∧
        |p.2.2| ≤ ((1 : ℝ) - 3 / 10) / 2 :=
  ⟨by norm_num, by norm_num, by norm_num,
    uvTorus_vertex_bounds 1 (3 / 10) 8 8 (by norm_num) (by norm_num) (by norm_num)
      (by norm_num)⟩

/-! ### The row-major index buffer of uvSphere and uvTorus -/

theorem cell_div (slices j i : Nat) (hi : i < slices) : (j * slices + i) / slices = j := by
  have hs : 0 < slices := by omega
  rw [Nat.add_comm, Nat.add_mul_div_right _ _ hs, Nat.div_eq_of_lt hi, Nat.zero_add]

theorem cell_mod (slices j i : Nat) (hi : i < slices) : (j * slices + i) % slices = i := by
  rw [Nat.add_comm, Nat.add_mul_mod_self_right, Nat.mod_eq_of_lt hi]

theorem gridTriangle_even (slices j i : Nat) (hi : i < slices) :
    gridTriangle slices (2 * (j * slices + i)) =
      (j * (slices + 1) + i, (j + 1) * (slices + 1) + i + 1, (j + 1) * (slices + 1) + i) := by
  have h1 : 2 * (j * slices + i) % 2 = 0 := by omega
  have h2 : 2 * (j * slices + i) / 2 = j * slices + i := by omega
  simp only [gridTriangle, h1, h2, if_true, cell_div slices j i hi, cell_mod slices j i hi]

theorem gridTriangle_odd (slices j i : Nat) (hi : i < slices) :
    gridTriangle slices (2 * (j * slices + i) + 1) =
      (j * (slices + 1) + i, j * (slices + 1) + i + 1, (j + 1) * (slices + 1) + i + 1) := by
  have h1 : (2 * (j * slices + i) + 1) % 2 = 1 := by omega
  have h2 : (2 * (j * slices + i) + 1) / 2 = j * slices + i := by omega
  simp only [gridTriangle, h1, h2, one_ne_zero, if_false, cell_div slices j i hi,
    cell_mod slices j i hi]

theorem gridIndexStep_content {β : Type} (slices j i : Nat) (hi : i < slices) (b : Buffers β)
    (hk : b.ki = 6 * (j * slices + i)) (h : GridTris slices b) :
    GridTris slices (gridIndexStep (slices : Int) j i b) := by
  unfold gridIndexStep
  unfold GridTris at h ⊢
  refine (h.triangle (2 * (j * slices + i)) (by omega) _ _ _ ?_).triangle
    (2 * (j * slices + i) + 1) ?_ _ _ _ ?_
  · rw [gridTriangle_even slices j i hi]
    simp only [storedTriangle]
    push_cast
    rfl
  · simp only [Buffers.pushI]; omega
  · rw [gridTriangle_odd slices j i hi]
    simp only [storedTriangle]
    push_cast
    rfl

/-- The index loops over a grid of `rows` rows, started with the index cursor at 0. -/
theorem gridIndex_content {β : Type} (slices rows : Nat) (b : Buffers β) (hk : b.ki = 0)
    (h : GridTris slices b) :
    GridTris slices (forRange (rows : Int) (fun j b =>
      forRange (slices : Int) (gridIndexStep (slices : Int) j) b) b) := by
  have hadv : ∀ (j : Nat) (s : Buffers β), Adv 0 0 (slices * 6) s
      (forRange (slices : Int) (gridIndexStep (slices : Int) j) s) := by
    intro j s
    refine (Adv.loop (slices : Int) (gridIndexStep (slices : Int) j) s
      (fun i s2 _ => gridIndexStep_adv (slices : Int) j i s2)).cast ?_ ?_ ?_ <;> simp
  refine forRange_cursor (GridTris slices) _ _ _ hadv h ?_
  intro j s _ _ hki hs
  refine forRange_cursor (GridTris slices) _ _ _
    (fun i s2 => gridIndexStep_adv (slices : Int) j i s2) hs ?_
  intro i s2 hi _ hki2 h2
  rw [Int.toNat_ofNat] at hi
  refine gridIndexStep_content slices j i hi s2 ?_ h2
  rw [hki2, hki, hk]
  ring

/-- The index buffer of `uvSphere` with positive `slices` and `stacks`: triangle `t` is the
stored form of `gridTriangle t`. -/
theorem uvSphere_grid_content {α : Type} [Field α] [DecidableEq α] (M : JSMath α)
    (radius : Option α) (slices nstacks : Nat) (hs : 0 < slices) (ht : 0 < nstacks)
    (pos_x pos_y pos_z : Option α) :
    ∃ m, uvSphere M radius (some (slices : Int)) (some (nstacks : Int)) pos_x pos_y pos_z =
        Except.ok m ∧
      m.vertexPositions.length = 3 * ((slices + 1) * (nstacks + 1)) ∧
      m.indices.length = 6 * (slices * nstacks) ∧
      ∀ t, t < 2 * (slices * nstacks) →
        vec3At m.indices t = storedTriangle (gridTriangle slices t) := by
  obtain ⟨b, hb, hadv, _, _⟩ :=
    uvSphere_run_spec M radius slices nstacks hs ht pos_x pos_y pos_z
  have hl := mesh_lengths _ _ _ _ _ _ _ hadv
  have hrun := uvSphere_run_eq M radius slices nstacks hs ht pos_x pos_y pos_z
  rw [hb] at hrun
  have hbe := Except.ok.inj hrun
  have hg : GridTris slices b := by
    rw [hbe]
    refine gridIndex_content slices nstacks _ ?_ ?_
    · refine forRange_invariant (fun s : Buffers α => s.ki = 0) _ _ _ rfl ?_
      intro i s _ hs'
      exact forRange_invariant (fun s : Buffers α => s.ki = 0) _ _ _ hs' (fun j s2 _ h2 => h2)
    · refine forRange_invariant (GridTris slices) _ _ _ (TrisOK.onFreshIndices _ _ _ _ _ _) ?_
      intro i s _ hs'
      exact forRange_invariant (GridTris slices) _ _ _ hs'
        (fun j s2 _ h2 => TrisOK.of_indices h2 rfl rfl)
  have hki : b.ki = 2 * slices * nstacks * 3 := by
    have := hadv.2.2.2.2.2.2
    simpa [fresh] using this
  have hli : b.indices.length = 2 * slices * nstacks * 3 := hl.2.2.2
  refine ⟨b.toMesh, by simp [uvSphere, hb, Except.map], hl.1, ?_, ?_⟩
  · show b.indices.length = _
    rw [hli]; ring
  · intro t ht'
    have e : 2 * slices * nstacks * 3 = 6 * (slices * nstacks) := by ring
    exact hg.2 t (by rw [hki, e]; omega) (by rw [hli, e]; omega)

/-- The index buffer of `uvTorus` with positive `slices` and `stacks`: triangle `t` is the
stored form of `gridTriangle t`. -/
theorem uvTorus_grid_content {α : Type} [Field α] [DecidableEq α] (M : JSMath α)
    (outerRadius innerRadius : Option α) (slices nstacks : Nat) (hs : 0 < slices)
    (ht : 0 < nstacks) :
    ∃ m, uvTorus M outerRadius innerRadius (some (slices : Int)) (some (nstacks : Int)) =
        Except.ok m ∧
      m.vertexPositions.length = 3 * ((slices + 1) * (nstacks + 1)) ∧
      m.indices.length = 6 * (slices * nstacks) ∧
      ∀ t, t < 2 * (slices * nstacks) →
        vec3At m.indices t = storedTriangle (gridTriangle slices t) := by
  obtain ⟨b, hb, hadv, _, _⟩ := uvTorus_run_spec M outerRadius innerRadius slices nstacks hs ht
  have hl := mesh_lengths _ _ _ _ _ _ _ hadv
  have hrun := uvTorus_run_eq M outerRadius innerRadius slices nstacks hs ht
  rw [hb] at hrun
  have hbe := Except.ok.inj hrun
  have hg : GridTris slices b := by
    rw [hbe]
    refine gridIndex_content slices nstacks _ ?_ ?_
    · refine forRange_invariant (fun s : Buffers α => s.ki = 0) _ _ _ rfl ?_
      intro i s _ hs'
      exact forRange_invariant (fun s : Buffers α => s.ki = 0) _ _ _ hs' (fun j s2 _ h2 => h2)
    · refine forRange_invariant (GridTris slices) _ _ _ (TrisOK.onFreshIndices _ _ _ _ _ _) ?_
      intro i s _ hs'
      exact forRange_invariant (GridTris slices) _ _ _ hs'
        (fun j s2 _ h2 => TrisOK.of_indices h2 rfl rfl)
  have hki : b.ki = 2 * slices * nstacks * 3 := by
    have := hadv.2.2.2.2.2.2
    simpa [fresh] using this
  have hli : b.indices.length = 2 * slices * nstacks * 3 := hl.2.2.2
  refine ⟨b.toMesh, by simp [uvTorus, hb, Except.map], hl.1, ?_, ?_⟩
  · show b.indices.length = _
    rw [hli]; ring
  · intro t ht'
    have e : 2 * slices * nstacks * 3 = 6 * (slices * nstacks) := by ring
    exact hg.2 t (by rw [hki, e]; omega) (by rw [hli, e]; omega)

/-- The six array elements of cell `c`, read off the two triangles `2c` and `2c+1`. -/
theorem cell_indices (l : List Nat) (c : Nat) (t0 t1 : Nat × Nat × Nat)
    (h0 : vec3At l (2 * c) = t0) (h1 : vec3At l (2 * c + 1) = t1) :
    (List.range 6).map (fun k => l.getD (6 * c + k) 0) =
      [t0.1, t0.2.1, t0.2.2, t1.1, t1.2.1, t1.2.2] := by
  have e0 : 3 * (2 * c) = 6 * c := by omega
  have e1 : 3 * (2 * c + 1) = 6 * c + 3 := by omega
  simp only [vec3At, e0, e1] at h0 h1
  subst h0 h1
  simp [List.range_succ]

theorem toUint16_natCast_mod (a : Nat) : toUint16 (a : Int) = a % 65536 := by
  unfold toUint16
  omega

theorem cell_lt (slices nstacks j i : Nat) (hj : j < nstacks) (hi : i < slices) :
    j * slices + i < slices * nstacks := by
  have h1 : (j + 1) * slices ≤ nstacks * slices := Nat.mul_le_mul_right _ hj
  have h2 : (j + 1) * slices = j * slices + slices := by ring
  rw [Nat.mul_comm slices nstacks]
  omega

theorem cell_vertex_lt (slices nstacks j i : Nat) (hj : j < nstacks) (hi : i < slices) :
    (j + 1) * (slices + 1) + i + 1 < (slices + 1) * (nstacks + 1) := by
  have h1 : (j + 1) * (slices + 1) ≤ nstacks * (slices + 1) := Nat.mul_le_mul_right _ hj
  have h2 : (slices + 1) * (nstacks + 1) = nstacks * (slices + 1) + slices + 1 := by ring
  omega

/-- With all vertex numbers below 65536, the six indices of cell `(j, i)` are the row-major
values. -/
theorem grid_cell_row_major (l : List Nat) (slices nstacks : Nat)
    (hb : (slices + 1) * (nstacks + 1) ≤ 65536)
    (hT : ∀ t, t < 2 * (slices * nstacks) →
      vec3At l t = storedTriangle (gridTriangle slices t))
    (j i : Nat) (hj : j < nstacks) (hi : i < slices) :
    (List.range 6).map (fun k => l.getD (6 * (j * slices + i) + k) 0) =
      [j * (slices + 1) + i, (j + 1) * (slices + 1) + i + 1, (j + 1) * (slices + 1) + i,
        j * (slices + 1) + i, j * (slices + 1) + i + 1, (j + 1) * (slices + 1) + i + 1] := by
  have hc := cell_lt slices nstacks j i hj hi
  have hv := cell_vertex_lt slices nstacks j i hj hi
  have e : (j + 1) * (slices + 1) = j * (slices + 1) + slices + 1 := by ring
  have h0 := hT (2 * (j * slices + i)) (by omega)
  have h1 := hT (2 * (j * slices + i) + 1) (by omega)
  rw [gridTriangle_even slices j i hi] at h0
  rw [gridTriangle_odd slices j i hi] at h1
  simp only [storedTriangle] at h0 h1
  rw [toUint16_natCast _ (by omega), toUint16_natCast _ (by omega),
    toUint16_natCast _ (by omega)] at h0
  rw [toUint16_natCast _ (by omega), toUint16_natCast _ (by omega),
    toUint16_natCast _ (by omega)] at h1
  exact cell_indices l (j * slices + i) _ _ h0 h1

/-- C22: for all positive `slices`, `stacks` with `(slices+1)*(stacks+1) ≤ 65536`, the index
buffer of `uvSphere` and of `uvTorus` is row-major: it has `6*slices*stacks` elements (two
triangles for every cell), and for each cell `(j, i)` with `j < stacks`, `i < slices` the
six indices at offsets `6*(j*slices+i) .. +5` are `r1+i, r2+i+1, r2+i, r1+i, r1+i+1,
r2+i+1` where `r1 = j*(slices+1)` and `r2 = (j+1)*(slices+1)`. -/
theorem grid_indices_row_major {α : Type} [Field α] [DecidableEq α] (M : JSMath α)
    (slices nstacks : Nat) (hs : 0 < slices) (ht : 0 < nstacks)
    (hb : (slices + 1) * (nstacks + 1) ≤ 65536) :
    (∀ radius pos_x pos_y pos_z : Option α,
      ∃ m, uvSphere M radius (some (slices : Int)) (some (nstacks : Int)) pos_x pos_y pos_z =
          Except.ok m ∧
        m.indices.length = 6 * (slices * nstacks) ∧
        ∀ j i, j < nstacks → i < slices →
          (List.range 6).map (fun k => m.indices.getD (6 * (j * slices + i) + k) 0) =
            [j * (slices + 1) + i, (j + 1) * (slices + 1) + i + 1,
              (j + 1) * (slices + 1) + i, j * (slices + 1) + i, j * (slices + 1) + i + 1,
              (j + 1) * (slices + 1) + i + 1]) ∧
    (∀ outerRadius innerRadius : Option α,
      ∃ m, uvTorus M outerRadius innerRadius (some (slices : Int)) (some (nstacks : Int)) =
          Except.ok m ∧
        m.indices.length = 6 * (slices * nstacks) ∧
        ∀ j i, j < nstacks → i < slices →
          (List.range 6).map (fun k => m.indices.getD (6 * (j * slices + i) + k) 0) =
            [j * (slices + 1) + i, (j + 1) * (slices + 1) + i + 1,
              (j + 1) * (slices + 1) + i, j * (slices + 1) + i, j * (slices + 1) + i + 1,
              (j + 1) * (slices + 1) + i + 1]) := by
  refine ⟨?_, ?_⟩
  · intro radius pos_x pos_y pos_z
    obtain ⟨m, hm, _, hl, hT⟩ :=
      uvSphere_grid_content M radius slices nstacks hs ht pos_x pos_y pos_z
    exact ⟨m, hm, hl, fun j i hj hi => grid_cell_row_major _ slices nstacks hb hT j i hj hi⟩
  · intro outerRadius innerRadius
    obtain ⟨m, hm, _, hl, hT⟩ :=
      uvTorus_grid_content M outerRadius innerRadius slices nstacks hs ht
    exact ⟨m, hm, hl, fun j i hj hi => grid_cell_row_major _ slices nstacks hb hT j i hj hi⟩

/-- Instance of `grid_indices_row_major`: the index buffer of `uvSphere(1, 4, 2)` over the
reals has 48 elements. -/
theorem grid_indices_row_major_witness :
    0 < 4 ∧ 0 < 2 ∧ (4 + 1) * (2 + 1) ≤ 65536 ∧
    ∃ m, uvSphere (JSMath.mk Real.cos Real.sin Real.sqrt Real.pi) (some 1)
        (some ((4 : Nat) : Int)) (some ((2 : Nat) : Int)) none none none = Except.ok m ∧
      m.indices.length = 6 * (4 * 2) :=
  ⟨by norm_num, by norm_num, by norm_num, by
    obtain ⟨m, hm, hl, _⟩ := (grid_indices_row_major
      (JSMath.mk Real.cos Real.sin Real.sqrt Real.pi) 4 2 (by norm_num)
      (by norm_num) (by norm_num)).1 (some 1) none none none
    exact ⟨m, hm, hl⟩⟩

/-- C27: `uvSphere` stores every index modulo 65536: for all positive `slices` and `stacks`
the three stored indices of triangle `t` are the row-major values `gridTriangle t` modulo
65536, and the stored triple differs from the row-major one exactly when one of the three
vertex numbers is at least 65536. For `slices = stacks = 256` the mesh has 66049 vertices
and the triangle computed as `(65535, 65793, 65792)` is stored as `(65535, 257, 256)`. -/
theorem uvSphere_index_wraps {α : Type} [Field α] [DecidableEq α] (M : JSMath α) :
    (∀ (slices nstacks : Nat), 0 < slices → 0 < nstacks →
      ∀ radius pos_x pos_y pos_z : Option α,
      ∃ m, uvSphere M radius (some (slices : Int)) (some (nstacks : Int)) pos_x pos_y pos_z =
          Except.ok m ∧
        ∀ t, t < 2 * (slices * nstacks) →
          vec3At m.indices t =
            ((gridTriangle slices t).1 % 65536, (gridTriangle slices t).2.1 % 65536,
              (gridTriangle slices t).2.2 % 65536) ∧
          (vec3At m.indices t ≠ gridTriangle slices t ↔
            (65536 ≤ (gridTriangle slices t).1 ∨ 65536 ≤ (gridTriangle slices t).2.1 ∨
              65536 ≤ (gridTriangle slices t).2.2))) ∧
    (∃ m, uvSphere M (some 1) (some 256) (some 256) none none none = Except.ok m ∧
      m.vertexPositions.length = 3 * 66049 ∧
      gridTriangle 256 (2 * (255 * 256)) = (65535, 65793, 65792) ∧
      vec3At m.indices (2 * (255 * 256)) = (65535, 257, 256) ∧
      vec3At m.indices (2 * (255 * 256)) ≠ gridTriangle 256 (2 * (255 * 256))) := by
  have key : ∀ (slices nstacks : Nat), 0 < slices → 0 < nstacks →
      ∀ radius pos_x pos_y pos_z : Option α,
      ∃ m, uvSphere M radius (some (slices : Int)) (some (nstacks : Int)) pos_x pos_y pos_z =
          Except.ok m ∧
        m.vertexPositions.length = 3 * ((slices + 1) * (nstacks + 1)) ∧
        ∀ t, t < 2 * (slices * nstacks) →
          vec3At m.indices t =
            ((gridTriangle slices t).1 % 65536, (gridTriangle slices t).2.1 % 65536,
              (gridTriangle slices t).2.2 % 65536) ∧
          (vec3At m.indices t ≠ gridTriangle slices t ↔
            (65536 ≤ (gridTriangle slices t).1 ∨ 65536 ≤ (gridTriangle slices t).2.1 ∨
              65536 ≤ (gridTriangle slices t).2.2)) := by
    intro slices nstacks hs ht radius pos_x pos_y pos_z
    obtain ⟨m, hm, hlv, _, hT⟩ :=
      uvSphere_grid_content M radius slices nstacks hs ht pos_x pos_y pos_z
    refine ⟨m, hm, hlv, ?_⟩
    intro t ht'
    have h := hT t ht'
    simp only [storedTriangle, toUint16_natCast_mod] at h
    refine ⟨h, ?_⟩
    rw [h]
    obtain ⟨a, b, c⟩ := gridTriangle slices t
    simp only [ne_eq, Prod.mk.injEq, not_and_or]
    constructor
    · rintro (h1 | h1 | h1)
      · left; by_contra hc; exact h1 (Nat.mod_eq_of_lt (by omega))
      · right; left; by_contra hc; exact h1 (Nat.mod_eq_of_lt (by omega))
      · right; right; by_contra hc; exact h1 (Nat.mod_eq_of_lt (by omega))
    · rintro (h1 | h1 | h1)
      · left; intro he; have := Nat.mod_lt a (by norm_num : 0 < 65536); omega
      · right; left; intro he; have := Nat.mod_lt b (by norm_num : 0 < 65536); omega
      · right; right; intro he; have := Nat.mod_lt c (by norm_num : 0 < 65536); omega
  refine ⟨fun slices nstacks hs ht radius pos_x pos_y pos_z => ?_, ?_⟩
  · obtain ⟨m, hm, _, h⟩ := key slices nstacks hs ht radius pos_x pos_y pos_z
    exact ⟨m, hm, h⟩
  · obtain ⟨m, hm, hlv, h⟩ := key 256 256 (by norm_num) (by norm_num) (some 1) none none none
    have hg : gridTriangle 256 (2 * (255 * 256)) = (65535, 65793, 65792) := by
      have := gridTriangle_even 256 255 0 (by norm_num)
      norm_num at this ⊢
      exact this
    obtain ⟨h1, _⟩ := h (2 * (255 * 256)) (by norm_num)
    rw [hg] at h1
    norm_num at h1
    refine ⟨m, hm, by rw [hlv], hg, h1, ?_⟩
    rw [h1, hg]
    decide

/-! ### The triangles of ring -/

theorem ring_diskStep_content {α : Type} [Field α] (M : JSMath α) (outerRadius : α)
    (slices i : Nat) (hi : i < slices) (st : RingState α) (hk : st.buf.ki = 3 * i)
    (h : TrisOK (fun t tri => tri = storedTriangle (ringDiskTriangle slices t)) st.buf) :
    TrisOK (fun t tri => tri = storedTriangle (ringDiskTriangle slices t))
      (ring.diskStep M outerRadius (slices : Int) i st).buf := by
  unfold ring.diskStep
  have h' : TrisOK (fun t tri => tri = storedTriangle (ringDiskTriangle slices t))
      (((((st.buf.pushV (some (M.cos (2 * M.PI / ((slices : Int) : α) * (i : α)) *
        outerRadius))).pushV (some (M.sin (2 * M.PI / ((slices : Int) : α) * (i : α)) *
        outerRadius))).pushV (some 0)).pushT (some (1 / 2 + 1 / 2 *
        M.cos (2 * M.PI / ((slices : Int) : α) * (i : α))))).pushT (some (1 / 2 + 1 / 2 *
        M.sin (2 * M.PI / ((slices : Int) : α) * (i : α))))) := TrisOK.of_indices h rfl rfl
  refine TrisOK.triangle h' i hk _ _ _ ?_
  simp only [storedTriangle, ringDiskTriangle]
  by_cases hl : i + 1 = slices
  · have e1 : ((i : Int) = (slices : Int) - 1) := by omega
    have e2 : (i + 1) % slices = 0 := by rw [hl]; exact Nat.mod_self _
    rw [if_pos e1, e2]
    rfl
  · have e1 : ¬ ((i : Int) = (slices : Int) - 1) := by omega
    have e2 : (i + 1) % slices = i + 1 := Nat.mod_eq_of_lt (by omega)
    rw [if_neg e1, e2]
    push_cast
    rfl

theorem ring_annulusIndexStep_content {β : Type} (slices i : Nat) (hi : i + 1 < slices)
    (b : Buffers β) (hk : b.ki = 6 * i)
    (h : TrisOK (fun t tri => tri = storedTriangle (ringAnnulusTriangle slices t)) b) :
    TrisOK (fun t tri => tri = storedTriangle (ringAnnulusTriangle slices t))
      (ring.annulusIndexStep i b) := by
  unfold ring.annulusIndexStep
  have h1 : 2 * i % 2 = 0 := by omega
  have h2 : 2 * i / 2 = i := by omega
  have h3 : (2 * i + 1) % 2 = 1 := by omega
  have h4 : (2 * i + 1) / 2 = i := by omega
  have h5 : (2 * i + 3) % (2 * slices) = 2 * i + 3 := Nat.mod_eq_of_lt (by omega)
  have h6 : (2 * i + 2) % (2 * slices) = 2 * i + 2 := Nat.mod_eq_of_lt (by omega)
  refine (h.triangle (2 * i) (by omega) _ _ _ ?_).triangle (2 * i + 1) ?_ _ _ _ ?_
  · simp only [storedTriangle, ringAnnulusTriangle, h1, h2, h5, if_true]
    push_cast
    rfl
  · simp only [Buffers.pushI]; omega
  · simp only [storedTriangle, ringAnnulusTriangle, h3, h4, h5, h6, one_ne_zero, if_false]
    push_cast
    rfl

theorem ring_annulusLast_content {β : Type} (slices : Nat) (hs : 0 < slices)
    (b : Buffers β) (hk : b.ki = 6 * (slices - 1))
    (h : TrisOK (fun t tri => tri = storedTriangle (ringAnnulusTriangle slices t)) b) :
    TrisOK (fun t tri => tri = storedTriangle (ringAnnulusTriangle slices t))
      (ring.annulusLast (max ((slices : Int) - 1) 0) b) := by
  unfold ring.annulusLast
  have hm : max ((slices : Int) - 1) 0 = ((slices - 1 : Nat) : Int) := by omega
  rw [hm]
  have h1 : 2 * (slices - 1) % 2 = 0 := by omega
  have h2 : 2 * (slices - 1) / 2 = slices - 1 := by omega
  have h3 : (2 * (slices - 1) + 1) % 2 = 1 := by omega
  have h4 : (2 * (slices - 1) + 1) / 2 = slices - 1 := by omega
  have h5 : (2 * (slices - 1) + 3) % (2 * slices) = 1 := by
    have : 2 * (slices - 1) + 3 = 1 + 2 * slices := by omega
    rw [this, Nat.add_mod_right]
    exact Nat.mod_eq_of_lt (by omega)
  have h6 : (2 * (slices - 1) + 2) % (2 * slices) = 0 := by
    have : 2 * (slices - 1) + 2 = 2 * slices := by omega
    rw [this, Nat.mod_self]
  refine (h.triangle (2 * (slices - 1)) (by omega) _ _ _ ?_).triangle
    (2 * (slices - 1) + 1) ?_ _ _ _ ?_
  · simp only [storedTriangle, ringAnnulusTriangle, h1, h2, h5, if_true]
    push_cast
    rfl
  · simp only [Buffers.pushI]; omega
  · simp only [storedTriangle, ringAnnulusTriangle, h3, h4, h5, h6, one_ne_zero, if_false]
    push_cast
    rfl

theorem ring_normals_keep {α : Type} [Field α] (n : Int) (b : Buffers (Option α)) :
    (forRange n ring.normalStep b).vertices = b.vertices ∧
    (forRange n ring.normalStep b).indices = b.indices ∧
    (forRange n ring.normalStep b).ki = b.ki :=
  forRange_invariant
    (fun s : Buffers (Option α) =>
      s.vertices = b.vertices ∧ s.indices = b.indices ∧ s.ki = b.ki)
    n ring.normalStep b ⟨rfl, rfl, rfl⟩ (fun _ _ _ h => h)

/-- The index buffer of `ring` in disk mode, and its center vertex. -/
theorem ring_disk_content {α : Type} [Field α] [DecidableEq α] (M : JSMath α)
    (g : Globals α) (argumentsLength : Nat) (innerRadius outerRadius : Option α)
    (slices : Nat) (hs : 0 < slices)
    (hdisk : ringInner argumentsLength innerRadius = some 0) :
    ∃ m, ring M g argumentsLength innerRadius outerRadius (some (slices : Int)) =
        Except.ok m ∧
      m.vertexPositions.length = 3 * (slices + 1) ∧ m.indices.length = 3 * slices ∧
      (∀ t, t < slices → vec3At m.indices t = storedTriangle (ringDiskTriangle slices t)) ∧
      (∀ d : Option α, m.vertexPositions.getD (3 * slices) d = some 0 ∧
        m.vertexPositions.getD (3 * slices + 1) d = some 0 ∧
        m.vertexPositions.getD (3 * slices + 2) d = some 0) := by
  obtain ⟨st, hst, hadv, _, _⟩ :=
    ring_run_disk M g argumentsLength innerRadius outerRadius slices hs hdisk
  have hl := mesh_lengths _ _ _ _ _ _ _ hadv
  have hrun := ring_run_eq_disk M g argumentsLength innerRadius outerRadius slices hs hdisk
  rw [hst] at hrun
  have hbe := Except.ok.inj hrun
  set o := ringOuter argumentsLength innerRadius outerRadius with ho
  set st0 : RingState α := { buf := (fresh (some (0 : α)) (3 * (slices + 1))
      (3 * (slices + 1)) (2 * (slices + 1)) (3 * slices)), globals := g } with hst0
  have hloop := forRange_induction
    (fun i (s : RingState α) => s.buf.ki = 3 * i ∧
      TrisOK (fun t tri => tri = storedTriangle (ringDiskTriangle slices t)) s.buf)
    (slices : Int) (ring.diskStep M o (slices : Int)) st0
    ⟨rfl, TrisOK.onFreshIndices _ _ _ _ _ _⟩
    (by
      intro i s hi ⟨h1, h2⟩
      rw [Int.toNat_ofNat] at hi
      refine ⟨?_, ring_diskStep_content M o slices i hi s h1 h2⟩
      have := (ring_diskStep_adv M o (slices : Int) i s).2.2.2.2.2.2
      omega)
  rw [Int.toNat_ofNat] at hloop
  have hadvL := ring_forRange_adv (slices : Int) (ring.diskStep M o (slices : Int)) st0
    (fun i s _ => ring_diskStep_adv M o (slices : Int) i s)
  rw [Int.toNat_ofNat] at hadvL
  set sL := forRange (slices : Int) (ring.diskStep M o (slices : Int)) st0 with hsL
  have hkv : sL.buf.kv = 3 * slices := by
    have := hadvL.2.2.2.2.1
    simp only [hst0, fresh] at this
    omega
  have hvl : sL.buf.vertices.length = 3 * (slices + 1) := by
    have := hadvL.1
    simpa [hst0, fresh] using this
  have hkeep := ring_normals_keep ((slices : Int) + 1)
    (((((sL.buf.pushV (some 0)).pushV (some 0)).pushV (some 0)).pushT (some 0)).pushT
      (some 0))
  have hbuf : st.buf = forRange ((slices : Int) + 1) ring.normalStep
      (((((sL.buf.pushV (some 0)).pushV (some 0)).pushV (some 0)).pushT (some 0)).pushT
        (some 0)) := by
    rw [hbe]; rfl
  have htris : TrisOK (fun t tri => tri = storedTriangle (ringDiskTriangle slices t))
      st.buf := by
    refine TrisOK.of_indices hloop.2 ?_ ?_
    · rw [hbuf, hkeep.2.1]; rfl
    · rw [hbuf, hkeep.2.2]; rfl
  have hki : st.buf.ki = 3 * slices := by
    rw [hbuf, hkeep.2.2]
    exact hloop.1
  have hli : st.buf.indices.length = 3 * slices := hl.2.2.2
  refine ⟨st.buf.toMesh, by simp [ring, hst, Except.map], hl.1, hl.2.2.2, ?_, ?_⟩
  · intro t ht
    exact htris.2 t (by omega) (by omega)
  · intro d
    have hv : st.buf.toMesh.vertexPositions =
        ((sL.buf.vertices.set sL.buf.kv (some 0)).set (sL.buf.kv + 1) (some 0)).set
          (sL.buf.kv + 1 + 1) (some 0) := by
      show st.buf.vertices = _
      rw [hbuf, hkeep.1]
      rfl
    rw [hv, hkv]
    refine ⟨?_, ?_, ?_⟩
    · rw [getD_set_ne _ _ _ _ _ (by omega), getD_set_ne _ _ _ _ _ (by omega),
        getD_set_eq _ _ _ _ _ rfl (by omega)]
    · rw [getD_set_ne _ _ _ _ _ (by omega),
        getD_set_eq _ _ _ _ _ rfl (by simp only [List.length_set]; omega)]
    · rw [getD_set_eq _ _ _ _ _ (by omega) (by simp only [List.length_set]; omega)]

/-- The index buffer of `ring` in annulus mode. -/
theorem ring_annulus_content {α : Type} [Field α] [DecidableEq α] (M : JSMath α)
    (g : Globals α) (argumentsLength : Nat) (innerRadius outerRadius : Option α)
    (slices : Nat) (hs : 0 < slices)
    (hann : ringInner argumentsLength innerRadius ≠ some 0) :
    ∃ m, ring M g argumentsLength innerRadius outerRadius (some (slices : Int)) =
        Except.ok m ∧
      m.vertexPositions.length = 3 * (2 * slices) ∧ m.indices.length = 6 * slices ∧
      (∀ t, t < 2 * slices →
        vec3At m.indices t = storedTriangle (ringAnnulusTriangle slices t)) := by
  obtain ⟨st, hst, hadv, _, _⟩ :=
    ring_run_annulus M g argumentsLength innerRadius outerRadius slices hs hann
  have hl := mesh_lengths _ _ _ _ _ _ _ hadv
  have hrun := ring_run_eq_annulus M g argumentsLength innerRadius outerRadius slices hs hann
  rw [hst] at hrun
  have hbe := Except.ok.inj hrun
  set o := ringOuter argumentsLength innerRadius outerRadius with ho
  set inner := ringInner argumentsLength innerRadius with hinner
  set st0 : RingState α := { buf := (fresh (some (0 : α)) (3 * (2 * slices))
      (3 * (2 * slices)) (2 * (2 * slices)) (6 * slices)), globals := g } with hst0
  have hadvL := ring_forRange_adv (slices : Int)
    (ring.annulusStep M inner o (slices : Int)) st0
    (fun i s _ => ring_annulusStep_adv M inner o (slices : Int) i s)
  set sL := forRange (slices : Int) (ring.annulusStep M inner o (slices : Int)) st0 with hsL
  have hki0 : sL.buf.ki = 0 := by
    have := hadvL.2.2.2.2.2.2
    simpa [hst0, fresh] using this
  have hT0 : TrisOK (fun t tri => tri = storedTriangle (ringAnnulusTriangle slices t))
      sL.buf := by
    refine ⟨by rw [hki0], ?_⟩
    intro t ht
    rw [hki0] at ht
    omega
  have hn1 : ((slices : Int) - 1).toNat = slices - 1 := by omega
  have hT1 := forRange_cursor
    (TrisOK (fun t tri => tri = storedTriangle (ringAnnulusTriangle slices t)))
    ((slices : Int) - 1) ring.annulusIndexStep sL.buf
    (fun i s => ring_annulusIndexStep_adv i s) hT0
    (by
      intro i s hi _ hk h
      rw [hn1] at hi
      exact ring_annulusIndexStep_content slices i (by omega) s (by rw [hk, hki0]; omega) h)
  have hadv1 := Adv.loop ((slices : Int) - 1) ring.annulusIndexStep sL.buf
    (fun i s _ => ring_annulusIndexStep_adv i s)
  rw [hn1] at hadv1
  set sI := forRange ((slices : Int) - 1) ring.annulusIndexStep sL.buf with hsI
  have hkiI : sI.ki = 6 * (slices - 1) := by
    have := hadv1.2.2.2.2.2.2
    omega
  have hT2 := ring_annulusLast_content slices hs sI hkiI hT1
  have hkiL : (ring.annulusLast (max ((slices : Int) - 1) 0) sI).ki = 6 * slices := by
    have := (ring_annulusLast_adv (max ((slices : Int) - 1) 0) sI).2.2.2.2.2.2
    omega
  have hkeep := ring_normals_keep ((slices : Int) * 2)
    (ring.annulusLast (max ((slices : Int) - 1) 0) sI)
  have hbuf : st.buf = forRange ((slices : Int) * 2) ring.normalStep
      (ring.annulusLast (max ((slices : Int) - 1) 0) sI) := by
    rw [hbe]; rfl
  have htris : TrisOK (fun t tri => tri = storedTriangle (ringAnnulusTriangle slices t))
      st.buf := by
    refine TrisOK.of_indices hT2 ?_ ?_
    · rw [hbuf, hkeep.2.1]
    · rw [hbuf, hkeep.2.2]
  have hki : st.buf.ki = 6 * slices := by
    rw [hbuf, hkeep.2.2]
    exact hkiL
  have hli : st.buf.indices.length = 6 * slices := hl.2.2.2
  refine ⟨st.buf.toMesh, by simp [ring, hst, Except.map], hl.1, hl.2.2.2, ?_⟩
  intro t ht
  exact htris.2 t (by omega) (by omega)

/-- C21 as stated fails for large `slices`: over the reals, the disk `ring(0, 1, 65536)` has
its center at vertex 65536, which the `Uint16Array` stores as 0, so triangle 0 is stored
as `(0, 0, 1)` and not as `(slices, 0, 1)`. -/
theorem ring_disk_center_wraps :
    ∃ m, ring (JSMath.mk Real.cos Real.sin Real.sqrt Real.pi) { c := none, s := none } 3
        (some 0) (some 1) (some ((65536 : Nat) : Int)) = Except.ok m ∧
      vec3At m.indices 0 = (0, 0, 1) ∧ vec3At m.indices 0 ≠ (65536, 0, (0 + 1) % 65536) := by
  obtain ⟨m, hm, _, _, hT, _⟩ := ring_disk_content
    (JSMath.mk Real.cos Real.sin Real.sqrt Real.pi) { c := none, s := none } 3 (some 0)
    (some 1) 65536 (by norm_num) (by simp [ringInner])
  have h0 := hT 0 (by norm_num)
  have e : storedTriangle (ringDiskTriangle 65536 0) = (0, 0, 1) := by rfl
  rw [e] at h0
  refine ⟨m, hm, h0, ?_⟩
  rw [h0]
  decide

/-- C21, amended: for every positive `slices`, `ring` triangulates as follows, as long as
all vertex numbers fit in the `Uint16Array` (`slices + 1 ≤ 65536` for the disk,
`2*slices ≤ 65536` for the annulus). In disk mode there are `slices` triangles, triangle
`i` is `(slices, i, (i+1) mod slices)`, and the center `(0, 0, 0)` is stored at vertex
`slices`. In annulus mode there are `2*slices` triangles, and segment `i` yields
`(2i, 2i+1, (2i+3) mod 2*slices)` and `(2i, (2i+3) mod 2*slices, (2i+2) mod 2*slices)`, so
the last segment wraps back to vertices 1 and 0. -/
theorem ring_triangulation {α : Type} [Field α] [DecidableEq α] (M : JSMath α)
    (g : Globals α) (argumentsLength : Nat) (innerRadius outerRadius : Option α)
    (slices : Nat) (hs : 0 < slices) :
    (ringInner argumentsLength innerRadius = some 0 → slices + 1 ≤ 65536 →
      ∃ m, ring M g argumentsLength innerRadius outerRadius (some (slices : Int)) =
          Except.ok m ∧
        m.indices.length = 3 * slices ∧
        (∀ i, i < slices → vec3At m.indices i = (slices, i, (i + 1) % slices)) ∧
        m.vertexPositions.length = 3 * (slices + 1) ∧
        (∀ d : Option α, m.vertexPositions.getD (3 * slices) d = some 0 ∧
          m.vertexPositions.getD (3 * slices + 1) d = some 0 ∧
          m.vertexPositions.getD (3 * slices + 2) d = some 0)) ∧
    (ringInner argumentsLength innerRadius ≠ some 0 → 2 * slices ≤ 65536 →
      ∃ m, ring M g argumentsLength innerRadius outerRadius (some (slices : Int)) =
          Except.ok m ∧
        m.indices.length = 3 * (2 * slices) ∧
        (∀ i, i < slices →
          vec3At m.indices (2 * i) = (2 * i, 2 * i + 1, (2 * i + 3) % (2 * slices)) ∧
          vec3At m.indices (2 * i + 1) =
            (2 * i, (2 * i + 3) % (2 * slices), (2 * i + 2) % (2 * slices))) ∧
        vec3At m.indices (2 * (slices - 1)) = (2 * (slices - 1), 2 * (slices - 1) + 1, 1) ∧
        vec3At m.indices (2 * (slices - 1) + 1) = (2 * (slices - 1), 1, 0)) := by
  refine ⟨?_, ?_⟩
  · intro hd hb
    obtain ⟨m, hm, hlv, hli, hT, hc⟩ :=
      ring_disk_content M g argumentsLength innerRadius outerRadius slices hs hd
    refine ⟨m, hm, hli, ?_, hlv, hc⟩
    intro i hi
    have hmod : (i + 1) % slices < slices := Nat.mod_lt _ hs
    rw [hT i hi]
    simp only [storedTriangle, ringDiskTriangle]
    rw [toUint16_natCast _ (by omega), toUint16_natCast _ (by omega),
      toUint16_natCast _ (by omega)]
  · intro hd hb
    obtain ⟨m, hm, _, hli, hT⟩ :=
      ring_annulus_content M g argumentsLength innerRadius outerRadius slices hs hd
    have key : ∀ i, i < slices →
        vec3At m.indices (2 * i) = (2 * i, 2 * i + 1, (2 * i + 3) % (2 * slices)) ∧
        vec3At m.indices (2 * i + 1) =
          (2 * i, (2 * i + 3) % (2 * slices), (2 * i + 2) % (2 * slices)) := by
      intro i hi
      have h1 : 2 * i % 2 = 0 := by omega
      have h2 : 2 * i / 2 = i := by omega
      have h3 : (2 * i + 1) % 2 = 1 := by omega
      have h4 : (2 * i + 1) / 2 = i := by omega
      have hm3 : (2 * i + 3) % (2 * slices) < 2 * slices := Nat.mod_lt _ (by omega)
      have hm2 : (2 * i + 2) % (2 * slices) < 2 * slices := Nat.mod_lt _ (by omega)
      refine ⟨?_, ?_⟩
      · rw [hT (2 * i) (by omega)]
        simp only [storedTriangle, ringAnnulusTriangle, h1, h2, if_true]
        rw [toUint16_natCast _ (by omega), toUint16_natCast _ (by omega),
          toUint16_natCast _ (by omega)]
      · rw [hT (2 * i + 1) (by omega)]
        simp only [storedTriangle, ringAnnulusTriangle, h3, h4, one_ne_zero, if_false]
        rw [toUint16_natCast _ (by omega), toUint16_natCast _ (by omega),
          toUint16_natCast _ (by omega)]
    have h5 : (2 * (slices - 1) + 3) % (2 * slices) = 1 := by
      have : 2 * (slices - 1) + 3 = 1 + 2 * slices := by omega
      rw [this, Nat.add_mod_right]
      exact Nat.mod_eq_of_lt (by omega)
    have h6 : (2 * (slices - 1) + 2) % (2 * slices) = 0 := by
      have : 2 * (slices - 1) + 2 = 2 * slices := by omega
      rw [this, Nat.mod_self]
    have hlast := key (slices - 1) (by omega)
    rw [h5, h6] at hlast
    exact ⟨m, hm, by rw [hli]; ring, key, hlast.1, hlast.2⟩

/-- Instance of `ring_triangulation`: the disk `ring(0, 1, 8)` over the reals has 8
triangles, the last of them `(8, 7, 0)`. -/
theorem ring_triangulation_witness :
    0 < 8 ∧
    ∃ m, ring (JSMath.mk Real.cos Real.sin Real.sqrt Real.pi) { c := none, s := none } 3
        (some 0) (some 1) (some ((8 : Nat) : Int)) = Except.ok m ∧
      m.indices.length = 3 * 8 ∧ vec3At m.indices 7 = (8, 7, (7 + 1) % 8) :=
  ⟨by norm_num, by
    obtain ⟨m, hm, hl, hT, _⟩ := (ring_triangulation
      (JSMath.mk Real.cos Real.sin Real.sqrt Real.pi) { c := none, s := none } 3 (some 0)
      (some 1) 8 (by norm_num)).1 (by simp [ringInner]) (by norm_num)
    exact ⟨m, hm, hl, hT 7 (by norm_num)⟩⟩

/-! ### The closed form of the cone -/

theorem coneVertex_ring {α : Type} [Field α] (M : JSMath α) (radius height : α)
    (n j i : Nat) (hj : j < 5) (hi : i ≤ n) :
    coneVertex M radius height n (j * (n + 1) + i) = coneRingVertex M radius height n j i := by
  have h1 : j * (n + 1) ≤ 4 * (n + 1) := Nat.mul_le_mul_right _ (by omega)
  have h2 : j * (n + 1) + i < 5 * (n + 1) := by omega
  simp only [coneVertex, h2, if_true, cell_div (n + 1) j i (by omega),
    cell_mod (n + 1) j i (by omega)]

theorem coneVertex_tip {α : Type} [Field α] (M : JSMath α) (radius height : α)
    (n i : Nat) :
    coneVertex M radius height n (5 * (n + 1) + i) = coneTipVertex M radius height n i := by
  have h2 : ¬ 5 * (n + 1) + i < 5 * (n + 1) := by omega
  have h3 : 5 * (n + 1) + i - 5 * (n + 1) = i := by omega
  simp only [coneVertex, h2, if_false, h3]

theorem cone_vertexStep_content {α : Type} [Field α] (M : JSMath α) (radius height : α)
    (n j i : Nat) (hj : j < 5) (hi : i ≤ n) (b : Buffers α)
    (hk : b.kv = 3 * (j * (n + 1) + i)) (h : ConeVerts M radius height n b) :
    ConeVerts M radius height n (uvCone.vertexStep M radius height (n : Int) j i b) := by
  unfold uvCone.vertexStep
  unfold ConeVerts at h ⊢
  refine ((h.vertex (j * (n + 1) + i) hk _ _ _ _ _ _ ?_).afterTex _).afterTex _
  intro _
  rw [coneVertex_ring M radius height n j i hj hi]
  rfl

theorem cone_tipStep_content {α : Type} [Field α] (M : JSMath α) (radius height : α)
    (n i : Nat) (b : Buffers α) (hk : b.kv = 3 * (5 * (n + 1) + i))
    (h : ConeVerts M radius height n b) :
    ConeVerts M radius height n (uvCone.tipStep M radius height (n : Int) i b) := by
  unfold uvCone.tipStep
  unfold ConeVerts at h ⊢
  refine ((h.vertex (5 * (n + 1) + i) hk _ _ _ _ _ _ ?_).afterTex _).afterTex _
  intro _
  rw [coneVertex_tip M radius height n i]
  rfl

/-- A bottom cap written at vertex numbers from `K` on keeps a property that says nothing
about these numbers. -/
theorem bottomCap_beyond {α : Type} [Field α] (M : JSMath α) (radius height : α) (n K : Nat)
    (P : Nat → α × α × α → α × α × α → Prop) (hP : ∀ k p nr, K ≤ k → P k p nr)
    (b : Buffers α) (hk : b.kv = 3 * K) (h : VertsOK P b) :
    VertsOK P (bottomCap M radius height (n : Int) b) := by
  unfold bottomCap
  have a1 := capCenter_adv (-height / 2) (-1) b
  refine forRange_invariant (VertsOK P) _ _ _ ?_
    (fun i s _ hs => VertsOK.of_arrays_eq hs rfl rfl rfl)
  refine forRange_cursor (VertsOK P) _ _ _
    (fun i s => bottomRimStep_adv M radius height _ i s) ?_ ?_
  · unfold capCenter
    exact ((h.vertex K hk _ _ _ _ _ _ (hP _ _ _ le_rfl)).afterTex _).afterTex _
  · intro i s _ hks _ hs
    unfold bottomRimStep
    refine ((hs.vertex (K + 1 + i) ?_ _ _ _ _ _ _ (hP _ _ _ (by omega))).afterTex _).afterTex _
    rw [hks, a1.2.2.2.2.1, hk]
    ring

/-- The lateral part of `uvCone`: the five rings, the grid indices, the tip vertices and
the tip triangles, started on fresh arrays. -/
theorem cone_lateral_content {α : Type} [Field α] (M : JSMath α) (radius height : α)
    (n : Nat) (start : Int) (b : Buffers α) (hk : b.kv = 0)
    (h : ConeVerts M radius height n b) :
    ConeVerts M radius height n
      (forRange (n : Int) (uvCone.tipIndexStep start (n : Int))
        (forRange (n : Int) (uvCone.tipStep M radius height (n : Int))
          (forRange (4 : Int) (fun j b => forRange (n : Int)
              (gridIndexStep (n : Int) j) b)
            (forRange (5 : Int) (fun j b => forRange ((n : Int) + 1)
              (uvCone.vertexStep M radius height (n : Int) j) b) b)))) := by
  have hadv : ∀ (j : Nat) (s : Buffers α), Adv (3 * (n + 1)) (2 * (n + 1)) 0 s
      (forRange ((n : Int) + 1) (uvCone.vertexStep M radius height (n : Int) j) s) := by
    intro j s
    refine (Adv.loop ((n : Int) + 1) (uvCone.vertexStep M radius height (n : Int) j) s
      (fun i s2 _ => cone_vertexStep_adv M radius height _ j i s2)).cast ?_ ?_ ?_
    · rw [toNat_cast_succ]; ring
    · rw [toNat_cast_succ]; ring
    · simp
  have h5 : (5 : Int).toNat = 5 := rfl
  have hV : ConeVerts M radius height n
      (forRange (5 : Int) (fun j b => forRange ((n : Int) + 1)
        (uvCone.vertexStep M radius height (n : Int) j) b) b) := by
    refine forRange_cursor (ConeVerts M radius height n) _ _ _ hadv h ?_
    intro j s hj hkv _ hs
    rw [h5] at hj
    refine forRange_cursor (ConeVerts M radius height n) _ _ _
      (fun i s2 => cone_vertexStep_adv M radius height _ j i s2) hs ?_
    intro i s2 hi hkv2 _ h2
    rw [toNat_cast_succ] at hi
    refine cone_vertexStep_content M radius height n j i hj (by omega) s2 ?_ h2
    rw [hkv2, hkv, hk]
    ring
  have hkV : (forRange (5 : Int) (fun j b => forRange ((n : Int) + 1)
        (uvCone.vertexStep M radius height (n : Int) j) b) b).kv = 3 * (5 * (n + 1)) := by
    have := (Adv.loop (5 : Int) (fun j b => forRange ((n : Int) + 1)
        (uvCone.vertexStep M radius height (n : Int) j) b) b (fun j s _ => hadv j s)).2.2.2.2.1
    rw [this, hk, h5]
    ring
  have hG : ConeVerts M radius height n
      (forRange (4 : Int) (fun j b => forRange (n : Int) (gridIndexStep (n : Int) j) b)
        (forRange (5 : Int) (fun j b => forRange ((n : Int) + 1)
          (uvCone.vertexStep M radius height (n : Int) j) b) b)) :=
    forRange_invariant (ConeVerts M radius height n) _ _ _ hV
      (fun j s _ hs => forRange_invariant (ConeVerts M radius height n) _ _ _ hs
        (fun i s2 _ h2 => VertsOK.of_arrays_eq h2 rfl rfl rfl))
  have hkG : (forRange (4 : Int) (fun j b => forRange (n : Int) (gridIndexStep (n : Int) j) b)
        (forRange (5 : Int) (fun j b => forRange ((n : Int) + 1)
          (uvCone.vertexStep M radius height (n : Int) j) b) b)).kv = 3 * (5 * (n + 1)) := by
    have := (gridIndex_adv n 4 (forRange (5 : Int) (fun j b => forRange ((n : Int) + 1)
          (uvCone.vertexStep M radius height (n : Int) j) b) b)).2.2.2.2.1
    rw [Nat.cast_ofNat] at this
    rw [this, hkV]
    rfl
  refine forRange_invariant (ConeVerts M radius height n) _ _ _ ?_
    (fun i s _ hs => VertsOK.of_arrays_eq hs rfl rfl rfl)
  refine forRange_cursor (ConeVerts M radius height n) _ _ _
    (fun i s => cone_tipStep_adv M radius height _ i s) hG ?_
  intro i s _ hks _ hs
  refine cone_tipStep_content M radius height n i s ?_ hs
  rw [hks, hkG]
  ring

/-- The lateral vertices that a run of `uvCone` with positive `slices` leaves behind. -/
theorem uvCone_run_content {α : Type} [Field α] [DecidableEq α] (M : JSMath α)
    (radius height : Option α) (slices : Nat) (hs : 0 < slices) (noBottom : Bool) :
    ∃ b, uvCone.run M radius height (some (slices : Int)) noBottom = Except.ok b ∧
      ConeVerts M (orDefault radius (1 / 2))
        (orDefault height (2 * orDefault radius (1 / 2))) slices b := by
  have h1 : ((slices : Int)) ≠ 0 := by omega
  have h5 : (5 : Int).toNat = 5 := rfl
  have hf : (uvCone.fractions : List α).length = 5 := rfl
  set r := orDefault radius (1 / 2) with hr
  set h := orDefault height (2 * r) with hh
  cases noBottom
  · have e3 : ((5 * ((slices : Int) + 1) + (slices : Int) + ((slices : Int) + 2)) * 3).toNat = 3 * (7 * slices + 7) := by omega
    have e2 : ((5 * ((slices : Int) + 1) + (slices : Int) + ((slices : Int) + 2)) * 2).toNat = 2 * (7 * slices + 7) := by omega
    have e1 : ((4 * (slices : Int) * 2 + (slices : Int) + (slices : Int)) * 3).toNat = 3 * (10 * slices) := by omega
    obtain ⟨a1, _, _⟩ := cone_lateral_spec M r h slices (7 * slices + 7)
      (fresh (0 : α) (3 * (7 * slices + 7)) (3 * (7 * slices + 7)) (2 * (7 * slices + 7)) (3 * (10 * slices)))
      (by omega) (IdxBound.atStart _ _ _ _ _ _ (by omega))
    have hv := Adv.loop (5 : Int) (fun j b => forRange ((slices : Int) + 1)
        (uvCone.vertexStep M r h (slices : Int) j) b)
      (fresh (0 : α) (3 * (7 * slices + 7)) (3 * (7 * slices + 7)) (2 * (7 * slices + 7)) (3 * (10 * slices)))
      (fun j s _ => Adv.loop ((slices : Int) + 1) _ s
        (fun i s2 _ => cone_vertexStep_adv M r h _ j i s2))
    have hki : (forRange (5 : Int) (fun j b => forRange ((slices : Int) + 1)
        (uvCone.vertexStep M r h (slices : Int) j) b)
      (fresh (0 : α) (3 * (7 * slices + 7)) (3 * (7 * slices + 7)) (2 * (7 * slices + 7)) (3 * (10 * slices)))).ki = 0 := by
      rw [hv.2.2.2.2.2.2]
      simp [fresh]
    have hg := gridIndex_adv slices 4 (forRange (5 : Int) (fun j b =>
        forRange ((slices : Int) + 1) (uvCone.vertexStep M r h (slices : Int) j) b)
      (fresh (0 : α) (3 * (7 * slices + 7)) (3 * (7 * slices + 7)) (2 * (7 * slices + 7)) (3 * (10 * slices))))
    have hkv : (forRange (4 : Int) (fun j b => forRange (slices : Int)
          (gridIndexStep (slices : Int) j) b)
        (forRange (5 : Int) (fun j b => forRange ((slices : Int) + 1)
          (uvCone.vertexStep M r h (slices : Int) j) b)
        (fresh (0 : α) (3 * (7 * slices + 7)) (3 * (7 * slices + 7)) (2 * (7 * slices + 7)) (3 * (10 * slices))))).kv / 3 =
        5 * (slices + 1) := by
      have := (hv.trans hg).2.2.2.2.1
      rw [Nat.cast_ofNat] at this
      rw [this, fresh_kv, h5, toNat_cast_succ]
      omega
    have hc := cone_lateral_content M r h slices
      (((5 * (slices + 1) : Nat) : Int) - ((slices : Int) + 1))
      (fresh (0 : α) (3 * (7 * slices + 7)) (3 * (7 * slices + 7)) (2 * (7 * slices + 7)) (3 * (10 * slices)))
      rfl (VertsOK.onFresh _ _ _ _ _)
    refine ⟨?w0, ?heq0, ?_⟩
    case heq0 =>
      simp only [uvCone.run, orDefault_some _ _ h1, Bool.not_false, Bool.not_true,
        if_true, Bool.false_eq_true, if_false, hf, Nat.cast_ofNat, Int.reduceSub]
      rw [allocate_ok _ _ _ _ _ (by positivity) (by positivity) (by positivity) (by positivity)]
      simp only [e1, e2, e3]
      simp only [bind, Except.bind, pure, Except.pure]
      rw [resetKi_eq _ hki, hkv]
      exact rfl
    · refine bottomCap_beyond M r h slices (5 * (slices + 1) + slices) _ ?_ _ ?_ hc
      · intro k p nr hk hlt
        omega
      · have hk := a1.2.2.2.2.1
        rw [hk, fresh_kv]
        omega
  · have e3 : ((5 * ((slices : Int) + 1) + (slices : Int)) * 3).toNat = 3 * (6 * slices + 5) := by omega
    have e2 : ((5 * ((slices : Int) + 1) + (slices : Int)) * 2).toNat = 2 * (6 * slices + 5) := by omega
    have e1 : ((4 * (slices : Int) * 2 + (slices : Int)) * 3).toNat = 3 * (9 * slices) := by omega
    have hv := Adv.loop (5 : Int) (fun j b => forRange ((slices : Int) + 1)
        (uvCone.vertexStep M r h (slices : Int) j) b)
      (fresh (0 : α) (3 * (6 * slices + 5)) (3 * (6 * slices + 5)) (2 * (6 * slices + 5)) (3 * (9 * slices)))
      (fun j s _ => Adv.loop ((slices : Int) + 1) _ s
        (fun i s2 _ => cone_vertexStep_adv M r h _ j i s2))
    have hki : (forRange (5 : Int) (fun j b => forRange ((slices : Int) + 1)
        (uvCone.vertexStep M r h (slices : Int) j) b)
      (fresh (0 : α) (3 * (6 * slices + 5)) (3 * (6 * slices + 5)) (2 * (6 * slices + 5)) (3 * (9 * slices)))).ki = 0 := by
      rw [hv.2.2.2.2.2.2]
      simp [fresh]
    have hg := gridIndex_adv slices 4 (forRange (5 : Int) (fun j b =>
        forRange ((slices : Int) + 1) (uvCone.vertexStep M r h (slices : Int) j) b)
      (fresh (0 : α) (3 * (6 * slices + 5)) (3 * (6 * slices + 5)) (2 * (6 * slices + 5)) (3 * (9 * slices))))
    have hkv : (forRange (4 : Int) (fun j b => forRange (slices : Int)
          (gridIndexStep (slices : Int) j) b)
        (forRange (5 : Int) (fun j b => forRange ((slices : Int) + 1)
          (uvCone.vertexStep M r h (slices : Int) j) b)
        (fresh (0 : α) (3 * (6 * slices + 5)) (3 * (6 * slices + 5)) (2 * (6 * slices + 5)) (3 * (9 * slices))))).kv / 3 =
        5 * (slices + 1) := by
      have := (hv.trans hg).2.2.2.2.1
      rw [Nat.cast_ofNat] at this
      rw [this, fresh_kv, h5, toNat_cast_succ]
      omega
    have hc := cone_lateral_content M r h slices
      (((5 * (slices + 1) : Nat) : Int) - ((slices : Int) + 1))
      (fresh (0 : α) (3 * (6 * slices + 5)) (3 * (6 * slices + 5)) (2 * (6 * slices + 5)) (3 * (9 * slices)))
      rfl (VertsOK.onFresh _ _ _ _ _)
    refine ⟨?w1, ?heq1, ?_⟩
    case heq1 =>
      simp only [uvCone.run, orDefault_some _ _ h1, Bool.not_false, Bool.not_true,
        if_true, Bool.false_eq_true, if_false, hf, Nat.cast_ofNat, Int.reduceSub]
      rw [allocate_ok _ _ _ _ _ (by positivity) (by positivity) (by positivity) (by positivity)]
      simp only [e1, e2, e3]
      simp only [bind, Except.bind, pure, Except.pure]
      rw [resetKi_eq _ hki, hkv]
      exact rfl
    · exact hc

/-- The mesh of `uvCone` with positive `slices`: lateral vertex `i` is `coneVertex i`. -/
theorem uvCone_mesh_content {α : Type} [Field α] [DecidableEq α] (M : JSMath α)
    (radius height : Option α) (slices : Nat) (hs : 0 < slices) (noBottom : Bool) :
    ∃ m, uvCone M radius height (some (slices : Int)) noBottom = Except.ok m ∧
      m.vertexPositions.length = 3 * coneVertices slices noBottom ∧
      ∀ i, i < 5 * (slices + 1) + slices →
        (vec3At m.vertexPositions i, vec3At m.vertexNormals i) =
          coneVertex M (orDefault radius (1 / 2))
            (orDefault height (2 * orDefault radius (1 / 2))) slices i := by
  obtain ⟨b, hb, hadv, _, _⟩ := uvCone_run_spec M radius height slices hs noBottom
  obtain ⟨b2, hb2, hc⟩ := uvCone_run_content M radius height slices hs noBottom
  rw [hb] at hb2
  have hbe := Except.ok.inj hb2
  rw [← hbe] at hc
  have hl := mesh_lengths _ _ _ _ _ _ _ hadv
  have hkv : b.kv = 3 * coneVertices slices noBottom := by
    have := hadv.2.2.2.2.1
    rw [fresh_kv] at this
    omega
  have hV : 5 * (slices + 1) + slices ≤ coneVertices slices noBottom := by
    unfold coneVertices
    omega
  have h1 : b.vertices.length = 3 * coneVertices slices noBottom := hl.1
  have h2 : b.normals.length = 3 * coneVertices slices noBottom := hl.2.1
  refine ⟨b.toMesh, by simp [uvCone, hb, Except.map], hl.1, ?_⟩
  intro i hi
  exact hc.2 i (by omega) (by omega) (by omega) hi

/-- C23: for every positive `slices` and `radius, height > 0`, over the reals, `uvCone`
places five rings of `slices + 1` vertices at the fractions `f` of
`[0, 0.5, 0.75, 0.875, 0.9375]`, ring `j` at height `-height/2 + f_j*height` on the circle
of radius `radius*(1 - f_j)`, followed by `slices` vertices at the tip `(0, 0, height/2)`;
every one of these lateral vertices lies on the cone surface,
`sqrt(x² + y²) = radius*(height/2 - z)/height`, and its normal is
`(cos(u)*h/L, sin(u)*h/L, r/L)` with `L = sqrt(h² + r²)`, where `u = (i + uoffset)*du` is
the angle of the vertex. -/
theorem uvCone_lateral_vertices (radius height : ℝ) (hr : 0 < radius) (hh : 0 < height)
    (slices : Nat) (hs : 0 < slices) (noBottom : Bool) :
    (uvCone.fractions : List ℝ) = [0, 1 / 2, 3 / 4, 7 / 8, 15 / 16] ∧
    ∃ m, uvCone (JSMath.mk Real.cos Real.sin Real.sqrt Real.pi) (some radius) (some height)
        (some (slices : Int)) noBottom = Except.ok m ∧
      (∀ j i, j < 5 → i ≤ slices → ∀ f u : ℝ, f = (uvCone.fractions).getD j 0 →
        u = ((i : ℝ) + (if j % 2 = 0 then 0 else 1 / 2)) * (2 * Real.pi / (slices : ℝ)) →
        vec3At m.vertexPositions (j * (slices + 1) + i) =
          (Real.cos u * radius * (1 - f), Real.sin u * radius * (1 - f),
            -height / 2 + f * height) ∧
        Real.sqrt ((Real.cos u * radius * (1 - f)) ^ 2 +
          (Real.sin u * radius * (1 - f)) ^ 2) = radius * (1 - f) ∧
        vec3At m.vertexNormals (j * (slices + 1) + i) =
          (Real.cos u * (height / Real.sqrt (height * height + radius * radius)),
            Real.sin u * (height / Real.sqrt (height * height + radius * radius)),
            radius / Real.sqrt (height * height + radius * radius))) ∧
      (∀ i, i < slices → ∀ u : ℝ, u = ((i : ℝ) + 1 / 2) * (2 * Real.pi / (slices : ℝ)) →
        vec3At m.vertexPositions (5 * (slices + 1) + i) = (0, 0, height / 2) ∧
        vec3At m.vertexNormals (5 * (slices + 1) + i) =
          (Real.cos u * (height / Real.sqrt (height * height + radius * radius)),
            Real.sin u * (height / Real.sqrt (height * height + radius * radius)),
            radius / Real.sqrt (height * height + radius * radius))) ∧
      (∀ v, v < 5 * (slices + 1) + slices →
        Real.sqrt ((vec3At m.vertexPositions v).1 ^ 2 + (vec3At m.vertexPositions v).2.1 ^ 2) =
          radius * (height / 2 - (vec3At m.vertexPositions v).2.2) / height) := by
  refine ⟨rfl, ?_⟩
  obtain ⟨m, hm, _, hV⟩ := uvCone_mesh_content
    (JSMath.mk Real.cos Real.sin Real.sqrt Real.pi) (some radius) (some height) slices hs
    noBottom
  rw [orDefault_some radius _ (ne_of_gt hr), orDefault_some height _ (ne_of_gt hh)] at hV
  have hf : ∀ j, j < 5 → (0 : ℝ) ≤ 1 - (uvCone.fractions).getD j 0 := by
    intro j hj
    interval_cases j <;> simp [uvCone.fractions] <;> norm_num
  have hring : ∀ j i, j < 5 → i ≤ slices → ∀ f u : ℝ, f = (uvCone.fractions).getD j 0 →
      u = ((i : ℝ) + (if j % 2 = 0 then 0 else 1 / 2)) * (2 * Real.pi / (slices : ℝ)) →
      vec3At m.vertexPositions (j * (slices + 1) + i) =
        (Real.cos u * radius * (1 - f), Real.sin u * radius * (1 - f),
          -height / 2 + f * height) ∧
      Real.sqrt ((Real.cos u * radius * (1 - f)) ^ 2 +
        (Real.sin u * radius * (1 - f)) ^ 2) = radius * (1 - f) ∧
      vec3At m.vertexNormals (j * (slices + 1) + i) =
        (Real.cos u * (height / Real.sqrt (height * height + radius * radius)),
          Real.sin u * (height / Real.sqrt (height * height + radius * radius)),
          radius / Real.sqrt (height * height + radius * radius)) := by
    intro j i hj hi f u hfe hue
    have h1 : j * (slices + 1) ≤ 4 * (slices + 1) := Nat.mul_le_mul_right _ (by omega)
    have h := hV (j * (slices + 1) + i) (by omega)
    rw [coneVertex_ring _ _ _ _ j i hj hi] at h
    simp only [coneRingVertex, Int.cast_natCast] at h
    rw [← hfe, ← hue] at h
    have hsq : (Real.cos u * radius * (1 - f)) ^ 2 + (Real.sin u * radius * (1 - f)) ^ 2 =
        (radius * (1 - f)) ^ 2 := by
      have := Real.cos_sq_add_sin_sq u
      linear_combination (radius * (1 - f)) ^ 2 * this
    refine ⟨(Prod.mk.inj h).1, ?_, (Prod.mk.inj h).2⟩
    rw [hsq, Real.sqrt_sq (mul_nonneg (le_of_lt hr) (by rw [hfe]; exact hf j hj))]
  have htip : ∀ i, i < slices → ∀ u : ℝ,
      u = ((i : ℝ) + 1 / 2) * (2 * Real.pi / (slices : ℝ)) →
      vec3At m.vertexPositions (5 * (slices + 1) + i) = (0, 0, height / 2) ∧
      vec3At m.vertexNormals (5 * (slices + 1) + i) =
        (Real.cos u * (height / Real.sqrt (height * height + radius * radius)),
          Real.sin u * (height / Real.sqrt (height * height + radius * radius)),
          radius / Real.sqrt (height * height + radius * radius)) := by
    intro i hi u hue
    have h := hV (5 * (slices + 1) + i) (by omega)
    rw [coneVertex_tip] at h
    simp only [coneTipVertex, Int.cast_natCast] at h
    rw [← hue] at h
    exact ⟨(Prod.mk.inj h).1, (Prod.mk.inj h).2⟩
  refine ⟨m, hm, hring, htip, ?_⟩
  intro v hv
  have hh0 : height ≠ 0 := ne_of_gt hh
  by_cases hlt : v < 5 * (slices + 1)
  · have hj : v / (slices + 1) < 5 := by
      rw [Nat.div_lt_iff_lt_mul (by omega)]
      exact hlt
    have hi : v % (slices + 1) ≤ slices := by
      have := Nat.mod_lt v (by omega : 0 < slices + 1)
      omega
    have hve : v = v / (slices + 1) * (slices + 1) + v % (slices + 1) := by
      rw [Nat.mul_comm]
      exact (Nat.div_add_mod v (slices + 1)).symm
    obtain ⟨hp, hsqrt, _⟩ := hring (v / (slices + 1)) (v % (slices + 1)) hj hi _ _ rfl rfl
    rw [← hve] at hp
    rw [hp]
    simp only
    rw [hsqrt]
    field_simp
    ring
  · obtain ⟨i, hi, rfl⟩ : ∃ i, i < slices ∧ v = 5 * (slices + 1) + i :=
      ⟨v - 5 * (slices + 1), by omega, by omega⟩
    obtain ⟨hp, _⟩ := htip i hi _ rfl
    rw [hp]
    simp

/-- Instance of `uvCone_lateral_vertices` at `uvCone(1, 2, 3)`: the first tip vertex. -/
theorem uvCone_lateral_vertices_witness :
    (0 : ℝ) < 1 ∧ (0 : ℝ) < 2 ∧ 0 < 3 ∧
    ∃ m, uvCone (JSMath.mk Real.cos Real.sin Real.sqrt Real.pi) (some 1) (some 2)
        (some ((3 : Nat) : Int)) false = Except.ok m ∧
      vec3At m.vertexPositions (5 * (3 + 1) + 0) = (0, 0, 2 / 2) :=
  ⟨by norm_num, by norm_num, by norm_num, by
    obtain ⟨m, hm, _, htip, _⟩ := (uvCone_lateral_vertices 1 2 (by norm_num) (by norm_num) 3
      (by norm_num) false).2
    exact ⟨m, hm, (htip 0 (by norm_num) _ rfl).1⟩⟩

/-! ### Loops with a known trip count -/

/-- A `loopWhile` whose condition holds along the first `n` iterates of `f` and fails at the
`n`-th, and whose body is `f` there, returns the `n`-th iterate, given fuel `n`. -/
theorem loopWhile_iterate {σ : Type} (cond : σ → Bool) (body : σ → Option σ) (f : σ → σ)
    (n : Nat) :
    ∀ (fuel : Nat) (st : σ), n ≤ fuel →
      (∀ k, k < n → cond (f^[k] st) = true ∧ body (f^[k] st) = some (f^[k + 1] st)) →
      cond (f^[n] st) = false →
      loopWhile cond body fuel st = some (f^[n] st) := by
  induction n with
  | zero =>
    intro fuel st _ _ hc
    simp only [Function.iterate_zero, id_eq] at hc
    cases fuel <;> simp [loopWhile, hc]
  | succ n ih =>
    intro fuel st hf hk hc
    obtain ⟨fuel, rfl⟩ : ∃ m, fuel = m + 1 := ⟨fuel - 1, by omega⟩
    have h0 := hk 0 (by omega)
    simp only [Function.iterate_zero, id_eq, zero_add, Function.iterate_one] at h0
    simp only [loopWhile, h0.1, if_true, h0.2, Option.some_bind]
    rw [Function.iterate_succ_apply]
    refine ih fuel (f st) (by omega) ?_ ?_
    · intro k hlt
      have := hk (k + 1) (by omega)
      simpa only [Function.iterate_succ_apply] using this
    · simpa only [Function.iterate_succ_apply] using hc

/-- A list that grows by appending: the part added at step `k` stays at its place. -/
theorem trace_segment {β : Type} (a d : Nat → List β) (h : ∀ k, a (k + 1) = a k ++ d k)
    (k N : Nat) (hk : k < N) : ∃ post, a N = a k ++ d k ++ post := by
  induction N with
  | zero => omega
  | succ N ih =>
    by_cases hkN : k = N
    · subst hkN
      exact ⟨[], by rw [h, List.append_nil]⟩
    · obtain ⟨post, hp⟩ := ih (by omega)
      exact ⟨post ++ d N, by rw [h, hp, List.append_assoc]⟩

/-! ### obj_ring step by step -/

theorem obj_ring_iterate_fields {α : Type} [LinearOrderedField α] (M : JSMath α)
    (inner_radius outer_radius pos_x pos_y pos_z alpha step : α) (k : Nat) :
    ((obj_ring.thetaStep M inner_radius outer_radius pos_x pos_y pos_z alpha step)^[k]
        (obj_ring.ringStart pos_x pos_y pos_z step)).theta = ((k + 1 : Nat) : α) * step ∧
    ((obj_ring.thetaStep M inner_radius outer_radius pos_x pos_y pos_z alpha step)^[k]
        (obj_ring.ringStart pos_x pos_y pos_z step)).lastTheta = (k : α) * step := by
  induction k with
  | zero => simp [obj_ring.ringStart]
  | succ k ih =>
    rw [Function.iterate_succ_apply']
    refine ⟨?_, ?_⟩
    · show _ + step = _
      rw [ih.1]
      push_cast
      ring
    · show _ = _
      exact ih.1

theorem obj_ring_iterate_obj {α : Type} [LinearOrderedField α] (M : JSMath α)
    (inner_radius outer_radius pos_x pos_y pos_z alpha step : α) (k : Nat) :
    ((obj_ring.thetaStep M inner_radius outer_radius pos_x pos_y pos_z alpha step)^[k]
        (obj_ring.ringStart pos_x pos_y pos_z step)).obj.numVertices = 6 * k ∧
    ((obj_ring.thetaStep M inner_radius outer_radius pos_x pos_y pos_z alpha step)^[k]
        (obj_ring.ringStart pos_x pos_y pos_z step)).obj.pointsArray =
      (List.range k).flatMap
        (ringStepPoints M inner_radius outer_radius pos_x pos_y pos_z step) ∧
    ((obj_ring.thetaStep M inner_radius outer_radius pos_x pos_y pos_z alpha step)^[k]
        (obj_ring.ringStart pos_x pos_y pos_z step)).obj.texcoords =
      (List.range k).flatMap (fun _ => [1, 1, 0, 0, 1, 0, 0, 0, 1, 1, 0, 1]) := by
  induction k with
  | zero => simp [obj_ring.ringStart]
  | succ k ih =>
    obtain ⟨f1, f2⟩ := obj_ring_iterate_fields M inner_radius outer_radius pos_x pos_y pos_z
      alpha step k
    rw [Function.iterate_succ_apply']
    generalize (obj_ring.thetaStep M inner_radius outer_radius pos_x pos_y pos_z alpha
      step)^[k] (obj_ring.ringStart pos_x pos_y pos_z step) = S at ih f1 f2 ⊢
    obtain ⟨h1, h2, h3⟩ := ih
    refine ⟨?_, ?_, ?_⟩
    · simp only [obj_ring.thetaStep, obj_ring.pushTex, obj_ring.spherePoint, h1]
      omega
    · simp only [obj_ring.thetaStep, obj_ring.pushTex, obj_ring_spherePoint_points, h2, f1, f2,
        List.range_succ, List.flatMap_append, List.flatMap_cons, List.flatMap_nil,
        ringStepPoints, List.append_assoc, List.singleton_append, List.cons_append,
        List.nil_append, List.append_nil]
    · simp only [obj_ring.thetaStep, obj_ring.pushTex, obj_ring.spherePoint, h3,
        List.range_succ, List.flatMap_append, List.flatMap_cons, List.flatMap_nil,
        List.append_assoc, List.singleton_append, List.cons_append,
        List.nil_append, List.append_nil]

/-- The loop of `obj_ring` makes exactly `N` iterations when `N*step ≤ 360 < (N+1)*step`. -/
theorem obj_ring_eq_iterate {α : Type} [LinearOrderedField α] (M : JSMath α)
    (inner_radius outer_radius pos_x pos_y pos_z alpha step : α) (hd : 0 < step) (N : Nat)
    (h1 : (N : α) * step ≤ 360) (h2 : 360 < ((N + 1 : Nat) : α) * step) (fuel : Nat)
    (hf : N ≤ fuel) :
    obj_ring M fuel inner_radius outer_radius pos_x pos_y pos_z alpha step =
      some ((obj_ring.thetaStep M inner_radius outer_radius pos_x pos_y pos_z alpha step)^[N]
        (obj_ring.ringStart pos_x pos_y pos_z step)).obj := by
  have key := loopWhile_iterate (fun st : RingLoop α => decide (st.theta ≤ 360))
    (fun st => some (obj_ring.thetaStep M inner_radius outer_radius pos_x pos_y pos_z alpha
      step st))
    (obj_ring.thetaStep M inner_radius outer_radius pos_x pos_y pos_z alpha step) N fuel
    (obj_ring.ringStart pos_x pos_y pos_z step) hf ?_ ?_
  · have e : obj_ring M fuel inner_radius outer_radius pos_x pos_y pos_z alpha step =
        (loopWhile (fun st : RingLoop α => decide (st.theta ≤ 360))
          (fun st => some (obj_ring.thetaStep M inner_radius outer_radius pos_x pos_y pos_z
            alpha step st)) fuel (obj_ring.ringStart pos_x pos_y pos_z step)).map
          (fun st => st.obj) := rfl
    rw [e, key]
    rfl
  · intro k hk
    refine ⟨?_, by rw [Function.iterate_succ_apply']⟩
    rw [decide_eq_true_eq, (obj_ring_iterate_fields M inner_radius outer_radius pos_x pos_y
      pos_z alpha step k).1]
    have hle : ((k + 1 : Nat) : α) ≤ (N : α) := by exact_mod_cast hk
    exact le_trans (mul_le_mul_of_nonneg_right hle (le_of_lt hd)) h1
  · rw [decide_eq_false_iff_not, (obj_ring_iterate_fields M inner_radius outer_radius pos_x
      pos_y pos_z alpha step N).1]
    exact not_le.mpr h2

theorem nat_div_bounds (α : Type) [LinearOrderedField α] (a d : Nat) (hd : 0 < d) :
    ((a / d : Nat) : α) * (d : α) ≤ (a : α) ∧ (a : α) < ((a / d + 1 : Nat) : α) * (d : α) := by
  have h1 : a / d * d ≤ a := Nat.div_mul_le_self a d
  have h2 : a < (a / d + 1) * d := by
    have h3 := Nat.div_add_mod a d
    have h4 := Nat.mod_lt a hd
    have h5 : (a / d + 1) * d = d * (a / d) + d := by ring
    omega
  exact ⟨by exact_mod_cast h1, by exact_mod_cast h2⟩

/-- C25: for every positive integer `degree = d`, `obj_ring` performs exactly
`N = floor(360/d)` steps of its loop (it returns the `N`-th iterate of the loop body, given
fuel `N`) and emits 2 triangles per step, so `numVertices = 6*N`; step `k` (counted from 0)
connects the angles `k*d` and `(k+1)*d`: its six points are
`(rT1 inner, rT2 outer, rT1 outer)` and `(rT2 outer, rT1 inner, rT2 inner)` with
`rT1 = k*d/180*π`, `rT2 = (k+1)*d/180*π`, and its six texture coordinates are
`(1,1), (0,0), (1,0)` and `(0,0), (1,1), (0,1)`. -/
theorem obj_ring_steps {α : Type} [LinearOrderedField α] (M : JSMath α)
    (inner_radius outer_radius pos_x pos_y pos_z alpha : α) (d : Nat) (hd : 0 < d) :
    ∃ o, (∀ fuel, 360 / d ≤ fuel →
        obj_ring M fuel inner_radius outer_radius pos_x pos_y pos_z alpha (d : α) = some o) ∧
      o = ((obj_ring.thetaStep M inner_radius outer_radius pos_x pos_y pos_z alpha
        (d : α))^[360 / d] (obj_ring.ringStart pos_x pos_y pos_z (d : α))).obj ∧
      o.numVertices = 6 * (360 / d) ∧
      o.pointsArray = (List.range (360 / d)).flatMap (fun k =>
        [ringPosition M pos_x pos_y pos_z ((k : α) * (d : α) / 180 * M.PI) inner_radius,
         ringPosition M pos_x pos_y pos_z (((k + 1 : Nat) : α) * (d : α) / 180 * M.PI)
           outer_radius,
         ringPosition M pos_x pos_y pos_z ((k : α) * (d : α) / 180 * M.PI) outer_radius,
         ringPosition M pos_x pos_y pos_z (((k + 1 : Nat) : α) * (d : α) / 180 * M.PI)
           outer_radius,
         ringPosition M pos_x pos_y pos_z ((k : α) * (d : α) / 180 * M.PI) inner_radius,
         ringPosition M pos_x pos_y pos_z (((k + 1 : Nat) : α) * (d : α) / 180 * M.PI)
           inner_radius]) ∧
      o.texcoords = (List.range (360 / d)).flatMap
        (fun _ => [1, 1, 0, 0, 1, 0, 0, 0, 1, 1, 0, 1]) := by
  have hd' : (0 : α) < (d : α) := by exact_mod_cast hd
  obtain ⟨b1, b2⟩ := nat_div_bounds α 360 d hd
  rw [Nat.cast_ofNat] at b1 b2
  obtain ⟨h1, h2, h3⟩ := obj_ring_iterate_obj M inner_radius outer_radius pos_x pos_y pos_z
    alpha (d : α) (360 / d)
  refine ⟨_, fun fuel hf => obj_ring_eq_iterate M inner_radius outer_radius pos_x pos_y pos_z
    alpha (d : α) hd' (360 / d) b1 b2 fuel hf, rfl, h1, ?_, h3⟩
  rw [h2]
  rfl

/-- Instance of `obj_ring_steps`: `obj_ring(1, 2, 0, 0, 0, 1, 90)` over the reals makes 4
steps and has 24 vertices. -/
theorem obj_ring_steps_witness :
    0 < 90 ∧
    ∃ o, obj_ring (JSMath.mk Real.cos Real.sin Real.sqrt Real.pi) 4 1 2 0 0 0 1
        ((90 : Nat) : ℝ) = some o ∧ o.numVertices = 6 * (360 / 90) :=
  ⟨by norm_num, by
    obtain ⟨o, ho, _, hn, _⟩ := obj_ring_steps
      (JSMath.mk Real.cos Real.sin Real.sqrt Real.pi) 1 2 0 0 0 1 90 (by norm_num)
    exact ⟨o, ho 4 (by norm_num), hn⟩⟩

/-! ### obj_sphere cell by cell -/

theorem thetaStep_fields {α : Type} [LinearOrderedField α] (M : JSMath α)
    (radius pos_x pos_y pos_z alpha step : α) (st : SphereLoop α) :
    (obj_sphere.thetaStep M radius pos_x pos_y pos_z alpha step st).phi = st.phi ∧
    (obj_sphere.thetaStep M radius pos_x pos_y pos_z alpha step st).lastPhi = st.lastPhi ∧
    (obj_sphere.thetaStep M radius pos_x pos_y pos_z alpha step st).theta = st.theta + step ∧
    (obj_sphere.thetaStep M radius pos_x pos_y pos_z alpha step st).lastTheta = st.theta ∧
    (obj_sphere.thetaStep M radius pos_x pos_y pos_z alpha step st).obj.numVertices =
      st.obj.numVertices + ((if st.lastPhi ≠ -90 then 3 else 0) +
        (if st.phi ≠ 90 then 3 else 0)) ∧
    (obj_sphere.thetaStep M radius pos_x pos_y pos_z alpha step st).obj.pointsArray =
      st.obj.pointsArray ++ cellPoints M radius pos_x pos_y pos_z st := by
  refine ⟨rfl, rfl, rfl, rfl, ?_, ?_⟩
  · simp only [obj_sphere.thetaStep]
    split_ifs <;> simp [obj_sphere.spherePoint]
  · simp only [obj_sphere.thetaStep, cellPoints]
    split_ifs <;> simp [obj_sphere_spherePoint_points]

theorem cell_iterate_fields {α : Type} [LinearOrderedField α] (M : JSMath α)
    (radius pos_x pos_y pos_z alpha step : α) (st : SphereLoop α) (c : Nat) :
    ((obj_sphere.thetaStep M radius pos_x pos_y pos_z alpha step)^[c]
        { st with theta := step }).phi = st.phi ∧
    ((obj_sphere.thetaStep M radius pos_x pos_y pos_z alpha step)^[c]
        { st with theta := step }).lastPhi = st.lastPhi ∧
    ((obj_sphere.thetaStep M radius pos_x pos_y pos_z alpha step)^[c]
        { st with theta := step }).theta = ((c + 1 : Nat) : α) * step ∧
    ((obj_sphere.thetaStep M radius pos_x pos_y pos_z alpha step)^[c]
        { st with theta := step }).lastTheta =
      (if c = 0 then st.lastTheta else (c : α) * step) ∧
    ((obj_sphere.thetaStep M radius pos_x pos_y pos_z alpha step)^[c]
        { st with theta := step }).obj.numVertices =
      st.obj.numVertices + c * ((if st.lastPhi ≠ -90 then 3 else 0) +
        (if st.phi ≠ 90 then 3 else 0)) := by
  induction c with
  | zero => simp
  | succ c ih =>
    obtain ⟨h1, h2, h3, h4, h5⟩ := ih
    obtain ⟨g1, g2, g3, g4, g5, _⟩ := thetaStep_fields M radius pos_x pos_y pos_z alpha step
      ((obj_sphere.thetaStep M radius pos_x pos_y pos_z alpha step)^[c]
        { st with theta := step })
    rw [Function.iterate_succ_apply']
    refine ⟨by rw [g1, h1], by rw [g2, h2], ?_, ?_, ?_⟩
    · rw [g3, h3]
      push_cast
      ring
    · rw [g4, h3, if_neg (Nat.succ_ne_zero c)]
    · rw [g5, h5, h1, h2]
      ring

/-- The inner loop of `obj_sphere` makes exactly `N + 1` iterations when
`N*step ≤ 360 < (N+1)*step`. -/
theorem phiStep_eq_rowOf {α : Type} [LinearOrderedField α] (M : JSMath α)
    (radius pos_x pos_y pos_z alpha step : α) (hd : 0 < step) (N : Nat)
    (h1 : (N : α) * step ≤ 360) (h2 : 360 < ((N + 1 : Nat) : α) * step) (fuel : Nat)
    (hf : N + 1 ≤ fuel) (st : SphereLoop α) :
    obj_sphere.phiStep M radius pos_x pos_y pos_z alpha step fuel st =
      some (obj_sphere.rowOf M radius pos_x pos_y pos_z alpha step (N + 1) st) := by
  have key := loopWhile_iterate (fun st : SphereLoop α => decide (st.theta ≤ 360 + step))
    (fun st => some (obj_sphere.thetaStep M radius pos_x pos_y pos_z alpha step st))
    (obj_sphere.thetaStep M radius pos_x pos_y pos_z alpha step) (N + 1) fuel
    { st with theta := step } hf ?_ ?_
  · simp only [obj_sphere.phiStep, id_eq, key, Option.map_some', obj_sphere.rowOf]
  · intro k hk
    refine ⟨?_, by rw [Function.iterate_succ_apply']⟩
    rw [decide_eq_true_eq, (cell_iterate_fields M radius pos_x pos_y pos_z alpha step st k).2.2.1]
    have hle : ((k : Nat) : α) ≤ (N : α) := by exact_mod_cast (by omega : k ≤ N)
    have := mul_le_mul_of_nonneg_right hle (le_of_lt hd)
    push_cast
    linarith
  · rw [decide_eq_false_iff_not,
      (cell_iterate_fields M radius pos_x pos_y pos_z alpha step st (N + 1)).2.2.1]
    push_cast at h2 ⊢
    linarith

theorem row_iterate_fields {α : Type} [LinearOrderedField α] (M : JSMath α)
    (radius pos_x pos_y pos_z alpha step : α) (hd : 0 < step) (cols : Nat) (hc : 0 < cols)
    (r : Nat) :
    ((obj_sphere.rowOf M radius pos_x pos_y pos_z alpha step cols)^[r]
        (obj_sphere.sphereStart pos_x pos_y pos_z step)).phi = -90 + ((r + 1 : Nat) : α) * step ∧
    ((obj_sphere.rowOf M radius pos_x pos_y pos_z alpha step cols)^[r]
        (obj_sphere.sphereStart pos_x pos_y pos_z step)).lastPhi = -90 + (r : α) * step ∧
    ((obj_sphere.rowOf M radius pos_x pos_y pos_z alpha step cols)^[r]
        (obj_sphere.sphereStart pos_x pos_y pos_z step)).lastTheta =
      (if r = 0 then 0 else (cols : α) * step) ∧
    ((obj_sphere.rowOf M radius pos_x pos_y pos_z alpha step cols)^[r]
        (obj_sphere.sphereStart pos_x pos_y pos_z step)).obj.numVertices =
      3 * cols * ∑ i in Finset.range r, rowTriangles step i := by
  induction r with
  | zero => simp [obj_sphere.sphereStart]
  | succ r ih =>
    obtain ⟨h1, h2, h3, h4⟩ := ih
    obtain ⟨g1, g2, g3, g4, g5⟩ := cell_iterate_fields M radius pos_x pos_y pos_z alpha step
      ((obj_sphere.rowOf M radius pos_x pos_y pos_z alpha step cols)^[r]
        (obj_sphere.sphereStart pos_x pos_y pos_z step)) cols
    rw [Function.iterate_succ_apply']
    refine ⟨?_, ?_, ?_, ?_⟩
    · show _ + step = _
      rw [g1, h1]
      push_cast
      ring
    · refine g1.trans ?_
      rw [h1]
    · refine g4.trans ?_
      rw [if_neg (by omega : ¬ cols = 0), if_neg (Nat.succ_ne_zero r)]
    · refine g5.trans ?_
      rw [h4, h1, h2, Finset.sum_range_succ]
      have e1 : (if (-90 : α) + (r : α) * step ≠ -90 then 3 else 0) =
          3 * (if r = 0 then 0 else 1) := by
        by_cases hr : r = 0
        · subst hr
          simp
        · have hr' : (0 : α) < (r : α) := by exact_mod_cast Nat.pos_of_ne_zero hr
          have : (-90 : α) + (r : α) * step ≠ -90 := by
            have := mul_pos hr' hd
            intro h
            linarith
          simp [hr, this]
      have e2 : (if (-90 : α) + ((r + 1 : Nat) : α) * step ≠ 90 then 3 else 0) =
          3 * (if ((r + 1 : Nat) : α) * step = 180 then 0 else 1) := by
        by_cases hr : ((r + 1 : Nat) : α) * step = 180
        · have : ¬ ((-90 : α) + ((r + 1 : Nat) : α) * step ≠ 90) := by
            rw [hr]; norm_num
          rw [if_neg this, if_pos hr]
        · have : (-90 : α) + ((r + 1 : Nat) : α) * step ≠ 90 := by
            intro h
            apply hr
            linarith
          rw [if_pos this, if_neg hr]
      rw [e1, e2, rowTriangles]
      ring

/-- The outer loop of `obj_sphere` makes exactly `R` iterations, each with `N + 1`
iterations of the inner loop, when `R*step ≤ 180 < (R+1)*step` and
`N*step ≤ 360 < (N+1)*step`. -/
theorem obj_sphere_eq_iterate {α : Type} [LinearOrderedField α] (M : JSMath α)
    (radius pos_x pos_y pos_z alpha step : α) (hd : 0 < step) (R N : Nat)
    (r1 : (R : α) * step ≤ 180) (r2 : 180 < ((R + 1 : Nat) : α) * step)
    (h1 : (N : α) * step ≤ 360) (h2 : 360 < ((N + 1 : Nat) : α) * step) (fuel : Nat)
    (hfR : R ≤ fuel) (hfN : N + 1 ≤ fuel) :
    obj_sphere M fuel radius pos_x pos_y pos_z alpha step =
      some ((obj_sphere.rowOf M radius pos_x pos_y pos_z alpha step (N + 1))^[R]
        (obj_sphere.sphereStart pos_x pos_y pos_z step)).obj := by
  have key := loopWhile_iterate (fun st : SphereLoop α => decide (st.phi ≤ 90))
    (obj_sphere.phiStep M radius pos_x pos_y pos_z alpha step fuel)
    (obj_sphere.rowOf M radius pos_x pos_y pos_z alpha step (N + 1)) R fuel
    (obj_sphere.sphereStart pos_x pos_y pos_z step) hfR ?_ ?_
  · have e : obj_sphere M fuel radius pos_x pos_y pos_z alpha step =
        (loopWhile (fun st : SphereLoop α => decide (st.phi ≤ 90))
          (obj_sphere.phiStep M radius pos_x pos_y pos_z alpha step fuel) fuel
          (obj_sphere.sphereStart pos_x pos_y pos_z step)).map (fun st => st.obj) := rfl
    rw [e, key]
    rfl
  · intro k hk
    refine ⟨?_, ?_⟩
    · rw [decide_eq_true_eq, (row_iterate_fields M radius pos_x pos_y pos_z alpha step hd
        (N + 1) (by omega) k).1]
      have hle : ((k + 1 : Nat) : α) ≤ (R : α) := by exact_mod_cast hk
      have := mul_le_mul_of_nonneg_right hle (le_of_lt hd)
      linarith
    · rw [Function.iterate_succ_apply']
      exact phiStep_eq_rowOf M radius pos_x pos_y pos_z alpha step hd N h1 h2 fuel hfN _
  · rw [decide_eq_false_iff_not, (row_iterate_fields M radius pos_x pos_y pos_z alpha step hd
      (N + 1) (by omega) R).1]
    intro h
    linarith

/-! ### Where a cell of obj_sphere ends up in the arrays -/

theorem thetaStep_texcoords {α : Type} [LinearOrderedField α] (M : JSMath α)
    (radius pos_x pos_y pos_z alpha step : α) (st : SphereLoop α) :
    (obj_sphere.thetaStep M radius pos_x pos_y pos_z alpha step st).obj.texcoords =
      st.obj.texcoords ++ cellTex M st := by
  simp only [obj_sphere.thetaStep, cellTex]
  split_ifs <;> simp [obj_sphere.spherePoint]

/-- A list that grows by appending keeps what it held. -/
theorem trace_prefix {β : Type} (a : Nat → List β) (h : ∀ k, ∃ x, a (k + 1) = a k ++ x)
    (k N : Nat) (hk : k ≤ N) : ∃ post, a N = a k ++ post := by
  induction N with
  | zero =>
    have : k = 0 := by omega
    subst this
    exact ⟨[], by rw [List.append_nil]⟩
  | succ N ih =>
    by_cases hkN : k = N + 1
    · subst hkN
      exact ⟨[], by rw [List.append_nil]⟩
    · obtain ⟨post, hp⟩ := ih (by omega)
      obtain ⟨x, hx⟩ := h N
      exact ⟨post ++ x, by rw [hx, hp, List.append_assoc]⟩

/-- Points and texture coordinates of the first cell of a row stay where the row found the
arrays, whatever the rest of the row appends. -/
theorem row_first_cell {α : Type} [LinearOrderedField α] (M : JSMath α)
    (radius pos_x pos_y pos_z alpha step : α) (cols : Nat) (hc : 0 < cols)
    (st : SphereLoop α) :
    (∃ post, (obj_sphere.rowOf M radius pos_x pos_y pos_z alpha step cols st).obj.pointsArray =
      st.obj.pointsArray ++
        cellPoints M radius pos_x pos_y pos_z { st with theta := step } ++ post) ∧
    (∃ post, (obj_sphere.rowOf M radius pos_x pos_y pos_z alpha step cols st).obj.texcoords =
      st.obj.texcoords ++ cellTex M { st with theta := step } ++ post) := by
  refine ⟨?_, ?_⟩
  · have h := trace_segment
      (fun c => ((obj_sphere.thetaStep M radius pos_x pos_y pos_z alpha step)^[c]
        { st with theta := step }).obj.pointsArray)
      (fun c => cellPoints M radius pos_x pos_y pos_z
        ((obj_sphere.thetaStep M radius pos_x pos_y pos_z alpha step)^[c]
          { st with theta := step }))
      (by
        intro k
        simp only [Function.iterate_succ_apply']
        exact (thetaStep_fields M radius pos_x pos_y pos_z alpha step _).2.2.2.2.2)
      0 cols hc
    exact h
  · have h := trace_segment
      (fun c => ((obj_sphere.thetaStep M radius pos_x pos_y pos_z alpha step)^[c]
        { st with theta := step }).obj.texcoords)
      (fun c => cellTex M
        ((obj_sphere.thetaStep M radius pos_x pos_y pos_z alpha step)^[c]
          { st with theta := step }))
      (by
        intro k
        simp only [Function.iterate_succ_apply']
        exact thetaStep_texcoords M radius pos_x pos_y pos_z alpha step _)
      0 cols hc
    exact h

/-- Points and texture coordinates of the first cell of row `r` in the final arrays, where
`S` is the state in which row `r` starts. -/
theorem rows_first_cell {α : Type} [LinearOrderedField α] (M : JSMath α)
    (radius pos_x pos_y pos_z alpha step : α) (cols : Nat) (hc : 0 < cols)
    (r R : Nat) (hr : r < R) (S : SphereLoop α)
    (hS : S = (obj_sphere.rowOf M radius pos_x pos_y pos_z alpha step cols)^[r]
      (obj_sphere.sphereStart pos_x pos_y pos_z step)) :
    (∃ post,
      ((obj_sphere.rowOf M radius pos_x pos_y pos_z alpha step cols)^[R]
          (obj_sphere.sphereStart pos_x pos_y pos_z step)).obj.pointsArray =
        S.obj.pointsArray ++
          cellPoints M radius pos_x pos_y pos_z { S with theta := step } ++ post) ∧
    (∃ post,
      ((obj_sphere.rowOf M radius pos_x pos_y pos_z alpha step cols)^[R]
          (obj_sphere.sphereStart pos_x pos_y pos_z step)).obj.texcoords =
        S.obj.texcoords ++ cellTex M { S with theta := step } ++ post) := by
  refine ⟨?_, ?_⟩
  · obtain ⟨p2, hp2⟩ := trace_prefix
      (fun k => ((obj_sphere.rowOf M radius pos_x pos_y pos_z alpha step cols)^[k]
        (obj_sphere.sphereStart pos_x pos_y pos_z step)).obj.pointsArray)
      (by
        intro k
        simp only [Function.iterate_succ_apply']
        obtain ⟨x, hx⟩ := (row_first_cell M radius pos_x pos_y pos_z alpha step cols hc
          ((obj_sphere.rowOf M radius pos_x pos_y pos_z alpha step cols)^[k]
            (obj_sphere.sphereStart pos_x pos_y pos_z step))).1
        exact ⟨_, by rw [hx, List.append_assoc]⟩)
      (r + 1) R hr
    simp only [Function.iterate_succ_apply'] at hp2
    rw [← hS] at hp2
    obtain ⟨p1, hp1⟩ := (row_first_cell M radius pos_x pos_y pos_z alpha step cols hc S).1
    exact ⟨p1 ++ p2, by rw [hp2, hp1, List.append_assoc]⟩
  · obtain ⟨p2, hp2⟩ := trace_prefix
      (fun k => ((obj_sphere.rowOf M radius pos_x pos_y pos_z alpha step cols)^[k]
        (obj_sphere.sphereStart pos_x pos_y pos_z step)).obj.texcoords)
      (by
        intro k
        simp only [Function.iterate_succ_apply']
        obtain ⟨x, hx⟩ := (row_first_cell M radius pos_x pos_y pos_z alpha step cols hc
          ((obj_sphere.rowOf M radius pos_x pos_y pos_z alpha step cols)^[k]
            (obj_sphere.sphereStart pos_x pos_y pos_z step))).2
        exact ⟨_, by rw [hx, List.append_assoc]⟩)
      (r + 1) R hr
    simp only [Function.iterate_succ_apply'] at hp2
    rw [← hS] at hp2
    obtain ⟨p1, hp1⟩ := (row_first_cell M radius pos_x pos_y pos_z alpha step cols hc S).2
    exact ⟨p1 ++ p2, by rw [hp2, hp1, List.append_assoc]⟩

/-! ### Triangles per row -/

/-- When `R*d = 180`, the first `r ≤ R` rows hold `(r - 1) + (r - [r = R])` triangles per
cell: row 0 lacks the first triangle and row `R - 1` the second. -/
theorem sum_rowTriangles_dvd {α : Type} [LinearOrderedField α] (d R : Nat) (hd : 0 < d)
    (hR : R * d = 180) (r : Nat) (hr : r ≤ R) :
    ∑ i in Finset.range r, rowTriangles (d : α) i =
      (r - 1) + (r - (if r = R then 1 else 0)) := by
  induction r with
  | zero =>
    have : R ≠ 0 := by rintro rfl; simp at hR
    simp
  | succ r ih =>
    rw [Finset.sum_range_succ, ih (by omega), rowTriangles]
    have hc : (((r + 1 : Nat) : α) * (d : α) = 180) ↔ r + 1 = R := by
      constructor
      · intro h
        have h' : (r + 1) * d = 180 := by exact_mod_cast h
        rw [← hR] at h'
        exact Nat.eq_of_mul_eq_mul_right hd h'
      · intro h
        rw [h]
        exact_mod_cast hR
    by_cases h1 : r + 1 = R
    · rw [if_pos (hc.mpr h1), if_neg (by omega : ¬ r = R), if_pos h1]
      split_ifs <;> omega
    · rw [if_neg (fun h => h1 (hc.mp h)), if_neg (by omega : ¬ r = R), if_neg h1]
      split_ifs <;> omega

/-- When `d` does not divide 180, the first `r` rows hold `(r - 1) + r` triangles per cell:
only row 0 lacks a triangle. -/
theorem sum_rowTriangles_not_dvd {α : Type} [LinearOrderedField α] (d : Nat)
    (hnd : ¬ d ∣ 180) (r : Nat) :
    ∑ i in Finset.range r, rowTriangles (d : α) i = (r - 1) + r := by
  induction r with
  | zero => simp
  | succ r ih =>
    rw [Finset.sum_range_succ, ih, rowTriangles]
    have hc : ¬ (((r + 1 : Nat) : α) * (d : α) = 180) := by
      intro h
      have h' : (r + 1) * d = 180 := by exact_mod_cast h
      exact hnd ⟨r + 1, by rw [← h', Nat.mul_comm]⟩
    rw [if_neg hc]
    split_ifs <;> omega

/-- C24: for every positive integer `degree = d` that divides 180, `obj_sphere` makes
`180/d` rows of `360/d + 1` cells; in row `r` (counted from 0) the first triangle of each
cell is skipped exactly when `r = 0` (`lastPhi = -90`) and the second exactly when `r` is
the last row (`phi = 90`), so it emits `(360/d + 1) * (360/d - 2)` triangles:
`numVertices = 3 * (360/d + 1) * (360/d - 2)`. -/
theorem obj_sphere_triangle_count {α : Type} [LinearOrderedField α] (M : JSMath α)
    (radius pos_x pos_y pos_z alpha : α) (d : Nat) (hd : 0 < d) (hdiv : d ∣ 180) :
    ∃ o, (∀ fuel, 360 / d + 1 ≤ fuel →
        obj_sphere M fuel radius pos_x pos_y pos_z alpha (d : α) = some o) ∧
      o = ((obj_sphere.rowOf M radius pos_x pos_y pos_z alpha (d : α) (360 / d + 1))^[180 / d]
        (obj_sphere.sphereStart pos_x pos_y pos_z (d : α))).obj ∧
      o.numVertices = 3 * (360 / d + 1) * (360 / d - 2) ∧
      (∀ r, r < 180 / d →
        (((obj_sphere.rowOf M radius pos_x pos_y pos_z alpha (d : α) (360 / d + 1))^[r]
          (obj_sphere.sphereStart pos_x pos_y pos_z (d : α))).lastPhi = -90 ↔ r = 0) ∧
        (((obj_sphere.rowOf M radius pos_x pos_y pos_z alpha (d : α) (360 / d + 1))^[r]
          (obj_sphere.sphereStart pos_x pos_y pos_z (d : α))).phi = 90 ↔ r + 1 = 180 / d)) := by
  have hd' : (0 : α) < (d : α) := by exact_mod_cast hd
  obtain ⟨q, hq⟩ := hdiv
  have hR : 180 / d = q := by rw [hq]; exact Nat.mul_div_cancel_left q hd
  have hN : 360 / d = 2 * q := by
    have : 360 = d * (2 * q) := by
      have e : d * (2 * q) = 2 * (d * q) := by ring
      omega
    rw [this]
    exact Nat.mul_div_cancel_left _ hd
  have hRd : q * d = 180 := by rw [hq, Nat.mul_comm]
  obtain ⟨b1, b2⟩ := nat_div_bounds α 360 d hd
  obtain ⟨c1, c2⟩ := nat_div_bounds α 180 d hd
  rw [Nat.cast_ofNat] at b1 b2 c1 c2
  have hrow := row_iterate_fields M radius pos_x pos_y pos_z alpha (d : α) hd' (360 / d + 1)
    (by omega)
  refine ⟨_, fun fuel hf => obj_sphere_eq_iterate M radius pos_x pos_y pos_z alpha (d : α) hd'
    (180 / d) (360 / d) c1 c2 b1 b2 fuel (by rw [hR]; omega) hf, rfl, ?_, ?_⟩
  · rw [(hrow (180 / d)).2.2.2, hR, sum_rowTriangles_dvd d q hd hRd q le_rfl, hN, if_pos rfl]
    have hq1 : 1 ≤ q := by
      rcases Nat.eq_zero_or_pos q with h | h
      · subst h; simp at hRd
      · exact h
    have e : 2 * q - 2 = (q - 1) + (q - 1) := by omega
    rw [e]
  · intro r hr
    rw [(hrow r).1, (hrow r).2.1, hR]
    refine ⟨?_, ?_⟩
    · constructor
      · intro h
        by_contra hne
        have hr' : (0 : α) < (r : α) := by exact_mod_cast Nat.pos_of_ne_zero hne
        have := mul_pos hr' hd'
        linarith
      · rintro rfl
        simp
    · constructor
      · intro h
        have h2 : ((r + 1 : Nat) : α) * (d : α) = 180 := by linarith
        have h' : (r + 1) * d = 180 := by exact_mod_cast h2
        rw [← hRd] at h'
        exact Nat.eq_of_mul_eq_mul_right hd h'
      · intro h
        rw [h]
        have : (q : α) * (d : α) = 180 := by exact_mod_cast hRd
        linarith

/-- Instances of `obj_sphere_triangle_count`: over the reals `obj_sphere(1, 0, 0, 0, 1, d)`
has 390 vertices for `d = 30`, 15330 for `d = 5` and none for `d = 180`. -/
theorem obj_sphere_triangle_count_witness :
    0 < 30 ∧ 30 ∣ 180 ∧
    (∃ o, obj_sphere (JSMath.mk Real.cos Real.sin Real.sqrt Real.pi) 13 1 0 0 0 1
        ((30 : Nat) : ℝ) = some o ∧ o.numVertices = 390) ∧
    (∃ o, obj_sphere (JSMath.mk Real.cos Real.sin Real.sqrt Real.pi) 73 1 0 0 0 1
        ((5 : Nat) : ℝ) = some o ∧ o.numVertices = 15330) ∧
    (∃ o, obj_sphere (JSMath.mk Real.cos Real.sin Real.sqrt Real.pi) 3 1 0 0 0 1
        ((180 : Nat) : ℝ) = some o ∧ o.numVertices = 0) :=
  ⟨by norm_num, by norm_num, by
    obtain ⟨o, ho, _, hn, _⟩ := obj_sphere_triangle_count
      (JSMath.mk Real.cos Real.sin Real.sqrt Real.pi) 1 0 0 0 1 30 (by norm_num)
      (by norm_num)
    exact ⟨o, ho 13 (by norm_num), by rw [hn]⟩, by
    obtain ⟨o, ho, _, hn, _⟩ := obj_sphere_triangle_count
      (JSMath.mk Real.cos Real.sin Real.sqrt Real.pi) 1 0 0 0 1 5 (by norm_num)
      (by norm_num)
    exact ⟨o, ho 73 (by norm_num), by rw [hn]⟩, by
    obtain ⟨o, ho, _, hn, _⟩ := obj_sphere_triangle_count
      (JSMath.mk Real.cos Real.sin Real.sqrt Real.pi) 1 0 0 0 1 180 (by norm_num)
      (by norm_num)
    exact ⟨o, ho 3 (by norm_num), by rw [hn]⟩⟩

/-- C29: for every integer `degree = d` with `0 < d < 180` that does not divide 180, the
latitude `phi` of `obj_sphere` never equals 90, so no row skips its second triangle:
`numVertices = 3 * (floor(360/d) + 1) * (2*floor(180/d) - 1)`; the last of the
`floor(180/d)` rows reaches the latitude `-90 + d*floor(180/d)`, which is below 90. -/
theorem obj_sphere_open_pole {α : Type} [LinearOrderedField α] (M : JSMath α)
    (radius pos_x pos_y pos_z alpha : α) (d : Nat) (hd : 0 < d) (hlt : d < 180)
    (hnd : ¬ d ∣ 180) :
    ∃ o, (∀ fuel, 360 / d + 1 ≤ fuel →
        obj_sphere M fuel radius pos_x pos_y pos_z alpha (d : α) = some o) ∧
      o = ((obj_sphere.rowOf M radius pos_x pos_y pos_z alpha (d : α) (360 / d + 1))^[180 / d]
        (obj_sphere.sphereStart pos_x pos_y pos_z (d : α))).obj ∧
      o.numVertices = 3 * (360 / d + 1) * (2 * (180 / d) - 1) ∧
      (∀ r,
        ((obj_sphere.rowOf M radius pos_x pos_y pos_z alpha (d : α) (360 / d + 1))^[r]
          (obj_sphere.sphereStart pos_x pos_y pos_z (d : α))).phi ≠ 90) ∧
      (∀ r, r < 180 / d →
        ((obj_sphere.rowOf M radius pos_x pos_y pos_z alpha (d : α) (360 / d + 1))^[r]
          (obj_sphere.sphereStart pos_x pos_y pos_z (d : α))).phi ≤
            -90 + (d : α) * ((180 / d : Nat) : α)) ∧
      ((obj_sphere.rowOf M radius pos_x pos_y pos_z alpha (d : α) (360 / d + 1))^[180 / d - 1]
          (obj_sphere.sphereStart pos_x pos_y pos_z (d : α))).phi =
        -90 + (d : α) * ((180 / d : Nat) : α) ∧
      -90 + (d : α) * ((180 / d : Nat) : α) < 90 := by
  have hd' : (0 : α) < (d : α) := by exact_mod_cast hd
  have hR1 : 1 ≤ 180 / d := (Nat.one_le_div_iff hd).mpr (by omega)
  have hRN : 180 / d ≤ 360 / d := Nat.div_le_div_right (by norm_num)
  obtain ⟨b1, b2⟩ := nat_div_bounds α 360 d hd
  obtain ⟨c1, c2⟩ := nat_div_bounds α 180 d hd
  rw [Nat.cast_ofNat] at b1 b2 c1 c2
  have hrow := row_iterate_fields M radius pos_x pos_y pos_z alpha (d : α) hd' (360 / d + 1)
    (by omega)
  refine ⟨_, fun fuel hf => obj_sphere_eq_iterate M radius pos_x pos_y pos_z alpha (d : α) hd'
    (180 / d) (360 / d) c1 c2 b1 b2 fuel (by omega) hf, rfl, ?_, ?_, ?_, ?_, ?_⟩
  · rw [(hrow (180 / d)).2.2.2, sum_rowTriangles_not_dvd d hnd]
    have e : 2 * (180 / d) - 1 = (180 / d - 1) + 180 / d := by omega
    rw [e]
  · intro r h
    rw [(hrow r).1] at h
    have h2 : ((r + 1 : Nat) : α) * (d : α) = 180 := by linarith
    have h' : (r + 1) * d = 180 := by exact_mod_cast h2
    exact hnd ⟨r + 1, by rw [← h', Nat.mul_comm]⟩
  · intro r hr
    rw [(hrow r).1]
    have hle : ((r + 1 : Nat) : α) ≤ ((180 / d : Nat) : α) := by exact_mod_cast hr
    have := mul_le_mul_of_nonneg_right hle (le_of_lt hd')
    linarith
  · rw [(hrow (180 / d - 1)).1, show 180 / d - 1 + 1 = 180 / d by omega]
    ring
  · have hne : 180 / d * d ≠ 180 := by
      intro h
      exact hnd ⟨180 / d, by rw [Nat.mul_comm]; exact h.symm⟩
    have hle : 180 / d * d ≤ 180 := Nat.div_mul_le_self 180 d
    have hltn : 180 / d * d < 180 := lt_of_le_of_ne hle hne
    have : ((180 / d : Nat) : α) * (d : α) < 180 := by exact_mod_cast hltn
    linarith

/-- Instance of `obj_sphere_open_pole`: `obj_sphere(1, 0, 0, 0, 1, 7)` over the reals has
`3 * 52 * 49 = 7644` vertices. -/
theorem obj_sphere_open_pole_witness :
    0 < 7 ∧ 7 < 180 ∧ ¬ 7 ∣ 180 ∧
    ∃ o, obj_sphere (JSMath.mk Real.cos Real.sin Real.sqrt Real.pi) 52 1 0 0 0 1
        ((7 : Nat) : ℝ) = some o ∧ o.numVertices = 7644 :=
  ⟨by norm_num, by norm_num, by norm_num, by
    obtain ⟨o, ho, _, hn, _⟩ := obj_sphere_open_pole
      (JSMath.mk Real.cos Real.sin Real.sqrt Real.pi) 1 0 0 0 1 7 (by norm_num)
      (by norm_num) (by norm_num)
    exact ⟨o, ho 52 (by norm_num), by rw [hn]⟩⟩

theorem spherePosition_period (radius pos_x pos_y pos_z theta phi : ℝ) :
    spherePosition (JSMath.mk Real.cos Real.sin Real.sqrt Real.pi) radius pos_x pos_y pos_z
        (theta + 2 * Real.pi) phi =
      spherePosition (JSMath.mk Real.cos Real.sin Real.sqrt Real.pi) radius pos_x pos_y pos_z
        theta phi := by
  simp only [spherePosition, Real.cos_add_two_pi, Real.sin_add_two_pi]

theorem triangleCross_self {α : Type} [Field α] (a c : α × α × α) :
    triangleCross a a c = (0, 0, 0) := by
  simp [triangleCross]

theorem cellPoints_of_fields {α : Type} [LinearOrderedField α] (M : JSMath α)
    (radius pos_x pos_y pos_z : α) (S : SphereLoop α) (t lt lp p : α)
    (h1 : S.lastTheta = lt) (h2 : S.lastPhi = lp) (h3 : S.phi = p) :
    cellPoints M radius pos_x pos_y pos_z { S with theta := t } =
      (if lp ≠ -90 then
        [spherePosition M radius pos_x pos_y pos_z (lt / 180 * M.PI) (lp / 180 * M.PI),
          spherePosition M radius pos_x pos_y pos_z (t / 180 * M.PI) (lp / 180 * M.PI),
          spherePosition M radius pos_x pos_y pos_z (lt / 180 * M.PI) (p / 180 * M.PI)]
       else []) ++
      (if p ≠ 90 then
        [spherePosition M radius pos_x pos_y pos_z (t / 180 * M.PI) (p / 180 * M.PI),
          spherePosition M radius pos_x pos_y pos_z (lt / 180 * M.PI) (p / 180 * M.PI),
          spherePosition M radius pos_x pos_y pos_z (t / 180 * M.PI) (lp / 180 * M.PI)]
       else []) := by
  subst h1 h2 h3
  rfl

theorem cellTex_of_fields {α : Type} [LinearOrderedField α] (M : JSMath α)
    (S : SphereLoop α) (t lt lp p : α)
    (h1 : S.lastTheta = lt) (h2 : S.lastPhi = lp) (h3 : S.phi = p) :
    cellTex M { S with theta := t } =
      (if lp ≠ -90 then
        [0 + lt / 180 * M.PI / M.PI / 2, 0 + lp / 180 * M.PI / M.PI + 1 / 2,
          0 + t / 180 * M.PI / M.PI / 2, 0 + lp / 180 * M.PI / M.PI + 1 / 2,
          0 + lt / 180 * M.PI / M.PI / 2, 0 + p / 180 * M.PI / M.PI + 1 / 2]
       else []) ++
      (if p ≠ 90 then
        [0 + t / 180 * M.PI / M.PI / 2, 0 + p / 180 * M.PI / M.PI + 1 / 2,
          0 + lt / 180 * M.PI / M.PI / 2, 0 + p / 180 * M.PI / M.PI + 1 / 2,
          0 + t / 180 * M.PI / M.PI / 2, 0 + lp / 180 * M.PI / M.PI + 1 / 2]
       else []) := by
  subst h1 h2 h3
  rfl

/-- The corners of the first triangle of the second row of `obj_sphere(1, 0, 0, 0, 1, 7)`:
two of them differ and the cross product of the edges does not vanish. -/
theorem seam_triangle_degree_seven :
    spherePosition (JSMath.mk Real.cos Real.sin Real.sqrt Real.pi) 1 0 0 0
        (364 / 180 * Real.pi) (-83 / 180 * Real.pi) ≠
      spherePosition (JSMath.mk Real.cos Real.sin Real.sqrt Real.pi) 1 0 0 0
        (7 / 180 * Real.pi) (-83 / 180 * Real.pi) ∧
    triangleCross
      (xyz (spherePosition (JSMath.mk Real.cos Real.sin Real.sqrt Real.pi) 1 0 0 0
        (364 / 180 * Real.pi) (-83 / 180 * Real.pi)))
      (xyz (spherePosition (JSMath.mk Real.cos Real.sin Real.sqrt Real.pi) 1 0 0 0
        (7 / 180 * Real.pi) (-83 / 180 * Real.pi)))
      (xyz (spherePosition (JSMath.mk Real.cos Real.sin Real.sqrt Real.pi) 1 0 0 0
        (364 / 180 * Real.pi) (-76 / 180 * Real.pi))) ≠ (0, 0, 0) := by
  have hpi := Real.pi_pos
  have hc4 : Real.cos (364 / 180 * Real.pi) = Real.cos (4 / 180 * Real.pi) := by
    rw [show (364 : ℝ) / 180 * Real.pi = 4 / 180 * Real.pi + 2 * Real.pi by ring,
      Real.cos_add_two_pi]
  have hcos : Real.cos (7 / 180 * Real.pi) < Real.cos (4 / 180 * Real.pi) :=
    Real.cos_lt_cos_of_nonneg_of_le_pi (by positivity) (by nlinarith) (by nlinarith)
  have hcphi : 0 < Real.cos (-83 / 180 * Real.pi) :=
    Real.cos_pos_of_mem_Ioo ⟨by nlinarith, by nlinarith⟩
  have hsin : Real.sin (-83 / 180 * Real.pi) < Real.sin (-76 / 180 * Real.pi) :=
    Real.sin_lt_sin_of_lt_of_le_pi_div_two (by nlinarith) (by nlinarith) (by nlinarith)
  generalize hA : Real.cos (4 / 180 * Real.pi) = c4 at hc4 hcos
  generalize hB : Real.cos (7 / 180 * Real.pi) = c7 at hcos
  generalize hC : Real.cos (-83 / 180 * Real.pi) = cp at hcphi
  generalize hD : Real.sin (-83 / 180 * Real.pi) = s1 at hsin
  generalize hE : Real.sin (-76 / 180 * Real.pi) = s2 at hsin
  refine ⟨?_, ?_⟩
  · intro h
    have hx : (spherePosition (JSMath.mk Real.cos Real.sin Real.sqrt Real.pi) 1 0 0 0
        (364 / 180 * Real.pi) (-83 / 180 * Real.pi)).x =
      (spherePosition (JSMath.mk Real.cos Real.sin Real.sqrt Real.pi) 1 0 0 0
        (7 / 180 * Real.pi) (-83 / 180 * Real.pi)).x := by rw [h]
    simp only [spherePosition, scalev] at hx
    rw [hc4, hB, hC] at hx
    have h1 : (c4 - c7) * cp = 0 := by linarith
    have h2 : 0 < (c4 - c7) * cp := mul_pos (by linarith) hcphi
    linarith
  · intro h
    have hz : (triangleCross
      (xyz (spherePosition (JSMath.mk Real.cos Real.sin Real.sqrt Real.pi) 1 0 0 0
        (364 / 180 * Real.pi) (-83 / 180 * Real.pi)))
      (xyz (spherePosition (JSMath.mk Real.cos Real.sin Real.sqrt Real.pi) 1 0 0 0
        (7 / 180 * Real.pi) (-83 / 180 * Real.pi)))
      (xyz (spherePosition (JSMath.mk Real.cos Real.sin Real.sqrt Real.pi) 1 0 0 0
        (364 / 180 * Real.pi) (-76 / 180 * Real.pi)))).2.2 = 0 := by rw [h]
    simp only [triangleCross, xyz, spherePosition, scalev] at hz
    rw [hc4, hB, hC, hD, hE] at hz
    have h1 : (c4 - c7) * cp * (s2 - s1) = 0 := by linarith
    have h2 : 0 < (c4 - c7) * cp * (s2 - s1) :=
      mul_pos (mul_pos (by linarith) hcphi) (by linarith)
    linarith

/-- C28 as stated fails for a `degree` that does not divide 360: over the reals, with
`degree = 7` the inner loop ends at `theta = 364`, so the first cell of the second row uses
`theta1 = 364` (not `360 + 7`) and `theta2 = 7`, which are not congruent modulo 360; the
first triangle of that cell has two different corners on the latitude `-83` and its cross
product `(B - A) × (C - A)` does not vanish. -/
theorem obj_sphere_seam_not_degenerate :
    ∃ o post, obj_sphere (JSMath.mk Real.cos Real.sin Real.sqrt Real.pi) 52 1 0 0 0 1
        ((7 : Nat) : ℝ) = some o ∧
      ((obj_sphere.rowOf (JSMath.mk Real.cos Real.sin Real.sqrt Real.pi) 1 0 0 0 1
        ((7 : Nat) : ℝ) 52)^[1] (obj_sphere.sphereStart 0 0 0 ((7 : Nat) : ℝ))).lastTheta = 364 ∧
      (364 : ℝ) ≠ 360 + 7 ∧
      o.pointsArray =
        ((obj_sphere.rowOf (JSMath.mk Real.cos Real.sin Real.sqrt Real.pi) 1 0 0 0 1
          ((7 : Nat) : ℝ) 52)^[1] (obj_sphere.sphereStart 0 0 0 ((7 : Nat) : ℝ))).obj.pointsArray ++
        [spherePosition (JSMath.mk Real.cos Real.sin Real.sqrt Real.pi) 1 0 0 0
            (364 / 180 * Real.pi) (-83 / 180 * Real.pi),
          spherePosition (JSMath.mk Real.cos Real.sin Real.sqrt Real.pi) 1 0 0 0
            (7 / 180 * Real.pi) (-83 / 180 * Real.pi),
          spherePosition (JSMath.mk Real.cos Real.sin Real.sqrt Real.pi) 1 0 0 0
            (364 / 180 * Real.pi) (-76 / 180 * Real.pi)] ++ post ∧
      spherePosition (JSMath.mk Real.cos Real.sin Real.sqrt Real.pi) 1 0 0 0
          (364 / 180 * Real.pi) (-83 / 180 * Real.pi) ≠
        spherePosition (JSMath.mk Real.cos Real.sin Real.sqrt Real.pi) 1 0 0 0
          (7 / 180 * Real.pi) (-83 / 180 * Real.pi) ∧
      triangleCross
        (xyz (spherePosition (JSMath.mk Real.cos Real.sin Real.sqrt Real.pi) 1 0 0 0
          (364 / 180 * Real.pi) (-83 / 180 * Real.pi)))
        (xyz (spherePosition (JSMath.mk Real.cos Real.sin Real.sqrt Real.pi) 1 0 0 0
          (7 / 180 * Real.pi) (-83 / 180 * Real.pi)))
        (xyz (spherePosition (JSMath.mk Real.cos Real.sin Real.sqrt Real.pi) 1 0 0 0
          (364 / 180 * Real.pi) (-76 / 180 * Real.pi))) ≠ (0, 0, 0) := by
  have hpi := Real.pi_pos
  have hd' : (0 : ℝ) < ((7 : Nat) : ℝ) := by norm_num
  obtain ⟨b1, b2⟩ := nat_div_bounds ℝ 360 7 (by norm_num)
  obtain ⟨c1, c2⟩ := nat_div_bounds ℝ 180 7 (by norm_num)
  rw [Nat.cast_ofNat] at b1 b2 c1 c2
  have hrun := obj_sphere_eq_iterate (JSMath.mk Real.cos Real.sin Real.sqrt Real.pi)
    1 0 0 0 1 ((7 : Nat) : ℝ) hd' (180 / 7) (360 / 7) c1 c2 b1 b2 52 (by norm_num)
    (by norm_num)
  have h52 : 360 / 7 + 1 = 52 := by norm_num
  rw [h52] at hrun
  obtain ⟨hphi, hlphi, hlt, _⟩ := row_iterate_fields
    (JSMath.mk Real.cos Real.sin Real.sqrt Real.pi) 1 0 0 0 1 ((7 : Nat) : ℝ) hd' 52
    (by norm_num) 1
  obtain ⟨⟨post, hpost⟩, _⟩ := rows_first_cell
    (JSMath.mk Real.cos Real.sin Real.sqrt Real.pi) 1 0 0 0 1 ((7 : Nat) : ℝ) 52
    (by norm_num) 1 (180 / 7) (by norm_num) _ rfl
  generalize hS : (obj_sphere.rowOf (JSMath.mk Real.cos Real.sin Real.sqrt Real.pi) 1 0 0 0 1
    ((7 : Nat) : ℝ) 52)^[1] (obj_sphere.sphereStart 0 0 0 ((7 : Nat) : ℝ)) = S
    at hphi hlphi hlt hpost ⊢
  have e1 : S.lastTheta = 364 := by
    rw [hlt]
    norm_num
  have e2 : S.lastPhi = -83 := by
    rw [hlphi]
    norm_num
  have e3 : S.phi = -76 := by
    rw [hphi]
    norm_num
  have hcell := cellPoints_of_fields (JSMath.mk Real.cos Real.sin Real.sqrt Real.pi) 1 0 0 0
    S ((7 : Nat) : ℝ) 364 (-83) (-76) e1 e2 e3
  rw [if_pos (by norm_num), if_pos (by norm_num)] at hcell
  rw [hcell] at hpost
  refine ⟨_,
    [spherePosition (JSMath.mk Real.cos Real.sin Real.sqrt Real.pi) 1 0 0 0
        (7 / 180 * Real.pi) (-76 / 180 * Real.pi),
      spherePosition (JSMath.mk Real.cos Real.sin Real.sqrt Real.pi) 1 0 0 0
        (364 / 180 * Real.pi) (-76 / 180 * Real.pi),
      spherePosition (JSMath.mk Real.cos Real.sin Real.sqrt Real.pi) 1 0 0 0
        (7 / 180 * Real.pi) (-83 / 180 * Real.pi)] ++ post, hrun, e1, by norm_num, ?_, ?_, ?_⟩
  · rw [hpost]
    simp only [Nat.cast_ofNat, List.append_assoc]
  · exact seam_triangle_degree_seven.1
  · exact seam_triangle_degree_seven.2

/-- C28, amended: in `obj_sphere` the variable `lastTheta` is not reset between latitude
rows. For every positive integer `degree = d` that divides 360, over the reals: the first
row starts with `lastTheta = 0`, so its first cell spans 0 to `d` degrees; every later row
`r` (`1 ≤ r < floor(180/d)`) starts with `lastTheta = 360 + d`, so its first cell uses
`theta1 = 360 + d` and `theta2 = d`. The points and texture coordinates of that cell stand
in the returned arrays right after those of the rows before; the two longitudes give the
same points, so in each of its triangles two corners coincide and the cross product of the
edges is zero, while the `u` texture coordinates are `(360+d)/360` and `d/360`. -/
theorem obj_sphere_seam (radius pos_x pos_y pos_z alpha : ℝ) (d : Nat) (hd : 0 < d)
    (hdiv : d ∣ 360) :
    ∃ o, (∀ fuel, 360 / d + 1 ≤ fuel →
        obj_sphere (JSMath.mk Real.cos Real.sin Real.sqrt Real.pi) fuel radius pos_x pos_y
          pos_z alpha (d : ℝ) = some o) ∧
      (obj_sphere.sphereStart pos_x pos_y pos_z (d : ℝ)).lastTheta = 0 ∧
      ∀ r, 1 ≤ r → r < 180 / d → ∀ S : SphereLoop ℝ,
        S = (obj_sphere.rowOf (JSMath.mk Real.cos Real.sin Real.sqrt Real.pi) radius pos_x
          pos_y pos_z alpha (d : ℝ) (360 / d + 1))^[r]
          (obj_sphere.sphereStart pos_x pos_y pos_z (d : ℝ)) →
        ∀ P : ℝ → ℝ → Vec4 ℝ,
        P = spherePosition (JSMath.mk Real.cos Real.sin Real.sqrt Real.pi) radius pos_x pos_y
          pos_z →
        ∀ theta1 theta2 phi1 phi2 : ℝ,
        theta1 = (360 + (d : ℝ)) / 180 * Real.pi → theta2 = (d : ℝ) / 180 * Real.pi →
        phi1 = (-90 + (r : ℝ) * (d : ℝ)) / 180 * Real.pi →
        phi2 = (-90 + ((r + 1 : Nat) : ℝ) * (d : ℝ)) / 180 * Real.pi →
        S.lastTheta = 360 + (d : ℝ) ∧
        (∃ post, o.pointsArray = S.obj.pointsArray ++
          ([P theta1 phi1, P theta2 phi1, P theta1 phi2] ++
            (if (r + 1) * d = 180 then []
             else [P theta2 phi2, P theta1 phi2, P theta2 phi1])) ++ post) ∧
        (∃ post, o.texcoords = S.obj.texcoords ++
          ([(360 + (d : ℝ)) / 360, (-90 + (r : ℝ) * (d : ℝ)) / 180 + 1 / 2,
            (d : ℝ) / 360, (-90 + (r : ℝ) * (d : ℝ)) / 180 + 1 / 2,
            (360 + (d : ℝ)) / 360, (-90 + ((r + 1 : Nat) : ℝ) * (d : ℝ)) / 180 + 1 / 2] ++
            (if (r + 1) * d = 180 then []
             else [(d : ℝ) / 360, (-90 + ((r + 1 : Nat) : ℝ) * (d : ℝ)) / 180 + 1 / 2,
              (360 + (d : ℝ)) / 360, (-90 + ((r + 1 : Nat) : ℝ) * (d : ℝ)) / 180 + 1 / 2,
              (d : ℝ) / 360, (-90 + (r : ℝ) * (d : ℝ)) / 180 + 1 / 2])) ++ post) ∧
        P theta1 phi1 = P theta2 phi1 ∧ P theta1 phi2 = P theta2 phi2 ∧
        triangleCross (xyz (P theta1 phi1)) (xyz (P theta2 phi1)) (xyz (P theta1 phi2)) =
          (0, 0, 0) ∧
        triangleCross (xyz (P theta2 phi2)) (xyz (P theta1 phi2)) (xyz (P theta2 phi1)) =
          (0, 0, 0) := by
  have hpi : Real.pi ≠ 0 := ne_of_gt Real.pi_pos
  have hd' : (0 : ℝ) < (d : ℝ) := by exact_mod_cast hd
  have hRN : 180 / d ≤ 360 / d := Nat.div_le_div_right (by norm_num)
  obtain ⟨b1, b2⟩ := nat_div_bounds ℝ 360 d hd
  obtain ⟨c1, c2⟩ := nat_div_bounds ℝ 180 d hd
  rw [Nat.cast_ofNat] at b1 b2 c1 c2
  have hNd : ((360 / d + 1 : Nat) : ℝ) * (d : ℝ) = 360 + (d : ℝ) := by
    have h1 : 360 / d * d = 360 := Nat.div_mul_cancel hdiv
    have h2 : ((360 / d : Nat) : ℝ) * (d : ℝ) = 360 := by exact_mod_cast h1
    push_cast
    linarith
  have hu : ∀ x : ℝ, 0 + x / 180 * Real.pi / Real.pi / 2 = x / 360 := by
    intro x
    field_simp
    ring
  have hv : ∀ x : ℝ, 0 + x / 180 * Real.pi / Real.pi + 1 / 2 = x / 180 + 1 / 2 := by
    intro x
    field_simp
    ring
  refine ⟨_, fun fuel hf => obj_sphere_eq_iterate _ radius pos_x pos_y pos_z alpha (d : ℝ) hd'
    (180 / d) (360 / d) c1 c2 b1 b2 fuel (by omega) hf, rfl, ?_⟩
  intro r hr1 hrR S hS P hP theta1 theta2 phi1 phi2 ht1 ht2 hp1 hp2
  obtain ⟨hphi, hlphi, hlt, _⟩ := row_iterate_fields
    (JSMath.mk Real.cos Real.sin Real.sqrt Real.pi) radius pos_x pos_y pos_z alpha (d : ℝ)
    hd' (360 / d + 1) (by omega) r
  obtain ⟨⟨post, hpost⟩, ⟨tpost, htpost⟩⟩ := rows_first_cell
    (JSMath.mk Real.cos Real.sin Real.sqrt Real.pi) radius pos_x pos_y pos_z alpha (d : ℝ)
    (360 / d + 1) (by omega) r (180 / d) hrR S hS
  rw [← hS] at hphi hlphi hlt
  have e1 : S.lastTheta = 360 + (d : ℝ) := by
    rw [hlt, if_neg (by omega : ¬ r = 0), hNd]
  have hcell := cellPoints_of_fields (JSMath.mk Real.cos Real.sin Real.sqrt Real.pi) radius
    pos_x pos_y pos_z S (d : ℝ) _ _ _ e1 hlphi hphi
  have htex := cellTex_of_fields (JSMath.mk Real.cos Real.sin Real.sqrt Real.pi)
    S (d : ℝ) _ _ _ e1 hlphi hphi
  have hr0 : (0 : ℝ) < (r : ℝ) := by exact_mod_cast hr1
  have hne : (-90 : ℝ) + (r : ℝ) * (d : ℝ) ≠ -90 := by
    have := mul_pos hr0 hd'
    intro h
    linarith
  have hcond : ((-90 : ℝ) + ((r + 1 : Nat) : ℝ) * (d : ℝ) ≠ 90) ↔ ¬ (r + 1) * d = 180 := by
    constructor
    · intro h h2
      apply h
      have : ((r + 1 : Nat) : ℝ) * (d : ℝ) = 180 := by exact_mod_cast h2
      linarith
    · intro h h2
      apply h
      have : ((r + 1 : Nat) : ℝ) * (d : ℝ) = 180 := by linarith
      exact_mod_cast this
  rw [if_pos hne] at hcell htex
  have hper : ∀ phi, P theta1 phi = P theta2 phi := by
    intro phi
    rw [hP, ht1, ht2, show (360 + (d : ℝ)) / 180 * Real.pi =
      (d : ℝ) / 180 * Real.pi + 2 * Real.pi by ring, spherePosition_period]
  refine ⟨e1, ⟨post, ?_⟩, ⟨tpost, ?_⟩, hper phi1, hper phi2, ?_, ?_⟩
  · rw [hpost, hcell, hP, ht1, ht2, hp1, hp2]
    by_cases hc : (r + 1) * d = 180
    · rw [if_neg (fun h => hcond.mp h hc), if_pos hc]
    · rw [if_pos (hcond.mpr hc), if_neg hc]
  · rw [htpost, htex]
    simp only [hu, hv]
    by_cases hc : (r + 1) * d = 180
    · rw [if_neg (fun h => hcond.mp h hc), if_pos hc]
    · rw [if_pos (hcond.mpr hc), if_neg hc]
  · rw [hper phi1]
    exact triangleCross_self _ _
  · rw [hper phi2]
    exact triangleCross_self _ _

/-- Instance of `obj_sphere_seam`: `obj_sphere(1, 0, 0, 0, 1, 30)` over the reals
returns. -/
theorem obj_sphere_seam_witness :
    0 < 30 ∧ 30 ∣ 360 ∧
    ∃ o, obj_sphere (JSMath.mk Real.cos Real.sin Real.sqrt Real.pi) 13 1 0 0 0 1
        ((30 : Nat) : ℝ) = some o :=
  ⟨by norm_num, by norm_num, by
    obtain ⟨o, ho, _⟩ := obj_sphere_seam 1 0 0 0 1 30 (by norm_num) (by norm_num)
    exact ⟨o, ho 13 (by norm_num)⟩⟩

/-! ### Allocation limit -/

theorem newTypedArray_within {β : Type} (zero : β) (n : Int) (L : Option Nat)
    (hfit : ∀ l, L = some l → n ≤ (l : Int)) :
    newTypedArray zero n L = newTypedArray zero n := by
  cases L with
  | none => rfl
  | some l =>
    have := hfit l rfl
    simp only [newTypedArray]
    by_cases h0 : n < 0
    · rw [if_pos (Or.inl h0), if_pos h0]
    · rw [if_neg (by omega), if_neg h0]

theorem newTypedArray_exceeds {β : Type} (zero : β) (n : Int) (l : Nat) (h : (l : Int) < n) :
    newTypedArray zero n (some l) = Except.error JSError.rangeError := by
  simp only [newTypedArray]
  rw [if_pos (Or.inr h)]

/-- Within the limit of the engine the four allocations go as without a limit. -/
theorem allocate_within {β : Type} (zero : β) (a b c d : Int) (L : Option Nat)
    (hfit : ∀ l, L = some l → a ≤ (l : Int) ∧ b ≤ (l : Int) ∧ c ≤ (l : Int) ∧ d ≤ (l : Int)) :
    allocate zero a b c d L = allocate zero a b c d := by
  simp only [allocate]
  rw [newTypedArray_within zero a L (fun l hl => (hfit l hl).1),
    newTypedArray_within zero b L (fun l hl => (hfit l hl).2.1),
    newTypedArray_within zero c L (fun l hl => (hfit l hl).2.2.1),
    newTypedArray_within 0 d L (fun l hl => (hfit l hl).2.2.2)]

/-- The first allocation raises when its length is above the limit of the engine. -/
theorem allocate_exceeds {β : Type} (zero : β) (a b c d : Int) (l : Nat)
    (h : (l : Int) < a) : allocate zero a b c d (some l) = Except.error JSError.rangeError := by
  simp only [allocate, newTypedArray_exceeds zero a l h]
  rfl

theorem ring_within_limit {α : Type} [Field α] [DecidableEq α] (M : JSMath α) (g : Globals α)
    (argumentsLength : Nat) (innerRadius outerRadius : Option α) (slices : Option Int)
    (L : Option Nat) (h0 : 0 < orDefault slices 32)
    (hfit : ∀ l, L = some l → 6 * orDefault slices 32 ≤ (l : Int)) :
    ring M g argumentsLength innerRadius outerRadius slices L =
      ring M g argumentsLength innerRadius outerRadius slices := by
  simp only [ring, ring.run]
  rw [allocate_within _ _ _ _ _ L (fun l hl => by
    have := hfit l hl
    refine ⟨?_, ?_, ?_, ?_⟩ <;> split_ifs <;> omega)]

theorem uvSphere_within_limit {α : Type} [Field α] [DecidableEq α] (M : JSMath α)
    (radius : Option α) (slices nstacks : Option Int) (pos_x pos_y pos_z : Option α)
    (L : Option Nat) (h0 : 0 < orDefault slices 32) (h1 : 0 < orDefault nstacks 16)
    (hfit : ∀ l, L = some l →
      6 * ((orDefault slices 32 + 1) * (orDefault nstacks 16 + 1)) ≤ (l : Int)) :
    uvSphere M radius slices nstacks pos_x pos_y pos_z L =
      uvSphere M radius slices nstacks pos_x pos_y pos_z := by
  simp only [uvSphere, uvSphere.run]
  rw [allocate_within _ _ _ _ _ L (fun l hl => by
    have := hfit l hl
    generalize orDefault slices 32 = k at h0 this ⊢
    generalize orDefault nstacks 16 = j at h1 this ⊢
    have e : (k + 1) * (j + 1) = k * j + k + j + 1 := by ring
    have hkj : 0 < k * j := mul_pos h0 h1
    rw [e] at this ⊢
    have e2 : 2 * k * j * 3 = 6 * (k * j) := by ring
    rw [e2]
    refine ⟨?_, ?_, ?_, ?_⟩ <;> omega)]

theorem uvTorus_within_limit {α : Type} [Field α] [DecidableEq α] (M : JSMath α)
    (outerRadius innerRadius : Option α) (slices nstacks : Option Int)
    (L : Option Nat) (h0 : 0 < orDefault slices 32) (h1 : 0 < orDefault nstacks 16)
    (hfit : ∀ l, L = some l →
      6 * ((orDefault slices 32 + 1) * (orDefault nstacks 16 + 1)) ≤ (l : Int)) :
    uvTorus M outerRadius innerRadius slices nstacks L =
      uvTorus M outerRadius innerRadius slices nstacks := by
  simp only [uvTorus, uvTorus.run]
  rw [allocate_within _ _ _ _ _ L (fun l hl => by
    have := hfit l hl
    generalize orDefault slices 32 = k at h0 this ⊢
    generalize orDefault nstacks 16 = j at h1 this ⊢
    have e : (k + 1) * (j + 1) = k * j + k + j + 1 := by ring
    have hkj : 0 < k * j := mul_pos h0 h1
    rw [e] at this ⊢
    have e2 : 2 * k * j * 3 = 6 * (k * j) := by ring
    rw [e2]
    refine ⟨?_, ?_, ?_, ?_⟩ <;> omega)]

theorem uvCylinder_within_limit {α : Type} [Field α] [DecidableEq α] (M : JSMath α)
    (radius height : Option α) (slices : Option Int) (noTop noBottom : Bool)
    (L : Option Nat)
    (hfit : ∀ l, L = some l → 12 * orDefault slices 32 + 18 ≤ (l : Int)) :
    uvCylinder M radius height slices noTop noBottom L =
      uvCylinder M radius height slices noTop noBottom := by
  simp only [uvCylinder, uvCylinder.run]
  rw [allocate_within _ _ _ _ _ L (fun l hl => by
    have := hfit l hl
    refine ⟨?_, ?_, ?_, ?_⟩ <;> split_ifs <;> omega)]

theorem uvCone_within_limit {α : Type} [Field α] [DecidableEq α] (M : JSMath α)
    (radius height : Option α) (slices : Option Int) (noBottom : Bool)
    (L : Option Nat)
    (hfit : ∀ l, L = some l → 30 * orDefault slices 32 + 21 ≤ (l : Int)) :
    uvCone M radius height slices noBottom L = uvCone M radius height slices noBottom := by
  simp only [uvCone, uvCone.run]
  rw [allocate_within _ _ _ _ _ L (fun l hl => by
    have := hfit l hl
    simp only [uvCone.fractions, List.length_cons, List.length_nil]
    refine ⟨?_, ?_, ?_, ?_⟩ <;> split_ifs <;> push_cast <;> omega)]

theorem orDefault_pos_int (x : Option Int) (d : Int) (hd : 0 < d)
    (hx : ∀ n, x = some n → 0 ≤ n) : 0 < orDefault x d := by
  obtain ⟨k, hk, hke⟩ := orDefault_pos x d hd hx
  rw [hke]
  exact_mod_cast hk

/-- C12, amended: every call of `ring`, `uvSphere`, `uvTorus`, `uvCylinder` and `uvCone`
whose `slices` and `stacks` are missing, zero or positive integers returns a mesh and does
not raise, for every tuple of the other arguments (missing, zero, negative, or with
`innerRadius >= outerRadius`), provided that the engine allocates the typed arrays: with
`s = slices || 32` and `t = stacks || 16`, it is enough that the largest length the engine
allocates is at least `6*s` for `ring`, `6*(s+1)*(t+1)` for `uvSphere` and `uvTorus`,
`12*s + 18` for `uvCylinder` and `30*s + 21` for `uvCone`.  `ring` raises a `RangeError`
when `slices` is negative, and when `slices` is larger than the largest length the engine
allocates. -/
theorem generators_return {α : Type} [Field α] [DecidableEq α] (M : JSMath α) (g : Globals α)
    (slices nstacks : Option Int) (hs : ∀ n, slices = some n → 0 ≤ n)
    (ht : ∀ n, nstacks = some n → 0 ≤ n) (maxLength : Option Nat) :
    (∀ (argumentsLength : Nat) (innerRadius outerRadius : Option α),
      (∀ l, maxLength = some l → 6 * orDefault slices 32 ≤ (l : Int)) →
      ∃ m, ring M g argumentsLength innerRadius outerRadius slices maxLength = Except.ok m) ∧
    (∀ radius pos_x pos_y pos_z : Option α,
      (∀ l, maxLength = some l →
        6 * ((orDefault slices 32 + 1) * (orDefault nstacks 16 + 1)) ≤ (l : Int)) →
      ∃ m, uvSphere M radius slices nstacks pos_x pos_y pos_z maxLength = Except.ok m) ∧
    (∀ outerRadius innerRadius : Option α,
      (∀ l, maxLength = some l →
        6 * ((orDefault slices 32 + 1) * (orDefault nstacks 16 + 1)) ≤ (l : Int)) →
      ∃ m, uvTorus M outerRadius innerRadius slices nstacks maxLength = Except.ok m) ∧
    (∀ (radius height : Option α) (noTop noBottom : Bool),
      (∀ l, maxLength = some l → 12 * orDefault slices 32 + 18 ≤ (l : Int)) →
      ∃ m, uvCylinder M radius height slices noTop noBottom maxLength = Except.ok m) ∧
    (∀ (radius height : Option α) (noBottom : Bool),
      (∀ l, maxLength = some l → 30 * orDefault slices 32 + 21 ≤ (l : Int)) →
      ∃ m, uvCone M radius height slices noBottom maxLength = Except.ok m) ∧
    (∀ (argumentsLength : Nat) (innerRadius outerRadius : Option α) (n : Int), n < 0 →
      ring M g argumentsLength innerRadius outerRadius (some n) maxLength =
        Except.error JSError.rangeError) ∧
    (∀ (argumentsLength : Nat) (innerRadius outerRadius : Option α) (n : Int) (l : Nat),
      (l : Int) < n →
      ring M g argumentsLength innerRadius outerRadius (some n) (some l) =
        Except.error JSError.rangeError) := by
  obtain ⟨k, hk, hke⟩ := orDefault_pos slices 32 (by norm_num) hs
  obtain ⟨j, hj, hje⟩ := orDefault_pos nstacks 16 (by norm_num) ht
  have hk0 := orDefault_pos_int slices 32 (by norm_num) hs
  have hj0 := orDefault_pos_int nstacks 16 (by norm_num) ht
  refine ⟨?_, ?_, ?_, ?_, ?_, ?_, ?_⟩
  · intro a i o hfit
    rw [ring_within_limit M g a i o slices maxLength hk0 hfit, ring_slices_default, hke]
    obtain ⟨m, hm, _⟩ := ring_mesh_spec M g a i o k hk
    exact ⟨m, hm⟩
  · intro r x y z hfit
    rw [uvSphere_within_limit M r slices nstacks x y z maxLength hk0 hj0 hfit,
      uvSphere_slices_default, hke, hje]
    obtain ⟨m, hm, _⟩ := uvSphere_mesh_spec M r k j hk hj x y z
    exact ⟨m, hm⟩
  · intro o i hfit
    rw [uvTorus_within_limit M o i slices nstacks maxLength hk0 hj0 hfit,
      uvTorus_slices_default, hke, hje]
    obtain ⟨m, hm, _⟩ := uvTorus_mesh_spec M o i k j hk hj
    exact ⟨m, hm⟩
  · intro r h nt nb hfit
    rw [uvCylinder_within_limit M r h slices nt nb maxLength hfit,
      uvCylinder_slices_default, hke]
    obtain ⟨m, hm, _⟩ := uvCylinder_mesh_spec M r h k hk nt nb
    exact ⟨m, hm⟩
  · intro r h nb hfit
    rw [uvCone_within_limit M r h slices nb maxLength hfit, uvCone_slices_default, hke]
    obtain ⟨m, hm, _⟩ := uvCone_mesh_spec M r h k hk nb
    exact ⟨m, hm⟩
  · intro a i o n hn
    have hn0 : n ≠ 0 := ne_of_lt hn
    simp only [ring, ring.run, orDefault_some _ _ hn0, allocate, newTypedArray]
    cases maxLength with
    | none => simp only []; split_ifs <;> first | rfl | omega
    | some l => simp only []; split_ifs <;> first | rfl | omega
  · intro a i o n l hl
    have hn0 : n ≠ 0 := by omega
    simp only [ring, ring.run, orDefault_some _ _ hn0]
    rw [allocate_exceeds _ _ _ _ _ l (by split_ifs <;> omega)]
    rfl

/-- Instance of `generators_return`: `uvSphere(1, 0, undefined)` over the reals, on an
engine whose largest typed array has 10000 elements. -/
theorem generators_return_witness :
    ∃ m, uvSphere (JSMath.mk Real.cos Real.sin Real.sqrt Real.pi) (some 1) (some 0) none
      none none none (some 10000) = Except.ok m :=
  (generators_return (JSMath.mk Real.cos Real.sin Real.sqrt Real.pi) { c := none, s := none }
    (some 0) none (by intro n h; cases h; exact le_rfl) (by intro n h; cases h)
    (some 10000)).2.1 (some 1) none none none (by
      intro l hl
      cases hl
      simp [orDefault])

/-! ### Every slot is written once -/

theorem allocate_writes {β : Type} (zero : β) (a b c d : Int) (L : Option Nat)
    (b0 : Buffers β) (h : allocate zero a b c d L = Except.ok b0) :
    WritesInOrder b0 ∧ b0.writesN = [] ∧ b0.ki = 0 := by
  unfold allocate at h
  cases h1 : newTypedArray zero a L with
  | error e => rw [h1] at h; cases h
  | ok v1 =>
    cases h2 : newTypedArray zero b L with
    | error e => rw [h1, h2] at h; cases h
    | ok v2 =>
      cases h3 : newTypedArray zero c L with
      | error e => rw [h1, h2, h3] at h; cases h
      | ok v3 =>
        cases h4 : newTypedArray (0 : Nat) d L with
        | error e => rw [h1, h2, h3, h4] at h; cases h
        | ok v4 =>
          rw [h1, h2, h3, h4] at h
          simp only [bind, Except.bind, pure, Except.pure, Except.ok.injEq] at h
          subst h
          exact ⟨⟨rfl, rfl, rfl, rfl⟩, rfl, rfl⟩

theorem sideStep_writes {α : Type} [Field α] (M : JSMath α) (radius height : α)
    (slices : Int) (i : Nat) (b : Buffers α) (h : WritesInOrder b) :
    WritesInOrder (uvCylinder.sideStep M radius height slices i b) := by
  obtain ⟨h1, h2, h3, h4⟩ := h
  simp [WritesInOrder, uvCylinder.sideStep, Buffers.setV, Buffers.pushN, Buffers.pushT, h1,
    h2, h3, h4, List.range_succ]

theorem sideIndexStep_writes {β : Type} (i : Nat) (b : Buffers β) (h : WritesInOrder b) :
    WritesInOrder (uvCylinder.sideIndexStep i b) := by
  obtain ⟨h1, h2, h3, h4⟩ := h
  simp [WritesInOrder, uvCylinder.sideIndexStep, Buffers.pushI, h1, h2, h3, h4,
    List.range_succ]

theorem capIndexStep_writes {β : Type} (start : Int) (i : Nat) (b : Buffers β)
    (h : WritesInOrder b) : WritesInOrder (capIndexStep start i b) := by
  obtain ⟨h1, h2, h3, h4⟩ := h
  simp [WritesInOrder, capIndexStep, Buffers.pushI, h1, h2, h3, h4, List.range_succ]

theorem capCenter_writes {α : Type} [Field α] (z nz : α) (b : Buffers α)
    (h : WritesInOrder b) : WritesInOrder (capCenter z nz b) := by
  obtain ⟨h1, h2, h3, h4⟩ := h
  simp [WritesInOrder, capCenter, Buffers.setV, Buffers.pushN, Buffers.pushT, h1, h2, h3, h4,
    List.range_succ]

theorem bottomRimStep_writes {α : Type} [Field α] (M : JSMath α) (radius height : α)
    (slices : Int) (i : Nat) (b : Buffers α) (h : WritesInOrder b) :
    WritesInOrder (bottomRimStep M radius height slices i b) := by
  obtain ⟨h1, h2, h3, h4⟩ := h
  simp [WritesInOrder, bottomRimStep, Buffers.setV, Buffers.pushN, Buffers.pushT, h1, h2, h3,
    h4, List.range_succ]

theorem topRimStep_writes {α : Type} [Field α] (M : JSMath α) (radius height : α)
    (slices : Int) (i : Nat) (b : Buffers α) (h : WritesInOrder b) :
    WritesInOrder (uvCylinder.topRimStep M radius height slices i b) := by
  obtain ⟨h1, h2, h3, h4⟩ := h
  simp [WritesInOrder, uvCylinder.topRimStep, Buffers.setV, Buffers.pushN, Buffers.pushT, h1,
    h2, h3, h4, List.range_succ]

theorem bottomCap_writes {α : Type} [Field α] (M : JSMath α) (radius height : α)
    (slices : Int) (b : Buffers α) (h : WritesInOrder b) :
    WritesInOrder (bottomCap M radius height slices b) := by
  unfold bottomCap
  refine forRange_invariant WritesInOrder _ _ _ ?_ (fun i s _ hs => capIndexStep_writes _ i s hs)
  refine forRange_invariant WritesInOrder _ _ _ ?_
    (fun i s _ hs => bottomRimStep_writes M radius height slices i s hs)
  exact capCenter_writes _ _ b h

theorem topCap_writes {α : Type} [Field α] (M : JSMath α) (radius height : α)
    (slices : Int) (b : Buffers α) (h : WritesInOrder b) :
    WritesInOrder (uvCylinder.topCap M radius height slices b) := by
  unfold uvCylinder.topCap
  refine forRange_invariant WritesInOrder _ _ _ ?_ (fun i s _ hs => capIndexStep_writes _ i s hs)
  refine forRange_invariant WritesInOrder _ _ _ ?_
    (fun i s _ hs => topRimStep_writes M radius height slices i s hs)
  exact capCenter_writes _ _ b h

/-- Every run of `uvCylinder` that returns has assigned, in each array, the positions below
its cursor, each once. -/
theorem uvCylinder_run_writes {α : Type} [Field α] [DecidableEq α] (M : JSMath α)
    (radius height : Option α) (slices : Option Int) (noTop noBottom : Bool)
    (L : Option Nat) (b : Buffers α)
    (h : uvCylinder.run M radius height slices noTop noBottom L = Except.ok b) :
    WritesInOrder b := by
  simp only [uvCylinder.run] at h
  generalize orDefault slices 32 = n at h
  generalize orDefault radius (1 / 2) = r at h
  generalize orDefault height (2 * r) = ht at h
  revert h
  generalize hall : allocate (0 : α) _ _ _ _ L = res
  intro h
  cases res with
  | error e => cases h
  | ok b0 =>
    simp only [bind, Except.bind, pure, Except.pure, Except.ok.injEq] at h
    subst h
    have h0 := (allocate_writes _ _ _ _ _ _ _ hall).1
    have h1 : WritesInOrder (forRange n uvCylinder.sideIndexStep
        (forRange (n + 1) (uvCylinder.sideStep M r ht n) b0)) := by
      refine forRange_invariant WritesInOrder _ _ _ ?_
        (fun i s _ hs => sideIndexStep_writes i s hs)
      exact forRange_invariant WritesInOrder _ _ _ h0
        (fun i s _ hs => sideStep_writes M r ht n i s hs)
    cases noTop <;> cases noBottom <;>
      simp only [Bool.not_false, Bool.not_true, if_true, Bool.false_eq_true, if_false]
    · exact topCap_writes M r ht n _ (bottomCap_writes M r ht n _ h1)
    · exact topCap_writes M r ht n _ h1
    · exact bottomCap_writes M r ht n _ h1
    · exact h1

theorem gridIndexStep_writes {β : Type} (slices : Int) (j i : Nat) (b : Buffers β)
    (h : WritesInOrder b) : WritesInOrder (gridIndexStep slices j i b) := by
  obtain ⟨h1, h2, h3, h4⟩ := h
  simp [WritesInOrder, gridIndexStep, Buffers.pushI, h1, h2, h3, h4, List.range_succ]

theorem cone_vertexStep_writes {α : Type} [Field α] (M : JSMath α) (radius height : α)
    (slices : Int) (j i : Nat) (b : Buffers α) (h : WritesInOrder b ∧ b.ki = 0) :
    WritesInOrder (uvCone.vertexStep M radius height slices j i b) ∧
      (uvCone.vertexStep M radius height slices j i b).ki = 0 := by
  obtain ⟨⟨h1, h2, h3, h4⟩, h5⟩ := h
  simp [WritesInOrder, uvCone.vertexStep, Buffers.setV, Buffers.pushN, Buffers.pushT, h1,
    h2, h3, h4, h5, List.range_succ]

theorem cone_tipStep_writes {α : Type} [Field α] (M : JSMath α) (radius height : α)
    (slices : Int) (i : Nat) (b : Buffers α) (h : WritesInOrder b) :
    WritesInOrder (uvCone.tipStep M radius height slices i b) := by
  obtain ⟨h1, h2, h3, h4⟩ := h
  simp [WritesInOrder, uvCone.tipStep, Buffers.setV, Buffers.pushN, Buffers.pushT, h1,
    h2, h3, h4, List.range_succ]

theorem cone_tipIndexStep_writes {β : Type} (start slices : Int) (i : Nat) (b : Buffers β)
    (h : WritesInOrder b) : WritesInOrder (uvCone.tipIndexStep start slices i b) := by
  obtain ⟨h1, h2, h3, h4⟩ := h
  simp [WritesInOrder, uvCone.tipIndexStep, Buffers.pushI, h1, h2, h3, h4, List.range_succ]

/-- Every run of `uvCone` that returns has assigned, in each array, the positions below its
cursor, each once.  The index cursor `k`, set to 0 before the index loops, is 0 there
already. -/
theorem uvCone_run_writes {α : Type} [Field α] [DecidableEq α] (M : JSMath α)
    (radius height : Option α) (slices : Option Int) (noBottom : Bool)
    (L : Option Nat) (b : Buffers α)
    (h : uvCone.run M radius height slices noBottom L = Except.ok b) :
    WritesInOrder b := by
  simp only [uvCone.run] at h
  generalize orDefault slices 32 = n at h
  generalize orDefault radius (1 / 2) = r at h
  generalize orDefault height (2 * r) = ht at h
  revert h
  generalize hall : allocate (0 : α) _ _ _ _ L = res
  intro h
  cases res with
  | error e => cases h
  | ok b0 =>
    simp only [bind, Except.bind, pure, Except.pure, Except.ok.injEq] at h
    subst h
    obtain ⟨h0, _, hk0⟩ := allocate_writes _ _ _ _ _ _ _ hall
    have h1 := forRange_invariant (fun s : Buffers α => WritesInOrder s ∧ s.ki = 0)
      ((((uvCone.fractions : List α).length : Nat) : Int))
      (fun j s => forRange (n + 1) (uvCone.vertexStep M r ht n j) s) b0 ⟨h0, hk0⟩
      (fun j s _ hs => forRange_invariant (fun s : Buffers α => WritesInOrder s ∧ s.ki = 0)
        _ _ _ hs (fun i s _ hs => cone_vertexStep_writes M r ht n j i s hs))
    rw [resetKi_eq _ h1.2]
    have h2 := forRange_invariant WritesInOrder
      ((((uvCone.fractions : List α).length : Nat) : Int) - 1)
      (fun j s => forRange n (gridIndexStep n j) s) _ h1.1
      (fun j s _ hs => forRange_invariant WritesInOrder _ _ _ hs
        (fun i s _ hs => gridIndexStep_writes n j i s hs))
    have h3 := forRange_invariant WritesInOrder n (uvCone.tipStep M r ht n) _ h2
      (fun i s _ hs => cone_tipStep_writes M r ht n i s hs)
    have h4 := forRange_invariant WritesInOrder n
      (uvCone.tipIndexStep (((forRange
        ((((uvCone.fractions : List α).length : Nat) : Int) - 1)
        (fun j s => forRange n (gridIndexStep n j) s)
        (forRange ((((uvCone.fractions : List α).length : Nat) : Int))
          (fun j s => forRange (n + 1) (uvCone.vertexStep M r ht n j) s) b0)).kv / 3 : Nat) -
          (n + 1)) n) _ h3
      (fun i s _ hs => cone_tipIndexStep_writes _ n i s hs)
    cases noBottom <;>
      simp only [Bool.not_false, Bool.not_true, if_true, Bool.false_eq_true, if_false]
    · exact bottomCap_writes M r ht n _ h4
    · exact h4

theorem ring_diskStep_writes {α : Type} [Field α] (M : JSMath α) (outerRadius : α)
    (slices : Int) (i : Nat) (st : RingState α) (h : RingWritesInOrder st.buf) :
    RingWritesInOrder (ring.diskStep M outerRadius slices i st).buf := by
  obtain ⟨h1, h2, h3, h4⟩ := h
  simp [RingWritesInOrder, ring.diskStep, Buffers.pushV, Buffers.pushT, Buffers.pushI, h1,
    h2, h3, h4, List.range_succ]

theorem ring_annulusStep_writes {α : Type} [Field α] (M : JSMath α) (innerRadius : Option α)
    (outerRadius : α) (slices : Int) (i : Nat) (st : RingState α)
    (h : RingWritesInOrder st.buf) :
    RingWritesInOrder (ring.annulusStep M innerRadius outerRadius slices i st).buf := by
  obtain ⟨h1, h2, h3, h4⟩ := h
  simp [RingWritesInOrder, ring.annulusStep, Buffers.pushV, Buffers.pushT, h1,
    h2, h3, h4, List.range_succ]

theorem ring_annulusIndexStep_writes {β : Type} (i : Nat) (b : Buffers β)
    (h : RingWritesInOrder b) : RingWritesInOrder (ring.annulusIndexStep i b) := by
  obtain ⟨h1, h2, h3, h4⟩ := h
  simp [RingWritesInOrder, ring.annulusIndexStep, Buffers.pushI, h1, h2, h3, h4,
    List.range_succ]

theorem ring_annulusLast_writes {β : Type} (i : Int) (b : Buffers β)
    (h : RingWritesInOrder b) : RingWritesInOrder (ring.annulusLast i b) := by
  obtain ⟨h1, h2, h3, h4⟩ := h
  simp [RingWritesInOrder, ring.annulusLast, Buffers.pushI, h1, h2, h3, h4, List.range_succ]

/-- The last loop of `ring` assigns the normal components `3i+1`, `3i`, `3i+2` of each
vertex `i`, and nothing else. -/
theorem ring_normals_writes {α : Type} [Field α] (n : Int) (b : Buffers (Option α))
    (h : RingWritesInOrder b) :
    (forRange n ring.normalStep b).writesV = List.range b.kv ∧
    (forRange n ring.normalStep b).writesN = ringNormalWrites n.toNat ∧
    (forRange n ring.normalStep b).writesT = List.range b.kt ∧
    (forRange n ring.normalStep b).writesI = List.range b.ki ∧
    (forRange n ring.normalStep b).kv = b.kv ∧ (forRange n ring.normalStep b).kt = b.kt ∧
    (forRange n ring.normalStep b).ki = b.ki := by
  obtain ⟨h1, h2, h3, h4⟩ := h
  refine forRange_induction
    (fun i (s : Buffers (Option α)) => s.writesV = List.range b.kv ∧
      s.writesN = ringNormalWrites i ∧ s.writesT = List.range b.kt ∧
      s.writesI = List.range b.ki ∧ s.kv = b.kv ∧ s.kt = b.kt ∧ s.ki = b.ki)
    n ring.normalStep b ⟨h1, by simp [h2, ringNormalWrites], h3, h4, rfl, rfl, rfl⟩ ?_
  intro i s _ ⟨g1, g2, g3, g4, g5, g6, g7⟩
  simp [ring.normalStep, Buffers.setNAt, g1, g2, g3, g4, g5, g6, g7, ringNormalWrites,
    List.range_succ]

/-- The positions assigned by the last loop of `ring` are `0, ..., 3n - 1`, each once. -/
theorem ringNormalWrites_perm (n : Nat) : (ringNormalWrites n).Perm (List.range (3 * n)) := by
  induction n with
  | zero => simp [ringNormalWrites]
  | succ k ih =>
    have e1 : ringNormalWrites (k + 1) = ringNormalWrites k ++ [3 * k + 1, 3 * k, 3 * k + 2] := by
      simp [ringNormalWrites, List.range_succ]
    have e2 : List.range (3 * (k + 1)) = List.range (3 * k) ++ [3 * k, 3 * k + 1, 3 * k + 2] := by
      rw [show 3 * (k + 1) = 3 * k + 1 + 1 + 1 by ring]
      simp [List.range_succ]
    rw [e1, e2]
    exact List.Perm.append ih (List.Perm.swap _ _ _)

/-- Every run of `ring` that returns has assigned, in the arrays `vertices`, `texCoords`
and `indices`, the positions below its cursors, each once and in order, and in `normals`
the three components of each of its `vertexCount` vertices. -/
theorem ring_run_writes {α : Type} [Field α] [DecidableEq α] (M : JSMath α) (g : Globals α)
    (argumentsLength : Nat) (innerRadius outerRadius : Option α) (slices : Option Int)
    (L : Option Nat) (st : RingState α)
    (h : ring.run M g argumentsLength innerRadius outerRadius slices L = Except.ok st) :
    st.buf.writesV = List.range st.buf.kv ∧
    st.buf.writesN = ringNormalWrites
      (if ringInner argumentsLength innerRadius = some 0 then orDefault slices 32 + 1
        else orDefault slices 32 * 2).toNat ∧
    st.buf.writesT = List.range st.buf.kt ∧ st.buf.writesI = List.range st.buf.ki := by
  simp only [ring.run] at h
  unfold ringInner
  generalize (if argumentsLength = 0 then some (1 / 4) else innerRadius) = inner at h ⊢
  generalize orDefault slices 32 = n at h ⊢
  generalize orDefault outerRadius (orDefault (Option.map (fun x => x * 2) inner) (1 / 2)) = o
    at h
  revert h
  generalize hall : allocate (some (0 : α)) _ _ _ _ L = res
  intro h
  cases res with
  | error e => cases h
  | ok b0 =>
    simp only [bind, Except.bind, pure, Except.pure, Except.ok.injEq] at h
    subst h
    obtain ⟨⟨w1, _, w3, w4⟩, w2, _⟩ := allocate_writes _ _ _ _ _ _ _ hall
    have h0 : RingWritesInOrder b0 := ⟨w1, w2, w3, w4⟩
    by_cases hd : inner = some 0
    · simp only [hd, if_true]
      have h1 := forRange_invariant (fun s : RingState α => RingWritesInOrder s.buf) n
        (ring.diskStep M o n) { buf := b0, globals := g } h0
        (fun i s _ hs => ring_diskStep_writes M o n i s hs)
      have h2 : RingWritesInOrder
          ((((((forRange n (ring.diskStep M o n) { buf := b0, globals := g }).buf.pushV
            (some 0)).pushV (some 0)).pushV (some 0)).pushT (some 0)).pushT (some 0)) := by
        obtain ⟨k1, k2, k3, k4⟩ := h1
        simp [RingWritesInOrder, Buffers.pushV, Buffers.pushT, k1, k2, k3, k4,
          List.range_succ]
      obtain ⟨r1, r2, r3, r4, r5, r6, r7⟩ := ring_normals_writes (n + 1) _ h2
      exact ⟨by rw [r1, r5], r2, by rw [r3, r6], by rw [r4, r7]⟩
    · simp only [hd, if_false]
      have h1 := forRange_invariant (fun s : RingState α => RingWritesInOrder s.buf) n
        (ring.annulusStep M inner o n) { buf := b0, globals := g } h0
        (fun i s _ hs => ring_annulusStep_writes M inner o n i s hs)
      have h2 := forRange_invariant RingWritesInOrder (n - 1) ring.annulusIndexStep _ h1
        (fun i s _ hs => ring_annulusIndexStep_writes i s hs)
      have h3 := ring_annulusLast_writes (max (n - 1) 0) _ h2
      obtain ⟨r1, r2, r3, r4, r5, r6, r7⟩ := ring_normals_writes (n * 2) _ h3
      exact ⟨by rw [r1, r5], r2, by rw [r3, r6], by rw [r4, r7]⟩

/-- C30: for every positive `slices` and every flag combination, `ring`, `uvCylinder` and
`uvCone` fill their preallocated arrays exactly.  At the end of the run the cursor of the
positions (and, in `uvCylinder` and `uvCone`, of the normals, which share it) equals the
array length `3*vertexCount`, the texture-coordinate cursor equals `2*vertexCount` and the
index cursor equals the length of the index array, `3*triangleCount`.  The positions at
which the run assigned to an array are exactly `0, 1, ..., length - 1`, each once and in
this order (in `ring`, whose normals are assigned by vertex number, the normal positions
are a rearrangement of `0, ..., 3*vertexCount - 1`, and each normal is `(0, 0, 1)`): every
slot is written exactly once and no assignment falls outside an array. -/
theorem cursors_fill_arrays {α : Type} [Field α] [DecidableEq α] (M : JSMath α)
    (slices : Nat) (hs : 0 < slices) :
    (∀ (g : Globals α) (argumentsLength : Nat) (innerRadius outerRadius : Option α),
      ∃ st V T, ring.run M g argumentsLength innerRadius outerRadius (some (slices : Int)) =
          Except.ok st ∧
        (V = if ringInner argumentsLength innerRadius = some 0 then slices + 1
          else 2 * slices) ∧
        (T = if ringInner argumentsLength innerRadius = some 0 then slices
          else 2 * slices) ∧
        st.buf.kv = 3 * V ∧ st.buf.vertices.length = 3 * V ∧ st.buf.normals.length = 3 * V ∧
        st.buf.kt = 2 * V ∧ st.buf.texCoords.length = 2 * V ∧
        st.buf.ki = 3 * T ∧ st.buf.indices.length = 3 * T ∧
        RingNormals V st.buf.normals ∧
        st.buf.writesV = List.range (3 * V) ∧ st.buf.writesN.Perm (List.range (3 * V)) ∧
        st.buf.writesT = List.range (2 * V) ∧ st.buf.writesI = List.range (3 * T)) ∧
    (∀ (radius height : Option α) (noTop noBottom : Bool),
      ∃ b, uvCylinder.run M radius height (some (slices : Int)) noTop noBottom =
          Except.ok b ∧
        b.kv = 3 * cylinderVertices slices noTop noBottom ∧
        b.vertices.length = 3 * cylinderVertices slices noTop noBottom ∧
        b.normals.length = 3 * cylinderVertices slices noTop noBottom ∧
        b.kt = 2 * cylinderVertices slices noTop noBottom ∧
        b.texCoords.length = 2 * cylinderVertices slices noTop noBottom ∧
        b.ki = 3 * cylinderTriangles slices noTop noBottom ∧
        b.indices.length = 3 * cylinderTriangles slices noTop noBottom ∧
        b.writesV = List.range (3 * cylinderVertices slices noTop noBottom) ∧
        b.writesN = List.range (3 * cylinderVertices slices noTop noBottom) ∧
        b.writesT = List.range (2 * cylinderVertices slices noTop noBottom) ∧
        b.writesI = List.range (3 * cylinderTriangles slices noTop noBottom)) ∧
    (∀ (radius height : Option α) (noBottom : Bool),
      ∃ b, uvCone.run M radius height (some (slices : Int)) noBottom = Except.ok b ∧
        b.kv = 3 * coneVertices slices noBottom ∧
        b.vertices.length = 3 * coneVertices slices noBottom ∧
        b.normals.length = 3 * coneVertices slices noBottom ∧
        b.kt = 2 * coneVertices slices noBottom ∧
        b.texCoords.length = 2 * coneVertices slices noBottom ∧
        b.ki = 3 * coneTriangles slices noBottom ∧
        b.indices.length = 3 * coneTriangles slices noBottom ∧
        b.writesV = List.range (3 * coneVertices slices noBottom) ∧
        b.writesN = List.range (3 * coneVertices slices noBottom) ∧
        b.writesT = List.range (2 * coneVertices slices noBottom) ∧
        b.writesI = List.range (3 * coneTriangles slices noBottom)) := by
  have hs0 : ((slices : Int)) ≠ 0 := by omega
  have hsl : orDefault (some (slices : Int)) 32 = (slices : Int) := orDefault_some _ _ hs0
  refine ⟨?_, ?_, ?_⟩
  · intro g a i o
    by_cases hd : ringInner a i = some 0
    · obtain ⟨st, hst, ⟨l1, l2, l3, l4, k1, k2, k3⟩, _, hn⟩ :=
        ring_run_disk M g a i o slices hs hd
      simp only [fresh, List.length_replicate, zero_add] at l1 l2 l3 l4 k1 k2 k3
      obtain ⟨w1, w2, w3, w4⟩ := ring_run_writes M g a i o _ none st hst
      rw [hsl, if_pos hd, toNat_cast_succ] at w2
      exact ⟨st, slices + 1, slices, hst, by simp [hd], by simp [hd], k1, l1, l2, k2, l3, k3,
        l4, hn, by rw [w1, k1], by rw [w2]; exact ringNormalWrites_perm _, by rw [w3, k2],
        by rw [w4, k3]⟩
    · obtain ⟨st, hst, ⟨l1, l2, l3, l4, k1, k2, k3⟩, _, hn⟩ :=
        ring_run_annulus M g a i o slices hs hd
      simp only [fresh, List.length_replicate, zero_add] at l1 l2 l3 l4 k1 k2 k3
      obtain ⟨w1, w2, w3, w4⟩ := ring_run_writes M g a i o _ none st hst
      rw [hsl, if_neg hd, show ((slices : Int) * 2).toNat = 2 * slices by omega] at w2
      exact ⟨st, 2 * slices, 2 * slices, hst, by simp [hd], by simp [hd], k1, l1, l2, k2, l3,
        by omega, by omega, hn, by rw [w1, k1], by rw [w2]; exact ringNormalWrites_perm _,
        by rw [w3, k2], by rw [w4]; congr 1; omega⟩
  · intro r h nt nb
    obtain ⟨b, hb, ⟨l1, l2, l3, l4, k1, k2, k3⟩, _, _⟩ :=
      uvCylinder_run_spec M r h slices hs nt nb
    simp only [fresh, List.length_replicate, zero_add] at l1 l2 l3 l4 k1 k2 k3
    obtain ⟨w1, w2, w3, w4⟩ := uvCylinder_run_writes M r h _ nt nb none b hb
    exact ⟨b, hb, k1, l1, l2, k2, l3, k3, l4, by rw [w1, k1], by rw [w2, k1], by rw [w3, k2],
      by rw [w4, k3]⟩
  · intro r h nb
    obtain ⟨b, hb, ⟨l1, l2, l3, l4, k1, k2, k3⟩, _, _⟩ := uvCone_run_spec M r h slices hs nb
    simp only [fresh, List.length_replicate, zero_add] at l1 l2 l3 l4 k1 k2 k3
    obtain ⟨w1, w2, w3, w4⟩ := uvCone_run_writes M r h _ nb none b hb
    exact ⟨b, hb, k1, l1, l2, k2, l3, k3, l4, by rw [w1, k1], by rw [w2, k1], by rw [w3, k2],
      by rw [w4, k3]⟩

/-- Instance of `cursors_fill_arrays`: the run of `uvCone(1, 2, 3)` with its bottom, over the
reals, ends with the index cursor at `3 * 30`, having assigned the index positions
`0, ..., 89` in order. -/
theorem cursors_fill_arrays_witness :
    0 < 3 ∧
    ∃ b, uvCone.run (JSMath.mk Real.cos Real.sin Real.sqrt Real.pi) (some 1)
        (some 2) (some ((3 : Nat) : Int)) false = Except.ok b ∧
      b.ki = 3 * coneTriangles 3 false ∧ b.indices.length = 3 * coneTriangles 3 false ∧
      b.writesI = List.range (3 * coneTriangles 3 false) :=
  ⟨by norm_num, by
    obtain ⟨b, hb, _, _, _, _, _, h6, h7, _, _, _, h11⟩ := (cursors_fill_arrays
      (JSMath.mk Real.cos Real.sin Real.sqrt Real.pi) 3 (by norm_num)).2.2
      (some 1) (some 2) false
    exact ⟨b, hb, h6, h7, h11⟩⟩

/-! ### The loops of obj_sphere and obj_ring in double arithmetic -/

/-- Two loops that agree on the states of an invariant give the same result, for every
fuel. -/
theorem loopWhile_congr {σ : Type} (c1 c2 : σ → Bool) (b1 b2 : σ → Option σ) (P : σ → Prop)
    (hc : ∀ s, P s → c1 s = c2 s)
    (hb : ∀ s, P s → c2 s = true → b1 s = b2 s)
    (hP : ∀ s t, P s → c2 s = true → b2 s = some t → P t) :
    ∀ (fuel : Nat) (s : σ), P s → loopWhile c1 b1 fuel s = loopWhile c2 b2 fuel s := by
  intro fuel
  induction fuel with
  | zero =>
    intro s hs
    simp only [loopWhile, hc s hs]
  | succ n ih =>
    intro s hs
    simp only [loopWhile, hc s hs]
    by_cases h : c2 s = true
    · rw [if_pos h, if_pos h, hb s hs h]
      cases hb2 : b2 s with
      | none => rfl
      | some t => exact ih t (hP s t hs h hb2)
    · rw [if_neg h, if_neg h]

/-- A loop whose condition holds on an invariant of its body never returns. -/
theorem loopWhile_never {σ : Type} (cond : σ → Bool) (f : σ → σ) (P : σ → Prop)
    (hc : ∀ s, P s → cond s = true) (hP : ∀ s, P s → P (f s)) :
    ∀ (fuel : Nat) (s : σ), P s → loopWhile cond (fun s => some (f s)) fuel s = none := by
  intro fuel
  induction fuel with
  | zero =>
    intro s hs
    simp only [loopWhile, hc s hs, if_true]
  | succ n ih =>
    intro s hs
    simp only [loopWhile, hc s hs, if_true, Option.some_bind]
    exact ih (f s) (hP s hs)

/-- With a rounding that is exact on the whole numbers up to `360 + d`, `obj_ring` with the
whole degree `d` runs as in exact arithmetic. -/
theorem obj_ring_rounding {α : Type} [LinearOrderedField α] (M : JSMath α)
    (inner_radius outer_radius pos_x pos_y pos_z alpha : α) (d : Nat) (fl : α → α)
    (hfl : ∀ n : Nat, n ≤ 360 + d → fl (n : α) = (n : α)) (fuel : Nat) :
    obj_ring M fuel inner_radius outer_radius pos_x pos_y pos_z alpha (d : α) fl =
      obj_ring M fuel inner_radius outer_radius pos_x pos_y pos_z alpha (d : α) := by
  simp only [obj_ring]
  congr 1
  refine loopWhile_congr _ _ _ _ (fun s : RingLoop α => ∃ n : Nat, s.theta = (n : α))
    (fun s _ => rfl) ?_ ?_ fuel _ ⟨d, rfl⟩
  · rintro s ⟨n, hn⟩ hc
    rw [decide_eq_true_eq, hn] at hc
    have hn360 : n ≤ 360 := by exact_mod_cast hc
    have e : fl (s.theta + (d : α)) = s.theta + (d : α) := by
      rw [hn, ← Nat.cast_add]
      exact hfl _ (by omega)
    simp only [obj_ring.thetaStep, e, id_eq]
  · rintro s t ⟨n, hn⟩ _ ht
    simp only [Option.some.injEq] at ht
    subst ht
    exact ⟨n + d, by simp only [obj_ring.thetaStep, id_eq, hn]; push_cast; rfl⟩

/-- The inner loop of `obj_sphere` leaves `phi` as it is. -/
theorem thetaLoop_phi {α : Type} [LinearOrderedField α] (M : JSMath α)
    (radius pos_x pos_y pos_z alpha step bound : α) (fl : α → α) (fuel : Nat)
    (s t : SphereLoop α)
    (h : loopWhile (fun st : SphereLoop α => decide (st.theta ≤ bound))
      (fun st => some (obj_sphere.thetaStep M radius pos_x pos_y pos_z alpha step st fl))
      fuel s = some t) : t.phi = s.phi :=
  loopWhile_invariant (fun u : SphereLoop α => u.phi = s.phi) _ _
    (fun u u2 hu h2 => by
      simp only [Option.some.injEq] at h2
      subst h2
      exact hu)
    fuel s t rfl h

/-- With a rounding that is exact on the whole numbers from `-90` to `360 + 2d`,
`obj_sphere` with the whole degree `d` runs as in exact arithmetic. -/
theorem obj_sphere_rounding {α : Type} [LinearOrderedField α] (M : JSMath α)
    (radius pos_x pos_y pos_z alpha : α) (d : Nat) (fl : α → α)
    (hfl : ∀ z : Int, -90 ≤ z → z ≤ 360 + 2 * (d : Int) → fl (z : α) = (z : α))
    (fuel : Nat) :
    obj_sphere M fuel radius pos_x pos_y pos_z alpha (d : α) fl =
      obj_sphere M fuel radius pos_x pos_y pos_z alpha (d : α) := by
  have hbound : fl (360 + (d : α)) = 360 + (d : α) := by
    have := hfl (360 + (d : Int)) (by omega) (by omega)
    push_cast at this
    exact this
  have hstart : fl (-90 + (d : α)) = -90 + (d : α) := by
    have := hfl (-90 + (d : Int)) (by omega) (by omega)
    push_cast at this
    exact this
  have hinner : ∀ (fuel : Nat) (s : SphereLoop α), (∃ n : Nat, s.theta = (n : α)) →
      loopWhile (fun st : SphereLoop α => decide (st.theta ≤ 360 + (d : α)))
        (fun st => some (obj_sphere.thetaStep M radius pos_x pos_y pos_z alpha (d : α) st fl))
        fuel s =
      loopWhile (fun st : SphereLoop α => decide (st.theta ≤ 360 + (d : α)))
        (fun st => some (obj_sphere.thetaStep M radius pos_x pos_y pos_z alpha (d : α) st))
        fuel s := by
    intro fuel s hs
    refine loopWhile_congr _ _ _ _ (fun s : SphereLoop α => ∃ n : Nat, s.theta = (n : α))
      (fun s _ => rfl) ?_ ?_ fuel s hs
    · rintro s ⟨n, hn⟩ hc
      rw [decide_eq_true_eq, hn] at hc
      have hn360 : n ≤ 360 + d := by exact_mod_cast hc
      have e : fl (s.theta + (d : α)) = s.theta + (d : α) := by
        rw [hn]
        have := hfl ((n : Int) + (d : Int)) (by omega) (by omega)
        push_cast at this
        exact this
      simp only [obj_sphere.thetaStep, e, id_eq]
    · rintro s t ⟨n, hn⟩ _ ht
      simp only [Option.some.injEq] at ht
      subst ht
      exact ⟨n + d, by simp only [obj_sphere.thetaStep, id_eq, hn]; push_cast; rfl⟩
  simp only [obj_sphere, hstart, id_eq]
  congr 1
  refine loopWhile_congr _ _ _ _
    (fun s : SphereLoop α => ∃ z : Int, s.phi = (z : α) ∧ -90 ≤ z)
    (fun s _ => rfl) ?_ ?_ fuel _ ⟨-90 + (d : Int), by push_cast; rfl, by omega⟩
  · rintro s ⟨z, hz, hz90⟩ hc
    rw [decide_eq_true_eq, hz] at hc
    have hzle : z ≤ 90 := by exact_mod_cast hc
    simp only [obj_sphere.phiStep, hbound, id_eq]
    rw [hinner fuel { s with theta := (d : α) } ⟨d, rfl⟩]
    cases hres : loopWhile (fun st : SphereLoop α => decide (st.theta ≤ 360 + (d : α)))
        (fun st => some (obj_sphere.thetaStep M radius pos_x pos_y pos_z alpha (d : α) st))
        fuel { s with theta := (d : α) } with
    | none => rfl
    | some t =>
      have hphi : t.phi = s.phi :=
        thetaLoop_phi M radius pos_x pos_y pos_z alpha (d : α) _ id fuel
          { s with theta := (d : α) } t hres
      have e : fl (t.phi + (d : α)) = t.phi + (d : α) := by
        rw [hphi, hz]
        have := hfl (z + (d : Int)) (by omega) (by omega)
        push_cast at this
        exact this
      simp only [Option.map_some', e]
  · rintro s t ⟨z, hz, hz90⟩ _ ht
    simp only [obj_sphere.phiStep, id_eq, Option.map_eq_some'] at ht
    obtain ⟨u, hu, rfl⟩ := ht
    have hphi : u.phi = s.phi :=
      thetaLoop_phi M radius pos_x pos_y pos_z alpha (d : α) _ id fuel
        { s with theta := (d : α) } u hu
    exact ⟨z + (d : Int), by simp only [hphi, hz]; push_cast; rfl, by omega⟩

/-- Rounding to the nearest integer moves a number by at most one half. -/
theorem roundHalfEven_abs_sub_le {α : Type} [LinearOrderedField α] [FloorRing α] (x : α) :
    |(roundHalfEven x : α) - x| ≤ 1 / 2 := by
  have h0 := Int.fract_nonneg x
  have h1 := Int.fract_lt_one x
  have hx : x = (⌊x⌋ : α) + Int.fract x := (Int.floor_add_fract x).symm
  rw [abs_le]
  unfold roundHalfEven
  split_ifs with c1 c2 c3
  · constructor <;> linarith
  · push_cast
    constructor <;> linarith
  · have c4 := not_lt.mp c1
    constructor <;> linarith
  · have c4 := not_lt.mp c1
    have c5 := not_lt.mp c2
    push_cast
    constructor <;> linarith

/-- Rounding to a binary format moves a number by at most half a unit of the last place. -/
theorem roundBinary_abs_sub_le {α : Type} [LinearOrderedField α] [FloorRing α] (p : Nat)
    (emin : Int) (x : α) :
    |roundBinary p emin x - x| ≤ (2 : α) ^ ulpExponent p emin x / 2 := by
  have hpos := two_zpow_pos α (ulpExponent p emin x)
  have h := roundHalfEven_abs_sub_le (x / (2 : α) ^ ulpExponent p emin x)
  have e : roundBinary p emin x - x =
      ((roundHalfEven (x / (2 : α) ^ ulpExponent p emin x) : α) -
        x / (2 : α) ^ ulpExponent p emin x) * (2 : α) ^ ulpExponent p emin x := by
    unfold roundBinary
    field_simp
  rw [e, abs_mul, abs_of_pos hpos]
  calc _ ≤ 1 / 2 * (2 : α) ^ ulpExponent p emin x :=
        mul_le_mul_of_nonneg_right h hpos.le
    _ = _ := by ring

/-- A double below 1024 in absolute value is within `2 ^ (-44)` of the number it rounds. -/
theorem toFloat64_error {α : Type} [LinearOrderedField α] [FloorRing α] (x : α)
    (h : |x| < (2 : α) ^ (10 : Int)) :
    |toFloat64 x - x| ≤ (2 : α) ^ (-44 : Int) := by
  have h1 := roundBinary_abs_sub_le 53 (-1074) x
  have h2 : ulpExponent 53 (-1074) x ≤ -43 := by
    have := ulpExponent_le 53 (-1074) x 10 (by norm_num) h
    simpa using this
  have h3 : (2 : α) ^ ulpExponent 53 (-1074) x ≤ (2 : α) ^ (-43 : Int) :=
    zpow_le_zpow_right₀ (by norm_num) h2
  have h4 : (2 : α) ^ (-43 : Int) = 2 * (2 : α) ^ (-44 : Int) := by
    rw [show (-43 : Int) = 1 + (-44) by norm_num, zpow_add₀ (by norm_num : (2 : α) ≠ 0),
      zpow_one]
  unfold toFloat64
  linarith

/-- A loop whose body raises a measure by at least `δ` while the condition bounds the
measure by `B` returns after at most `N` iterations when `B < m s + N * δ`. -/
theorem loopWhile_progress {σ α : Type} [LinearOrderedField α] (cond : σ → Bool) (f : σ → σ)
    (P : σ → Prop) (m : σ → α) (δ B : α)
    (hcond : ∀ s, P s → cond s = true → m s ≤ B)
    (hstep : ∀ s, P s → cond s = true → P (f s) ∧ m s + δ ≤ m (f s)) :
    ∀ (N fuel : Nat) (s : σ), P s → B < m s + (N : α) * δ → N ≤ fuel →
      ∃ n, n ≤ N ∧ loopWhile cond (fun s => some (f s)) fuel s = some (f^[n] s) := by
  intro N
  induction N with
  | zero =>
    intro fuel s hP hB _
    have hc : cond s = false := by
      by_contra hc
      have := hcond s hP (by simpa using hc)
      simp only [Nat.cast_zero, zero_mul, add_zero] at hB
      exact absurd this (not_le.mpr hB)
    refine ⟨0, le_refl 0, ?_⟩
    cases fuel <;> simp [loopWhile, hc]
  | succ N ih =>
    intro fuel s hP hB hf
    by_cases hc : cond s = true
    · obtain ⟨fuel, rfl⟩ : ∃ k, fuel = k + 1 := ⟨fuel - 1, by omega⟩
      obtain ⟨hP2, hm⟩ := hstep s hP hc
      have hB2 : B < m (f s) + (N : α) * δ := by
        push_cast at hB
        linarith
      obtain ⟨n, hn, hrun⟩ := ih fuel (f s) hP2 hB2 (by omega)
      refine ⟨n + 1, by omega, ?_⟩
      simp only [loopWhile, hc, if_true, Option.some_bind, hrun, Function.iterate_succ_apply]
    · refine ⟨0, Nat.zero_le _, ?_⟩
      have hc2 : cond s = false := by simpa using hc
      cases fuel <;> simp [loopWhile, hc2]

theorem two_zpow_neg44_le (α : Type) [LinearOrderedField α] :
    (2 : α) ^ (-44 : Int) ≤ 1 / 2 ∧ (2 : α) ^ (-43 : Int) = 2 * (2 : α) ^ (-44 : Int) ∧
      (2 : α) ^ (10 : Int) = 1024 := by
  refine ⟨?_, ?_, by norm_num⟩
  · calc (2 : α) ^ (-44 : Int) ≤ (2 : α) ^ (-1 : Int) :=
          zpow_le_zpow_right₀ (by norm_num) (by norm_num)
      _ = 1 / 2 := by norm_num
  · rw [show (-43 : Int) = 1 + (-44) by norm_num, zpow_add₀ (by norm_num : (2 : α) ≠ 0),
      zpow_one]

/-- A number between -90 and 1000 is rounded to a double no more than `2 ^ (-44)`
away. -/
theorem toFloat64_sum_bounds {α : Type} [LinearOrderedField α] [FloorRing α] (x : α)
    (hlo : -90 ≤ x) (hhi : x ≤ 1000) :
    x - (2 : α) ^ (-44 : Int) ≤ toFloat64 x ∧ toFloat64 x ≤ x + (2 : α) ^ (-44 : Int) := by
  obtain ⟨_, _, e10⟩ := two_zpow_neg44_le α
  have h := toFloat64_error x (by
    rw [e10, abs_lt]
    constructor <;> linarith)
  rw [abs_le] at h
  constructor <;> linarith [h.1, h.2]

/-- In double arithmetic the loop of `obj_ring` ends after at most `floor(360/δ)` steps,
`δ = step - 2 ^ (-44)`, for every `step` from `2 ^ (-43)` to 180. -/
theorem obj_ring_double_steps {α : Type} [LinearOrderedField α] [FloorRing α] (M : JSMath α)
    (inner_radius outer_radius pos_x pos_y pos_z alpha step : α)
    (hlo : (2 : α) ^ (-43 : Int) ≤ step) (hhi : step ≤ 180) (fuel : Nat)
    (hf : ⌊360 / (step - (2 : α) ^ (-44 : Int))⌋₊ ≤ fuel) :
    ∃ n, n ≤ ⌊360 / (step - (2 : α) ^ (-44 : Int))⌋₊ ∧
      obj_ring M fuel inner_radius outer_radius pos_x pos_y pos_z alpha step toFloat64 =
        some ((fun st => obj_ring.thetaStep M inner_radius outer_radius pos_x pos_y pos_z
          alpha step st toFloat64)^[n] (obj_ring.ringStart pos_x pos_y pos_z step)).obj := by
  obtain ⟨e1, e2, _⟩ := two_zpow_neg44_le α
  have hε := two_zpow_pos α (-44)
  have hδ : 0 < step - (2 : α) ^ (-44 : Int) := by linarith
  have key := loopWhile_progress (fun st : RingLoop α => decide (st.theta ≤ 360))
    (fun st => obj_ring.thetaStep M inner_radius outer_radius pos_x pos_y pos_z alpha step st
      toFloat64)
    (fun st => 0 ≤ st.theta) (fun st => st.theta) (step - (2 : α) ^ (-44 : Int)) 360
    (fun s _ hc => by simpa using hc)
    (fun s hP hc => by
      have hc2 : s.theta ≤ 360 := by simpa using hc
      have hP2 : 0 ≤ s.theta := hP
      have hb := toFloat64_sum_bounds (s.theta + step) (by linarith) (by linarith)
      show 0 ≤ toFloat64 (s.theta + step) ∧
        s.theta + (step - (2 : α) ^ (-44 : Int)) ≤ toFloat64 (s.theta + step)
      constructor <;> linarith [hb.1])
    ⌊360 / (step - (2 : α) ^ (-44 : Int))⌋₊ fuel (obj_ring.ringStart pos_x pos_y pos_z step)
    (by show (0 : α) ≤ step; linarith)
    (by
      show (360 : α) < step + _
      have h1 := Nat.lt_floor_add_one (360 / (step - (2 : α) ^ (-44 : Int)))
      rw [div_lt_iff₀ hδ] at h1
      linarith)
    hf
  obtain ⟨n, hn, hrun⟩ := key
  refine ⟨n, hn, ?_⟩
  have e : obj_ring M fuel inner_radius outer_radius pos_x pos_y pos_z alpha step toFloat64 =
      (loopWhile (fun st : RingLoop α => decide (st.theta ≤ 360))
        (fun st => some (obj_ring.thetaStep M inner_radius outer_radius pos_x pos_y pos_z
          alpha step st toFloat64)) fuel (obj_ring.ringStart pos_x pos_y pos_z step)).map
        (fun st => st.obj) := rfl
  rw [e, hrun]
  rfl

/-- In double arithmetic the inner loop of `obj_sphere` ends after at most
`floor(361/δ) + 1` cells, `δ = step - 2 ^ (-44)`. -/
theorem phiStep_double_cells {α : Type} [LinearOrderedField α] [FloorRing α] (M : JSMath α)
    (radius pos_x pos_y pos_z alpha step : α)
    (hlo : (2 : α) ^ (-43 : Int) ≤ step) (hhi : step ≤ 180) (fuel : Nat)
    (hf : ⌊361 / (step - (2 : α) ^ (-44 : Int))⌋₊ + 1 ≤ fuel) (st : SphereLoop α) :
    ∃ c, c ≤ ⌊361 / (step - (2 : α) ^ (-44 : Int))⌋₊ + 1 ∧
      obj_sphere.phiStep M radius pos_x pos_y pos_z alpha step fuel st toFloat64 =
        some (obj_sphere.rowOf M radius pos_x pos_y pos_z alpha step c st toFloat64) := by
  obtain ⟨e1, e2, _⟩ := two_zpow_neg44_le α
  have hε := two_zpow_pos α (-44)
  have hδ : 0 < step - (2 : α) ^ (-44 : Int) := by linarith
  have hB := toFloat64_sum_bounds (360 + step) (by linarith) (by linarith)
  have key := loopWhile_progress
    (fun st : SphereLoop α => decide (st.theta ≤ toFloat64 (360 + step)))
    (fun st => obj_sphere.thetaStep M radius pos_x pos_y pos_z alpha step st toFloat64)
    (fun st => 0 ≤ st.theta) (fun st => st.theta) (step - (2 : α) ^ (-44 : Int))
    (toFloat64 (360 + step))
    (fun s _ hc => by simpa using hc)
    (fun s hP hc => by
      have hc2 : s.theta ≤ toFloat64 (360 + step) := by simpa using hc
      have hP2 : 0 ≤ s.theta := hP
      have hb := toFloat64_sum_bounds (s.theta + step) (by linarith)
        (by linarith [hB.2])
      show 0 ≤ toFloat64 (s.theta + step) ∧
        s.theta + (step - (2 : α) ^ (-44 : Int)) ≤ toFloat64 (s.theta + step)
      constructor <;> linarith [hb.1])
    (⌊361 / (step - (2 : α) ^ (-44 : Int))⌋₊ + 1) fuel { st with theta := step }
    (by show (0 : α) ≤ step; linarith)
    (by
      show toFloat64 (360 + step) < step + _
      have h1 := Nat.lt_floor_add_one (361 / (step - (2 : α) ^ (-44 : Int)))
      rw [div_lt_iff₀ hδ] at h1
      push_cast
      rw [add_mul, one_mul] at h1 ⊢
      have hB2 := hB.2
      generalize (2 : α) ^ (-44 : Int) = t at h1 hB2 e1 ⊢
      linarith)
    hf
  obtain ⟨c, hc, hrun⟩ := key
  refine ⟨c, hc, ?_⟩
  simp only [obj_sphere.phiStep, hrun, Option.map_some', obj_sphere.rowOf]

/-- The inner body of `obj_sphere` leaves `phi` as it is. -/
theorem cell_iterate_phi {α : Type} [LinearOrderedField α] (M : JSMath α)
    (radius pos_x pos_y pos_z alpha step : α) (fl : α → α) (c : Nat) (st : SphereLoop α) :
    ((fun st => obj_sphere.thetaStep M radius pos_x pos_y pos_z alpha step st fl)^[c]
      st).phi = st.phi := by
  induction c generalizing st with
  | zero => rfl
  | succ c ih =>
    rw [Function.iterate_succ_apply, ih]
    rfl

theorem rowOf_phi {α : Type} [LinearOrderedField α] (M : JSMath α)
    (radius pos_x pos_y pos_z alpha step : α) (fl : α → α) (c : Nat) (st : SphereLoop α) :
    (obj_sphere.rowOf M radius pos_x pos_y pos_z alpha step c st fl).phi =
      fl (st.phi + step) := by
  show fl (_ + step) = _
  rw [cell_iterate_phi]

/-- In double arithmetic the outer loop of `obj_sphere` ends after at most `N` rows when
`90 < phi + N * δ`. -/
theorem sphere_rows_double {α : Type} [LinearOrderedField α] [FloorRing α] (M : JSMath α)
    (radius pos_x pos_y pos_z alpha step : α)
    (hlo : (2 : α) ^ (-43 : Int) ≤ step) (hhi : step ≤ 180) (fuel : Nat)
    (hf : ⌊361 / (step - (2 : α) ^ (-44 : Int))⌋₊ + 1 ≤ fuel) :
    ∀ (N fuelRows : Nat) (s : SphereLoop α), -90 ≤ s.phi →
      90 < s.phi + (N : α) * (step - (2 : α) ^ (-44 : Int)) → N ≤ fuelRows →
      ∃ cs : List Nat, cs.length ≤ N ∧
        (∀ c ∈ cs, c ≤ ⌊361 / (step - (2 : α) ^ (-44 : Int))⌋₊ + 1) ∧
        loopWhile (fun st : SphereLoop α => decide (st.phi ≤ 90))
          (fun st => obj_sphere.phiStep M radius pos_x pos_y pos_z alpha step fuel st
            toFloat64) fuelRows s =
          some (cs.foldl (fun st c => obj_sphere.rowOf M radius pos_x pos_y pos_z alpha step
            c st toFloat64) s) := by
  obtain ⟨e1, e2, _⟩ := two_zpow_neg44_le α
  have hε := two_zpow_pos α (-44)
  intro N
  induction N with
  | zero =>
    intro fuelRows s _ hB _
    have hc : ¬ s.phi ≤ 90 := by
      simp only [Nat.cast_zero, zero_mul, add_zero] at hB
      exact not_le.mpr hB
    refine ⟨[], le_refl 0, by simp, ?_⟩
    cases fuelRows <;> simp [loopWhile, hc]
  | succ N ih =>
    intro fuelRows s hP hB hfr
    by_cases hc : s.phi ≤ 90
    · obtain ⟨fuelRows, rfl⟩ : ∃ k, fuelRows = k + 1 := ⟨fuelRows - 1, by omega⟩
      obtain ⟨c, hcC, hrow⟩ := phiStep_double_cells M radius pos_x pos_y pos_z alpha step hlo
        hhi fuel hf s
      have hphi := rowOf_phi M radius pos_x pos_y pos_z alpha step toFloat64 c s
      have hb := toFloat64_sum_bounds (s.phi + step) (by linarith) (by linarith)
      obtain ⟨cs, hlen, hall, hrun⟩ := ih fuelRows
        (obj_sphere.rowOf M radius pos_x pos_y pos_z alpha step c s toFloat64)
        (by rw [hphi]; linarith [hb.1])
        (by
          rw [hphi]
          push_cast at hB
          linarith [hb.1])
        (by omega)
      refine ⟨c :: cs, by simp only [List.length_cons]; omega, ?_, ?_⟩
      · intro c2 hc2
        rcases List.mem_cons.mp hc2 with h | h
        · rw [h]; exact hcC
        · exact hall c2 h
      · simp only [loopWhile, hc, decide_True, if_true, hrow, Option.some_bind, hrun,
          List.foldl_cons]
    · refine ⟨[], Nat.zero_le _, by simp, ?_⟩
      cases fuelRows <;> simp [loopWhile, hc]

/-- In double arithmetic the loops of `obj_sphere` end after at most `floor(180/δ)` rows of
at most `floor(361/δ) + 1` cells each, `δ = step - 2 ^ (-44)`, for every `step` from
`2 ^ (-43)` to 180. -/
theorem obj_sphere_double_cells {α : Type} [LinearOrderedField α] [FloorRing α]
    (M : JSMath α) (radius pos_x pos_y pos_z alpha step : α)
    (hlo : (2 : α) ^ (-43 : Int) ≤ step) (hhi : step ≤ 180) (fuel : Nat)
    (hfR : ⌊180 / (step - (2 : α) ^ (-44 : Int))⌋₊ ≤ fuel)
    (hf : ⌊361 / (step - (2 : α) ^ (-44 : Int))⌋₊ + 1 ≤ fuel) :
    ∃ cs : List Nat, cs.length ≤ ⌊180 / (step - (2 : α) ^ (-44 : Int))⌋₊ ∧
      (∀ c ∈ cs, c ≤ ⌊361 / (step - (2 : α) ^ (-44 : Int))⌋₊ + 1) ∧
      obj_sphere M fuel radius pos_x pos_y pos_z alpha step toFloat64 =
        some (cs.foldl (fun st c => obj_sphere.rowOf M radius pos_x pos_y pos_z alpha step
          c st toFloat64) (obj_sphere.sphereStart pos_x pos_y pos_z step toFloat64)).obj := by
  obtain ⟨e1, e2, _⟩ := two_zpow_neg44_le α
  have hε := two_zpow_pos α (-44)
  have hδ : 0 < step - (2 : α) ^ (-44 : Int) := by linarith
  have hb := toFloat64_sum_bounds (-90 + step) (by linarith) (by linarith)
  obtain ⟨cs, hlen, hall, hrun⟩ := sphere_rows_double M radius pos_x pos_y pos_z alpha step
    hlo hhi fuel hf ⌊180 / (step - (2 : α) ^ (-44 : Int))⌋₊ fuel
    (obj_sphere.sphereStart pos_x pos_y pos_z step toFloat64)
    (by show (-90 : α) ≤ toFloat64 (-90 + step); linarith [hb.1])
    (by
      show (90 : α) < toFloat64 (-90 + step) + _
      have h1 := Nat.lt_floor_add_one (180 / (step - (2 : α) ^ (-44 : Int)))
      rw [div_lt_iff₀ hδ, add_mul, one_mul] at h1
      have hb1 := hb.1
      generalize (2 : α) ^ (-44 : Int) = t at h1 hb1 e1 ⊢
      linarith)
    hfR
  refine ⟨cs, hlen, hall, ?_⟩
  have e : obj_sphere M fuel radius pos_x pos_y pos_z alpha step toFloat64 =
      (loopWhile (fun st : SphereLoop α => decide (st.phi ≤ 90))
        (fun st => obj_sphere.phiStep M radius pos_x pos_y pos_z alpha step fuel st toFloat64)
        fuel (obj_sphere.sphereStart pos_x pos_y pos_z step toFloat64)).map
        (fun st => st.obj) := rfl
  rw [e, hrun]
  rfl

/-- A number from 0 to `1 + 2 ^ (-60)` rounds to a double that is at most 1. -/
theorem toFloat64_le_one {α : Type} [LinearOrderedField α] [FloorRing α] (x : α)
    (h0 : 0 ≤ x) (h1 : x ≤ 1 + (2 : α) ^ (-60 : Int)) : toFloat64 x ≤ 1 := by
  have e60 : (2 : α) ^ (-60 : Int) = 1 / 1152921504606846976 := by norm_num
  have e52 : (2 : α) ^ (-52 : Int) = 1 / 4503599627370496 := by norm_num
  rw [e60] at h1
  by_cases hx : x ≤ 1
  · have h := roundBinary_le_pow 53 (-1074) x 0 (by norm_num) (le_refl 0) (by norm_num)
      (by rw [abs_of_nonneg h0, zpow_zero]; exact hx)
    rw [zpow_zero] at h
    exact h
  · have hx1 : 1 < x := not_le.mp hx
    have h := roundBinary_eq_of_near 53 (-1074) x 0 (-52) 4503599627370496
      (by rw [abs_of_nonneg h0, zpow_zero]; exact hx1.le)
      (by rw [abs_of_nonneg h0]; norm_num; linarith)
      (by norm_num)
      (by
        rw [e52, abs_lt]
        push_cast
        constructor
        · rw [lt_sub_iff_add_lt, lt_div_iff₀ (by norm_num)]
          linarith
        · rw [sub_lt_iff_lt_add, div_lt_iff₀ (by norm_num)]
          linarith)
    unfold toFloat64
    rw [h, e52]
    push_cast
    norm_num

/-- With `degree = 2 ^ (-60)` the loop variable `theta` of `obj_ring` and `obj_sphere` never
exceeds 1 in double arithmetic. -/
theorem theta_stays_small {α : Type} [LinearOrderedField α] [FloorRing α] (t : α)
    (h : 0 ≤ t ∧ t ≤ 1) :
    0 ≤ toFloat64 (t + (2 : α) ^ (-60 : Int)) ∧ toFloat64 (t + (2 : α) ^ (-60 : Int)) ≤ 1 := by
  have hpos := two_zpow_pos α (-60)
  exact ⟨roundBinary_nonneg 53 (-1074) _ (by linarith [h.1]),
    toFloat64_le_one _ (by linarith [h.1]) (by linarith [h.2])⟩

theorem two_zpow_neg60_le_one (α : Type) [LinearOrderedField α] :
    (2 : α) ^ (-60 : Int) ≤ 1 := by
  calc (2 : α) ^ (-60 : Int) ≤ (2 : α) ^ (0 : Int) :=
        zpow_le_zpow_right₀ (by norm_num) (by norm_num)
    _ = 1 := zpow_zero 2

/-- In double arithmetic `obj_ring` with `degree = 2 ^ (-60)` returns for no fuel. -/
theorem obj_ring_tiny_degree {α : Type} [LinearOrderedField α] [FloorRing α] (M : JSMath α)
    (inner_radius outer_radius pos_x pos_y pos_z alpha : α) (fuel : Nat) :
    obj_ring M fuel inner_radius outer_radius pos_x pos_y pos_z alpha
      ((2 : α) ^ (-60 : Int)) toFloat64 = none := by
  have hpos := two_zpow_pos α (-60)
  have key := loopWhile_never (fun st : RingLoop α => decide (st.theta ≤ 360))
    (fun st => obj_ring.thetaStep M inner_radius outer_radius pos_x pos_y pos_z alpha
      ((2 : α) ^ (-60 : Int)) st toFloat64)
    (fun st => 0 ≤ st.theta ∧ st.theta ≤ 1)
    (fun s hP => by
      rw [decide_eq_true_eq]
      linarith [hP.2])
    (fun s hP => theta_stays_small s.theta hP) fuel
    (obj_ring.ringStart pos_x pos_y pos_z ((2 : α) ^ (-60 : Int)))
    ⟨hpos.le, two_zpow_neg60_le_one α⟩
  have e : obj_ring M fuel inner_radius outer_radius pos_x pos_y pos_z alpha
      ((2 : α) ^ (-60 : Int)) toFloat64 =
      (loopWhile (fun st : RingLoop α => decide (st.theta ≤ 360))
        (fun st => some (obj_ring.thetaStep M inner_radius outer_radius pos_x pos_y pos_z
          alpha ((2 : α) ^ (-60 : Int)) st toFloat64)) fuel
        (obj_ring.ringStart pos_x pos_y pos_z ((2 : α) ^ (-60 : Int)))).map
        (fun st => st.obj) := rfl
  rw [e, key]
  rfl

/-- In double arithmetic `obj_sphere` with `degree = 2 ^ (-60)` returns for no fuel: its
first row never ends. -/
theorem obj_sphere_tiny_degree {α : Type} [LinearOrderedField α] [FloorRing α]
    (M : JSMath α) (radius pos_x pos_y pos_z alpha : α) (fuel : Nat) :
    obj_sphere M fuel radius pos_x pos_y pos_z alpha ((2 : α) ^ (-60 : Int)) toFloat64 =
      none := by
  have hpos := two_zpow_pos α (-60)
  have h1 := two_zpow_neg60_le_one α
  have hB : (1 : α) ≤ toFloat64 (360 + (2 : α) ^ (-60 : Int)) := by
    have := roundBinary_ge_pow 53 (-1074) (360 + (2 : α) ^ (-60 : Int)) 0 (by norm_num)
      (by norm_num) (by rw [zpow_zero]; linarith)
    rw [zpow_zero] at this
    exact this
  have hphi : toFloat64 (-90 + (2 : α) ^ (-60 : Int)) ≤ 90 := by
    have := roundBinary_nonpos 53 (-1074) (-90 + (2 : α) ^ (-60 : Int)) (by linarith)
    unfold toFloat64
    linarith
  have hrow : ∀ (fuel : Nat) (st : SphereLoop α),
      obj_sphere.phiStep M radius pos_x pos_y pos_z alpha ((2 : α) ^ (-60 : Int)) fuel st
        toFloat64 = none := by
    intro fuel st
    have key := loopWhile_never
      (fun st : SphereLoop α => decide (st.theta ≤ toFloat64 (360 + (2 : α) ^ (-60 : Int))))
      (fun st => obj_sphere.thetaStep M radius pos_x pos_y pos_z alpha
        ((2 : α) ^ (-60 : Int)) st toFloat64)
      (fun st => 0 ≤ st.theta ∧ st.theta ≤ 1)
      (fun s hP => by
        rw [decide_eq_true_eq]
        linarith [hP.2])
      (fun s hP => theta_stays_small s.theta hP) fuel
      { st with theta := (2 : α) ^ (-60 : Int) } ⟨hpos.le, h1⟩
    simp only [obj_sphere.phiStep, key, Option.map_none']
  have e : obj_sphere M fuel radius pos_x pos_y pos_z alpha ((2 : α) ^ (-60 : Int))
      toFloat64 =
      (loopWhile (fun st : SphereLoop α => decide (st.phi ≤ 90))
        (fun st => obj_sphere.phiStep M radius pos_x pos_y pos_z alpha
          ((2 : α) ^ (-60 : Int)) fuel st toFloat64)
        fuel (obj_sphere.sphereStart pos_x pos_y pos_z ((2 : α) ^ (-60 : Int))
          toFloat64)).map (fun st => st.obj) := rfl
  have hc : (obj_sphere.sphereStart pos_x pos_y pos_z ((2 : α) ^ (-60 : Int))
      toFloat64).phi ≤ 90 := hphi
  rw [e]
  cases fuel with
  | zero => simp only [loopWhile, hc, decide_True, if_true, Option.map_none']
  | succ n =>
    simp only [loopWhile, hc, decide_True, if_true, hrow, Option.none_bind,
      Option.map_none']

/-- C26 as stated fails in the arithmetic of the program: with `degree = 2 ^ (-60)`, a
positive double, `theta += degree` stops changing `theta` before it reaches 1, so that
neither `obj_ring(0.25, 0.15, 3.2, 0, 0, 1, degree)` nor `obj_sphere(1, 0, 0, 0, 1, degree)`
returns, whatever number of iterations is allowed: as functions of the fuel, both runs are
constantly `none`. -/
theorem tiny_degree_never_returns :
    (fun fuel : Nat =>
        obj_ring (JSMath.mk Real.cos Real.sin Real.sqrt Real.pi) fuel (1 / 4) (3 / 20)
          (16 / 5) 0 0 1 ((2 : ℝ) ^ (-60 : Int)) toFloat64) = (fun _ => none) ∧
      (fun fuel : Nat =>
        obj_sphere (JSMath.mk Real.cos Real.sin Real.sqrt Real.pi) fuel 1 0 0 0 1
          ((2 : ℝ) ^ (-60 : Int)) toFloat64) = (fun _ => none) :=
  ⟨funext fun fuel => obj_ring_tiny_degree _ _ _ _ _ _ _ fuel,
    funext fun fuel => obj_sphere_tiny_degree _ _ _ _ _ _ fuel⟩

theorem toFloat64_whole {α : Type} [LinearOrderedField α] [FloorRing α] (d : Nat)
    (hd : d < 2 ^ 51) (z : Int) (h1 : -90 ≤ z) (h2 : z ≤ 360 + 2 * (d : Int)) :
    toFloat64 (z : α) = (z : α) := by
  refine toFloat64_intCast z ?_
  have h3 : (d : Int) < 2 ^ 51 := by exact_mod_cast hd
  rw [abs_lt]
  constructor <;> norm_num at h3 ⊢ <;> omega

/-- C26, amended: in the double arithmetic of the program (every sum that updates or bounds
a loop variable is rounded to the nearest double), for every `degree` from `2 ^ (-43)` to
180, with `δ = degree - 2 ^ (-44)`:
`obj_sphere` returns, given fuel, after at most `floor(180/δ)` rows of at most
`floor(361/δ) + 1` cells each (its result is the fold of `rowOf` over the list `cs` of the
numbers of cells of its rows), and `obj_ring` returns after `n ≤ floor(360/δ)` steps.
For every whole `degree = d`, `0 < d < 2^51`, the double run is the run of exact arithmetic
for every fuel, and makes exactly `floor(180/d)` rows of `floor(360/d) + 1` cells and
`floor(360/d)` steps. -/
theorem scene_loops_terminate {α : Type} [LinearOrderedField α] [FloorRing α] (M : JSMath α)
    (radius inner_radius outer_radius pos_x pos_y pos_z alpha degree : α)
    (hlo : (2 : α) ^ (-43 : Int) ≤ degree) (hhi : degree ≤ 180) :
    (∀ fuel, ⌊180 / (degree - (2 : α) ^ (-44 : Int))⌋₊ ≤ fuel →
      ⌊361 / (degree - (2 : α) ^ (-44 : Int))⌋₊ + 1 ≤ fuel →
      ∃ cs : List Nat, cs.length ≤ ⌊180 / (degree - (2 : α) ^ (-44 : Int))⌋₊ ∧
        (∀ c ∈ cs, c ≤ ⌊361 / (degree - (2 : α) ^ (-44 : Int))⌋₊ + 1) ∧
        obj_sphere M fuel radius pos_x pos_y pos_z alpha degree toFloat64 =
          some (cs.foldl (fun st c => obj_sphere.rowOf M radius pos_x pos_y pos_z alpha
            degree c st toFloat64)
            (obj_sphere.sphereStart pos_x pos_y pos_z degree toFloat64)).obj) ∧
    (∀ fuel, ⌊360 / (degree - (2 : α) ^ (-44 : Int))⌋₊ ≤ fuel →
      ∃ n, n ≤ ⌊360 / (degree - (2 : α) ^ (-44 : Int))⌋₊ ∧
        obj_ring M fuel inner_radius outer_radius pos_x pos_y pos_z alpha degree toFloat64 =
          some ((fun st => obj_ring.thetaStep M inner_radius outer_radius pos_x pos_y pos_z
            alpha degree st toFloat64)^[n]
            (obj_ring.ringStart pos_x pos_y pos_z degree)).obj) ∧
    (∀ d : Nat, 0 < d → d < 2 ^ 51 → ∀ fuel : Nat,
      obj_sphere M fuel radius pos_x pos_y pos_z alpha (d : α) toFloat64 =
        obj_sphere M fuel radius pos_x pos_y pos_z alpha (d : α) ∧
      obj_ring M fuel inner_radius outer_radius pos_x pos_y pos_z alpha (d : α) toFloat64 =
        obj_ring M fuel inner_radius outer_radius pos_x pos_y pos_z alpha (d : α) ∧
      (180 / d ≤ fuel → 360 / d + 1 ≤ fuel →
        obj_sphere M fuel radius pos_x pos_y pos_z alpha (d : α) toFloat64 =
          some ((obj_sphere.rowOf M radius pos_x pos_y pos_z alpha (d : α)
            (360 / d + 1))^[180 / d] (obj_sphere.sphereStart pos_x pos_y pos_z (d : α))).obj) ∧
      (360 / d ≤ fuel →
        obj_ring M fuel inner_radius outer_radius pos_x pos_y pos_z alpha (d : α)
            toFloat64 =
          some ((obj_ring.thetaStep M inner_radius outer_radius pos_x pos_y pos_z alpha
            (d : α))^[360 / d] (obj_ring.ringStart pos_x pos_y pos_z (d : α))).obj)) := by
  refine ⟨fun fuel hR hC => obj_sphere_double_cells M radius pos_x pos_y pos_z alpha degree
      hlo hhi fuel hR hC,
    fun fuel hN => obj_ring_double_steps M inner_radius outer_radius pos_x pos_y pos_z alpha
      degree hlo hhi fuel hN, ?_⟩
  intro d hd hmax fuel
  have hd2 : (0 : α) < (d : α) := by exact_mod_cast hd
  have es := obj_sphere_rounding M radius pos_x pos_y pos_z alpha d toFloat64
    (fun z h1 h2 => toFloat64_whole d hmax z h1 h2) fuel
  have er := obj_ring_rounding M inner_radius outer_radius pos_x pos_y pos_z alpha d toFloat64
    (fun n hn => by
      have := toFloat64_whole (α := α) d hmax (n : Int) (by omega) (by omega)
      exact_mod_cast this) fuel
  obtain ⟨b1, b2⟩ := nat_div_bounds α 360 d hd
  obtain ⟨c1, c2⟩ := nat_div_bounds α 180 d hd
  rw [Nat.cast_ofNat] at b1 b2 c1 c2
  refine ⟨es, er, fun hR hN => ?_, fun hN => ?_⟩
  · rw [es]
    exact obj_sphere_eq_iterate M radius pos_x pos_y pos_z alpha (d : α) hd2 _ _ c1 c2 b1 b2
      fuel hR hN
  · rw [er]
    exact obj_ring_eq_iterate M inner_radius outer_radius pos_x pos_y pos_z alpha (d : α) hd2
      _ b1 b2 fuel hN

/-- Instance of `scene_loops_terminate`: the ring of the scene,
`obj_ring(0.25, 0.15, 3.2, 0, 0, 1, 0.01)` with the double `0.01 = 5764607523034235 / 2^59`,
returns after at most 36000 steps. -/
theorem scene_loops_terminate_witness :
    (2 : ℝ) ^ (-43 : Int) ≤ 5764607523034235 / 576460752303423488 ∧
    (5764607523034235 / 576460752303423488 : ℝ) ≤ 180 ∧
    ∃ n, n ≤ 36000 ∧
      obj_ring (JSMath.mk Real.cos Real.sin Real.sqrt Real.pi) 36000 (1 / 4) (3 / 20)
          (16 / 5) 0 0 1 (5764607523034235 / 576460752303423488) toFloat64 =
        some ((fun st => obj_ring.thetaStep (JSMath.mk Real.cos Real.sin Real.sqrt Real.pi)
          (1 / 4) (3 / 20) (16 / 5) 0 0 1 (5764607523034235 / 576460752303423488) st
          toFloat64)^[n]
          (obj_ring.ringStart (16 / 5) 0 0 (5764607523034235 / 576460752303423488))).obj := by
  have h1 : (2 : ℝ) ^ (-43 : Int) ≤ 5764607523034235 / 576460752303423488 := by norm_num
  have h2 : (5764607523034235 / 576460752303423488 : ℝ) ≤ 180 := by norm_num
  have hfloor : ⌊360 / ((5764607523034235 / 576460752303423488 : ℝ) -
      (2 : ℝ) ^ (-44 : Int))⌋₊ ≤ 36000 := by
    apply Nat.le_of_lt_succ
    rw [Nat.floor_lt (by norm_num)]
    norm_num
  obtain ⟨n, hn, hrun⟩ := (scene_loops_terminate
    (JSMath.mk Real.cos Real.sin Real.sqrt Real.pi) 1 (1 / 4) (3 / 20) (16 / 5) 0 0 1
    (5764607523034235 / 576460752303423488) h1 h2).2.1 36000 hfloor
  exact ⟨h1, h2, n, hn.trans hfloor, hrun⟩

/-! ### Generator calls do not depend on the program state -/

theorem ring_run_limit_indep {α : Type} [Field α] [DecidableEq α] (M : JSMath α)
    (g1 g2 : Globals α) (argumentsLength : Nat) (innerRadius outerRadius : Option α)
    (slices : Option Int) (maxLength : Option Nat) :
    (ring.run M g1 argumentsLength innerRadius outerRadius slices maxLength).map
        (fun st => st.buf.toMesh) =
      (ring.run M g2 argumentsLength innerRadius outerRadius slices maxLength).map
        (fun st => st.buf.toMesh) := by
  simp only [ring.run]
  generalize (if argumentsLength = 0 then some (1 / 4) else innerRadius) = inner
  generalize orDefault slices 32 = n
  generalize orDefault outerRadius (orDefault (Option.map (fun x => x * 2) inner) (1 / 2)) = o
  cases allocate (some (0 : α)) (3 * if inner = some 0 then n + 1 else n * 2)
      (3 * if inner = some 0 then n + 1 else n * 2)
      (2 * if inner = some 0 then n + 1 else n * 2)
      (if inner = some 0 then 3 * n else 3 * 2 * n) maxLength with
  | error e => rfl
  | ok b =>
    simp only [bind, Except.bind, pure, Except.pure, Except.map]
    congr 2
    by_cases hd : inner = some 0
    · have := ring_loop_buf (ring.diskStep M o n)
        (fun i t1 t2 h => by simp only [ring.diskStep, h])
        n { buf := b, globals := g1 } { buf := b, globals := g2 } rfl
      simp only [hd, if_true, this]
    · have := ring_loop_buf (ring.annulusStep M inner o n)
        (fun i t1 t2 h => by simp only [ring.annulusStep, h])
        n { buf := b, globals := g1 } { buf := b, globals := g2 } rfl
      simp only [hd, if_false, this]

theorem exec_ring_result {α : Type} [LinearOrderedField α] [FloorRing α] (M : JSMath α)
    (maxLength : Option Nat) (fuel : Nat) (g : Globals α) (argumentsLength : Nat)
    (innerRadius outerRadius : Option α) (slices : Option Int) :
    ((GeneratorCall.ring argumentsLength innerRadius outerRadius slices).exec M maxLength
        fuel g).1 =
      GeneratorResult.ringMesh
        ((ring.run M g argumentsLength innerRadius outerRadius slices maxLength).map
          (fun st => st.buf.toMesh)) := by
  simp only [GeneratorCall.exec]
  cases ring.run M g argumentsLength innerRadius outerRadius slices maxLength <;> rfl

/-- What a generator call gives back is the same in every program state. -/
theorem exec_result_indep {α : Type} [LinearOrderedField α] [FloorRing α] (M : JSMath α)
    (maxLength : Option Nat) (fuel : Nat) (call : GeneratorCall α) (g1 g2 : Globals α) :
    (call.exec M maxLength fuel g1).1 = (call.exec M maxLength fuel g2).1 := by
  cases call with
  | ring argumentsLength innerRadius outerRadius slices =>
    rw [exec_ring_result, exec_ring_result,
      ring_run_limit_indep M g1 g2 argumentsLength innerRadius outerRadius slices maxLength]
  | _ => rfl

/-- The object `obj_sphere` returns does not depend on the fuel, in any arithmetic. -/
theorem obj_sphere_fuel_rounding {α : Type} [LinearOrderedField α] (M : JSMath α)
    (radius pos_x pos_y pos_z alpha degree : α) (fl : α → α) (f1 f2 : Nat)
    (o1 o2 : SceneObject α)
    (h1 : obj_sphere M f1 radius pos_x pos_y pos_z alpha degree fl = some o1)
    (h2 : obj_sphere M f2 radius pos_x pos_y pos_z alpha degree fl = some o2) : o1 = o2 := by
  simp only [obj_sphere, Option.map_eq_some'] at h1 h2
  obtain ⟨s1, hs1, rfl⟩ := h1
  obtain ⟨s2, hs2, rfl⟩ := h2
  have := loopWhile_deterministic (fun st : SphereLoop α => decide (st.phi ≤ 90))
    (fun st => obj_sphere.phiStep M radius pos_x pos_y pos_z alpha degree f1 st fl)
    (fun st => obj_sphere.phiStep M radius pos_x pos_y pos_z alpha degree f2 st fl)
    (by
      intro s x y hx hy
      simp only [obj_sphere.phiStep, Option.map_eq_some'] at hx hy
      obtain ⟨a, ha, rfl⟩ := hx
      obtain ⟨b, hb, rfl⟩ := hy
      have := loopWhile_deterministic
        (fun st : SphereLoop α => decide (st.theta ≤ fl (360 + degree)))
        (fun st => some (obj_sphere.thetaStep M radius pos_x pos_y pos_z alpha degree st fl))
        (fun st => some (obj_sphere.thetaStep M radius pos_x pos_y pos_z alpha degree st fl))
        (fun s x y hx hy => by rw [hx] at hy; exact Option.some.inj hy)
        f1 f2 _ a b ha hb
      rw [this])
    f1 f2 _ s1 s2 hs1 hs2
  rw [this]

/-- The object `obj_ring` returns does not depend on the fuel, in any arithmetic. -/
theorem obj_ring_fuel_rounding {α : Type} [LinearOrderedField α] (M : JSMath α)
    (inner_radius outer_radius pos_x pos_y pos_z alpha degree : α) (fl : α → α)
    (f1 f2 : Nat) (o1 o2 : SceneObject α)
    (h1 : obj_ring M f1 inner_radius outer_radius pos_x pos_y pos_z alpha degree fl =
      some o1)
    (h2 : obj_ring M f2 inner_radius outer_radius pos_x pos_y pos_z alpha degree fl =
      some o2) : o1 = o2 := by
  simp only [obj_ring, Option.map_eq_some'] at h1 h2
  obtain ⟨s1, hs1, rfl⟩ := h1
  obtain ⟨s2, hs2, rfl⟩ := h2
  have := loopWhile_deterministic (fun st : RingLoop α => decide (st.theta ≤ 360))
    (fun st => some (obj_ring.thetaStep M inner_radius outer_radius pos_x pos_y pos_z alpha
      degree st fl))
    (fun st => some (obj_ring.thetaStep M inner_radius outer_radius pos_x pos_y pos_z alpha
      degree st fl))
    (fun s x y hx hy => by rw [hx] at hy; exact Option.some.inj hy)
    f1 f2 _ s1 s2 hs1 hs2
  rw [this]

/-- Two runs of a generator call that both return give back the same, whatever the fuel of
the loops and the program states. -/
theorem exec_result_fuel_indep {α : Type} [LinearOrderedField α] [FloorRing α]
    (M : JSMath α) (maxLength : Option Nat) (call : GeneratorCall α) (f1 f2 : Nat)
    (g1 g2 : Globals α)
    (h1 : (call.exec M maxLength f1 g1).1 ≠ GeneratorResult.object none)
    (h2 : (call.exec M maxLength f2 g2).1 ≠ GeneratorResult.object none) :
    (call.exec M maxLength f1 g1).1 = (call.exec M maxLength f2 g2).1 := by
  cases call with
  | ring argumentsLength innerRadius outerRadius slices =>
    rw [exec_ring_result, exec_ring_result,
      ring_run_limit_indep M g1 g2 argumentsLength innerRadius outerRadius slices maxLength]
  | obj_sphere radius pos_x pos_y pos_z alpha degree =>
    simp only [GeneratorCall.exec, ne_eq, GeneratorResult.object.injEq] at h1 h2 ⊢
    obtain ⟨o1, e1⟩ := Option.ne_none_iff_exists'.mp h1
    obtain ⟨o2, e2⟩ := Option.ne_none_iff_exists'.mp h2
    rw [e1, e2, obj_sphere_fuel_rounding M radius pos_x pos_y pos_z alpha degree toFloat64
      f1 f2 o1 o2 e1 e2]
  | obj_ring inner_radius outer_radius pos_x pos_y pos_z alpha degree =>
    simp only [GeneratorCall.exec, ne_eq, GeneratorResult.object.injEq] at h1 h2 ⊢
    obtain ⟨o1, e1⟩ := Option.ne_none_iff_exists'.mp h1
    obtain ⟨o2, e2⟩ := Option.ne_none_iff_exists'.mp h2
    rw [e1, e2, obj_ring_fuel_rounding M inner_radius outer_radius pos_x pos_y pos_z alpha
      degree toFloat64 f1 f2 o1 o2 e1 e2]
  | _ => rfl

/-- C16: calling the same generator twice with identical arguments yields identical output,
whatever the program state between the two calls.  For each of the eight generators (`cube`,
`ring`, `uvSphere`, `uvTorus`, `uvCylinder`, `uvCone`, `obj_sphere`, `obj_ring`), run as a
step `exec` on the program state (the global variables `c` and `s`, which `ring` assigns and
reads): what the call gives back is the same in any two program states; a second call gives
back what the first did, whatever generator calls are made in between, starting from the
state the first call left; and any two runs that return give back the same, whatever the
fuel of the loops of `obj_sphere` and `obj_ring` and the program states. -/
theorem output_depends_on_arguments_only {α : Type} [LinearOrderedField α] [FloorRing α]
    (M : JSMath α) (maxLength : Option Nat) (call : GeneratorCall α) :
    (∀ (fuel : Nat) (g1 g2 : Globals α),
      (call.exec M maxLength fuel g1).1 = (call.exec M maxLength fuel g2).1) ∧
    (∀ (fuel : Nat) (g : Globals α) (between : List (GeneratorCall α)),
      (call.exec M maxLength fuel
        (runCalls M maxLength fuel between (call.exec M maxLength fuel g).2)).1 =
        (call.exec M maxLength fuel g).1) ∧
    (∀ (f1 f2 : Nat) (g1 g2 : Globals α),
      (call.exec M maxLength f1 g1).1 ≠ GeneratorResult.object none →
      (call.exec M maxLength f2 g2).1 ≠ GeneratorResult.object none →
      (call.exec M maxLength f1 g1).1 = (call.exec M maxLength f2 g2).1) :=
  ⟨fun fuel g1 g2 => exec_result_indep M maxLength fuel call g1 g2,
    fun fuel g _ => exec_result_indep M maxLength fuel call _ g,
    fun f1 f2 g1 g2 h1 h2 => exec_result_fuel_indep M maxLength call f1 f2 g1 g2 h1 h2⟩

end IFS
